import Mathlib

/-!
LibScopeView: the logical-view object tree.

A shallow embedding of the ownership and flag-propagation code of
`Scope.cpp` (`Scope::addObject`, `Scope::traverse`), of its name resolution
(`Scope::getQualifiedName`, `Scope::resolveName`), of `Scope::resolvePrinting`
and `Scope::getKindAsString`, of its sorting (`Scope::sortScopes`,
`Scope::sortCompileUnits`) and of `Scope::print`; of the qualified-name
resolution, the name synthesis and the rendering helpers of `Object.cpp`
(`Object::resolveQualifiedName`, `Object::setFullName`, `OffsetAsString`,
`Object::getAttributesAsText`, `Object::getAttributeInfoAsText`,
`Object::getCommonYAML`); and of the class `Line` (`Line.h`, `Line.cpp`).

Objects live in a heap, a list of records addressed by their position; a
C++ pointer is an `Option Nat` (`none` is `nullptr`).  A position that holds
no object ends a pointer walk the way `nullptr` does.  Loops and recursions
that follow pointers are run with fuel and give no result when the fuel is
used up, so a result always is a run that left through its own exit.

What the sources call and do not define is a parameter of the functions that
call it: `unifyFilePath`, the library functions of `Library`, the output sink
`PrintContext`, the resolution of sorting keys `getSortFunction`, and
`std::sort`, of which the C++ standard fixes the result only up to the order
of equivalent elements (`SortsRange`).  Process-wide statics are an explicit
state (`Statics`).
-/

namespace LibScopeView

/-! ## Data model -/

/-- Modelled from the spec: the class declarations are not among the sources.
The C++ class of an object: the constructors of `Scope` and `Line` (Scope.cpp
44-54, Line.cpp 39-49) set `IsScope` and `IsLine` once, those of `Symbol` and
`Type` do the same for their class, and nothing clears these bits. -/
inductive ObjKind where
  | scope
  | symbol
  | type
  | line
  deriving DecidableEq, Repr

/-- The flag set of a line, `std::bitset<LineAttributesSize> LineAttributesFlags`
with the seven positions of `enum LineAttributes` (Line.h 62-72); a
default-constructed bitset has every bit clear. -/
structure LineAttributes where
  IsLineRecord : Bool := false
  HasDiscriminator : Bool := false
  IsLineEndSequence : Bool := false
  IsNewBasicBlock : Bool := false
  IsNewStatement : Bool := false
  IsEpilogueBegin : Bool := false
  IsPrologueEnd : Bool := false
  deriving DecidableEq, Repr

/-- Modelled from the spec: the bits of the classes of scopes that the text of
a scope reads and that the data model of the specification names as per-kind
flags: the kind of a block (`Scope`), the template bit (`ScopeAggregate`,
`ScopeFunction`), the declaration bits of a function (`ScopeFunction`) and the
class bit of an enumeration (`ScopeEnumeration`).  The constructors clear
them. -/
structure ScopeAttributes where
  IsTryBlock : Bool := false
  IsCatchBlock : Bool := false
  IsTemplate : Bool := false
  IsStatic : Bool := false
  IsDeclaredInline : Bool := false
  IsDeclaration : Bool := false
  IsInlined : Bool := false
  IsClass : Bool := false
  deriving DecidableEq, Repr

/-- Modelled from the spec: the class declarations are not among the sources.
One object of the logical view: the fields of `Object`, `Element`, `Scope`
and `Line` that the functions below read or write, together (a non-scope
object keeps the scope fields at their defaults, as after
`commonConstructor`, and a non-line object the line fields).  Names are
the pooled strings themselves (`StringPool` maps a name to an index and
back), as C strings: no NUL inside; `FileName` is the pooled full path name
of the file name index.  `IsPathScope` marks the objects of class
`ScopeCompileUnit` and `ScopeRoot`, the two classes that override `setName`
(Scope.cpp 576-579, 853-856).  `LineAttributesFlags` and `Discriminator` are
the two data members of `Line` (Line.h 72, 78). -/
structure Obj where
  Kind : ObjKind
  Parent : Option Nat := none
  Name : String := ""
  QualifiedName : String := ""
  HasQualifiedName : Bool := false
  HasReference : Bool := false
  IsGlobalReference : Bool := false
  IsCompileUnit : Bool := false
  IsFunction : Bool := false
  IsRoot : Bool := false
  CanHaveLines : Bool := false
  HasGlobals : Bool := false
  HasLocals : Bool := false
  HasLines : Bool := false
  HasScopes : Bool := false
  HasSymbols : Bool := false
  HasTypes : Bool := false
  TheTypes : List Nat := []
  TheSymbols : List Nat := []
  TheScopes : List Nat := []
  TheLines : List Nat := []
  Children : List Nat := []
  DieTag : Nat := 0
  LineNumber : Nat := 0
  TheType : Option Nat := none
  Reference : Option Nat := none
  HasPattern : Bool := false
  IsArrayType : Bool := false
  IsBlock : Bool := false
  IsEnumerationType : Bool := false
  IsInlinedSubroutine : Bool := false
  IsNamespace : Bool := false
  IsTemplatePack : Bool := false
  IsTemplateAlias : Bool := false
  IsClassType : Bool := false
  IsStructType : Bool := false
  IsUnionType : Bool := false
  IsPathScope : Bool := false
  Level : Nat := 0
  DieOffset : Nat := 0
  FileName : String := ""
  InvalidFileName : Bool := false
  IsTemplateParam : Bool := false
  IsUnspecifiedParameter : Bool := false
  LineAttributesFlags : LineAttributes := {}
  Discriminator : Nat := 0
  HasType : Bool := false
  ScopeAttributesFlags : ScopeAttributes := {}
  deriving DecidableEq, Repr

/-- The object heap. -/
abbrev Heap := List Obj

/-- Modelled from the spec: the reader collaborator (`Reader.h` is not part of
the sources at hand) keeps one "found" counter per kind of object. -/
structure Reader where
  FoundScopes : Nat := 0
  FoundSymbols : Nat := 0
  FoundTypes : Nat := 0
  FoundLines : Nat := 0
  deriving DecidableEq, Repr

/-- Modelled from the spec: `Reader::incrementFound` records one found
instance of the kind of the object. -/
def incrementFound (r : Reader) (o : Obj) : Reader :=
  match o.Kind with
  | .scope => { r with FoundScopes := r.FoundScopes + 1 }
  | .symbol => { r with FoundSymbols := r.FoundSymbols + 1 }
  | .type => { r with FoundTypes := r.FoundTypes + 1 }
  | .line => { r with FoundLines := r.FoundLines + 1 }

/-- The whole state: the heap of objects and the reader's counters. -/
structure View where
  Objs : Heap
  TheReader : Reader := {}
  deriving DecidableEq, Repr

/-- What a call leaves behind: the state, and the exception it threw if any. -/
structure Outcome where
  view : View
  thrown : Option String := none
  deriving DecidableEq, Repr

/-! ## Accessors

The headers `Object.h` and `Scope.h`, where these one-line members are
declared, are not among the sources: each is modelled from the use the
sources make of it and from the data model of the specification. -/

/-- Modelled from the spec: the object is of class `Scope`. -/
def getIsScope (o : Obj) : Bool := o.Kind == .scope

/-- Modelled from the spec: the object is of class `Symbol`. -/
def getIsSymbol (o : Obj) : Bool := o.Kind == .symbol

/-- Modelled from the spec: the object is of class `Type`. -/
def getIsType (o : Obj) : Bool := o.Kind == .type

/-- Modelled from the spec: the object is of class `Line`. -/
def getIsLine (o : Obj) : Bool := o.Kind == .line

/-- Modelled from the spec: the non-owning parent back-reference. -/
def getParent (o : Obj) : Option Nat := o.Parent

/-- Modelled from the spec: sets the parent back-reference. -/
def setParent (o : Obj) (p : Nat) : Obj := { o with Parent := some p }

/-- The member `Element::getName` (Object.cpp 669-671).  The string pool is not
among the sources and is taken from the spec: the value of the index of a
string is that string. -/
def getName (o : Obj) : String := o.Name

/-- Modelled from the spec: test of the bit `IsGlobalReference`. -/
def getIsGlobalReference (o : Obj) : Bool := o.IsGlobalReference

/-- Modelled from the spec: test of the bit `IsCompileUnit`. -/
def getIsCompileUnit (o : Obj) : Bool := o.IsCompileUnit

/-- Modelled from the spec: test of the bit `IsFunction`. -/
def getIsFunction (o : Obj) : Bool := o.IsFunction

/-- Modelled from the spec: test of the bit `IsRoot`. -/
def getIsRoot (o : Obj) : Bool := o.IsRoot

/-- Modelled from the spec: the scope is line-capable. -/
def getCanHaveLines (o : Obj) : Bool := o.CanHaveLines

/-- Modelled from the spec: test of the bit `HasQualifiedName`. -/
def getHasQualifiedName (o : Obj) : Bool := o.HasQualifiedName

/-- Modelled from the spec: sets the bit `HasQualifiedName`; no member clears it. -/
def setHasQualifiedName (o : Obj) : Obj := { o with HasQualifiedName := true }

/-- The member `Element::getQualifiedName` (Object.cpp 681-683), the string pool
as in `getName`. -/
def getQualifiedName (o : Obj) : String := o.QualifiedName

/-- The member `Element::setQualifiedName` (Object.cpp 677-679), the string pool
as in `getName`. -/
def setQualifiedName (o : Obj) (q : String) : Obj := { o with QualifiedName := q }

/-- Modelled from the spec: test of the bit `HasGlobals`. -/
def getHasGlobals (o : Obj) : Bool := o.HasGlobals

/-- Modelled from the spec: sets the bit `HasGlobals`; no member clears it. -/
def setHasGlobals (o : Obj) : Obj := { o with HasGlobals := true }

/-- Modelled from the spec: test of the bit `HasLocals`. -/
def getHasLocals (o : Obj) : Bool := o.HasLocals

/-- Modelled from the spec: sets the bit `HasLocals`; no member clears it. -/
def setHasLocals (o : Obj) : Obj := { o with HasLocals := true }

/-- Modelled from the spec: test of the bit `HasLines`. -/
def getHasLines (o : Obj) : Bool := o.HasLines

/-- Modelled from the spec: sets the bit `HasLines`; no member clears it. -/
def setHasLines (o : Obj) : Obj := { o with HasLines := true }

/-- Modelled from the spec: test of the bit `HasScopes`. -/
def getHasScopes (o : Obj) : Bool := o.HasScopes

/-- Modelled from the spec: sets the bit `HasScopes`; no member clears it. -/
def setHasScopes (o : Obj) : Obj := { o with HasScopes := true }

/-- Modelled from the spec: test of the bit `HasSymbols`. -/
def getHasSymbols (o : Obj) : Bool := o.HasSymbols

/-- Modelled from the spec: sets the bit `HasSymbols`; no member clears it. -/
def setHasSymbols (o : Obj) : Obj := { o with HasSymbols := true }

/-- Modelled from the spec: test of the bit `HasTypes`. -/
def getHasTypes (o : Obj) : Bool := o.HasTypes

/-- Modelled from the spec: sets the bit `HasTypes`; no member clears it. -/
def setHasTypes (o : Obj) : Obj := { o with HasTypes := true }

/-- Modelled from the spec: test of the bit `HasReference`. -/
def getHasReference (o : Obj) : Bool := o.HasReference

/-- Modelled from the spec: the non-owning reference to the canonical
declaration (specification or abstract origin). -/
def getReference (o : Obj) : Option Nat := o.Reference

/-- Modelled from the spec: the non-owning reference to the type. -/
def getType (o : Obj) : Option Nat := o.TheType

/-- Modelled from the spec: the raw tag of the die the object was built from. -/
def getDieTag (o : Obj) : Nat := o.DieTag

/-- Modelled from the spec: the source line, 0 when there is none. -/
def getLineNumber (o : Obj) : Nat := o.LineNumber

/-- Modelled from the spec: test of the bit `HasPattern`. -/
def getHasPattern (o : Obj) : Bool := o.HasPattern

/-- Modelled from the spec: test of the bit `IsArrayType`. -/
def getIsArrayType (o : Obj) : Bool := o.IsArrayType

/-- Modelled from the spec: test of the bit `IsBlock`. -/
def getIsBlock (o : Obj) : Bool := o.IsBlock

/-- Modelled from the spec: test of the bit `IsEnumerationType`. -/
def getIsEnumerationType (o : Obj) : Bool := o.IsEnumerationType

/-- Modelled from the spec: test of the bit `IsInlinedSubroutine`. -/
def getIsInlinedSubroutine (o : Obj) : Bool := o.IsInlinedSubroutine

/-- Modelled from the spec: test of the bit `IsNamespace`. -/
def getIsNamespace (o : Obj) : Bool := o.IsNamespace

/-- Modelled from the spec: test of the bit `IsTemplatePack`. -/
def getIsTemplatePack (o : Obj) : Bool := o.IsTemplatePack

/-- Modelled from the spec: test of the bit `IsTemplateAlias`. -/
def getIsTemplateAlias (o : Obj) : Bool := o.IsTemplateAlias

/-- Modelled from the spec: test of the bit `IsClassType`. -/
def getIsClassType (o : Obj) : Bool := o.IsClassType

/-- Modelled from the spec: test of the bit `IsStructType`. -/
def getIsStructType (o : Obj) : Bool := o.IsStructType

/-- Modelled from the spec: test of the bit `IsUnionType`. -/
def getIsUnionType (o : Obj) : Bool := o.IsUnionType

/-- Modelled from the spec: the entity is unnamed, it has no name or the empty
name (the pool gives the empty string for "no value"). -/
def isUnnamed (o : Obj) : Bool := getName o == ""

/-- Modelled from the spec: the entity is unlined, its line number is zero. -/
def isUnlined (o : Obj) : Bool := getLineNumber o == 0

/-- Modelled from the spec: the entity is "both unnamed and unlined", the
mark of a compiler-generated artifact (`isNotPrintable` is declared in a
header that is not among the sources). -/
def isNotPrintable (o : Obj) : Bool := isUnnamed o && isUnlined o

/-- Modelled from the spec: the settings the functions below read
(`PrintSettings.h` is not among the sources).  Of the two filter lists only
emptiness is read. -/
structure PrintSettings where
  ShowOnlyGlobals : Bool := false
  ShowOnlyLocals : Bool := false
  ShowGenerated : Bool := false
  ShowVoid : Bool := false
  WithChildrenFilters : List String := []
  WithChildrenFilterAnys : List String := []
  ShowDWARFOffset : Bool := false
  ShowDWARFParent : Bool := false
  ShowLevel : Bool := false
  ShowIsGlobal : Bool := false
  ShowDWARFTag : Bool := false
  ShowIndent : Bool := false
  ShowCodelineAttributes : Bool := false
  QuietMode : Bool := false
  SplitOutput : Bool := false
  ShowBlockAttributes : Bool := false
  deriving DecidableEq, Repr

/-! ## `Scope::getKindAsString` -/

/-- The function `Scope::getKindAsString` (Scope.cpp 84-137), the labels
being the constants `Scope::Kind...` of lines 85-106. -/
def Scope.getKindAsString (o : Obj) : String :=
  if getIsArrayType o then "Array"
  else if getIsBlock o then "Block"
  else if getIsCompileUnit o then "CompileUnit"
  else if getIsEnumerationType o then "Enum"
  else if getIsInlinedSubroutine o then "Function"
  else if getIsNamespace o then "Namespace"
  else if getIsTemplatePack o then "TemplateParameter"
  else if getIsRoot o then "InputFile"
  else if getIsTemplateAlias o then "Alias"
  else if getIsClassType o then "Class"
  else if getIsFunction o then "Function"
  else if getIsStructType o then "Struct"
  else if getIsUnionType o then "Union"
  else "Undefined"

/-! ## `Scope::resolvePrinting` -/

/-- The function `Scope::resolvePrinting(Settings)` (Scope.cpp 328-361): the
successive values of the local `DoPrint`. -/
def Scope.resolvePrinting (Settings : PrintSettings) (o : Obj) : Bool :=
  let DoPrint0 := true
  let Globals := Settings.ShowOnlyGlobals
  let Locals := Settings.ShowOnlyLocals
  let DoPrint1 :=
    if Globals == Locals then DoPrint0
    else if (Globals && !(getHasGlobals o || getIsGlobalReference o)) ||
        (Locals && !(getHasLocals o || !getIsGlobalReference o)) then false
    else DoPrint0
  let DoPrint2 :=
    if DoPrint1 && getIsFunction o then
      if !Settings.ShowGenerated && isNotPrintable o then false else DoPrint1
    else DoPrint1
  let DoPrint3 :=
    if DoPrint2 then
      if !Settings.WithChildrenFilters.isEmpty || !Settings.WithChildrenFilterAnys.isEmpty then
        getHasPattern o
      else DoPrint2
    else DoPrint2
  DoPrint3

/-! ## `Scope::traverse` -/

/-- The `while (parent)` loop of `Scope::traverse` (Scope.cpp 275-283): stop
at the first scope for which `GetFunc` holds, otherwise apply `SetFunc` and go
to the parent.  One unit of fuel per test of the loop condition. -/
def traverseLoop (GetFunc : Obj → Bool) (SetFunc : Obj → Obj) :
    Nat → Option Nat → Heap → Option Heap
  | 0, _, _ => none
  | _ + 1, none, h => some h
  | fuel + 1, some p, h =>
    match h[p]? with
    | none => some h
    | some o =>
      if GetFunc o then some h
      else traverseLoop GetFunc SetFunc fuel (getParent (SetFunc o)) (h.set p (SetFunc o))

/-- The function `Scope::traverse(GetFunc, SetFunc, down)` (Scope.cpp 272-288)
called on scope `This`.  The branch taken when `down` is set has an empty body
in the source.  The fuel is one more than the number of objects: every turn of
the loop but the last sets the flag on an object that did not have it. -/
def traverse (GetFunc : Obj → Bool) (SetFunc : Obj → Obj) (_down : Bool)
    (h : Heap) (This : Nat) : Option Heap :=
  traverseLoop GetFunc SetFunc (h.length + 1) (some This) h

/-! ## `Scope::addObject` -/

/-- `TheScopes.push_back(Scp); Children.push_back(Scp);` -/
def pushScope (p : Obj) (c : Nat) : Obj :=
  { p with TheScopes := p.TheScopes ++ [c], Children := p.Children ++ [c] }

/-- `TheSymbols.push_back(Sym); Children.push_back(Sym);` -/
def pushSymbol (p : Obj) (c : Nat) : Obj :=
  { p with TheSymbols := p.TheSymbols ++ [c], Children := p.Children ++ [c] }

/-- `TheTypes.push_back(Ty); Children.push_back(Ty);` -/
def pushType (p : Obj) (c : Nat) : Obj :=
  { p with TheTypes := p.TheTypes ++ [c], Children := p.Children ++ [c] }

/-- `TheLines.push_back(Ln);` and no push on `Children` (the source keeps the
push on the children commented out). -/
def pushLine (p : Obj) (c : Nat) : Obj :=
  { p with TheLines := p.TheLines ++ [c] }

/-- The message of the `std::logic_error` of `Scope::addObject(Line *)`. -/
def lineError : String :=
  "Cannot set line records on a scope that's not a function or module.\n"

/-- The overload `Scope::addObject(Line *Ln)` (Scope.cpp 139-158). -/
def addObject_Line (v : View) (This Ln : Nat) : Option Outcome := do
  let p ← v.Objs[This]?
  let l ← v.Objs[Ln]?
  if getCanHaveLines p then
    let h1 := v.Objs.set This (pushLine p Ln)
    let l1 ← h1[Ln]?
    let h2 := h1.set Ln (setParent l1 This)
    let r := incrementFound v.TheReader l
    let h3 ← traverse getHasLines setHasLines false h2 This
    pure { view := { Objs := h3, TheReader := r } }
  else
    pure { view := v, thrown := some lineError }

/-- The overload `Scope::addObject(Scope *Scp)` (Scope.cpp 160-180). -/
def addObject_Scope (v : View) (This Scp : Nat) : Option View := do
  let p ← v.Objs[This]?
  let h1 := v.Objs.set This (pushScope p Scp)
  let c ← h1[Scp]?
  let h2 := h1.set Scp (setParent c This)
  let r := incrementFound v.TheReader c
  let h3 ← if getIsGlobalReference c then traverse getHasGlobals setHasGlobals false h2 This
           else traverse getHasLocals setHasLocals false h2 This
  let h4 ← traverse getHasScopes setHasScopes false h3 This
  pure { Objs := h4, TheReader := r }

/-- The overload `Scope::addObject(Symbol *Sym)` (Scope.cpp 182-202). -/
def addObject_Symbol (v : View) (This Sym : Nat) : Option View := do
  let p ← v.Objs[This]?
  let h1 := v.Objs.set This (pushSymbol p Sym)
  let c ← h1[Sym]?
  let h2 := h1.set Sym (setParent c This)
  let r := incrementFound v.TheReader c
  let h3 ← if getIsGlobalReference c then traverse getHasGlobals setHasGlobals false h2 This
           else traverse getHasLocals setHasLocals false h2 This
  let h4 ← traverse getHasSymbols setHasSymbols false h3 This
  pure { Objs := h4, TheReader := r }

/-- The overload `Scope::addObject(Type *Ty)` (Scope.cpp 204-224). -/
def addObject_Type (v : View) (This Ty : Nat) : Option View := do
  let p ← v.Objs[This]?
  let h1 := v.Objs.set This (pushType p Ty)
  let c ← h1[Ty]?
  let h2 := h1.set Ty (setParent c This)
  let r := incrementFound v.TheReader c
  let h3 ← if getIsGlobalReference c then traverse getHasGlobals setHasGlobals false h2 This
           else traverse getHasLocals setHasLocals false h2 This
  let h4 ← traverse getHasTypes setHasTypes false h3 This
  pure { Objs := h4, TheReader := r }

/-- Overload resolution of `addObject`: the overload is the one of the class
of the child. -/
def addObject (v : View) (This Child : Nat) : Option Outcome := do
  let c ← v.Objs[Child]?
  match c.Kind with
  | .line => addObject_Line v This Child
  | .scope => (addObject_Scope v This Child).map (fun w => { view := w })
  | .symbol => (addObject_Symbol v This Child).map (fun w => { view := w })
  | .type => (addObject_Type v This Child).map (fun w => { view := w })

/-! ## `Object::resolveQualifiedName` -/

/-- The value of `ExplicitParent->getIsFunction()`.  The source evaluates it
only after `ObjParent` was found non-null, and `ObjParent` starts as
`ExplicitParent`: the pointer is then not null. -/
def explicitParentIsFunction (h : Heap) (ExplicitParent : Option Nat) : Bool :=
  match ExplicitParent with
  | none => false
  | some e =>
    match h[e]? with
    | none => false
    | some o => getIsFunction o

/-- The `while` loop of `Object::resolveQualifiedName` (Object.cpp 202-213),
from the current `ObjParent` and the current value of the local
`QualifiedName`; the result is the value of `QualifiedName` when the loop is
left.  One unit of fuel per test of the loop condition. -/
def qualifiedNameLoop (h : Heap) (ExplicitParent : Option Nat) :
    Nat → Option Nat → String → Option String
  | 0, _, _ => none
  | _ + 1, none, QualifiedName => some QualifiedName
  | fuel + 1, some op, QualifiedName =>
    match h[op]? with
    | none => some QualifiedName
    | some ObjParent =>
      if !getIsCompileUnit ObjParent && !explicitParentIsFunction h ExplicitParent &&
          !(getIsScope ObjParent && getIsRoot ObjParent) then
        let QualifiedName1 :=
          if (getName ObjParent).length != 0 then
            getName ObjParent ++ ("::" ++ QualifiedName)
          else QualifiedName
        qualifiedNameLoop h ExplicitParent fuel (getParent ObjParent) QualifiedName1
      else some QualifiedName

/-- The function `Object::resolveQualifiedName(ExplicitParent)` (Object.cpp
197-219) called on the object `This`. -/
def resolveQualifiedName (fuel : Nat) (v : View) (This : Nat) (ExplicitParent : Option Nat) :
    Option View := do
  let o ← v.Objs[This]?
  let QualifiedName ← qualifiedNameLoop v.Objs ExplicitParent fuel ExplicitParent ""
  if !QualifiedName.isEmpty then
    pure { v with Objs := v.Objs.set This (setHasQualifiedName (setQualifiedName o QualifiedName)) }
  else
    pure v

/-! ## `Scope::getQualifiedName` -/

/-- The function `Scope::getQualifiedName(qualified_name)` (Scope.cpp 226-239)
called on the scope `This`; the result is the value of the reference parameter
`qualified_name` on return.  One unit of fuel per call. -/
def Scope.getQualifiedName (h : Heap) : Nat → Nat → String → Option String
  | 0, _, _ => none
  | fuel + 1, This, qualified_name =>
    match h[This]? with
    | none => none
    | some o =>
      if getIsRoot o || getIsCompileUnit o then some qualified_name
      else
        let afterParent : Option String :=
          match getParent o with
          | none => some qualified_name
          | some ScpParent =>
            match h[ScpParent]? with
            | none => some qualified_name
            | some _ => Scope.getQualifiedName h fuel ScpParent qualified_name
        afterParent.map (fun q =>
          (if !q.isEmpty then q ++ "::" else q) ++ getName o)

/-! ## `Scope::resolveName` -/

/-- Why a run gives no result: the fuel is used up, or a null pointer (or a
position that holds no object) is dereferenced. -/
inductive Stop where
  | outOfFuel
  | nullDereference
  deriving DecidableEq, Repr

/-- The virtual member `setName`: `Element::setName` (Object.cpp 660-667), and
for the objects of class `ScopeCompileUnit` and `ScopeRoot` the overrides of
Scope.cpp 576-579 and 853-856, which store `unifyFilePath(Name)`.  The
function `unifyFilePath` (`FileUtilities.h`) is not among the sources and is a
parameter. -/
def setName (unifyFilePath : String → String) (o : Obj) (name : String) : Obj :=
  if o.IsPathScope then { o with Name := unifyFilePath name } else { o with Name := name }

/-- The function `Scope::resolveName` (Scope.cpp 407-417) called on the scope
`This`: the heap and the returned name.  One unit of fuel per call. -/
def Scope.resolveName (unifyFilePath : String → String) :
    Nat → Heap → Nat → Except Stop (Heap × String)
  | 0, _, _ => Except.error Stop.outOfFuel
  | fuel + 1, h, This =>
    match h[This]? with
    | none => Except.error Stop.nullDereference
    | some o =>
      if getHasReference o then
        let Specification := getReference o
        if isUnnamed o then
          match Specification with
          | none => Except.error Stop.nullDereference
          | some sp =>
            match Scope.resolveName unifyFilePath fuel h sp with
            | Except.error e => Except.error e
            | Except.ok (h1, name) =>
              match h1[This]? with
              | none => Except.error Stop.nullDereference
              | some o1 =>
                let o2 := setName unifyFilePath o1 name
                Except.ok (h1.set This o2, getName o2)
        else Except.ok (h, getName o)
      else Except.ok (h, getName o)


/-! ## `Object::setFullName`

The header `dwarf.h` is not among the sources; the tag constants have the
values of the DWARF standard. -/

/-- Modelled from the spec: the tag constant of `dwarf.h`, DWARF value 0x1. -/
def DW_TAG_array_type : Nat := 0x1

/-- Modelled from the spec: the tag constant of `dwarf.h`, DWARF value 0x2. -/
def DW_TAG_class_type : Nat := 0x2

/-- Modelled from the spec: the tag constant of `dwarf.h`, DWARF value 0x3. -/
def DW_TAG_entry_point : Nat := 0x3

/-- Modelled from the spec: the tag constant of `dwarf.h`, DWARF value 0x4. -/
def DW_TAG_enumeration_type : Nat := 0x4

/-- Modelled from the spec: the tag constant of `dwarf.h`, DWARF value 0x8. -/
def DW_TAG_imported_declaration : Nat := 0x8

/-- Modelled from the spec: the tag constant of `dwarf.h`, DWARF value 0xa. -/
def DW_TAG_label : Nat := 0xa

/-- Modelled from the spec: the tag constant of `dwarf.h`, DWARF value 0xb. -/
def DW_TAG_lexical_block : Nat := 0xb

/-- Modelled from the spec: the tag constant of `dwarf.h`, DWARF value 0xd. -/
def DW_TAG_member : Nat := 0xd

/-- Modelled from the spec: the tag constant of `dwarf.h`, DWARF value 0xf. -/
def DW_TAG_pointer_type : Nat := 0xf

/-- Modelled from the spec: the tag constant of `dwarf.h`, DWARF value 0x10. -/
def DW_TAG_reference_type : Nat := 0x10

/-- Modelled from the spec: the tag constant of `dwarf.h`, DWARF value 0x11. -/
def DW_TAG_compile_unit : Nat := 0x11

/-- Modelled from the spec: the tag constant of `dwarf.h`, DWARF value 0x13. -/
def DW_TAG_structure_type : Nat := 0x13

/-- Modelled from the spec: the tag constant of `dwarf.h`, DWARF value 0x15. -/
def DW_TAG_subroutine_type : Nat := 0x15

/-- Modelled from the spec: the tag constant of `dwarf.h`, DWARF value 0x16. -/
def DW_TAG_typedef : Nat := 0x16

/-- Modelled from the spec: the tag constant of `dwarf.h`, DWARF value 0x17. -/
def DW_TAG_union_type : Nat := 0x17

/-- Modelled from the spec: the tag constant of `dwarf.h`, DWARF value 0x1c. -/
def DW_TAG_inheritance : Nat := 0x1c

/-- Modelled from the spec: the tag constant of `dwarf.h`, DWARF value 0x1d. -/
def DW_TAG_inlined_subroutine : Nat := 0x1d

/-- Modelled from the spec: the tag constant of `dwarf.h`, DWARF value 0x1f. -/
def DW_TAG_ptr_to_member_type : Nat := 0x1f

/-- Modelled from the spec: the tag constant of `dwarf.h`, DWARF value 0x21. -/
def DW_TAG_subrange_type : Nat := 0x21

/-- Modelled from the spec: the tag constant of `dwarf.h`, DWARF value 0x24. -/
def DW_TAG_base_type : Nat := 0x24

/-- Modelled from the spec: the tag constant of `dwarf.h`, DWARF value 0x25. -/
def DW_TAG_catch_block : Nat := 0x25

/-- Modelled from the spec: the tag constant of `dwarf.h`, DWARF value 0x26. -/
def DW_TAG_const_type : Nat := 0x26

/-- Modelled from the spec: the tag constant of `dwarf.h`, DWARF value 0x28. -/
def DW_TAG_enumerator : Nat := 0x28

/-- Modelled from the spec: the tag constant of `dwarf.h`, DWARF value 0x2e. -/
def DW_TAG_subprogram : Nat := 0x2e

/-- Modelled from the spec: the tag constant of `dwarf.h`, DWARF value 0x2f. -/
def DW_TAG_template_type_parameter : Nat := 0x2f

/-- Modelled from the spec: the tag constant of `dwarf.h`, DWARF value 0x30. -/
def DW_TAG_template_value_parameter : Nat := 0x30

/-- Modelled from the spec: the tag constant of `dwarf.h`, DWARF value 0x32. -/
def DW_TAG_try_block : Nat := 0x32

/-- Modelled from the spec: the tag constant of `dwarf.h`, DWARF value 0x34. -/
def DW_TAG_variable : Nat := 0x34

/-- Modelled from the spec: the tag constant of `dwarf.h`, DWARF value 0x35. -/
def DW_TAG_volatile_type : Nat := 0x35

/-- Modelled from the spec: the tag constant of `dwarf.h`, DWARF value 0x37. -/
def DW_TAG_restrict_type : Nat := 0x37

/-- Modelled from the spec: the tag constant of `dwarf.h`, DWARF value 0x39. -/
def DW_TAG_namespace : Nat := 0x39

/-- Modelled from the spec: the tag constant of `dwarf.h`, DWARF value 0x3a. -/
def DW_TAG_imported_module : Nat := 0x3a

/-- Modelled from the spec: the tag constant of `dwarf.h`, DWARF value 0x3b. -/
def DW_TAG_unspecified_type : Nat := 0x3b

/-- Modelled from the spec: the tag constant of `dwarf.h`, DWARF value 0x42. -/
def DW_TAG_rvalue_reference_type : Nat := 0x42

/-- Modelled from the spec: the tag constant of `dwarf.h`, DWARF value 0x4106. -/
def DW_TAG_GNU_template_template_parameter : Nat := 0x4106

/-- Modelled from the spec: the tag constant of `dwarf.h`, DWARF value 0x4107. -/
def DW_TAG_GNU_template_parameter_pack : Nat := 0x4107

/-- The locals of `Object::setFullName` that its `switch` on the tag may
assign (Object.cpp 243-259), with their initial values; `BaseParent` and
`PostPostText` are never assigned and stay null. -/
structure FullNameLocals where
  ParentTypename : Option String
  PreText : Option String := none
  PostText : Option String := none
  GetBaseTypename : Bool := false
  UseParentTypeName : Bool := true
  UseBaseText : Bool := true
  deriving DecidableEq, Repr

/-- The case labels of Object.cpp 262-272. -/
def tagsWithBaseTypename : List Nat :=
  [DW_TAG_base_type, DW_TAG_compile_unit, DW_TAG_namespace, DW_TAG_class_type,
   DW_TAG_structure_type, DW_TAG_union_type, DW_TAG_unspecified_type,
   DW_TAG_enumeration_type, DW_TAG_enumerator, DW_TAG_inheritance,
   DW_TAG_GNU_template_parameter_pack]

/-- The case labels of Object.cpp 275-284. -/
def tagsWithoutParentTypeName : List Nat :=
  [DW_TAG_array_type, DW_TAG_subrange_type, DW_TAG_imported_module,
   DW_TAG_imported_declaration, DW_TAG_subprogram, DW_TAG_subroutine_type,
   DW_TAG_inlined_subroutine, DW_TAG_entry_point, DW_TAG_label, DW_TAG_typedef]

/-- The case labels of Object.cpp 319-323. -/
def tagsWithoutBaseText : List Nat :=
  [DW_TAG_template_type_parameter, DW_TAG_template_value_parameter,
   DW_TAG_catch_block, DW_TAG_lexical_block, DW_TAG_try_block]

/-- The `switch (tag)` of `Object::setFullName` (Object.cpp 261-330): the
locals after the case of the tag, `none` for the `default` case, which
returns false.  `hasBaseType` is `BaseType != nullptr`, `hasType` is
`getType() != nullptr`. -/
def switchOnTag (Settings : PrintSettings) (tag : Nat) (hasBaseType hasType : Bool)
    (ParentTypename : Option String) : Option FullNameLocals :=
  if tag ∈ tagsWithBaseTypename then
    some { ParentTypename := ParentTypename, GetBaseTypename := true }
  else if tag ∈ tagsWithoutParentTypeName then
    some { ParentTypename := ParentTypename, GetBaseTypename := true,
           UseParentTypeName := false }
  else if tag = DW_TAG_const_type then
    some { ParentTypename := ParentTypename, PreText := some "const" }
  else if tag = DW_TAG_pointer_type then
    some { ParentTypename :=
             if !hasBaseType && !hasType && Settings.ShowVoid then some "void"
             else ParentTypename,
           PostText := some "*" }
  else if tag = DW_TAG_ptr_to_member_type then
    some { ParentTypename := ParentTypename, PostText := some "*" }
  else if tag = DW_TAG_rvalue_reference_type then
    some { ParentTypename := ParentTypename, PostText := some "&&" }
  else if tag = DW_TAG_reference_type then
    some { ParentTypename := ParentTypename, PostText := some "&" }
  else if tag = DW_TAG_restrict_type then
    some { ParentTypename := ParentTypename, PreText := some "restrict" }
  else if tag = DW_TAG_volatile_type then
    some { ParentTypename := ParentTypename, PreText := some "volatile" }
  else if tag ∈ tagsWithoutBaseText then
    some { ParentTypename := ParentTypename, UseBaseText := false }
  else if tag = DW_TAG_GNU_template_template_parameter then
    some { ParentTypename := ParentTypename }
  else none

/-- The concatenation of `Object::setFullName` (Object.cpp 339-372): the
successive values of the local `FullName`.  `hasSpecScope` is
`SpecScope != nullptr`; `BaseText` is the parameter after the overwrite of
lines 333-337. -/
def assembleFullName (l : FullNameLocals) (hasSpecScope : Bool) (BaseText : Option String) :
    String :=
  let FullName0 := ""
  let FullName1 :=
    match l.PreText with
    | some pre => if !hasSpecScope then FullName0 ++ pre else FullName0
    | none => FullName0
  let FullName2 :=
    match BaseText with
    | some base =>
      if l.UseBaseText then
        (if l.PreText.isSome then FullName1 ++ " " else FullName1) ++ base
      else FullName1
    | none => FullName1
  let FullName3 :=
    match l.ParentTypename with
    | some parent =>
      if l.UseParentTypeName then
        (if l.UseBaseText && BaseText.isSome then FullName2 ++ " "
         else if l.PreText.isSome then FullName2 ++ " "
         else FullName2) ++ parent
      else FullName2
    | none => FullName2
  let FullName4 :=
    match l.PostText with
    | some post =>
      if !hasSpecScope then
        (if l.UseParentTypeName && l.ParentTypename.isSome then FullName3 ++ " "
         else if l.UseBaseText && BaseText.isSome then FullName3 ++ " "
         else if l.PreText.isSome then FullName3 ++ " "
         else FullName3) ++ post
      else FullName3
    | none => FullName3
  FullName4

/-- The loop "Remove any double spaces" of `Object::setFullName` (Object.cpp
374-381) on the characters from `StartPos` on.  `find` looks for the first two
adjacent spaces at or after `StartPos`; they are replaced by one space and
`StartPos` moves past that space, so the characters before `StartPos` are
final and the loop is one scan from left to right. -/
def collapseSpaces : List Char → List Char
  | [] => []
  | [c] => [c]
  | c :: d :: rest =>
    if c = ' ' ∧ d = ' ' then ' ' :: collapseSpaces rest
    else c :: collapseSpaces (d :: rest)

/-- The loop of Object.cpp 374-381 on the string `FullName`. -/
def removeDoubleSpaces (FullName : String) : String := ⟨collapseSpaces FullName.data⟩

/-- The value of `ParentTypename` before the `switch` (Object.cpp 243-250):
the name of `BaseType` if there is one, else the name of `BaseScope` if there
is one, else null.  The outer `none` is a pointer to no object. -/
def parentTypename (h : Heap) (BaseType BaseScope : Option Nat) : Option (Option String) :=
  match BaseType with
  | some bt => (h[bt]?).map (fun t => some (getName t))
  | none =>
    match BaseScope with
    | some bs => (h[bs]?).map (fun s => some (getName s))
    | none => some none

/-- The function `Object::setFullName(Settings, BaseType, BaseScope, SpecScope,
BaseText)` (Object.cpp 237-386) called on the object `This`: the heap and the
returned boolean. -/
def Object.setFullName (unifyFilePath : String → String) (Settings : PrintSettings)
    (h : Heap) (This : Nat) (BaseType BaseScope SpecScope : Option Nat)
    (BaseText : Option String) : Option (Heap × Bool) := do
  let o ← h[This]?
  let ParentTypename ← parentTypename h BaseType BaseScope
  match switchOnTag Settings (getDieTag o) BaseType.isSome (getType o).isSome
      ParentTypename with
  | none => pure (h, false)
  | some l =>
    let BaseText1 :=
      match BaseText with
      | some base => some base
      | none => if l.GetBaseTypename then some (getName o) else none
    let FullName := removeDoubleSpaces (assembleFullName l SpecScope.isSome BaseText1)
    pure (h.set This (setName unifyFilePath o FullName), true)

/-! ## `Line` (Line.h, Line.cpp) -/

/-- The member `Line::getIsLineRecord` (Line.h 86). -/
def getIsLineRecord (o : Obj) : Bool := o.LineAttributesFlags.IsLineRecord

/-- The member `Line::setIsLineRecord` (Line.h 87). -/
def setIsLineRecord (o : Obj) : Obj :=
  { o with LineAttributesFlags := { o.LineAttributesFlags with IsLineRecord := true } }

/-- The member `Line::getHasDiscriminator` (Line.h 90-92). -/
def getHasDiscriminator (o : Obj) : Bool := o.LineAttributesFlags.HasDiscriminator

/-- The member `Line::setHasDiscriminator` (Line.h 93). -/
def setHasDiscriminator (o : Obj) : Obj :=
  { o with LineAttributesFlags := { o.LineAttributesFlags with HasDiscriminator := true } }

/-- The member `Line::getIsLineEndSequence` (Line.h 96-98). -/
def getIsLineEndSequence (o : Obj) : Bool := o.LineAttributesFlags.IsLineEndSequence

/-- The member `Line::setIsLineEndSequence` (Line.h 99). -/
def setIsLineEndSequence (o : Obj) : Obj :=
  { o with LineAttributesFlags := { o.LineAttributesFlags with IsLineEndSequence := true } }

/-- The member `Line::getIsNewBasicBlock` (Line.h 102-104). -/
def getIsNewBasicBlock (o : Obj) : Bool := o.LineAttributesFlags.IsNewBasicBlock

/-- The member `Line::setIsNewBasicBlock` (Line.h 105). -/
def setIsNewBasicBlock (o : Obj) : Obj :=
  { o with LineAttributesFlags := { o.LineAttributesFlags with IsNewBasicBlock := true } }

/-- The member `Line::getIsNewStatement` (Line.h 108). -/
def getIsNewStatement (o : Obj) : Bool := o.LineAttributesFlags.IsNewStatement

/-- The member `Line::setIsNewStatement` (Line.h 109). -/
def setIsNewStatement (o : Obj) : Obj :=
  { o with LineAttributesFlags := { o.LineAttributesFlags with IsNewStatement := true } }

/-- The member `Line::getIsEpilogueBegin` (Line.h 112-114). -/
def getIsEpilogueBegin (o : Obj) : Bool := o.LineAttributesFlags.IsEpilogueBegin

/-- The member `Line::setIsEpilogueBegin` (Line.h 115). -/
def setIsEpilogueBegin (o : Obj) : Obj :=
  { o with LineAttributesFlags := { o.LineAttributesFlags with IsEpilogueBegin := true } }

/-- The member `Line::getIsPrologueEnd` (Line.h 118). -/
def getIsPrologueEnd (o : Obj) : Bool := o.LineAttributesFlags.IsPrologueEnd

/-- The member `Line::setIsPrologueEnd` (Line.h 119). -/
def setIsPrologueEnd (o : Obj) : Obj :=
  { o with LineAttributesFlags := { o.LineAttributesFlags with IsPrologueEnd := true } }

/-- Modelled from the spec: the raw offset of the die (`Object.h` is not among
the sources); `commonConstructor` sets it to 0 (Object.cpp 94). -/
def getDieOffset (o : Obj) : Nat := o.DieOffset

/-- Modelled from the spec: sets the raw offset. -/
def setDieOffset (o : Obj) (Offset : Nat) : Obj := { o with DieOffset := Offset }

/-- The member `Line::getAddress` (Line.h 123). -/
def getAddress (o : Obj) : Nat := getDieOffset o

/-- The member `Line::setAddress` (Line.h 124). -/
def setAddress (o : Obj) (Address : Nat) : Obj := setDieOffset o Address

/-- The member `Line::getDiscriminator` (Line.h 127). -/
def getDiscriminator (o : Obj) : Nat := o.Discriminator

/-- The member `Line::setDiscriminator` (Line.h 128-131); `Dwarf_Half` is an
unsigned 16-bit integer. -/
def setDiscriminator (o : Obj) (Discrim : Nat) : Obj :=
  setHasDiscriminator { o with Discriminator := Discrim % 2 ^ 16 }

/-- The constructors `Line::Line(LevelType)` and `Line::Line()` (Line.cpp 39-49,
the second is the first at level 0): the constructors of `Object` and
`Element` (Object.cpp 79-100, 649-658) zero line number, parent, level,
offset, tag, the three string indices and the type, the bitset starts clear,
`Discriminator(0)`, and `setIsLine` marks the class.  The allocation counter
`LinesAllocated` and the debug-only `Tag` are not described. -/
def Line.new (Lvl : Nat) : Obj := { Kind := ObjKind.line, Level := Lvl }

/-- The function `Line::getKindAsString` (Line.cpp 80-86), the labels being
`KindUndefined` and `KindLine` (Line.cpp 75, 78). -/
def Line.getKindAsString (o : Obj) : String :=
  let Kind := "Undefined"
  let Kind := if getIsLineRecord o then "CodeLine" else Kind
  Kind

/-- The members of `Line` that write to a line (Line.h 87-131): the only code
that can reach the private `LineAttributesFlags`. -/
inductive LineOp where
  | setIsLineRecord
  | setHasDiscriminator
  | setIsLineEndSequence
  | setIsNewBasicBlock
  | setIsNewStatement
  | setIsEpilogueBegin
  | setIsPrologueEnd
  | setAddress (Address : Nat)
  | setDiscriminator (Discrim : Nat)
  deriving DecidableEq, Repr

/-- One call of a writing member of `Line`. -/
def LineOp.run : LineOp → Obj → Obj
  | .setIsLineRecord, o => LibScopeView.setIsLineRecord o
  | .setHasDiscriminator, o => LibScopeView.setHasDiscriminator o
  | .setIsLineEndSequence, o => LibScopeView.setIsLineEndSequence o
  | .setIsNewBasicBlock, o => LibScopeView.setIsNewBasicBlock o
  | .setIsNewStatement, o => LibScopeView.setIsNewStatement o
  | .setIsEpilogueBegin, o => LibScopeView.setIsEpilogueBegin o
  | .setIsPrologueEnd, o => LibScopeView.setIsPrologueEnd o
  | .setAddress Address, o => LibScopeView.setAddress o Address
  | .setDiscriminator Discrim, o => LibScopeView.setDiscriminator o Discrim

/-- A sequence of calls, first call first. -/
def runLineOps (ops : List LineOp) (o : Obj) : Obj := ops.foldl (fun a op => op.run a) o


/-! ## `Object::getCommonYAML` and `Line::getAsYAML` -/

/-- Modelled from the spec: what the rendering code calls and the sources do
not define.  `dwarf_get_TAG_name` is the function of libdwarf (the name of a
tag, or nothing when the answer is not `DW_DLV_OK`); `getFileName` is
`LibScopeView::getFileName` of `FileUtilities.h` (the part of a path name the
format options ask for); `SymbolKind` and `TypeKind` are `getKindAsString` of
the classes `Symbol` and `Type`. -/
structure Library where
  dwarf_get_TAG_name : Nat → Option String
  getFileName : String → String
  SymbolKind : Obj → String
  TypeKind : Obj → String

/-- Modelled from the spec: test of the bit `IsTemplateParam` of a type. -/
def getIsTemplateParam (o : Obj) : Bool := o.IsTemplateParam

/-- Modelled from the spec: test of the bit `IsUnspecifiedParameter` of a symbol. -/
def getIsUnspecifiedParameter (o : Obj) : Bool := o.IsUnspecifiedParameter

/-- Modelled from the spec: the file name index does not name a file. -/
def getInvalidFileName (o : Obj) : Bool := o.InvalidFileName

/-- The member `Element::getFileName(NameOnly)` (Object.cpp 689-697), the string
pool as in `getName`. -/
def getFileName (lib : Library) (o : Obj) (NameOnly : Bool) : String :=
  let FName := o.FileName
  let FName := if NameOnly then lib.getFileName FName else FName
  FName

/-- The virtual `getKindAsString`, by the class of the object. -/
def getKindAsString (lib : Library) (o : Obj) : String :=
  match o.Kind with
  | .scope => Scope.getKindAsString o
  | .line => Line.getKindAsString o
  | .symbol => lib.SymbolKind o
  | .type => lib.TypeKind o

/-- What `YAML << std::hex << n` writes: lowercase hexadecimal, no padding. -/
def streamHex (n : Nat) : String := ⟨Nat.toDigits 16 n⟩

/-- What `YAML << n` writes before `std::hex`: decimal. -/
def streamDec (n : Nat) : String := ⟨Nat.toDigits 10 n⟩

/-- The part "Kind." of `Object::getCommonYAML` (Object.cpp 583-584). -/
def commonKind (lib : Library) (o : Obj) : String :=
  "object: \"" ++ getKindAsString lib o ++ "\"\n"

/-- The part "Name." of `Object::getCommonYAML` (Object.cpp 586-600). -/
def commonName (o : Obj) : String :=
  let Name := ""
  let Name := if getHasQualifiedName o then Name ++ getQualifiedName o else Name
  let Name :=
    if getIsSymbol o && getIsUnspecifiedParameter o then Name ++ "..."
    else Name ++ getName o
  "name: " ++ (if !Name.isEmpty then "\"" ++ Name ++ "\"\n" else "null\n")

/-- The part "Type." of `Object::getCommonYAML` (Object.cpp 602-616); no
result when the type pointer is followed and points to no object. -/
def commonType (h : Heap) (o : Obj) : Option String :=
  if (getType o).isSome && !(getIsType o && getIsTemplateParam o) then
    match (getType o).bind (fun t => h[t]?) with
    | none => none
    | some ty =>
      let TypeName := ""
      let TypeName := if getHasQualifiedName ty then TypeName ++ getQualifiedName ty else TypeName
      let TypeName := TypeName ++ getName ty
      some ("type: " ++ "\"" ++ TypeName ++ "\"\n")
  else if getIsScope o && getIsFunction o then some ("type: " ++ "\"void\"\n")
  else some ("type: " ++ "null\n")

/-- The part "Source." of `Object::getCommonYAML` (Object.cpp 618-632). -/
def commonSource (lib : Library) (o : Obj) : String :=
  let LineText :=
    if getLineNumber o != 0 then streamDec (getLineNumber o) ++ "\n" else "null\n"
  let FileName := getFileName lib o true
  let FileText :=
    if getInvalidFileName o then "\"?\"\n"
    else if !FileName.isEmpty then "\"" ++ FileName ++ "\"\n"
    else "null\n"
  "source:\n  line: " ++ LineText ++ "  file: " ++ FileText

/-- The part "Dwarf." of `Object::getCommonYAML` (Object.cpp 634-641); the
return value of `dwarf_get_TAG_name` is not tested there, so for a tag
without a name the pointer streamed is unset and there is no result. -/
def commonDwarf (lib : Library) (o : Obj) : Option String :=
  let Head := "dwarf:\n  offset: 0x" ++ streamHex (getDieOffset o) ++ "\n  tag: "
  if getDieTag o != 0 then
    match lib.dwarf_get_TAG_name (getDieTag o) with
    | none => none
    | some TagName => some (Head ++ "\"" ++ TagName ++ "\"")
  else some (Head ++ "null")

/-- The function `Object::getCommonYAML` (Object.cpp 580-644): the five parts in
the order they are streamed. -/
def getCommonYAML (lib : Library) (h : Heap) (o : Obj) : Option String := do
  let TypeText ← commonType h o
  let DwarfText ← commonDwarf lib o
  pure (commonKind lib o ++ commonName o ++ TypeText ++ commonSource lib o ++ DwarfText)

/-- The function `Line::getAsYAML` (Line.cpp 136-159), the keys being the
constants `Line::Kind...` of Line.cpp 71-77. -/
def Line.getAsYAML (lib : Library) (h : Heap) (o : Obj) : Option String := do
  let YAMLTrue := ": true"
  let YAMLFalse := ": false"
  let Attrs := ""
  let Attrs := Attrs ++ "\n  " ++ "NewStatement" ++ (if getIsNewStatement o then YAMLTrue else YAMLFalse)
  let Attrs := Attrs ++ "\n  " ++ "PrologueEnd" ++ (if getIsPrologueEnd o then YAMLTrue else YAMLFalse)
  let Attrs := Attrs ++ "\n  " ++ "EndSequence" ++ (if getIsLineEndSequence o then YAMLTrue else YAMLFalse)
  let Attrs := Attrs ++ "\n  " ++ "BasicBlock" ++ (if getIsNewBasicBlock o then YAMLTrue else YAMLFalse)
  let Attrs := Attrs ++ "\n  " ++ "Discriminator" ++ (if getHasDiscriminator o then YAMLTrue else YAMLFalse)
  let Attrs := Attrs ++ "\n  " ++ "EpilogueBegin" ++ (if getIsEpilogueBegin o then YAMLTrue else YAMLFalse)
  let Attrs := if Attrs.isEmpty then Attrs ++ " \x7b\x7d" else Attrs
  let Common ← getCommonYAML lib h o
  pure (Common ++ "\nattributes:" ++ Attrs)


/-! ## `OffsetAsString` and `Object::getDieOffsetAsString` -/

/-- What `snprintf(Buffer, Size, ...)` does with the text its format produces:
at most `Size - 1` characters reach the buffer, and the length of the whole
text is returned. -/
def snprintf (Size : Nat) (Text : String) : String × Nat :=
  (⟨Text.data.take (Size - 1)⟩, Text.length)

/-- The conversion `%08x` (with the length modifier of `DW_PR_DUx`): lowercase
hexadecimal, padded with zeros on the left to 8 characters. -/
def formatHex08 (n : Nat) : String :=
  let Digits := Nat.toDigits 16 n
  ⟨List.replicate (8 - Digits.length) '0' ++ Digits⟩

/-- The function `OffsetAsString` (Object.cpp 118-127): the content of the static
buffer on return.  No result stands for the failed assertion "string
overflow" (when assertions are compiled out the buffer holds the text cut
after 15 characters). -/
def OffsetAsString (Offset : Nat) : Option String :=
  let MaxLineSize := 16
  let r := snprintf MaxLineSize ("[0x" ++ formatHex08 Offset ++ "]")
  let Buffer := r.1
  let Res := r.2
  if Res < MaxLineSize then some Buffer else none

/-- The function `Object::getDieOffsetAsString` (Object.cpp 131-136). -/
def getDieOffsetAsString (Settings : PrintSettings) (o : Obj) : Option String :=
  let Str := ""
  if Settings.ShowDWARFOffset then OffsetAsString (getDieOffset o) else some Str


/-! ## Text rendering: `Object::getAttributesAsText`, `Object::getAttributeInfoAsText`, `Line::getAsText` -/

/-- The process-wide state of the text rendering: the static data member
`Object::IndentationSize` (Object.cpp 405), the function-local statics of
`Object::getAttributesAsText` (Object.cpp 408-413) and the function-local
static `ConstantIndent` of `Object::getAttributeInfoAsText` (Object.cpp
572-574), which has no value until the first call initialises it.  The
default is the state at the start of the process. -/
structure Statics where
  IndentationSize : Nat := 0
  CalculateIndentation : Bool := true
  OffsetWidth : Nat := 0
  ParentWidth : Nat := 0
  TagWidth : Nat := 0
  ConstantIndent : Option String := none
  deriving DecidableEq, Repr

/-- Modelled from the spec: the depth of the entity in the tree. -/
def getLevel (o : Obj) : Nat := o.Level

/-- The text `std::string(n, ' ')`. -/
def spaces (n : Nat) : String := ⟨List.replicate n ' '⟩

/-- The function `Object::getNoLineString` (Object.cpp 152-155). -/
def getNoLineString : String := "        "

/-- The function `Object::getDieParent` (Object.cpp 147-150). -/
def getDieParent (h : Heap) (o : Obj) : Nat :=
  match (getParent o).bind (fun p => h[p]?) with
  | some DieParent => getDieOffset DieParent
  | none => 0

/-- The function `Object::getIndentString` (Object.cpp 221-226). -/
def getIndentString (Settings : PrintSettings) (o : Obj) : String :=
  if getLevel o == 0 && getIsScope o && (getParent o).isNone then ""
  else if Settings.ShowIndent then spaces ((getLevel o + 1) * 2) else ""

/-- The function `getTagString` (Object.cpp 390-400). -/
def getTagString (lib : Library) (DWTag : Nat) (IsLine : Bool) : String :=
  if IsLine then "[DW_AT_stml_list]"
  else
    match (if DWTag != 0 then lib.dwarf_get_TAG_name DWTag else none) with
    | some tag_name => "[" ++ tag_name ++ "]"
    | none => "[DW_TAG_file]"

/-- The text of the format "[0x%08x]" (with the length modifier of `DW_PR_DUx`). -/
def formatOffset (Offset : Nat) : String := "[0x" ++ formatHex08 Offset ++ "]"

/-- The conversion `%03d` of a level: decimal, padded with zeros on the left to 3
characters. -/
def format03d (n : Nat) : String :=
  let Digits := Nat.toDigits 10 n
  ⟨List.replicate (3 - Digits.length) '0' ++ Digits⟩

/-- The conversion `%c` of the global marker. -/
def formatGlobal (IsGlobalReference : Bool) : String := if IsGlobalReference then "X" else " "

/-- The conversion `%-42s`: the text, padded with spaces on the right to 42
characters. -/
def formatLeft42 (s : String) : String := s ++ spaces (42 - s.length)

/-- One `snprintf` into the buffer `Literal` of `Object::getAttributesAsText`
followed by its assertion and by `std::string(Literal)` (for example
Object.cpp 463-468); no result stands for the failed assertion. -/
def toLiteral (Text : String) : Option String :=
  let MaxSize := 64
  let r := snprintf MaxSize Text
  if r.2 < MaxSize then some r.1 else none

/-- The first part of `Object::getAttributesAsText` (Object.cpp 415-444): the
indentation size, calculated for the first object only. -/
def calculateIndentation (lib : Library) (Settings : PrintSettings) (st : Statics) (h : Heap)
    (o : Obj) : Statics :=
  if st.CalculateIndentation then
    let st := { st with CalculateIndentation := false }
    let st :=
      if Settings.ShowDWARFOffset then
        let OffsetWidth := (snprintf 0 (formatOffset (getDieOffset o))).2
        { st with OffsetWidth := OffsetWidth, IndentationSize := st.IndentationSize + OffsetWidth }
      else st
    let st :=
      if Settings.ShowDWARFParent then
        let ParentWidth := (snprintf 0 (formatOffset (getDieParent h o))).2
        { st with ParentWidth := ParentWidth, IndentationSize := st.IndentationSize + ParentWidth }
      else st
    let st :=
      if Settings.ShowLevel then
        { st with IndentationSize := st.IndentationSize + (snprintf 0 (format03d (getLevel o))).2 }
      else st
    let st :=
      if Settings.ShowIsGlobal then
        { st with IndentationSize :=
            st.IndentationSize + (snprintf 0 (formatGlobal (getIsGlobalReference o))).2 }
      else st
    let st :=
      if Settings.ShowDWARFTag then
        let tag_str := getTagString lib (getDieTag o) (getIsLine o)
        let TagWidth := (snprintf 0 (formatLeft42 tag_str)).2
        { st with TagWidth := TagWidth, IndentationSize := st.IndentationSize + TagWidth }
      else st
    st
  else st

/-- The function `Object::getAttributesAsText` (Object.cpp 407-514): the text and
the process-wide state it leaves; no result stands for a failed assertion
"string overflow". -/
def getAttributesAsText (lib : Library) (Settings : PrintSettings) (st : Statics) (h : Heap)
    (o : Obj) : Option (String × Statics) := do
  let st := calculateIndentation lib Settings st h o
  let Attributes := ""
  let IsInputFileObject := getIsScope o && (getParent o).isNone
  let Attributes ←
    if Settings.ShowDWARFOffset then do
      let Literal ←
        if IsInputFileObject then toLiteral (spaces st.OffsetWidth)
        else toLiteral (formatOffset (getDieOffset o))
      pure (Attributes ++ Literal)
    else pure Attributes
  let Attributes ←
    if Settings.ShowDWARFParent then do
      let Literal ←
        if IsInputFileObject then toLiteral (spaces st.ParentWidth)
        else toLiteral (formatOffset (getDieParent h o))
      pure (Attributes ++ Literal)
    else pure Attributes
  let Attributes ←
    if Settings.ShowLevel then do
      let Literal ←
        if IsInputFileObject then toLiteral "   "
        else toLiteral (format03d (getLevel o))
      pure (Attributes ++ Literal)
    else pure Attributes
  let Attributes ←
    if Settings.ShowIsGlobal then do
      let Literal ← toLiteral (formatGlobal (getIsGlobalReference o))
      pure (Attributes ++ Literal)
    else pure Attributes
  let Attributes ←
    if Settings.ShowDWARFTag then do
      let Literal ←
        if IsInputFileObject then toLiteral (spaces st.TagWidth)
        else toLiteral (formatLeft42 (getTagString lib (getDieTag o) (getIsLine o)))
      pure (Attributes ++ Literal)
    else pure Attributes
  pure (Attributes, st)

/-- The function `Object::getAttributeInfoAsText` (Object.cpp 563-578): the text
and the process-wide state it leaves.  The static `ConstantIndent` is
initialised by the first call, from the `IndentationSize` of that moment, and
read by every later call. -/
def getAttributeInfoAsText (AttributeText : String) (Settings : PrintSettings) (st : Statics)
    (o : Obj) : String × Statics :=
  let ConstantIndent :=
    match st.ConstantIndent with
    | some c => c
    | none => spaces st.IndentationSize ++ spaces 3 ++ getNoLineString ++ spaces 4
  (ConstantIndent ++ getIndentString Settings o ++ "- " ++ AttributeText,
    { st with ConstantIndent := some ConstantIndent })

/-- One of the six blocks `if (flag) Result << '\n' << getAttributeInfoAsText(Kind,
Settings)` of `Line::getAsText` (Line.cpp 114-131), on the text so far and the
process-wide state. -/
def appendAttribute (Settings : PrintSettings) (o : Obj) (r : String × Statics) (flag : Bool)
    (Kind : String) : String × Statics :=
  if flag then
    let a := getAttributeInfoAsText Kind Settings r.2 o
    (r.1 ++ "\n" ++ a.1, a.2)
  else r

/-- The function `Line::getAsText` (Line.cpp 110-134): the text and the
process-wide state it leaves. -/
def Line.getAsText (Settings : PrintSettings) (st : Statics) (o : Obj) : String × Statics :=
  let Result := ("\x7b" ++ Line.getKindAsString o ++ "\x7d", st)
  if Settings.ShowCodelineAttributes then
    let Result := appendAttribute Settings o Result (getIsNewStatement o) "NewStatement"
    let Result := appendAttribute Settings o Result (getIsPrologueEnd o) "PrologueEnd"
    let Result := appendAttribute Settings o Result (getIsLineEndSequence o) "EndSequence"
    let Result := appendAttribute Settings o Result (getIsNewBasicBlock o) "BasicBlock"
    let Result := appendAttribute Settings o Result (getHasDiscriminator o) "Discriminator"
    let Result := appendAttribute Settings o Result (getIsEpilogueBegin o) "EpilogueBegin"
    Result
  else Result


/-! ## `Object::getLineAsString` -/

/-- What `std::to_string` gives for an unsigned number: its decimal digits. -/
def to_string (n : Nat) : String := ⟨Nat.toDigits 10 n⟩

/-- The conversion `%5s`: the text, padded with spaces on the left to 5
characters. -/
def format5s (s : String) : String := ⟨List.replicate (5 - s.length) ' ' ++ s.data⟩

/-- The function `Object::getLineAsString` (Object.cpp 157-172): the content of
the static buffer on return, or the no-line string.  No result stands for the
failed assertion "string overflow" (when assertions are compiled out the
buffer holds the text cut after 15 characters). -/
def getLineAsString (LnNumber : Nat) : Option String :=
  let MaxLineSize := 16
  if LnNumber != 0 then
    let r := snprintf MaxLineSize (format5s (to_string LnNumber) ++ " " ++ "  ")
    let Buffer := r.1
    let Res := r.2
    if Res < MaxLineSize then some Buffer else none
  else some getNoLineString


/-! ## `Scope::print` -/

/-- Modelled from the spec: the output sink `GlobalPrintContext` and the path
functions of `FileUtilities.h`, which the sources use and do not define.
`canOpen` tells whether `open` succeeds on a path. -/
structure PrintContext where
  getLocation : String
  flattenFilePath : String → String
  canOpen : String → Bool

/-- What a print pass does to the sink, in order: it opens the sink of a compile
unit, closes it, or calls the virtual `dump(Settings)` of the object at a
position, which writes the text of that object if the settings ask for it
(`Scope::dump`, Scope.cpp 419-431; `Line::dump`, Line.cpp 93-104). -/
inductive Event where
  | opened (OutFilePath : String)
  | closed
  | dump (Obj : Nat)
  deriving DecidableEq, Repr

/-- How a print pass ends without returning: the fuel of the model is used up, a
pointer that points to no object is followed, or `fatalError` is called for
a sink that cannot be opened. -/
inductive PrintStop where
  | outOfFuel
  | nullDereference
  | fatalError (OutFilePath : String)
  deriving DecidableEq, Repr

/-- A loop `for (X : Collection) { if (Match && !X->getHasPattern()) continue;
X->print(SplitCU, Match, IsNull, Settings); }` (Scope.cpp 387-397), given what
`print` does on one element. -/
def printLoop (h : Heap) (Match : Bool) (printOne : Nat → Except PrintStop (List Event)) :
    List Nat → Except PrintStop (List Event)
  | [] => Except.ok []
  | X :: rest =>
    match h[X]? with
    | none => Except.error PrintStop.nullDereference
    | some x =>
      if Match && !getHasPattern x then printLoop h Match printOne rest
      else
        match printOne X with
        | Except.error e => Except.error e
        | Except.ok out =>
          match printLoop h Match printOne rest with
          | Except.error e => Except.error e
          | Except.ok outs => Except.ok (out ++ outs)

/-- The function `Object::print` (Object.cpp 558-561), which the classes other
than `Scope` use: one call of the virtual `dump`. -/
def Object.print (This : Nat) : Except PrintStop (List Event) := Except.ok [Event.dump This]

/-- The function `Scope::print` (Scope.cpp 363-405) on the scope at position
`This`: the events of the pass.  A child that is a scope is printed by this
function, any other child and every line by `Object::print`. -/
def Scope.print (ctx : PrintContext) :
    Nat → Heap → Nat → Bool → Bool → Bool → PrintSettings → Except PrintStop (List Event)
  | 0, _, _, _, _, _, _ => Except.error PrintStop.outOfFuel
  | fuel + 1, h, This, SplitCU, Match, IsNull, Settings =>
    match h[This]? with
    | none => Except.error PrintStop.nullDereference
    | some o =>
      let OutFilePath := ctx.getLocation ++ ctx.flattenFilePath (getName o) ++ ".txt"
      if SplitCU && getIsCompileUnit o && !ctx.canOpen OutFilePath then
        Except.error (PrintStop.fatalError OutFilePath)
      else
        let Opening := if SplitCU && getIsCompileUnit o then [Event.opened OutFilePath] else []
        let DoPrint := Scope.resolvePrinting Settings o
        let DoPrint := DoPrint && (!Settings.QuietMode || Settings.SplitOutput)
        let Closing := if SplitCU && getIsCompileUnit o then [Event.closed] else []
        if DoPrint then
          let printChild := fun (Obj : Nat) =>
            match h[Obj]? with
            | none => Except.error PrintStop.nullDereference
            | some c =>
              if getIsScope c then Scope.print ctx fuel h Obj SplitCU Match IsNull Settings
              else Object.print Obj
          match printLoop h Match printChild o.Children with
          | Except.error e => Except.error e
          | Except.ok Kids =>
            match printLoop h Match Object.print o.TheLines with
            | Except.error e => Except.error e
            | Except.ok Lines =>
              Except.ok (Opening ++ [Event.dump This] ++ Kids ++ Lines ++ Closing)
        else Except.ok (Opening ++ Closing)


/-! ## `Scope::sortScopes` and `Scope::sortCompileUnits` -/

/-- Modelled from the spec: a comparator `SortFunction`, a function of two object
pointers (its declaration and the comparators are not among the sources).
What a comparator reads of its two objects (line, name, kind, offset) is not
written by a sort, so during a sort it is a fixed relation on pointers. -/
abbrev SortFunction := Nat → Nat → Bool

/-- The library function `std::sort(first, last, comp)` on a vector of pointers:
the vector it leaves.  The standard fixes its result only up to the order of
equivalent elements, so the functions below take it as a parameter. -/
abbrev StdSort := SortFunction → List Nat → List Nat

/-- The loop `for (Scope *Scp : TheScopes) Scp->sortScopes(SortFunc)` (Scope.cpp
259-260), given what `sortScopes` does on one scope. -/
def sortEach (sortOne : Heap → Nat → Option Heap) : Heap → List Nat → Option Heap
  | h, [] => some h
  | h, Scp :: rest =>
    match sortOne h Scp with
    | none => none
    | some h1 => sortEach sortOne h1 rest

/-- The function `Scope::sortScopes(SortFunction)` (Scope.cpp 249-261) on the scope
at position `This`; no result when the fuel is used up or a pointer points
to no object. -/
def sortScopes_SortFunction (sort : StdSort) (SortFunc : SortFunction) :
    Nat → Heap → Nat → Option Heap
  | 0, _, _ => none
  | fuel + 1, h, This =>
    match h[This]? with
    | none => none
    | some o =>
      let o := { o with TheTypes := sort SortFunc o.TheTypes }
      let o := { o with TheSymbols := sort SortFunc o.TheSymbols }
      let o := { o with TheScopes := sort SortFunc o.TheScopes }
      let o := { o with Children := sort SortFunc o.Children }
      sortEach (fun h1 Scp => sortScopes_SortFunction sort SortFunc fuel h1 Scp)
        (h.set This o) o.TheScopes

/-- The function `Scope::sortScopes(const SortingKey &)` (Scope.cpp 241-247).
Modelled from the spec: `getSortFunction` resolves a sorting key to a
comparator, or to none. -/
def Scope.sortScopes {SortingKey : Type} (sort : StdSort)
    (getSortFunction : SortingKey → Option SortFunction) (fuel : Nat) (h : Heap) (This : Nat)
    (SortKey : SortingKey) : Option Heap :=
  match getSortFunction SortKey with
  | some SortFunc => sortScopes_SortFunction sort SortFunc fuel h This
  | none => some h

/-- The function `Scope::sortCompileUnits` (Scope.cpp 263-270). -/
def Scope.sortCompileUnits {SortingKey : Type} (sort : StdSort)
    (getSortFunction : SortingKey → Option SortFunction) (h : Heap) (This : Nat)
    (SortKey : SortingKey) : Option Heap :=
  match h[This]? with
  | none => none
  | some o =>
    match getSortFunction SortKey with
    | some SortFunc =>
      let o := { o with TheScopes := sort SortFunc o.TheScopes }
      let o := { o with Children := sort SortFunc o.Children }
      some (h.set This o)
    | none => some h


/-! ## `std::sort` as the program is linked: libstdc++

The program calls `std::sort` of the C++ standard library.  The definitions
of this section follow the text of libstdc++ (`bits/stl_algo.h` and
`bits/stl_heap.h` of GCC 12), the library of the GNU toolchain the program
is built with: an introsort with the threshold 16, followed by an insertion
sort.  A range is a vector with the positions `first` and `last`; the
comparator is applied to the values at the positions.  Loops that the
library leaves unguarded stop in the model at the ends of the vector, which
they do not reach with a comparator that is a strict weak ordering. -/

/-- The threshold `_S_threshold` (stl_algo.h 1838). -/
def S_threshold : Nat := 16

/-- The function `std::__lg`: the position of the highest set bit. -/
def lg : Nat → Nat → Nat
  | 0, _ => 0
  | fuel + 1, n => if n ≤ 1 then 0 else 1 + lg fuel (n / 2)

/-- The function `std::iter_swap(a, b)`. -/
def iter_swap (v : List Nat) (a b : Nat) : List Nat :=
  (v.set a (v.getD b 0)).set b (v.getD a 0)

/-- The function `__move_median_to_first(result, a, b, c, comp)` (stl_algo.h
82-101). -/
def move_median_to_first (comp : SortFunction) (v : List Nat) (result a b c : Nat) : List Nat :=
  if comp (v.getD a 0) (v.getD b 0) then
    if comp (v.getD b 0) (v.getD c 0) then iter_swap v result b
    else if comp (v.getD a 0) (v.getD c 0) then iter_swap v result c
    else iter_swap v result a
  else if comp (v.getD a 0) (v.getD c 0) then iter_swap v result a
  else if comp (v.getD b 0) (v.getD c 0) then iter_swap v result c
  else iter_swap v result b

/-- The loop of `__unguarded_linear_insert(last, comp)` (stl_algo.h 1782-1797)
for the value `val` taken from the position `last`: while `val` is less than
the element before the hole the element moves up and the hole down; `val` is
stored in the hole the loop ends at. -/
def unguarded_linear_insert (comp : SortFunction) (val : Nat) : Nat → List Nat → List Nat
  | 0, v => v.set 0 val
  | next + 1, v =>
    if comp val (v.getD next 0) then
      unguarded_linear_insert comp val next (v.set (next + 1) (v.getD next 0))
    else v.set (next + 1) val

/-- The body of the loop of `__insertion_sort` (stl_algo.h 1810-1819) for the
position `i`: an element less than the first one is moved to the front, the
range before it moving up by one (`move_backward`); any other element is
inserted by `__unguarded_linear_insert`. -/
def insertion_step (comp : SortFunction) (first i : Nat) (v : List Nat) : List Nat :=
  if comp (v.getD i 0) (v.getD first 0) then
    v.take first ++ v.getD i 0 :: (v.drop first).take (i - first) ++ v.drop (i + 1)
  else unguarded_linear_insert comp (v.getD i 0) i v

/-- The loop `for (i = first + 1; i != last; ++i)` of `__insertion_sort`, with
the number of turns left. -/
def insertion_loop (comp : SortFunction) (first : Nat) : Nat → Nat → List Nat → List Nat
  | 0, _, v => v
  | turns + 1, i, v => insertion_loop comp first turns (i + 1) (insertion_step comp first i v)

/-- The function `__insertion_sort(first, last, comp)` (stl_algo.h 1802-1821). -/
def insertion_sort (comp : SortFunction) (v : List Nat) (first last : Nat) : List Nat :=
  if first = last then v else insertion_loop comp first (last - (first + 1)) (first + 1) v

/-- The function `__unguarded_insertion_sort(first, last, comp)` (stl_algo.h
1826-1832), with the number of turns left. -/
def unguarded_insertion_sort (comp : SortFunction) : Nat → Nat → List Nat → List Nat
  | 0, _, v => v
  | turns + 1, i, v =>
    unguarded_insertion_sort comp turns (i + 1) (unguarded_linear_insert comp (v.getD i 0) i v)

/-- The function `__final_insertion_sort(first, last, comp)` (stl_algo.h
1844-1855). -/
def final_insertion_sort (comp : SortFunction) (v : List Nat) (first last : Nat) : List Nat :=
  if last - first > S_threshold then
    let v := insertion_sort comp v first (first + S_threshold)
    unguarded_insertion_sort comp (last - (first + S_threshold)) (first + S_threshold) v
  else insertion_sort comp v first last

/-- The loop `while (comp(first, pivot)) ++first` of `__unguarded_partition`. -/
def scan_up (comp : SortFunction) (v : List Nat) (pivot : Nat) : Nat → Nat → Nat
  | 0, first => first
  | fuel + 1, first =>
    if comp (v.getD first 0) (v.getD pivot 0) then scan_up comp v pivot fuel (first + 1)
    else first

/-- The loop `while (comp(pivot, last)) --last` of `__unguarded_partition`. -/
def scan_down (comp : SortFunction) (v : List Nat) (pivot : Nat) : Nat → Nat
  | 0 => 0
  | last + 1 =>
    if comp (v.getD pivot 0) (v.getD (last + 1) 0) then scan_down comp v pivot last
    else last + 1

/-- The function `__unguarded_partition(first, last, pivot, comp)` (stl_algo.h
1861-1878): the vector and the cut it returns.  One unit of fuel per turn of
the outer loop. -/
def unguarded_partition (comp : SortFunction) (pivot : Nat) :
    Nat → List Nat → Nat → Nat → List Nat × Nat
  | 0, v, first, _ => (v, first)
  | fuel + 1, v, first, last =>
    let first := scan_up comp v pivot v.length first
    let last := last - 1
    let last := scan_down comp v pivot last
    if !(decide (first < last)) then (v, first)
    else unguarded_partition comp pivot fuel (iter_swap v first last) (first + 1) last

/-- The function `__unguarded_partition_pivot(first, last, comp)` (stl_algo.h
1883-1890). -/
def unguarded_partition_pivot (comp : SortFunction) (v : List Nat) (first last : Nat) :
    List Nat × Nat :=
  let mid := first + (last - first) / 2
  let v := move_median_to_first comp v first (first + 1) mid (last - 1)
  unguarded_partition comp first v.length v (first + 1) last

/-- The loop of `__push_heap(first, holeIndex, topIndex, value, comp)`
(stl_heap.h 135-148), one unit of fuel per turn. -/
def push_heap (comp : SortFunction) (first topIndex value : Nat) :
    Nat → List Nat → Nat → List Nat
  | 0, v, holeIndex => v.set (first + holeIndex) value
  | fuel + 1, v, holeIndex =>
    let parent := (holeIndex - 1) / 2
    if decide (holeIndex > topIndex) && comp (v.getD (first + parent) 0) value then
      push_heap comp first topIndex value fuel
        (v.set (first + holeIndex) (v.getD (first + parent) 0)) parent
    else v.set (first + holeIndex) value

/-- The first loop of `__adjust_heap` (stl_heap.h 229-237): the vector, the
hole and the second child it ends with. -/
def adjust_heap_loop (comp : SortFunction) (first len : Nat) :
    Nat → List Nat → Nat → Nat → List Nat × Nat × Nat
  | 0, v, holeIndex, secondChild => (v, holeIndex, secondChild)
  | fuel + 1, v, holeIndex, secondChild =>
    if secondChild < (len - 1) / 2 then
      let secondChild := 2 * (secondChild + 1)
      let secondChild :=
        if comp (v.getD (first + secondChild) 0) (v.getD (first + (secondChild - 1)) 0)
        then secondChild - 1 else secondChild
      let v := v.set (first + holeIndex) (v.getD (first + secondChild) 0)
      adjust_heap_loop comp first len fuel v secondChild secondChild
    else (v, holeIndex, secondChild)

/-- The function `__adjust_heap(first, holeIndex, len, value, comp)` (stl_heap.h
224-248). -/
def adjust_heap (comp : SortFunction) (v : List Nat) (first holeIndex len value : Nat) :
    List Nat :=
  let topIndex := holeIndex
  let r := adjust_heap_loop comp first len len v holeIndex holeIndex
  let v := r.1
  let holeIndex := r.2.1
  let secondChild := r.2.2
  let r2 : List Nat × Nat :=
    if len % 2 = 0 ∧ secondChild = (len - 2) / 2 then
      let secondChild := 2 * (secondChild + 1)
      (v.set (first + holeIndex) (v.getD (first + (secondChild - 1)) 0), secondChild - 1)
    else (v, holeIndex)
  push_heap comp first topIndex value len r2.1 r2.2

/-- The function `__pop_heap(first, last, result, comp)` (stl_heap.h 254-266). -/
def pop_heap (comp : SortFunction) (v : List Nat) (first last result : Nat) : List Nat :=
  let value := v.getD result 0
  let v := v.set result (v.getD first 0)
  adjust_heap comp v first 0 (last - first) value

/-- The loop of `__make_heap` (stl_heap.h 353-361), from the parent it is at. -/
def make_heap_loop (comp : SortFunction) (first len : Nat) : Nat → List Nat → List Nat
  | 0, v => adjust_heap comp v first 0 len (v.getD first 0)
  | parent + 1, v =>
    make_heap_loop comp first len parent
      (adjust_heap comp v first (parent + 1) len (v.getD (first + (parent + 1)) 0))

/-- The function `__make_heap(first, last, comp)` (stl_heap.h 340-362). -/
def make_heap (comp : SortFunction) (v : List Nat) (first last : Nat) : List Nat :=
  if last - first < 2 then v
  else make_heap_loop comp first (last - first) ((last - first - 2) / 2) v

/-- The function `__sort_heap(first, last, comp)` (stl_heap.h 419-427), one unit
of fuel per turn. -/
def sort_heap (comp : SortFunction) (first : Nat) : Nat → List Nat → Nat → List Nat
  | 0, v, _ => v
  | fuel + 1, v, last =>
    if last - first > 1 then
      let last := last - 1
      sort_heap comp first fuel (pop_heap comp v first last last) last
    else v

/-- The loop of `__heap_select` (stl_algo.h 1631-1633), with the number of turns
left. -/
def heap_select_loop (comp : SortFunction) (first middle : Nat) :
    Nat → Nat → List Nat → List Nat
  | 0, _, v => v
  | turns + 1, i, v =>
    heap_select_loop comp first middle turns (i + 1)
      (if comp (v.getD i 0) (v.getD first 0) then pop_heap comp v first middle i else v)

/-- The function `__heap_select(first, middle, last, comp)` (stl_algo.h
1625-1634). -/
def heap_select (comp : SortFunction) (v : List Nat) (first middle last : Nat) : List Nat :=
  heap_select_loop comp first middle (last - middle) middle (make_heap comp v first middle)

/-- The function `__partial_sort(first, middle, last, comp)` (stl_algo.h
1895-1902). -/
def heap_sort_range (comp : SortFunction) (v : List Nat) (first middle last : Nat) : List Nat :=
  sort_heap comp first v.length (heap_select comp v first middle last) middle

/-- The function `__introsort_loop(first, last, depth_limit, comp)` (stl_algo.h
1908-1926).  One unit of fuel per turn of the loop and per nested call. -/
def introsort_loop (comp : SortFunction) :
    Nat → List Nat → Nat → Nat → Nat → List Nat
  | 0, v, _, _, _ => v
  | fuel + 1, v, first, last, depth_limit =>
    if last - first > S_threshold then
      if depth_limit = 0 then heap_sort_range comp v first last last
      else
        let depth_limit := depth_limit - 1
        let r := unguarded_partition_pivot comp v first last
        let cut := r.2
        let v := introsort_loop comp fuel r.1 cut last depth_limit
        introsort_loop comp fuel v first cut depth_limit
    else v

/-- The function `std::sort(first, last, comp)` on a whole vector, which is
`std::__sort` (stl_algo.h 1932-1942). -/
def std_sort : StdSort := fun comp v =>
  let first := 0
  let last := v.length
  if first ≠ last then
    let v := introsort_loop comp v.length v first last (lg v.length (last - first) * 2)
    final_insertion_sort comp v first last
  else v

/-! ## The qualified name in the words of the specification -/

/-- The objects on the parent chain that starts at a pointer, in walk order,
up to the object that has no parent. -/
def ChainFrom (h : Heap) : Option Nat → List Obj → Prop
  | none, [] => True
  | some p, o :: rest => h[p]? = some o ∧ ChainFrom h (getParent o) rest
  | none, _ :: _ => False
  | some _, [] => False

/-- A compile unit or the tree root (the scope flagged as root): where the
upward walk of the specification stops. -/
def stopsWalk (o : Obj) : Bool :=
  getIsCompileUnit o || (getIsScope o && getIsRoot o)

/-- The ancestors the specification visits: the chain up to but excluding the
first compile unit or tree root. -/
def visitedAncestors (chain : List Obj) : List Obj :=
  chain.takeWhile (fun o => !stopsWalk o)

/-- Name followed by `::` for each object with a non-empty name, in list
order; an object with an empty name contributes nothing. -/
def joinNames : List Obj → String
  | [] => ""
  | o :: rest => (if getName o = "" then "" else getName o ++ "::") ++ joinNames rest

/-- The qualified name of the specification: the visited ancestors, root-most
first, each contributing its name followed by `::`. -/
def specQualifiedName (chain : List Obj) : String :=
  joinNames (visitedAncestors chain).reverse

/-! ## Name synthesis in the words of the specification -/

/-- The tags of the recognised categories: aggregate types, enums,
namespaces, enumerators, inheritance, base types and compile units;
subprograms, arrays and subranges, imported declarations, typedefs, labels;
the qualifiers const, restrict, volatile; pointer, pointer-to-member,
reference, rvalue reference; template parameters and the catch, try and
lexical blocks. -/
def recognisedTags : List Nat :=
  [DW_TAG_base_type, DW_TAG_compile_unit, DW_TAG_namespace, DW_TAG_class_type,
   DW_TAG_structure_type, DW_TAG_union_type, DW_TAG_unspecified_type,
   DW_TAG_enumeration_type, DW_TAG_enumerator, DW_TAG_inheritance,
   DW_TAG_GNU_template_parameter_pack,
   DW_TAG_array_type, DW_TAG_subrange_type, DW_TAG_imported_module,
   DW_TAG_imported_declaration, DW_TAG_subprogram, DW_TAG_subroutine_type,
   DW_TAG_inlined_subroutine, DW_TAG_entry_point, DW_TAG_label, DW_TAG_typedef,
   DW_TAG_const_type, DW_TAG_restrict_type, DW_TAG_volatile_type,
   DW_TAG_pointer_type, DW_TAG_ptr_to_member_type, DW_TAG_reference_type,
   DW_TAG_rvalue_reference_type,
   DW_TAG_template_type_parameter, DW_TAG_template_value_parameter,
   DW_TAG_GNU_template_template_parameter,
   DW_TAG_catch_block, DW_TAG_lexical_block, DW_TAG_try_block]

/-- The characters hold a run of two or more spaces. -/
def hasDoubleSpace : List Char → Bool
  | [] => false
  | [_] => false
  | c :: d :: rest => (c == ' ' && d == ' ') || hasDoubleSpace (d :: rest)


/-- The qualifier categories with a leading keyword. -/
def leadingQualifiers : List (Nat × String) :=
  [(DW_TAG_const_type, "const"), (DW_TAG_volatile_type, "volatile"),
   (DW_TAG_restrict_type, "restrict")]

/-- The qualifier categories with a trailing symbol. -/
def trailingQualifiers : List (Nat × String) :=
  [(DW_TAG_pointer_type, "*"), (DW_TAG_ptr_to_member_type, "*"),
   (DW_TAG_reference_type, "&"), (DW_TAG_rvalue_reference_type, "&&")]


/-! ## YAML in the words of the specification -/

/-- A boolean as YAML writes it: lowercase `true` or `false`. -/
def yamlBool (b : Bool) : String := if b then "true" else "false"

/-- The six attribute keys of a line, in their fixed order. -/
def lineAttributeKeys : List String :=
  ["NewStatement", "PrologueEnd", "EndSequence", "BasicBlock", "Discriminator", "EpilogueBegin"]

/-- The flags the six keys stand for, in the same order. -/
def lineAttributeFlags (o : Obj) : List Bool :=
  [getIsNewStatement o, getIsPrologueEnd o, getIsLineEndSequence o, getIsNewBasicBlock o,
   getHasDiscriminator o, getIsEpilogueBegin o]

/-- One attribute entry: a new line, two spaces, the key, a colon, a space and
the boolean. -/
def yamlEntry (key : String) (b : Bool) : String := "\n  " ++ key ++ ": " ++ yamlBool b

/-- The six attribute entries of a line, one after the other. -/
def specLineAttributes (o : Obj) : String :=
  String.join (List.zipWith yamlEntry lineAttributeKeys (lineAttributeFlags o))

/-- The entity has a type that the common block renders: it has a type and is
not a template parameter type. -/
def hasRenderedType (o : Obj) : Bool := (getType o).isSome && !(getIsType o && getIsTemplateParam o)

/-- The entity is a function scope. -/
def isFunctionScope (o : Obj) : Bool := getIsScope o && getIsFunction o

/-- The type name: the qualified name followed by the name of the type. -/
def specTypeName (ty : Obj) : String := getQualifiedName ty ++ getName ty

/-- The qualified name of an object is cached together with its flag: without
the flag there is no cached text. -/
def QualifiedNameCached (o : Obj) : Prop := getHasQualifiedName o = false → getQualifiedName o = ""


/-- The common block around a type entry: kind and name before it, source and
dwarf after it. -/
def commonBlockWith (lib : Library) (o : Obj) (entry Dwarf : String) : String :=
  commonKind lib o ++ commonName o ++ ("type: " ++ entry ++ "\n") ++ commonSource lib o ++ Dwarf

/-- A text between double quotes. -/
def quoted (s : String) : String := "\"" ++ s ++ "\""


/-- The sixteen lowercase hexadecimal digits, each at the position of its value. -/
def lowerHexDigits : List Char := "0123456789abcdef".data

/-- The number a sequence of lowercase hexadecimal digits denotes, the most
significant digit first. -/
def hexValue (ds : List Char) : Nat :=
  ds.foldl (fun acc c => 16 * acc + lowerHexDigits.indexOf c) 0


/-! ## The text of a line in the words of the specification -/

/-- The labels of the attribute flags that are set on a line, in the fixed
order new-statement, prologue-end, end-sequence, new-basic-block,
has-discriminator, epilogue-begin. -/
def setLineAttributes (o : Obj) : List String :=
  (List.zip lineAttributeKeys (lineAttributeFlags o)).filterMap
    (fun e => if e.2 then some e.1 else none)

/-- The labels `Line::getAsText` renders: those of the set flags when
`ShowCodelineAttributes` is on, none when it is off. -/
def renderedLabels (Settings : PrintSettings) (o : Obj) : List String :=
  if Settings.ShowCodelineAttributes then setLineAttributes o else []

/-- One attribute sub-line: a new line, the indent, "- " and the label. -/
def subLine (indent label : String) : String := "\n" ++ indent ++ "- " ++ label

/-- The number of lines of a text: one more than its new-line characters. -/
def lineCount (s : String) : Nat := s.data.count '\n' + 1


/-! ## Print order in the words of the specification -/

/-- The virtual `print` of the object at a position, by its class: `Scope::print`
for a scope, `Object::print` for any other object. -/
def printOf (ctx : PrintContext) (fuel : Nat) (h : Heap) (SplitCU Match IsNull : Bool)
    (Settings : PrintSettings) (Obj : Nat) : Except PrintStop (List Event) :=
  match h[Obj]? with
  | none => Except.error PrintStop.nullDereference
  | some c =>
    if getIsScope c then Scope.print ctx fuel h Obj SplitCU Match IsNull Settings
    else Object.print Obj

/-- The entries of a collection a print pass keeps: all of them without `Match`,
those that have has-pattern with `Match`. -/
def keptBy (h : Heap) (Match : Bool) (xs : List Nat) : List Nat :=
  xs.filter (fun X =>
    match h[X]? with
    | some x => !(Match && !getHasPattern x)
    | none => false)

/-- The path of the sink of a compile unit. -/
def sinkPath (ctx : PrintContext) (o : Obj) : String :=
  ctx.getLocation ++ ctx.flattenFilePath (getName o) ++ ".txt"

/-- The sink is opened for a compile unit when the output is split. -/
def sinkOpening (ctx : PrintContext) (SplitCU : Bool) (o : Obj) : List Event :=
  if SplitCU && getIsCompileUnit o then [Event.opened (sinkPath ctx o)] else []

/-- The sink is closed for a compile unit when the output is split. -/
def sinkClosing (SplitCU : Bool) (o : Obj) : List Event :=
  if SplitCU && getIsCompileUnit o then [Event.closed] else []

/-- The links of a collection lead to objects of the heap and to a lower rank:
the collection spans a finite tree (or an acyclic graph) below every object. -/
def Ranked (links : Obj → List Nat) (h : Heap) (rank : Nat → Nat) : Prop :=
  ∀ (i : Nat) (o : Obj), h[i]? = some o → ∀ c ∈ links o, c < h.length ∧ rank c < rank i

/-- An executable test of `Ranked`. -/
def rankedB (links : Obj → List Nat) (h : Heap) (rank : Nat → Nat) : Bool :=
  (List.range h.length).all (fun i =>
    match h[i]? with
    | none => true
    | some o => (links o).all (fun c => decide (c < h.length) && decide (rank c < rank i)))

/-- What a print pass follows from a scope: its children and its lines. -/
def printLinks (o : Obj) : List Nat := o.Children ++ o.TheLines


/-- The object at a position has has-pattern set. -/
def hasPatternAt (h : Heap) (X : Nat) : Bool :=
  match h[X]? with
  | some x => getHasPattern x
  | none => false

/-- The call prints: the scope is eligible, and the mode is not quiet unless the
output is split. -/
def doPrint (Settings : PrintSettings) (o : Obj) : Bool :=
  Scope.resolvePrinting Settings o && (!Settings.QuietMode || Settings.SplitOutput)

/-- An event is a dump. -/
def Event.isDump : Event → Bool
  | Event.dump _ => true
  | _ => false


/-! ## Sorting in the words of the specification and of the C++ standard -/

/-- Two elements are equivalent for a comparator: neither is less than the other. -/
def equivalent (comp : SortFunction) (a b : Nat) : Bool := !comp a b && !comp b a

/-- The requirement `Compare` of the C++ standard on the comparator of
`std::sort`, a strict weak ordering: irreflexive, transitive, and with a
transitive equivalence. -/
structure Compare (comp : SortFunction) : Prop where
  irreflexive : ∀ a, comp a a = false
  transitive : ∀ a b c, comp a b = true → comp b c = true → comp a c = true
  equivalence : ∀ a b c, equivalent comp a b = true → equivalent comp b c = true →
    equivalent comp a c = true

/-- A comparator that is a strict total order: a strict weak ordering in which
two different elements are never equivalent. -/
structure StrictTotal (comp : SortFunction) : Prop where
  compare : Compare comp
  total : ∀ a b, a ≠ b → comp a b = true ∨ comp b a = true

/-- A sequence is in comparator order: no element is less than one before it. -/
def InOrder (comp : SortFunction) (xs : List Nat) : Prop :=
  xs.Pairwise (fun a b => comp b a = false)

/-- What the C++ standard guarantees of `std::sort` with a comparator that meets
`Compare`: the range holds the elements it held, in comparator order.  The
relative order of equivalent elements is not guaranteed. -/
structure SortsRange (sort : StdSort) : Prop where
  permutes : ∀ comp xs, Compare comp → (sort comp xs).Perm xs
  orders : ∀ comp xs, Compare comp → InOrder comp (sort comp xs)

/-- An object with the four collections a sort writes emptied: what a sort never
touches, the parent and the lines among it. -/
def stripOrder (o : Obj) : Obj :=
  { o with TheTypes := [], TheSymbols := [], TheScopes := [], Children := [] }

/-- The same object up to the order within the types, symbols, nested-scopes and
Children collections: each holds the elements it held, and nothing else of the
object differs. -/
def SameButOrder (a b : Obj) : Prop :=
  stripOrder b = stripOrder a ∧ b.TheTypes.Perm a.TheTypes ∧ b.TheSymbols.Perm a.TheSymbols ∧
    b.TheScopes.Perm a.TheScopes ∧ b.Children.Perm a.Children

/-- The four sorted collections of a scope are in comparator order. -/
def SortedBy (comp : SortFunction) (o : Obj) : Prop :=
  InOrder comp o.TheTypes ∧ InOrder comp o.TheSymbols ∧ InOrder comp o.TheScopes ∧
    InOrder comp o.Children

/-- The scope at `i` is `S` or is nested under `S`, through the nested-scopes
collections. -/
inductive Nested (h : Heap) : Nat → Nat → Prop where
  | self (S : Nat) : Nested h S S
  | step (S c i : Nat) (o : Obj) : h[S]? = some o → c ∈ o.TheScopes → Nested h c i →
      Nested h S i

/-- What a sort follows from a scope: its nested scopes. -/
def sortLinks (o : Obj) : List Nat := o.TheScopes

/-- A sort that meets the standard and keeps equivalent elements in their order:
insertion from the right. -/
def stableSort : StdSort :=
  fun comp xs => xs.insertionSort (fun a b => comp b a = false)

/-- The comparator "by line" over a heap: the line number of the first object is
less than that of the second. -/
def byLine (h : Heap) : SortFunction :=
  fun a b => decide (((h[a]?).map getLineNumber).getD 0 < ((h[b]?).map getLineNumber).getD 0)

/-- The comparator "by offset" over a heap, where the offset of an object is its
position. -/
def byPosition : SortFunction := fun a b => decide (a < b)


/-- A scope with other nested scopes and Children collections, and nothing else
changed. -/
def withScopesAndChildren (o : Obj) (Scopes Children : List Nat) : Obj :=
  { o with TheScopes := Scopes, Children := Children }


/-! ## Kind labels and print eligibility in the words of the specification -/

/-- The recognised sub-kind flags of a scope with their fixed labels, in the
order of the specification. -/
def specKindTable : List ((Obj → Bool) × String) :=
  [(getIsArrayType, "Array"), (getIsBlock, "Block"), (getIsCompileUnit, "CompileUnit"),
   (getIsEnumerationType, "Enum"), (getIsInlinedSubroutine, "Function"),
   (getIsNamespace, "Namespace"), (getIsTemplatePack, "TemplateParameter"),
   (getIsRoot, "InputFile"), (getIsTemplateAlias, "Alias"), (getIsClassType, "Class"),
   (getIsFunction, "Function"), (getIsStructType, "Struct"), (getIsUnionType, "Union")]

/-- The label of the first flag of the table that the scope has, `Undefined`
when it has none. -/
def specKind (o : Obj) : String :=
  match specKindTable.find? (fun e => e.1 o) with
  | some e => e.2
  | none => "Undefined"

/-- Condition (1) of print eligibility: no visibility restriction, or the
requested visibility is there. -/
def VisibilityOk (Settings : PrintSettings) (o : Obj) : Prop :=
  Settings.ShowOnlyGlobals = Settings.ShowOnlyLocals ∨
    ((Settings.ShowOnlyGlobals = true →
        getHasGlobals o = true ∨ getIsGlobalReference o = true) ∧
     (Settings.ShowOnlyLocals = true →
        getHasLocals o = true ∨ getIsGlobalReference o = false))

/-- Condition (2): not a function that is suppressed as generated (generated
shown off, unnamed and unlined). -/
def GeneratedOk (Settings : PrintSettings) (o : Obj) : Prop :=
  ¬ (getIsFunction o = true ∧ Settings.ShowGenerated = false ∧
      isUnnamed o = true ∧ isUnlined o = true)

/-- Condition (3): when a children filter pattern is configured, the scope
has has-pattern. -/
def PatternOk (Settings : PrintSettings) (o : Obj) : Prop :=
  (Settings.WithChildrenFilters ≠ [] ∨ Settings.WithChildrenFilterAnys ≠ []) →
    getHasPattern o = true

/-! ## The flag properties in the words of the specification -/

/-- The scope reached from `p` by following the parent link `n` times
(`nthParent h 0 p` is `p` itself; the ancestors of `p` are the scopes
`nthParent h n p` with `0 < n`). -/
def nthParent (h : Heap) : Nat → Nat → Option Nat
  | 0, p => some p
  | n + 1, p => (nthParent h n p).bind (fun a => (h[a]?).bind getParent)

/-- The flag read by `GetFunc` is upward-closed in the heap: every object that
has it and has a parent in the heap has it on that parent too. -/
def Closed (GetFunc : Obj → Bool) (h : Heap) : Prop :=
  ∀ (i : Nat) (o : Obj) (j : Nat) (q : Obj), h[i]? = some o → GetFunc o = true →
    getParent o = some j → h[j]? = some q → GetFunc q = true

/-- The kind flag each overload of `addObject` propagates, by class of child. -/
def kindFlag : ObjKind → Obj → Bool
  | ObjKind.scope => getHasScopes
  | ObjKind.symbol => getHasSymbols
  | ObjKind.type => getHasTypes
  | ObjKind.line => getHasLines

/-- The global/local flag the structural overloads propagate, by the
`IsGlobalReference` bit of the child. -/
def globalFlag (isGlobal : Bool) : Obj → Bool :=
  if isGlobal then getHasGlobals else getHasLocals

/-- The six aggregate has-X flags of an object. -/
def aggFlags (o : Obj) : Bool × Bool × Bool × Bool × Bool × Bool :=
  (getHasScopes o, getHasSymbols o, getHasTypes o, getHasLines o, getHasGlobals o,
    getHasLocals o)

/-- Every aggregate flag set on the first object is set on the second. -/
def FlagsLE (a b : Obj) : Prop :=
  (getHasScopes a = true → getHasScopes b = true) ∧
  (getHasSymbols a = true → getHasSymbols b = true) ∧
  (getHasTypes a = true → getHasTypes b = true) ∧
  (getHasLines a = true → getHasLines b = true) ∧
  (getHasGlobals a = true → getHasGlobals b = true) ∧
  (getHasLocals a = true → getHasLocals b = true)

/-! ## Vocabulary of the proofs -/

/-- The heap after the first two statements of an `addObject` overload: the
child pushed on the collections of `This`, then the parent of the child set. -/
def attached (push : Obj → Nat → Obj) (h : Heap) (This Child : Nat) (p c : Obj) : Heap :=
  (h.set This (push p Child)).set Child (setParent c This)

/-- The overloads for `Scope`, `Symbol` and `Type` children are one text up to
the collection pushed on and the kind flag propagated; `addChild` is that text
(each overload is an instance of it by `rfl`, see `addObject_Scope_eq`). -/
def addChild (push : Obj → Nat → Obj) (GetK : Obj → Bool) (SetK : Obj → Obj)
    (v : View) (This Child : Nat) : Option View := do
  let p ← v.Objs[This]?
  let h1 := v.Objs.set This (push p Child)
  let c ← h1[Child]?
  let h2 := h1.set Child (setParent c This)
  let r := incrementFound v.TheReader c
  let h3 ← if getIsGlobalReference c then traverse getHasGlobals setHasGlobals false h2 This
           else traverse getHasLocals setHasLocals false h2 This
  let h4 ← traverse GetK SetK false h3 This
  pure { Objs := h4, TheReader := r }

/-- An object with its six aggregate has-X flags cleared: what `Scope::traverse`
never touches. -/
def stripAgg (o : Obj) : Obj :=
  { o with HasGlobals := false, HasLocals := false, HasLines := false,
           HasScopes := false, HasSymbols := false, HasTypes := false }

/-- An object with its five collections emptied and its parent cleared: what
the first two statements of `addObject` never touch. -/
def stripLinks (o : Obj) : Obj :=
  { o with Parent := none, TheTypes := [], TheSymbols := [], TheScopes := [],
           TheLines := [], Children := [] }

/-- The same object up to the aggregate flags. -/
def SameButAgg (a b : Obj) : Prop := stripAgg a = stripAgg b

/-- The same object up to parent and collections. -/
def SameButLinks (a b : Obj) : Prop := stripLinks a = stripLinks b

/-- The second object has the Children sequence of the first. -/
def SameChildren (a b : Obj) : Prop := b.Children = a.Children

/-- The second state has the global and local flags of the first. -/
def SameGlobalLocal (a b : Obj) : Prop :=
  getHasGlobals b = getHasGlobals a ∧ getHasLocals b = getHasLocals a

/-- The second state has the class, the line capability and the
global-reference bit of the first. -/
def SameClass (a b : Obj) : Prop :=
  b.Kind = a.Kind ∧ getCanHaveLines b = getCanHaveLines a ∧
    getIsGlobalReference b = getIsGlobalReference a

/-- Both heaps hold objects at the same positions, and `R` relates the two
objects at every position. -/
def PW (R : Obj → Obj → Prop) (h h' : Heap) : Prop :=
  h'.length = h.length ∧
    ∀ (i : Nat) (o : Obj), h[i]? = some o → ∃ o' : Obj, h'[i]? = some o' ∧ R o o'

/-- Number of objects of the heap on which `GetFunc` is still false. -/
def unsetCount (GetFunc : Obj → Bool) (h : Heap) : Nat :=
  h.countP (fun o => !GetFunc o)

/-- Upward-closed but for the links into `p`. -/
def ClosedBut (GetFunc : Obj → Bool) (h : Heap) (p : Nat) : Prop :=
  ∀ (i : Nat) (o : Obj) (j : Nat) (q : Obj), h[i]? = some o → GetFunc o = true →
    getParent o = some j → h[j]? = some q → (GetFunc q = true ∨ j = p)

/-- An executable test of `Closed`. -/
def closedB (GetFunc : Obj → Bool) (h : Heap) : Bool :=
  h.all (fun o => !GetFunc o ||
    (match getParent o with
     | none => true
     | some j =>
       match h[j]? with
       | none => true
       | some q => GetFunc q))

/-- The setter that goes with `globalFlag`. -/
def globalSet (isGlobal : Bool) : Obj → Obj :=
  if isGlobal then setHasGlobals else setHasLocals

/-- What the proofs use of a kind flag and of the push of its overload: the
setter sets the flag and nothing but an aggregate flag, the flag is
independent of the global and local flags, and the push changes collections
only. -/
structure Overload (push : Obj → Nat → Obj) (GetK : Obj → Bool) (SetK : Obj → Obj) : Prop where
  sets : ∀ o, GetK (SetK o) = true
  agg : ∀ o, SameButAgg o (SetK o)
  onGlobals : ∀ o, GetK (setHasGlobals o) = GetK o
  onLocals : ∀ o, GetK (setHasLocals o) = GetK o
  keepGlobals : ∀ o, getHasGlobals (SetK o) = getHasGlobals o
  keepLocals : ∀ o, getHasLocals (SetK o) = getHasLocals o
  ofLinks : ∀ a b, SameButLinks a b → GetK a = GetK b
  pushLinks : ∀ o n, SameButLinks o (push o n)
  pushParent : ∀ o n, getParent (push o n) = getParent o

/-- A relation between the states of one object that every elementary step
of `addObject` respects. -/
structure Respected (R : Obj → Obj → Prop) : Prop where
  refl : ∀ o, R o o
  trans : ∀ a b c, R a b → R b c → R a c
  globals : ∀ o, R o (setHasGlobals o)
  locals : ∀ o, R o (setHasLocals o)
  lines : ∀ o, R o (setHasLines o)
  scopes : ∀ o, R o (setHasScopes o)
  symbols : ∀ o, R o (setHasSymbols o)
  types : ∀ o, R o (setHasTypes o)
  pScope : ∀ o n, R o (pushScope o n)
  pSymbol : ∀ o n, R o (pushSymbol o n)
  pType : ∀ o n, R o (pushType o n)
  pLine : ∀ o n, R o (pushLine o n)
  parent : ∀ o q, R o (setParent o q)

/-- The scope `Scope::resolveName` goes to from `X`: the reference of `X` when
`X` has a reference and is unnamed. -/
def refStep (h : Heap) (X : Nat) : Option Nat :=
  match h[X]? with
  | none => none
  | some x => if getHasReference x && isUnnamed x then getReference x else none

/-- The scope reached from `X` after `n` such steps. -/
def refWalk (h : Heap) : Nat → Nat → Option Nat
  | 0, X => some X
  | n + 1, X => (refStep h X).bind (refWalk h n)


/-- The constant indent `Object::getAttributeInfoAsText` works with in a process
state: the initialised static, or else what the call initialises it to. -/
def effectiveIndent (st : Statics) : String :=
  match st.ConstantIndent with
  | some c => c
  | none => spaces st.IndentationSize ++ spaces 3 ++ getNoLineString ++ spaces 4

/-- No attribute flag of the line is set. -/
def noLineAttribute (o : Obj) : Bool :=
  !getIsNewStatement o && !getIsPrologueEnd o && !getIsLineEndSequence o &&
    !getIsNewBasicBlock o && !getHasDiscriminator o && !getIsEpilogueBegin o


/-- The scope after the four calls of `std::sort` of `Scope::sortScopes`. -/
def sortCollections (sort : StdSort) (comp : SortFunction) (o : Obj) : Obj :=
  { o with TheTypes := sort comp o.TheTypes, TheSymbols := sort comp o.TheSymbols,
           TheScopes := sort comp o.TheScopes, Children := sort comp o.Children }

/-- What a run of `Scope::sortScopes` does to one object: it reorders its four
collections, and leaves it as it was or in comparator order. -/
def SortStep (comp : SortFunction) (a b : Obj) : Prop :=
  SameButOrder a b ∧ (b = a ∨ SortedBy comp b)


/-- The same object up to its types, symbols, nested-scopes and Children
collections: the lines among what is the same. -/
def SameButCollections (a b : Obj) : Prop := stripOrder b = stripOrder a


/-! ## Small trees to run the code on -/

/-- A compile unit named `cu`. -/
def exCU : Obj :=
  { Kind := ObjKind.scope, Name := "cu", IsCompileUnit := true, CanHaveLines := true }

/-- A symbol named `x`. -/
def exSym : Obj := { Kind := ObjKind.symbol, Name := "x" }

/-- A heap of two detached objects: the compile unit at 0, the symbol at 1. -/
def exView : View := { Objs := [exCU, exSym] }

/-- A namespace named `outer`. -/
def exOuter : Obj := { Kind := ObjKind.scope, Name := "outer" }

/-- A namespace named `inner`. -/
def exInner : Obj := { Kind := ObjKind.scope, Name := "inner" }

/-- A symbol named `a`. -/
def exS0 : Obj := { Kind := ObjKind.symbol, Name := "a" }

/-- A symbol named `b`. -/
def exS1 : Obj := { Kind := ObjKind.symbol, Name := "b" }

/-- Four objects just constructed: no links, no flags. -/
def exFresh : View := { Objs := [exOuter, exInner, exS0, exS1] }

/-- The scope `outer` once `inner` has been added to it. -/
def exOuterBuilt : Obj :=
  { exOuter with HasLocals := true, HasScopes := true, TheScopes := [1], Children := [1] }

/-- The scope `inner` once added to `outer`, itself still empty. -/
def exInnerEmpty : Obj := { exInner with Parent := some 0 }

/-- The scope `inner` holding the symbol `a` and added to `outer`. -/
def exInnerBuilt : Obj :=
  { exInner with Parent := some 0, HasLocals := true, HasSymbols := true,
                 TheSymbols := [2], Children := [2] }

/-- The state after `outer.addObject(inner)` on `exFresh`: the tree is built
from the top. -/
def exTopDown : View :=
  { Objs := [exOuterBuilt, exInnerEmpty, exS0, exS1],
    TheReader := { FoundScopes := 1 } }

/-- The state after `inner.addObject(a)` and then `outer.addObject(inner)` on
`exFresh`: the tree is built from the bottom. -/
def exBottomUp : View :=
  { Objs := [exOuterBuilt, exInnerBuilt, { exS0 with Parent := some 1 }, exS1],
    TheReader := { FoundScopes := 1, FoundSymbols := 1 } }

/-- A line record. -/
def exLine : Obj := { Kind := ObjKind.line }

/-- A line record that is a global reference. -/
def exGlobalLine : Obj := { Kind := ObjKind.line, IsGlobalReference := true }

/-- A compile unit and a detached line. -/
def exLineView : View := { Objs := [exCU, exLine] }

/-- A compile unit and a detached line that is a global reference. -/
def exGlobalLineView : View := { Objs := [exCU, exGlobalLine] }

/-- A namespace (not line-capable) and a detached line. -/
def exNsLineView : View := { Objs := [exOuter, exLine] }

/-- The tree `file > cu > A > (unnamed) > B > m`: a root, a compile unit, a
namespace `A`, an unnamed namespace, a class `B` and its member `m`. -/
def exNested : View :=
  { Objs := [{ Kind := ObjKind.scope, Name := "file", IsRoot := true },
             { Kind := ObjKind.scope, Name := "cu", IsCompileUnit := true, Parent := some 0 },
             { Kind := ObjKind.scope, Name := "A", Parent := some 1 },
             { Kind := ObjKind.scope, Name := "", Parent := some 2 },
             { Kind := ObjKind.scope, Name := "B", Parent := some 3 },
             { Kind := ObjKind.symbol, Name := "m", Parent := some 4 }] }

/-- The parent chain of `B` in `exNested`. -/
def exNestedChain : List Obj :=
  [{ Kind := ObjKind.scope, Name := "B", Parent := some 3 },
   { Kind := ObjKind.scope, Name := "", Parent := some 2 },
   { Kind := ObjKind.scope, Name := "A", Parent := some 1 },
   { Kind := ObjKind.scope, Name := "cu", IsCompileUnit := true, Parent := some 0 },
   { Kind := ObjKind.scope, Name := "file", IsRoot := true }]

/-- The tree `cu > f > L > m`: a compile unit, a function `f`, a class `L`
declared inside `f`, and a member `m` of `L`. -/
def exLocalClass : View :=
  { Objs := [{ Kind := ObjKind.scope, Name := "cu", IsCompileUnit := true, CanHaveLines := true },
             { Kind := ObjKind.scope, Name := "f", IsFunction := true, CanHaveLines := true,
               Parent := some 0 },
             { Kind := ObjKind.scope, Name := "L", Parent := some 1 },
             { Kind := ObjKind.symbol, Name := "m", Parent := some 2 },
             { Kind := ObjKind.symbol, Name := "x", Parent := some 1 }] }

/-- The tree `file > cu > A > B > C` of three nested namespaces under a
compile unit. -/
def exABC : Heap :=
  [{ Kind := ObjKind.scope, Name := "file", IsRoot := true },
   { Kind := ObjKind.scope, Name := "cu", IsCompileUnit := true, Parent := some 0 },
   { Kind := ObjKind.scope, Name := "A", IsNamespace := true, Parent := some 1 },
   { Kind := ObjKind.scope, Name := "B", IsNamespace := true, Parent := some 2 },
   { Kind := ObjKind.scope, Name := "C", IsNamespace := true, Parent := some 3 }]

/-- A function declaration `f`, its unnamed definition (which refers to the
declaration) and an unnamed inlined instance (which refers to the
definition). -/
def exRefs : Heap :=
  [{ Kind := ObjKind.scope, Name := "f", IsFunction := true },
   { Kind := ObjKind.scope, IsFunction := true, HasReference := true, Reference := some 0 },
   { Kind := ObjKind.scope, IsFunction := true, IsInlinedSubroutine := true,
     HasReference := true, Reference := some 1 }]

/-- The heap `exRefs` once the name of the definition is resolved. -/
def exRefsDef : Heap :=
  [{ Kind := ObjKind.scope, Name := "f", IsFunction := true },
   { Kind := ObjKind.scope, Name := "f", IsFunction := true, HasReference := true,
     Reference := some 0 },
   { Kind := ObjKind.scope, IsFunction := true, IsInlinedSubroutine := true,
     HasReference := true, Reference := some 1 }]

/-- The unnamed inlined instance of `exRefs`. -/
def exInlined : Obj :=
  { Kind := ObjKind.scope, IsFunction := true, IsInlinedSubroutine := true,
    HasReference := true, Reference := some 1 }


/-- A member variable: its tag is in no recognised category. -/
def exMember : Obj := { Kind := ObjKind.symbol, Name := "m", DieTag := DW_TAG_member }

/-- The base type `int`. -/
def exInt : Obj := { Kind := ObjKind.type, Name := "int", DieTag := DW_TAG_base_type }

/-- A const-qualified type, not yet named. -/
def exConst : Obj := { Kind := ObjKind.type, DieTag := DW_TAG_const_type, TheType := some 0 }

/-- A pointer type, not yet named. -/
def exPointer : Obj := { Kind := ObjKind.type, DieTag := DW_TAG_pointer_type, TheType := some 1 }

/-- A pointer type without a type of its own. -/
def exVoidPointer : Obj := { Kind := ObjKind.type, DieTag := DW_TAG_pointer_type }

/-- A base type whose name holds three adjacent spaces. -/
def exSpaced : Obj := { Kind := ObjKind.type, Name := "a   b", DieTag := DW_TAG_base_type }

/-- An unnamed structure type. -/
def exAnonymous : Obj := { Kind := ObjKind.type, DieTag := DW_TAG_structure_type }

/-- The types `int`, `const` over it and a pointer to that; a member; a
pointer to nothing; the type `a   b` and a pointer to it; an unnamed
structure, `const` over it and a pointer to that; a class `S`. -/
def exTypes : Heap :=
  [exInt, exConst, exPointer, exMember, exVoidPointer, exSpaced,
   { exPointer with TheType := some 5 }, exAnonymous,
   { exConst with TheType := some 7 }, { exPointer with TheType := some 8 },
   { Kind := ObjKind.scope, Name := "S", DieTag := DW_TAG_class_type, IsClassType := true }]


/-- The heap `exTypes` once `const int` is named. -/
def exTypesConst : Heap := exTypes.set 1 { exConst with Name := "const int" }

/-- The heap `exTypes` once the `const` over the unnamed structure is named:
its name is `const` followed by a space. -/
def exTypesAnonymous : Heap := exTypes.set 8 { exConst with TheType := some 7, Name := "const " }


/-- A library for the examples: two tag names, file names as they are, one
label for symbols and one for types. -/
def exLibrary : Library :=
  { dwarf_get_TAG_name := fun t =>
      if t = DW_TAG_subprogram then some "DW_TAG_subprogram"
      else if t = DW_TAG_variable then some "DW_TAG_variable"
      else none
    getFileName := fun s => s
    SymbolKind := fun _ => "Variable"
    TypeKind := fun _ => "PrimitiveType" }

/-- A line record at level 1 that begins a statement and has discriminator 3. -/
def exCodeLine : Obj :=
  runLineOps [LineOp.setIsLineRecord, LineOp.setIsNewStatement, LineOp.setDiscriminator 3]
    (Line.new 1)

/-- A heap for the common block: the type `int` (0) with the cached qualified
name `std::`, a function `f` without a return type (1), a variable `v` of
type `int` (2), a variable `w` without a type (3) and a function `g`
returning `int` (4). -/
def exYAML : Heap :=
  [ { Kind := ObjKind.type, Name := "int", QualifiedName := "std::", HasQualifiedName := true },
    { Kind := ObjKind.scope, Name := "f", IsFunction := true, DieTag := DW_TAG_subprogram,
      LineNumber := 7 },
    { Kind := ObjKind.symbol, Name := "v", TheType := some 0, DieTag := DW_TAG_variable },
    { Kind := ObjKind.symbol, Name := "w", DieTag := DW_TAG_variable },
    { Kind := ObjKind.scope, Name := "g", IsFunction := true, TheType := some 0,
      DieTag := DW_TAG_subprogram } ]

/-- The function `f` of `exYAML`. -/
def exYAMLFunction : Obj :=
  { Kind := ObjKind.scope, Name := "f", IsFunction := true, DieTag := DW_TAG_subprogram,
    LineNumber := 7 }

/-- The variable `v` of `exYAML`. -/
def exYAMLVariable : Obj :=
  { Kind := ObjKind.symbol, Name := "v", TheType := some 0, DieTag := DW_TAG_variable }

/-- The variable `w` of `exYAML`. -/
def exYAMLUntyped : Obj := { Kind := ObjKind.symbol, Name := "w", DieTag := DW_TAG_variable }


/-- A symbol at offset 0x2a. -/
def exAtOffset : Obj := { Kind := ObjKind.symbol, Name := "x", DieOffset := 42 }


/-- Settings that show the offsets and the attributes of code lines. -/
def exTextSettings : PrintSettings := { ShowDWARFOffset := true, ShowCodelineAttributes := true }

/-- The process-wide state after the first dump under `exTextSettings`. -/
def exAfterDump : Statics :=
  { IndentationSize := 12, CalculateIndentation := false, OffsetWidth := 12 }

/-- A process-wide state whose constant indent was initialised before any dump. -/
def exEarlyIndent : Statics :=
  { IndentationSize := 12, CalculateIndentation := false, OffsetWidth := 12,
    ConstantIndent := some "               " }


/-- A compile unit `cu` (0) with a function `f` (1), a variable `v` (2) and a
line (5); `f` has a parameter `p` (3) and a line (4).  The variable `v` and the
line of `f` have has-pattern, and so have `cu` and `f`. -/
def exPrint : Heap :=
  [ { Kind := ObjKind.scope, Name := "cu", IsCompileUnit := true, CanHaveLines := true,
      HasPattern := true, TheScopes := [1], TheSymbols := [2], TheLines := [5],
      Children := [1, 2] },
    { Kind := ObjKind.scope, Name := "f", IsFunction := true, CanHaveLines := true,
      HasPattern := true, Parent := some 0, TheSymbols := [3], TheLines := [4],
      Children := [3] },
    { Kind := ObjKind.symbol, Name := "v", Parent := some 0, HasPattern := true },
    { Kind := ObjKind.symbol, Name := "p", Parent := some 1 },
    { Kind := ObjKind.line, Parent := some 1, HasPattern := true },
    { Kind := ObjKind.line, Parent := some 0 } ]

/-- The compile unit of `exPrint`. -/
def exPrintCU : Obj :=
  { Kind := ObjKind.scope, Name := "cu", IsCompileUnit := true, CanHaveLines := true,
    HasPattern := true, TheScopes := [1], TheSymbols := [2], TheLines := [5],
    Children := [1, 2] }

/-- A sink for the examples: every path can be opened. -/
def exContext : PrintContext :=
  { getLocation := "out/", flattenFilePath := fun s => s, canOpen := fun _ => true }

/-- A rank for `exPrint`: the compile unit above the function above the rest. -/
def exPrintRank (i : Nat) : Nat := if i = 0 then 2 else if i = 1 then 1 else 0


/-- A namespace (0) with the nested scopes `a` (3) and `b` (1), the type 2 and the
symbols 5 and 4, attached in the order 3, 5, 2, 1, 4; the scope `b` has the
symbols 7 and 6; every object is on line 7 but the type, on line 3. -/
def exSort : Heap :=
  [ { Kind := ObjKind.scope, Name := "ns", IsNamespace := true, TheScopes := [3, 1],
      TheSymbols := [5, 4], TheTypes := [2], Children := [3, 5, 2, 1, 4], TheLines := [] },
    { Kind := ObjKind.scope, Name := "b", Parent := some 0, LineNumber := 7,
      TheSymbols := [7, 6], Children := [7, 6] },
    { Kind := ObjKind.type, Name := "t", Parent := some 0, LineNumber := 3 },
    { Kind := ObjKind.scope, Name := "a", Parent := some 0, LineNumber := 7 },
    { Kind := ObjKind.symbol, Name := "x", Parent := some 0, LineNumber := 7 },
    { Kind := ObjKind.symbol, Name := "y", Parent := some 0, LineNumber := 7 },
    { Kind := ObjKind.symbol, Name := "p", Parent := some 1, LineNumber := 7 },
    { Kind := ObjKind.symbol, Name := "q", Parent := some 1, LineNumber := 7 } ]

/-- The namespace of `exSort`. -/
def exSortRoot : Obj :=
  { Kind := ObjKind.scope, Name := "ns", IsNamespace := true, TheScopes := [3, 1],
    TheSymbols := [5, 4], TheTypes := [2], Children := [3, 5, 2, 1, 4], TheLines := [] }

/-- The heap `exSort` with every collection of the namespace and of `b` in the
order of the positions. -/
def exSorted : Heap :=
  (exSort.set 0 { exSortRoot with TheScopes := [1, 3], TheSymbols := [4, 5],
                                  Children := [1, 2, 3, 4, 5] }).set 1
    { Kind := ObjKind.scope, Name := "b", Parent := some 0, LineNumber := 7,
      TheSymbols := [6, 7], Children := [6, 7] }

/-- The heap `exSort` with the nested scopes and the Children of the namespace in
the order of the positions, and nothing else moved. -/
def exSortedTop : Heap :=
  exSort.set 0 { exSortRoot with TheScopes := [1, 3], Children := [1, 2, 3, 4, 5] }

/-- A rank for `exSort`: the namespace above the rest. -/
def exSortRank (i : Nat) : Nat := if i = 0 then 1 else 0

/-- Sorting keys for the examples: 1 is "by position", 2 is "by line" over
`exSort`, any other key resolves to no comparator. -/
def exGetSortFunction (SortKey : Nat) : Option SortFunction :=
  if SortKey = 1 then some byPosition
  else if SortKey = 2 then some (byLine exSort)
  else none

/-- Settings of the quiet mode, the output not split. -/
def exQuiet : PrintSettings := { QuietMode := true }


/-! ## The upward walk in the words of the specification -/

/-- The six aggregate has-X flags a scope carries. -/
inductive AggFlag where
  | hasScopes
  | hasSymbols
  | hasTypes
  | hasLines
  | hasGlobals
  | hasLocals
  deriving DecidableEq, Repr

/-- The getter of an aggregate flag. -/
def AggFlag.getter : AggFlag → Obj → Bool
  | .hasScopes => getHasScopes
  | .hasSymbols => getHasSymbols
  | .hasTypes => getHasTypes
  | .hasLines => getHasLines
  | .hasGlobals => getHasGlobals
  | .hasLocals => getHasLocals

/-- The setter of an aggregate flag. -/
def AggFlag.setter : AggFlag → Obj → Obj
  | .hasScopes => setHasScopes
  | .hasSymbols => setHasSymbols
  | .hasTypes => setHasTypes
  | .hasLines => setHasLines
  | .hasGlobals => setHasGlobals
  | .hasLocals => setHasLocals

/-- The first `n` scopes of the parent chain of `This` are objects of the heap
without the flag, and the chain then ends, leaves the heap, or reaches a scope
that has the flag: that scope is the first already-set scope of the chain. -/
def StopsAfter (GetFunc : Obj → Bool) (h : Heap) (This : Nat) (n : Nat) : Prop :=
  (∀ k, k < n → ∃ a o, nthParent h k This = some a ∧ h[a]? = some o ∧ GetFunc o = false) ∧
  (∀ a o, nthParent h n This = some a → h[a]? = some o → GetFunc o = true)

/-- What the upward walk follows from a scope: its parent. -/
def parentLinks (o : Obj) : List Nat := (getParent o).toList

/-- A chain of four scopes, each the parent of the next; the two upper ones
have the has-symbols flag, and the top one has the has-types flag. -/
def exChain : Heap :=
  [{ Kind := ObjKind.scope, Name := "top", HasSymbols := true, HasTypes := true },
   { Kind := ObjKind.scope, Name := "a", Parent := some 0, HasSymbols := true },
   { Kind := ObjKind.scope, Name := "b", Parent := some 1, HasLines := true },
   { Kind := ObjKind.scope, Name := "c", Parent := some 2 }]

/-- The chain after the upward has-symbols walk started at its lowest scope. -/
def exChainWalked : Heap :=
  [{ Kind := ObjKind.scope, Name := "top", HasSymbols := true, HasTypes := true },
   { Kind := ObjKind.scope, Name := "a", Parent := some 0, HasSymbols := true },
   { Kind := ObjKind.scope, Name := "b", Parent := some 1, HasLines := true,
     HasSymbols := true },
   { Kind := ObjKind.scope, Name := "c", Parent := some 2, HasSymbols := true }]


/-! ## The reference walk in the words of the specification -/

/-- The reference walk from `X` enters a cycle: it reaches a scope from which
it comes back to that scope.  Every step of the walk leaves an unnamed scope
that has a reference, so such a cycle consists of such scopes only. -/
def EntersCycle (h : Heap) (X : Nat) : Prop :=
  ∃ n m Y, refWalk h n X = some Y ∧ refWalk h (m + 1) Y = some Y

/-- The reference walk stops at a scope that is named or has no reference. -/
def endsRefWalk (o : Obj) : Bool := !(getHasReference o && isUnnamed o)

/-- An unnamed inlined instance that refers to an unnamed definition, and two
unnamed scopes that refer to each other. -/
def exRefLoop : Heap :=
  [{ Kind := ObjKind.scope, IsFunction := true, HasReference := true, Reference := some 1 },
   { Kind := ObjKind.scope, IsFunction := true, HasReference := true, Reference := some 2 },
   { Kind := ObjKind.scope, IsFunction := true, HasReference := true, Reference := some 1 }]


/-! ## Building a tree from the top in the words of the specification -/

/-- No aggregate flag is set on the object. -/
def noAggregateFlags (o : Obj) : Bool :=
  !getHasScopes o && !getHasSymbols o && !getHasTypes o && !getHasLines o &&
    !getHasGlobals o && !getHasLocals o

/-- A sequence of calls `P.addObject(C)`, given as pairs `(P, C)`, each made
on the state the call before it left (a call that throws leaves the state as
it was).  No result when a call dereferences a position that holds no
object. -/
def addObjects : View → List (Nat × Nat) → Option View
  | v, [] => some v
  | v, call :: rest =>
    match addObject v call.1 call.2 with
    | none => none
    | some out => addObjects out.view rest

/-- The calls build the tree in top-down order: in each call parent and child
are objects of the heap, and the child has no aggregate flag set when it is
attached (as is the case while nothing was added to it). -/
def TopDown : View → List (Nat × Nat) → Prop
  | _, [] => True
  | v, call :: rest =>
    (∃ p c, v.Objs[call.1]? = some p ∧ v.Objs[call.2]? = some c ∧
      noAggregateFlags c = true) ∧
    ∀ out, addObject v call.1 call.2 = some out → TopDown out.view rest


/-! ## Sequences of tree operations in the words of the specification -/

/-- One operation on a tree: a call of `addObject`, of `sortScopes` (with the
fuel of its run) or of `sortCompileUnits`. -/
inductive TreeOp (SortingKey : Type) where
  | callAddObject (P C : Nat)
  | callSortScopes (fuel : Nat) (This : Nat) (SortKey : SortingKey)
  | callSortCompileUnits (This : Nat) (SortKey : SortingKey)

/-- The state one operation leaves (a call of `addObject` that throws leaves
the state as it was); no result when the call has none. -/
def TreeOp.run {SortingKey : Type} (sort : StdSort)
    (getSortFunction : SortingKey → Option SortFunction) (v : View) :
    TreeOp SortingKey → Option View
  | .callAddObject P C => (addObject v P C).map (fun out => out.view)
  | .callSortScopes fuel This SortKey =>
    (Scope.sortScopes sort getSortFunction fuel v.Objs This SortKey).map
      (fun h => { v with Objs := h })
  | .callSortCompileUnits This SortKey =>
    (Scope.sortCompileUnits sort getSortFunction v.Objs This SortKey).map
      (fun h => { v with Objs := h })

/-- A sequence of operations, each on the state the one before it left. -/
def runOps {SortingKey : Type} (sort : StdSort)
    (getSortFunction : SortingKey → Option SortFunction) :
    View → List (TreeOp SortingKey) → Option View
  | v, [] => some v
  | v, op :: rest =>
    match op.run sort getSortFunction v with
    | none => none
    | some w => runOps sort getSortFunction w rest

/-- Every object of the heap starts empty: no children, no nested scopes, no
symbols, no types. -/
def startEmpty (h : Heap) : Bool :=
  h.all (fun o => o.Children.isEmpty && o.TheScopes.isEmpty && o.TheSymbols.isEmpty &&
    o.TheTypes.isEmpty)

/-- The Children sequence of the object is a permutation of the concatenation
of its nested-scopes, symbols and types collections. -/
def ChildrenPermuted (o : Obj) : Prop :=
  o.Children.Perm (o.TheScopes ++ o.TheSymbols ++ o.TheTypes)

/-- Every entry of every Children sequence is an object of the heap that is
not a Line. -/
def NoLineChild (h : Heap) : Prop :=
  ∀ (i : Nat) (o : Obj), h[i]? = some o → ∀ c ∈ o.Children,
    ∃ oc, h[c]? = some oc ∧ oc.Kind ≠ ObjKind.line

/-- The operation has a result on the state: its positions hold objects and,
for a `sortScopes` that sorts, the nested scopes span a finite tree that the
fuel covers. -/
def TreeOp.Defined {SortingKey : Type} (getSortFunction : SortingKey → Option SortFunction)
    (v : View) : TreeOp SortingKey → Prop
  | .callAddObject P C => P < v.Objs.length ∧ C < v.Objs.length
  | .callSortScopes fuel This SortKey =>
    getSortFunction SortKey = none ∨
      (This < v.Objs.length ∧ ∃ rank, Ranked sortLinks v.Objs rank ∧ rank This < fuel)
  | .callSortCompileUnits This _ => This < v.Objs.length

/-- Four objects just constructed, the first a compile unit, and a line. -/
def exFreshLines : View :=
  { Objs := [{ exOuter with CanHaveLines := true }, exInner, exS0, exS1, exLine] }

/-- The operations of the example: `inner`, the symbol `b` and a line are added
to `outer`, the symbol `a` to `inner`, and the tree is sorted by position. -/
def exOps : List (TreeOp Nat) :=
  [TreeOp.callAddObject 0 1, TreeOp.callAddObject 0 3, TreeOp.callAddObject 0 4, TreeOp.callAddObject 1 2,
   TreeOp.callSortScopes 3 0 1, TreeOp.callSortCompileUnits 0 1]

/-- What an operation does to one object, as far as its Children go: the class
is kept, a Children sequence that was a permutation of the three collections
still is one, and every entry of Children was one before or is the child `C`
just added. -/
def ChildStep (C : Nat) (added : Prop) (a b : Obj) : Prop :=
  b.Kind = a.Kind ∧ (ChildrenPermuted a → ChildrenPermuted b) ∧
    ∀ x ∈ b.Children, x ∈ a.Children ∨ (x = C ∧ added)


/-! ## `ScopeFunction::getAsText` -/

/-- The function `ScopeFunction::getAsText` (Scope.cpp 676-733) up to the
closing quote of the name (lines 676-689); the statements that follow append
the offset, the type and the attribute lines to `Result`.  The members
`getIsStatic` and `getIsDeclaredInline` of `ScopeFunction` are not among the
sources; their values are given with the call. -/
def ScopeFunction.getAsText_head (h : Heap) (fuel : Nat) (This : Nat) (o : Obj)
    (IsStatic IsDeclaredInline : Bool) : Option String := do
  let Result := "\x7b"
  let Result := Result ++ Scope.getKindAsString o
  let Result := Result ++ "\x7d"
  let Result := if IsStatic then Result ++ " static" else Result
  let Result := if IsDeclaredInline then Result ++ " inline" else Result
  let Name ← Scope.getQualifiedName h fuel This ""
  let Result := Result ++ " \""
  let Result := Result ++ Name
  let Result := Result ++ "\""
  pure Result

/-! ## The two qualified names in the words of the specification -/

/-- What `Scope::getQualifiedName` appends for one scope: `::` when the
accumulator is not empty, then the name of the scope. -/
def appendScopeName (q : String) (o : Obj) : String :=
  (if !q.isEmpty then q ++ "::" else q) ++ getName o

/-- The accumulator after the scopes of a list, outermost first. -/
def textJoin (acc : String) (l : List Obj) : String := l.foldl appendScopeName acc

/-- Where `Scope::getQualifiedName` stops: a tree root or a compile unit. -/
def stopsText (o : Obj) : Bool := getIsRoot o || getIsCompileUnit o

/-- The name of the YAML rendering: the cached qualified name followed by the
name of the object. -/
def yamlName (o : Obj) : String :=
  (if getHasQualifiedName o then getQualifiedName o else "") ++ getName o

/-- The text a function scope starts with, given its qualified name. -/
def textHead (o : Obj) (IsStatic IsDeclaredInline : Bool) (Name : String) : String :=
  "\x7b" ++ Scope.getKindAsString o ++ "\x7d" ++ (if IsStatic then " static" else "") ++
    (if IsDeclaredInline then " inline" else "") ++ " \"" ++ Name ++ "\""

/-- No unnamed scope of the list, outermost first, comes after a named one. -/
def UnnamedOutermost (l : List Obj) : Prop :=
  ∃ u n, l = u ++ n ∧ (∀ o ∈ u, getName o = "") ∧ (∀ o ∈ n, getName o ≠ "")

/-- The tree `file > cu > A > (unnamed) > f`: a function `f` in an unnamed
namespace of the namespace `A`. -/
def exAnonFunction : View :=
  { Objs := [{ Kind := ObjKind.scope, Name := "file", IsRoot := true },
             { Kind := ObjKind.scope, Name := "cu", IsCompileUnit := true, Parent := some 0 },
             { Kind := ObjKind.scope, Name := "A", IsNamespace := true, Parent := some 1 },
             { Kind := ObjKind.scope, Name := "", IsNamespace := true, Parent := some 2 },
             { Kind := ObjKind.scope, Name := "f", IsFunction := true, Parent := some 3 }] }

/-- The tree `file > cu > (unnamed) > A > f`: a function `f` in the namespace
`A` of an unnamed namespace. -/
def exNamedFunction : View :=
  { Objs := [{ Kind := ObjKind.scope, Name := "file", IsRoot := true },
             { Kind := ObjKind.scope, Name := "cu", IsCompileUnit := true, Parent := some 0 },
             { Kind := ObjKind.scope, Name := "", IsNamespace := true, Parent := some 1 },
             { Kind := ObjKind.scope, Name := "A", IsNamespace := true, Parent := some 2 },
             { Kind := ObjKind.scope, Name := "f", IsFunction := true, Parent := some 3 }] }

/-- The parent chain of the namespace `A` in `exNamedFunction`. -/
def exNamedChain : List Obj :=
  [{ Kind := ObjKind.scope, Name := "A", IsNamespace := true, Parent := some 2 },
   { Kind := ObjKind.scope, Name := "", IsNamespace := true, Parent := some 1 },
   { Kind := ObjKind.scope, Name := "cu", IsCompileUnit := true, Parent := some 0 },
   { Kind := ObjKind.scope, Name := "file", IsRoot := true }]


/-! ## Stable sorting in the words of the specification -/

/-- The stable arrangement in comparator order: the elements are taken in
turn, and each is put behind the elements before it that it is not less
than. -/
def insertionOrder : StdSort :=
  fun comp xs => (xs.reverse.insertionSort (fun a b => comp a b = false)).reverse

/-- Each of the four collections a sort writes holds at most 16 elements, the
threshold `_S_threshold` of the library. -/
def ShortCollections (o : Obj) : Prop :=
  o.TheTypes.length ≤ S_threshold ∧ o.TheSymbols.length ≤ S_threshold ∧
    o.TheScopes.length ≤ S_threshold ∧ o.Children.length ≤ S_threshold

/-- The second state of an object holds, in each of the four collections and
for every element, the elements equivalent to it in the order the first state
has them: equivalent elements kept their relative order. -/
def KeepsEquivalent (comp : SortFunction) (a b : Obj) : Prop :=
  ∀ x : Nat,
    b.TheTypes.filter (equivalent comp x) = a.TheTypes.filter (equivalent comp x) ∧
    b.TheSymbols.filter (equivalent comp x) = a.TheSymbols.filter (equivalent comp x) ∧
    b.TheScopes.filter (equivalent comp x) = a.TheScopes.filter (equivalent comp x) ∧
    b.Children.filter (equivalent comp x) = a.Children.filter (equivalent comp x)


/-- A symbol named `x` on line 7 of the namespace at position 0. -/
def exTiedSymbol : Obj :=
  { Kind := ObjKind.symbol, Name := "x", Parent := some 0, LineNumber := 7 }

/-- A namespace (0) with seventeen symbols, at the positions 1 to 17 and
attached in that order, all alike: same name, same line. -/
def exTied : Heap :=
  { Kind := ObjKind.scope, Name := "ns", IsNamespace := true,
    TheSymbols := [1, 2, 3, 4, 5, 6, 7, 8, 9, 10, 11, 12, 13, 14, 15, 16, 17],
    Children := [1, 2, 3, 4, 5, 6, 7, 8, 9, 10, 11, 12, 13, 14, 15, 16, 17] }
  :: List.replicate 17 exTiedSymbol

/-- The heap `exTied` after one sort by line. -/
def exTiedOnce : Heap :=
  { Kind := ObjKind.scope, Name := "ns", IsNamespace := true,
    TheSymbols := [9, 17, 16, 15, 14, 13, 12, 11, 10, 1, 8, 7, 6, 5, 4, 3, 2],
    Children := [9, 17, 16, 15, 14, 13, 12, 11, 10, 1, 8, 7, 6, 5, 4, 3, 2] }
  :: List.replicate 17 exTiedSymbol

/-- Sorting keys for `exTied`: 2 is "by line", any other key resolves to no
comparator. -/
def exTiedSortFunction (SortKey : Nat) : Option SortFunction :=
  if SortKey = 2 then some (byLine exTied) else none

/-- The heap `exSort` after a sort by line: the type, on line 3, comes first in
Children; the elements on line 7 are in the order they had. -/
def exSortByLine : Heap :=
  exSort.set 0 { exSortRoot with Children := [2, 3, 5, 1, 4] }


/-! ## Text rendering of the scopes: the `getAsText` members of Scope.cpp -/

/-- Modelled from the spec: test of the bit `IsTryBlock` of a block. -/
def getIsTryBlock (o : Obj) : Bool := o.ScopeAttributesFlags.IsTryBlock

/-- Modelled from the spec: test of the bit `IsCatchBlock` of a block. -/
def getIsCatchBlock (o : Obj) : Bool := o.ScopeAttributesFlags.IsCatchBlock

/-- Modelled from the spec: test of the bit `IsTemplate`. -/
def getIsTemplate (o : Obj) : Bool := o.ScopeAttributesFlags.IsTemplate

/-- Modelled from the spec: the member `IsStatic` of `ScopeFunction`. -/
def getIsStatic (o : Obj) : Bool := o.ScopeAttributesFlags.IsStatic

/-- Modelled from the spec: the member `DeclaredInline` of `ScopeFunction`. -/
def getIsDeclaredInline (o : Obj) : Bool := o.ScopeAttributesFlags.IsDeclaredInline

/-- Modelled from the spec: the member `IsDeclaration` of `ScopeFunction`. -/
def getIsDeclaration (o : Obj) : Bool := o.ScopeAttributesFlags.IsDeclaration

/-- Modelled from the spec: test of the bit `IsInlined` of a function. -/
def getIsInlined (o : Obj) : Bool := o.ScopeAttributesFlags.IsInlined

/-- Modelled from the spec: the member `IsClass` of `ScopeEnumeration`. -/
def getIsClass (o : Obj) : Bool := o.ScopeAttributesFlags.IsClass

/-- Modelled from the spec: test of the bit `HasType`. -/
def getHasType (o : Obj) : Bool := o.HasType

/-- A pointer that a member tests and then follows: nothing for the null
pointer, else the object it points to; no result when it points to no object
of the heap. -/
def follow (h : Heap) (p : Option Nat) : Option (Option Obj) :=
  match p with
  | none => some none
  | some t => (h[t]?).map some

/-- The function `Object::getTypeDieOffsetAsString` (Object.cpp 138-145). -/
def getTypeDieOffsetAsString (Settings : PrintSettings) (h : Heap) (o : Obj) : Option String :=
  let Str := ""
  if Settings.ShowDWARFOffset then
    (follow h (getType o)).bind (fun TheType =>
      OffsetAsString (match TheType with
        | some ty => getDieOffset ty
        | none => 0))
  else some Str

/-- The member `Element::getTypeName` (Object.cpp 685-687). -/
def getTypeName (h : Heap) (o : Obj) : Option String :=
  (follow h (getType o)).map (fun TheType =>
    match TheType with
    | some ty => getName ty
    | none => "")

/-- The function `Object::getTypeAsString` (Object.cpp 193-195). -/
def getTypeAsString (Settings : PrintSettings) (h : Heap) (o : Obj) : Option String :=
  if getHasType o then getTypeName h o else some (if Settings.ShowVoid then "void" else "")

/-- The member `Element::getTypeQualifiedName` (Object.cpp 709-713). -/
def getTypeQualifiedName (h : Heap) (o : Obj) : Option String :=
  (follow h (getType o)).map (fun TheType =>
    match TheType with
    | none => ""
    | some ty => getQualifiedName ty)

/-- The function `Scope::getAsText` (Scope.cpp 452-464): the text and the
process-wide state it leaves. -/
def Scope.getAsText (Settings : PrintSettings) (st : Statics) (o : Obj) : String × Statics :=
  let Result := ("", st)
  if getIsBlock o then
    let Result := (Result.1 ++ "\x7b" ++ Scope.getKindAsString o ++ "\x7d", Result.2)
    if Settings.ShowBlockAttributes then
      if getIsTryBlock o then appendAttribute Settings o Result true "try"
      else if getIsCatchBlock o then appendAttribute Settings o Result true "catch"
      else Result
    else Result
  else Result

/-- The function `ScopeAggregate::getAsText` (Scope.cpp 485-501): the text and
the process-wide state it leaves.  The name `getName` returns is a string of
the pool, never the null pointer. -/
def ScopeAggregate.getAsText (Settings : PrintSettings) (st : Statics) (o : Obj) :
    String × Statics :=
  let Name := getName o
  let Result := "\x7b"
  let Result := Result ++ Scope.getKindAsString o
  let Result := Result ++ "\x7d \""
  let Result := Result ++ Name
  let Result := Result ++ "\""
  appendAttribute Settings o (Result, st) (getIsTemplate o) "Template"

/-- The function `ScopeAlias::getAsText` (Scope.cpp 541-547). -/
def ScopeAlias.getAsText (Settings : PrintSettings) (h : Heap) (o : Obj) : Option String := do
  let Offset ← getTypeDieOffsetAsString Settings h o
  let TypeQualifiedName ← getTypeQualifiedName h o
  let TypeText ← getTypeAsString Settings h o
  pure ("\x7b" ++ Scope.getKindAsString o ++ "\x7d \"" ++ getName o ++ "\" -> " ++ Offset ++ "\""
    ++ TypeQualifiedName ++ TypeText ++ "\"")

/-- The function `ScopeArray::getAsText` (Scope.cpp 563-568). -/
def ScopeArray.getAsText (Settings : PrintSettings) (h : Heap) (o : Obj) : Option String := do
  let Offset ← getTypeDieOffsetAsString Settings h o
  pure ("\x7b" ++ Scope.getKindAsString o ++ "\x7d " ++ Offset ++ "\"" ++ getName o ++ "\"")

/-- The function `ScopeCompileUnit::getAsText` (Scope.cpp 594-600). -/
def ScopeCompileUnit.getAsText (o : Obj) : String :=
  let ObjectAsText := ""
  let ObjectAsText := ObjectAsText ++ "\x7b" ++ Scope.getKindAsString o ++ "\x7d"
  let ObjectAsText := ObjectAsText ++ " \"" ++ getName o ++ "\""
  ObjectAsText

/-- The function `ScopeEnumeration::getAsText` (Scope.cpp 618-632). -/
def ScopeEnumeration.getAsText (h : Heap) (o : Obj) : Option String := do
  let ObjectAsText := ""
  let Name := getName o
  let ObjectAsText := ObjectAsText ++ "\x7b" ++ Scope.getKindAsString o ++ "\x7d"
  let ObjectAsText := if getIsClass o then ObjectAsText ++ " " ++ "class" else ObjectAsText
  let ObjectAsText := ObjectAsText ++ " \"" ++ Name ++ "\""
  let TheType ← follow h (getType o)
  pure (match TheType with
    | some ty =>
      if Name != getName ty then ObjectAsText ++ " -> \"" ++ getName ty ++ "\""
      else ObjectAsText
    | none => ObjectAsText)

/-- The first line of `ScopeFunction::getAsText` (Scope.cpp 676-697): the head
up to the name, then the arrow, the offset and the type between quotes. -/
def ScopeFunction.getAsText_line (Settings : PrintSettings) (h : Heap) (fuel : Nat) (This : Nat)
    (o : Obj) : Option String := do
  let Result ← ScopeFunction.getAsText_head h fuel This o (getIsStatic o) (getIsDeclaredInline o)
  let Result := Result ++ " -> "
  let Offset ← getDieOffsetAsString Settings o
  let Result := Result ++ Offset
  let Result := Result ++ "\""
  let TypeQualifiedName ← getTypeQualifiedName h o
  let Result := Result ++ TypeQualifiedName
  let TypeText ← getTypeAsString Settings h o
  let Result := Result ++ TypeText
  let Result := Result ++ "\""
  pure Result

/-- The part "Attributes." of `ScopeFunction::getAsText` (Scope.cpp 699-731), on
the text so far and the process-wide state, for the object the member
`Reference` points to, if any. -/
def ScopeFunction.getAsText_attributes (lib : Library) (Settings : PrintSettings) (o : Obj)
    (Reference : Option Obj) (r : String × Statics) : String × Statics :=
  let r :=
    match Reference with
    | some ref =>
      if getIsFunction ref then
        let r := appendAttribute Settings o r true "Declaration @ "
        let Result := r.1
        let Result :=
          if !getInvalidFileName ref then Result ++ getFileName lib ref true
          else Result ++ "?"
        let Result := Result ++ ","
        let Result := Result ++ to_string (getLineNumber ref)
        (Result, r.2)
      else appendAttribute Settings o r (!getIsDeclaration o) "No declaration"
    | none => appendAttribute Settings o r (!getIsDeclaration o) "No declaration"
  let r := appendAttribute Settings o r (getIsTemplate o) "Template"
  let r := appendAttribute Settings o r (getIsInlined o) "Inlined"
  let r := appendAttribute Settings o r (getIsDeclaration o) "Is declaration"
  r

/-- The function `ScopeFunction::getAsText` (Scope.cpp 676-733): the text and
the process-wide state it leaves. -/
def ScopeFunction.getAsText (lib : Library) (Settings : PrintSettings) (h : Heap) (fuel : Nat)
    (st : Statics) (This : Nat) (o : Obj) : Option (String × Statics) := do
  let Result ← ScopeFunction.getAsText_line Settings h fuel This o
  let Reference ← follow h (getReference o)
  pure (ScopeFunction.getAsText_attributes lib Settings o Reference (Result, st))

/-- The function `ScopeNamespace::getAsText` (Scope.cpp 789-796). -/
def ScopeNamespace.getAsText (h : Heap) (fuel : Nat) (This : Nat) (o : Obj) : Option String := do
  let Result := "\x7b" ++ Scope.getKindAsString o ++ "\x7d"
  let Name ← Scope.getQualifiedName h fuel This ""
  pure (if !Name.isEmpty then Result ++ " \"" ++ Name ++ "\"" else Result)

/-- The function `ScopeTemplatePack::getAsText` (Scope.cpp 814-822). -/
def ScopeTemplatePack.getAsText (o : Obj) : String :=
  let Result := ""
  let Result := Result ++ "\x7b"
  let Result := Result ++ Scope.getKindAsString o
  let Result := Result ++ "\x7d"
  let Result := Result ++ " \""
  let Result := Result ++ getName o
  let Result := Result ++ "\""
  Result

/-- The function `ScopeRoot::getAsText` (Scope.cpp 868-871). -/
def ScopeRoot.getAsText (o : Obj) : String :=
  "\x7b" ++ Scope.getKindAsString o ++ "\x7d \"" ++ getName o ++ "\""

/-- The classes of entities whose `getAsText` is among the sources: `Line`,
`Scope` and the nine classes derived from `Scope`. -/
inductive TextClass where
  | line
  | scope
  | scopeAggregate
  | scopeAlias
  | scopeArray
  | scopeCompileUnit
  | scopeEnumeration
  | scopeFunction
  | scopeNamespace
  | scopeTemplatePack
  | scopeRoot
  deriving DecidableEq, Repr

/-- The virtual `getAsText(Settings)` of an object of the given class: the text
and the process-wide state the call leaves; no result when an assertion fails,
a pointer points to no object or the fuel of the walk to the root is used
up. -/
def getAsText (cls : TextClass) (lib : Library) (Settings : PrintSettings) (h : Heap)
    (fuel : Nat) (st : Statics) (This : Nat) (o : Obj) : Option (String × Statics) :=
  match cls with
  | .line => some (Line.getAsText Settings st o)
  | .scope => some (Scope.getAsText Settings st o)
  | .scopeAggregate => some (ScopeAggregate.getAsText Settings st o)
  | .scopeAlias => (ScopeAlias.getAsText Settings h o).map (fun t => (t, st))
  | .scopeArray => (ScopeArray.getAsText Settings h o).map (fun t => (t, st))
  | .scopeCompileUnit => some (ScopeCompileUnit.getAsText o, st)
  | .scopeEnumeration => (ScopeEnumeration.getAsText h o).map (fun t => (t, st))
  | .scopeFunction => ScopeFunction.getAsText lib Settings h fuel st This o
  | .scopeNamespace => (ScopeNamespace.getAsText h fuel This o).map (fun t => (t, st))
  | .scopeTemplatePack => some (ScopeTemplatePack.getAsText o, st)
  | .scopeRoot => some (ScopeRoot.getAsText o, st)

/-! ## The text of an entity in the words of the specification -/

/-- The text of the entity has an attribute line: `getAsText` calls
`getAttributeInfoAsText` at least once. -/
def rendersAttribute (cls : TextClass) (Settings : PrintSettings) (o : Obj) : Bool :=
  match cls with
  | .line => Settings.ShowCodelineAttributes && !noLineAttribute o
  | .scope =>
    getIsBlock o && Settings.ShowBlockAttributes && (getIsTryBlock o || getIsCatchBlock o)
  | .scopeAggregate => getIsTemplate o
  | .scopeFunction => true
  | _ => false

/-- Attribute lines in the words of the specification: each is a line feed, the
constant indent and the rest of the line. -/
def attributeLines (ConstantIndent : String) : List String → String
  | [] => ""
  | Rest :: Lines => "\n" ++ ConstantIndent ++ Rest ++ attributeLines ConstantIndent Lines

/-- The classes whose `getAsText` follows no pointer and has no assertion. -/
def TextClass.isTotal : TextClass → Bool
  | .line | .scope | .scopeAggregate | .scopeCompileUnit | .scopeTemplatePack | .scopeRoot => true
  | _ => false

/-- A static function `f` that is a template and has no declaration. -/
def exTemplateFunction : Obj :=
  { Kind := ObjKind.scope, Name := "f", IsFunction := true, Parent := some 0, Level := 1,
    ScopeAttributesFlags := { IsTemplate := true, IsStatic := true } }

/-- The compile unit `cu` (0) with the function `exTemplateFunction` (1). -/
def exTextFunction : Heap :=
  [{ Kind := ObjKind.scope, Name := "cu", IsCompileUnit := true }, exTemplateFunction]


/-! ## Theorems -/

theorem PW.refl {R : Obj → Obj → Prop} (hr : ∀ o, R o o) (h : Heap) : PW R h h :=
  ⟨rfl, fun _ o ho => ⟨o, ho, hr o⟩⟩

theorem PW.trans {R : Obj → Obj → Prop} (ht : ∀ a b c, R a b → R b c → R a c)
    {h1 h2 h3 : Heap} (h12 : PW R h1 h2) (h23 : PW R h2 h3) : PW R h1 h3 := by
  refine ⟨h23.1.trans h12.1, fun i o ho => ?_⟩
  obtain ⟨o2, ho2, r12⟩ := h12.2 i o ho
  obtain ⟨o3, ho3, r23⟩ := h23.2 i o2 ho2
  exact ⟨o3, ho3, ht _ _ _ r12 r23⟩

theorem PW.set {R : Obj → Obj → Prop} (hr : ∀ o, R o o) {h : Heap} {p : Nat} {o o' : Obj}
    (ho : h[p]? = some o) (hR : R o o') : PW R h (h.set p o') := by
  refine ⟨List.length_set _ _ _, fun i a ha => ?_⟩
  by_cases hip : p = i
  · subst hip
    have hlt : p < h.length := (List.getElem?_eq_some.1 ho).1
    rw [ho] at ha
    cases ha
    exact ⟨o', by simp [List.getElem?_set, hlt], hR⟩
  · exact ⟨a, by simp [List.getElem?_set, hip, ha], hr a⟩

theorem PW.mono {R R' : Obj → Obj → Prop} (hi : ∀ a b, R a b → R' a b) {h h' : Heap}
    (hpw : PW R h h') : PW R' h h' :=
  ⟨hpw.1, fun i o ho => by
    obtain ⟨o', ho', r⟩ := hpw.2 i o ho
    exact ⟨o', ho', hi _ _ r⟩⟩

/-- Whatever `Scope::traverse` does to the heap, it does by applying
`SetFunc` to objects: a reflexive, transitive relation that holds between
every object and its image under `SetFunc` holds between the heap before and
the heap after. -/
theorem traverseLoop_PW {R : Obj → Obj → Prop} (G : Obj → Bool) (S : Obj → Obj)
    (hr : ∀ o, R o o) (ht : ∀ a b c, R a b → R b c → R a c) (hs : ∀ o, R o (S o)) :
    ∀ (fuel : Nat) (pos : Option Nat) (h h' : Heap),
      traverseLoop G S fuel pos h = some h' → PW R h h' := by
  intro fuel
  induction fuel with
  | zero => intro pos h h' e; simp [traverseLoop] at e
  | succ n ih =>
    intro pos h h' e
    cases pos with
    | none =>
      simp [traverseLoop] at e
      subst e
      exact PW.refl hr h
    | some p =>
      simp only [traverseLoop] at e
      cases hp : h[p]? with
      | none =>
        rw [hp] at e
        simp at e
        subst e
        exact PW.refl hr h
      | some o =>
        rw [hp] at e
        simp only at e
        by_cases hg : G o = true
        · simp [hg] at e
          subst e
          exact PW.refl hr h
        · simp [hg] at e
          exact PW.trans ht (PW.set hr hp (hs o)) (ih _ _ _ e)

theorem unsetCount_le (G : Obj → Bool) (h : Heap) : unsetCount G h ≤ h.length :=
  List.countP_le_length _

theorem unsetCount_set (G : Obj → Bool) {h : Heap} {p : Nat} {o o' : Obj}
    (ho : h[p]? = some o) (hg : G o = false) (hg' : G o' = true) :
    unsetCount G (h.set p o') + 1 = unsetCount G h := by
  obtain ⟨hlt, hget⟩ := List.getElem?_eq_some.1 ho
  have hpos : 0 < unsetCount G h := by
    unfold unsetCount
    rw [List.countP_pos_iff]
    exact ⟨o, hget ▸ List.getElem_mem _, by simp [hg]⟩
  unfold unsetCount at hpos ⊢
  rw [List.countP_set _ _ _ _ hlt]
  simp [hget, hg, hg']
  omega

/-- The loop of `Scope::traverse` ends: with more fuel than there are objects
still lacking the flag, it leaves through its own exit. -/
theorem traverseLoop_terminates (G : Obj → Bool) (S : Obj → Obj) (hgs : ∀ o, G (S o) = true) :
    ∀ (fuel : Nat) (pos : Option Nat) (h : Heap), unsetCount G h < fuel →
      ∃ h', traverseLoop G S fuel pos h = some h' := by
  intro fuel
  induction fuel with
  | zero => intro pos h hlt; omega
  | succ n ih =>
    intro pos h hlt
    cases pos with
    | none => exact ⟨h, by simp [traverseLoop]⟩
    | some p =>
      simp only [traverseLoop]
      cases hp : h[p]? with
      | none => exact ⟨h, rfl⟩
      | some o =>
        simp only
        by_cases hg : G o = true
        · exact ⟨h, by simp [hg]⟩
        · simp only [hg]
          have hg0 : G o = false := by simpa using hg
          have := unsetCount_set G hp hg0 (hgs o)
          exact ih _ _ (by omega)

theorem traverse_terminates (G : Obj → Bool) (S : Obj → Obj) (hgs : ∀ o, G (S o) = true)
    (d : Bool) (h : Heap) (p : Nat) : ∃ h', traverse G S d h p = some h' :=
  traverseLoop_terminates G S hgs _ _ _ (Nat.lt_succ_of_le (unsetCount_le G h))

/-! ### The three structural overloads are instances of `addChild` -/

theorem addObject_Scope_eq :
    addObject_Scope = addChild pushScope getHasScopes setHasScopes := rfl

theorem addObject_Symbol_eq :
    addObject_Symbol = addChild pushSymbol getHasSymbols setHasSymbols := rfl

theorem addObject_Type_eq :
    addObject_Type = addChild pushType getHasTypes setHasTypes := rfl

/-! ### The heap after push and setParent -/

theorem attached_child {push : Obj → Nat → Obj} {h : Heap} {This Child : Nat} {p c : Obj}
    (hc : (h.set This (push p Child))[Child]? = some c) :
    (attached push h This Child p c)[Child]? = some (setParent c This) := by
  have hlt : Child < h.length := by simpa using (List.getElem?_eq_some.1 hc).1
  simp [attached, List.getElem?_set, hlt]

theorem attached_other {push : Obj → Nat → Obj} {h : Heap} {This Child : Nat} {p c : Obj}
    {i : Nat} (h1 : i ≠ This) (h2 : i ≠ Child) :
    (attached push h This Child p c)[i]? = h[i]? := by
  simp [attached, List.getElem?_set, Ne.symm h1, Ne.symm h2]

theorem attached_this {push : Obj → Nat → Obj} {h : Heap} {This Child : Nat} {p c : Obj}
    (hp : h[This]? = some p) (hne : Child ≠ This) :
    (attached push h This Child p c)[This]? = some (push p Child) := by
  have hlt : This < h.length := (List.getElem?_eq_some.1 hp).1
  simp [attached, List.getElem?_set, hne, hlt]

theorem attached_looked_up {push : Obj → Nat → Obj} {h : Heap} {This Child : Nat} {p c c0 : Obj}
    (hp : h[This]? = some p) (hc0 : h[Child]? = some c0)
    (hc : (h.set This (push p Child))[Child]? = some c) :
    c = if Child = This then push p Child else c0 := by
  have hlt : This < h.length := (List.getElem?_eq_some.1 hp).1
  by_cases e : Child = This
  · subst e
    simp [List.getElem?_set, hlt] at hc
    simp [hc]
  · simp [List.getElem?_set, Ne.symm e, hc0] at hc
    simp [e, hc]

theorem attached_PW {R : Obj → Obj → Prop} {push : Obj → Nat → Obj}
    (hr : ∀ o, R o o) (ht : ∀ a b c, R a b → R b c → R a c)
    (hpush : ∀ o n, R o (push o n)) (hpar : ∀ o q, R o (setParent o q))
    {h : Heap} {This Child : Nat} {p c : Obj}
    (hp : h[This]? = some p) (hc : (h.set This (push p Child))[Child]? = some c) :
    PW R h (attached push h This Child p c) :=
  PW.trans ht (PW.set hr hp (hpush p Child)) (PW.set hr hc (hpar c This))

/-- The run of `addChild` step by step: the lookups succeed, both walks end,
and the result is the heap after the second walk. -/
theorem addChild_run (push : Obj → Nat → Obj) (GetK : Obj → Bool) (SetK : Obj → Obj)
    (hK : ∀ o, GetK (SetK o) = true)
    (v : View) (This Child : Nat) (p c0 : Obj)
    (hp : v.Objs[This]? = some p) (hc0 : v.Objs[Child]? = some c0) :
    ∃ c h3 h4, (v.Objs.set This (push p Child))[Child]? = some c ∧
      (if getIsGlobalReference c
        then traverse getHasGlobals setHasGlobals false (attached push v.Objs This Child p c) This
        else traverse getHasLocals setHasLocals false (attached push v.Objs This Child p c) This)
        = some h3 ∧
      traverse GetK SetK false h3 This = some h4 ∧
      addChild push GetK SetK v This Child = some { Objs := h4, TheReader := incrementFound v.TheReader c } := by
  have hlt : Child < (v.Objs.set This (push p Child)).length := by
    rw [List.length_set]; exact (List.getElem?_eq_some.1 hc0).1
  obtain ⟨c, hc⟩ : ∃ c, (v.Objs.set This (push p Child))[Child]? = some c :=
    ⟨_, List.getElem?_eq_getElem hlt⟩
  obtain ⟨h3, e3⟩ : ∃ h3, (if getIsGlobalReference c
        then traverse getHasGlobals setHasGlobals false (attached push v.Objs This Child p c) This
        else traverse getHasLocals setHasLocals false (attached push v.Objs This Child p c) This)
        = some h3 := by
    by_cases g : getIsGlobalReference c = true
    · rw [if_pos g]
      exact traverse_terminates _ _ (fun _ => rfl) _ _ _
    · rw [if_neg g]
      exact traverse_terminates _ _ (fun _ => rfl) _ _ _
  obtain ⟨h4, e4⟩ := traverse_terminates GetK SetK hK false h3 This
  refine ⟨c, h3, h4, hc, e3, e4, ?_⟩
  unfold attached at e3
  simp only [addChild, hp, hc, Option.bind_eq_bind, Option.some_bind]
  by_cases g : getIsGlobalReference c = true
  · rw [if_pos g] at e3 ⊢
    simp only [e3, e4, Option.some_bind]
    rfl
  · rw [if_neg g] at e3 ⊢
    simp only [e3, e4, Option.some_bind]
    rfl

theorem sameButAgg_refl (o : Obj) : SameButAgg o o := rfl

theorem sameButAgg_trans (a b c : Obj) (h1 : SameButAgg a b) (h2 : SameButAgg b c) :
    SameButAgg a c := Eq.trans h1 h2

theorem traverse_PW {R : Obj → Obj → Prop} (G : Obj → Bool) (S : Obj → Obj)
    (hr : ∀ o, R o o) (ht : ∀ a b c, R a b → R b c → R a c) (hs : ∀ o, R o (S o))
    {d : Bool} {h h' : Heap} {p : Nat} (e : traverse G S d h p = some h') : PW R h h' :=
  traverseLoop_PW G S hr ht hs _ _ _ _ e

/-- What a structural `addObject` does, whole: it returns, the looked-up child
is the child of the heap before (or the parent itself, just pushed on, when a
scope is added to itself), and between the heap after push and setParent and
the final heap only `setHasGlobals`, `setHasLocals` and the kind setter were
applied. -/
theorem addChild_spec (push : Obj → Nat → Obj) (GetK : Obj → Bool) (SetK : Obj → Obj)
    (hK : ∀ o, GetK (SetK o) = true)
    (v : View) (This Child : Nat) (p c0 : Obj)
    (hp : v.Objs[This]? = some p) (hc0 : v.Objs[Child]? = some c0) :
    ∃ c h4, c = (if Child = This then push p Child else c0) ∧
      (v.Objs.set This (push p Child))[Child]? = some c ∧
      addChild push GetK SetK v This Child
        = some { Objs := h4, TheReader := incrementFound v.TheReader c } ∧
      ∀ R : Obj → Obj → Prop, (∀ o, R o o) → (∀ a b c, R a b → R b c → R a c) →
        (∀ o, R o (setHasGlobals o)) → (∀ o, R o (setHasLocals o)) → (∀ o, R o (SetK o)) →
        PW R (attached push v.Objs This Child p c) h4 := by
  obtain ⟨c, h3, h4, hc, e3, e4, e⟩ := addChild_run push GetK SetK hK v This Child p c0 hp hc0
  refine ⟨c, h4, attached_looked_up hp hc0 hc, hc, e, ?_⟩
  intro R hr ht hG hL hS
  have h23 : PW R (attached push v.Objs This Child p c) h3 := by
    by_cases g : getIsGlobalReference c = true
    · rw [if_pos g] at e3
      exact traverse_PW _ _ hr ht hG e3
    · rw [if_neg g] at e3
      exact traverse_PW _ _ hr ht hL e3
  exact PW.trans ht h23 (traverse_PW _ _ hr ht hS e4)

/-- The parent and the child after a structural `addObject`, up to their
aggregate flags. -/
theorem addChild_objects (push : Obj → Nat → Obj) (GetK : Obj → Bool) (SetK : Obj → Obj)
    (hK : ∀ o, GetK (SetK o) = true) (hS : ∀ o, SameButAgg o (SetK o))
    (v : View) (This Child : Nat) (p c0 : Obj)
    (hp : v.Objs[This]? = some p) (hc0 : v.Objs[Child]? = some c0) :
    ∃ w p' c', addChild push GetK SetK v This Child = some w ∧
      w.Objs[This]? = some p' ∧ w.Objs[Child]? = some c' ∧
      SameButAgg (if Child = This then setParent (push p Child) This else push p Child) p' ∧
      SameButAgg (setParent (if Child = This then push p Child else c0) This) c' := by
  obtain ⟨c, h4, hceq, hc, e, hR⟩ := addChild_spec push GetK SetK hK v This Child p c0 hp hc0
  have hpw := hR SameButAgg sameButAgg_refl sameButAgg_trans (fun _ => rfl) (fun _ => rfl) hS
  have hchild := @attached_child push v.Objs This Child p c hc
  obtain ⟨c', hc', rc⟩ := hpw.2 _ _ hchild
  have hthis : (attached push v.Objs This Child p c)[This]?
      = some (if Child = This then setParent (push p Child) This else push p Child) := by
    by_cases e : Child = This
    · rw [if_pos e]
      have hc2 : c = push p Child := by rw [hceq, if_pos e]
      rw [← hc2]
      have := hchild
      rw [e] at this ⊢
      exact this
    · rw [if_neg e]
      exact attached_this hp e
  obtain ⟨p', hp', rp⟩ := hpw.2 _ _ hthis
  refine ⟨_, p', c', e, hp', hc', rp, ?_⟩
  rw [← hceq]
  exact rc

theorem SameButAgg.links {a b : Obj} (h : SameButAgg a b) :
    a.Parent = b.Parent ∧ a.Children = b.Children ∧ a.TheScopes = b.TheScopes ∧
      a.TheSymbols = b.TheSymbols ∧ a.TheTypes = b.TheTypes ∧ a.TheLines = b.TheLines := by
  have h' : stripAgg a = stripAgg b := h
  have e1 := congrArg Obj.Parent h'
  have e2 := congrArg Obj.Children h'
  have e3 := congrArg Obj.TheScopes h'
  have e4 := congrArg Obj.TheSymbols h'
  have e5 := congrArg Obj.TheTypes h'
  have e6 := congrArg Obj.TheLines h'
  exact ⟨e1, e2, e3, e4, e5, e6⟩

theorem pushed_links (push : Obj → Nat → Obj) (p : Obj) (P C : Nat) :
    (if C = P then setParent (push p C) P else push p C).Children = (push p C).Children ∧
    (if C = P then setParent (push p C) P else push p C).TheScopes = (push p C).TheScopes ∧
    (if C = P then setParent (push p C) P else push p C).TheSymbols = (push p C).TheSymbols ∧
    (if C = P then setParent (push p C) P else push p C).TheTypes = (push p C).TheTypes ∧
    (if C = P then setParent (push p C) P else push p C).TheLines = (push p C).TheLines := by
  by_cases e : C = P
  · rw [if_pos e]; exact ⟨rfl, rfl, rfl, rfl, rfl⟩
  · rw [if_neg e]; exact ⟨rfl, rfl, rfl, rfl, rfl⟩

/-- The collections of the parent and the parent link of the child after a
structural `addObject`, in terms of the push function of the overload. -/
theorem addChild_links (push : Obj → Nat → Obj) (GetK : Obj → Bool) (SetK : Obj → Obj)
    (hK : ∀ o, GetK (SetK o) = true) (hS : ∀ o, SameButAgg o (SetK o))
    (v : View) (This Child : Nat) (p c0 : Obj)
    (hp : v.Objs[This]? = some p) (hc0 : v.Objs[Child]? = some c0) :
    ∃ w p' c', addChild push GetK SetK v This Child = some w ∧
      w.Objs[This]? = some p' ∧ w.Objs[Child]? = some c' ∧
      getParent c' = some This ∧
      p'.Children = (push p Child).Children ∧ p'.TheScopes = (push p Child).TheScopes ∧
      p'.TheSymbols = (push p Child).TheSymbols ∧ p'.TheTypes = (push p Child).TheTypes ∧
      p'.TheLines = (push p Child).TheLines := by
  obtain ⟨w, p', c', e, hp', hc', rp, rc⟩ :=
    addChild_objects push GetK SetK hK hS v This Child p c0 hp hc0
  obtain ⟨_, l1, l2, l3, l4, l5⟩ := rp.links
  obtain ⟨q1, q2, q3, q4, q5⟩ := pushed_links push p This Child
  exact ⟨w, p', c', e, hp', hc', rc.links.1.symm, l1.symm.trans q1, l2.symm.trans q2,
    l3.symm.trans q3, l4.symm.trans q4, l5.symm.trans q5⟩

/-- C1: for every scope `P` and every child `C` that is a Scope, a Symbol or a
Type, `P.addObject(C)` returns without throwing, and afterwards `C` is the
last element of the collection of its kind in `P` and of the Children sequence
of `P` with all earlier elements as before, the other kind collections and
the Lines collection of `P` are as before, and the parent of `C` is `P`. -/
theorem addObject_appends_child (v : View) (P C : Nat) (p c : Obj)
    (hp : v.Objs[P]? = some p) (hc : v.Objs[C]? = some c) (hk : c.Kind ≠ ObjKind.line) :
    ∃ out p' c', addObject v P C = some out ∧ out.thrown = none ∧
      out.view.Objs[P]? = some p' ∧ out.view.Objs[C]? = some c' ∧
      getParent c' = some P ∧
      p'.Children = p.Children ++ [C] ∧ p'.TheLines = p.TheLines ∧
      (c.Kind = ObjKind.scope → p'.TheScopes = p.TheScopes ++ [C] ∧
        p'.TheSymbols = p.TheSymbols ∧ p'.TheTypes = p.TheTypes) ∧
      (c.Kind = ObjKind.symbol → p'.TheSymbols = p.TheSymbols ++ [C] ∧
        p'.TheScopes = p.TheScopes ∧ p'.TheTypes = p.TheTypes) ∧
      (c.Kind = ObjKind.type → p'.TheTypes = p.TheTypes ++ [C] ∧
        p'.TheScopes = p.TheScopes ∧ p'.TheSymbols = p.TheSymbols) := by
  cases hkind : c.Kind with
  | line => exact absurd hkind hk
  | scope =>
    obtain ⟨w, p', c', e, hp', hc', hpar, l1, l2, l3, l4, l5⟩ :=
      addChild_links pushScope getHasScopes setHasScopes (fun _ => rfl) (fun _ => rfl)
        v P C p c hp hc
    refine ⟨{ view := w }, p', c', ?_, rfl, hp', hc', hpar, l1, l5, ?_, ?_, ?_⟩
    · simp [addObject, hc, hkind, addObject_Scope_eq, e]
    · intro _; exact ⟨l2, l3, l4⟩
    · intro k; cases k
    · intro k; cases k
  | symbol =>
    obtain ⟨w, p', c', e, hp', hc', hpar, l1, l2, l3, l4, l5⟩ :=
      addChild_links pushSymbol getHasSymbols setHasSymbols (fun _ => rfl) (fun _ => rfl)
        v P C p c hp hc
    refine ⟨{ view := w }, p', c', ?_, rfl, hp', hc', hpar, l1, l5, ?_, ?_, ?_⟩
    · simp [addObject, hc, hkind, addObject_Symbol_eq, e]
    · intro k; cases k
    · intro _; exact ⟨l3, l2, l4⟩
    · intro k; cases k
  | type =>
    obtain ⟨w, p', c', e, hp', hc', hpar, l1, l2, l3, l4, l5⟩ :=
      addChild_links pushType getHasTypes setHasTypes (fun _ => rfl) (fun _ => rfl)
        v P C p c hp hc
    refine ⟨{ view := w }, p', c', ?_, rfl, hp', hc', hpar, l1, l5, ?_, ?_, ?_⟩
    · simp [addObject, hc, hkind, addObject_Type_eq, e]
    · intro k; cases k
    · intro k; cases k
    · intro _; exact ⟨l4, l2, l3⟩

theorem addObject_appends_child_witness :
    exView.Objs[0]? = some exCU ∧ exView.Objs[1]? = some exSym ∧
    exSym.Kind ≠ ObjKind.line ∧
    ∃ out p' c', addObject exView 0 1 = some out ∧ out.thrown = none ∧
      out.view.Objs[0]? = some p' ∧ out.view.Objs[1]? = some c' ∧
      getParent c' = some 0 ∧
      p'.Children = exCU.Children ++ [1] ∧ p'.TheLines = exCU.TheLines ∧
      (exSym.Kind = ObjKind.scope → p'.TheScopes = exCU.TheScopes ++ [1] ∧
        p'.TheSymbols = exCU.TheSymbols ∧ p'.TheTypes = exCU.TheTypes) ∧
      (exSym.Kind = ObjKind.symbol → p'.TheSymbols = exCU.TheSymbols ++ [1] ∧
        p'.TheScopes = exCU.TheScopes ∧ p'.TheTypes = exCU.TheTypes) ∧
      (exSym.Kind = ObjKind.type → p'.TheTypes = exCU.TheTypes ++ [1] ∧
        p'.TheScopes = exCU.TheScopes ∧ p'.TheSymbols = exCU.TheSymbols) :=
  ⟨rfl, rfl, by decide, addObject_appends_child exView 0 1 exCU exSym rfl rfl (by decide)⟩

/-! ### What one upward walk establishes -/

theorem PW.inv {R : Obj → Obj → Prop} {h h' : Heap} (hpw : PW R h h') {i : Nat} {o' : Obj}
    (ho' : h'[i]? = some o') : ∃ o, h[i]? = some o ∧ R o o' := by
  have hlt : i < h.length := by
    have := (List.getElem?_eq_some.1 ho').1
    rw [hpw.1] at this
    exact this
  obtain ⟨o'', ho'', r⟩ := hpw.2 i _ (List.getElem?_eq_getElem hlt)
  rw [ho'] at ho''
  cases ho''
  exact ⟨_, List.getElem?_eq_getElem hlt, r⟩

/-- A walk that starts on a scope already flagged changes nothing. -/
theorem traverse_noop (G : Obj → Bool) (S : Obj → Obj) (d : Bool) {h : Heap} {p : Nat} {o : Obj}
    (ho : h[p]? = some o) (hg : G o = true) : traverse G S d h p = some h := by
  simp [traverse, traverseLoop, ho, hg]

/-- After a walk the scope it started on has the flag. -/
theorem traverse_sets_start (G : Obj → Bool) (S : Obj → Obj) (hgs : ∀ o, G (S o) = true)
    {d : Bool} {h h' : Heap} {p : Nat} {o : Obj}
    (e : traverse G S d h p = some h') (ho : h[p]? = some o) :
    ∃ o', h'[p]? = some o' ∧ G o' = true := by
  by_cases hg : G o = true
  · rw [traverse_noop G S d ho hg] at e
    cases e
    exact ⟨o, ho, hg⟩
  · simp only [traverse, traverseLoop, ho, hg] at e
    have hlt : p < h.length := (List.getElem?_eq_some.1 ho).1
    have hset : (h.set p (S o))[p]? = some (S o) := by simp [List.getElem?_set, hlt]
    have hpw : PW (fun a b => G a = true → G b = true) (h.set p (S o)) h' :=
      traverseLoop_PW G S (fun _ x => x) (fun _ _ _ f g x => g (f x)) (fun o _ => hgs o)
        _ _ _ _ e
    obtain ⟨o', ho', r⟩ := hpw.2 _ _ hset
    exact ⟨o', ho', r (hgs o)⟩

/-- The loop of `Scope::traverse` restores upward closure: if the flag is
upward-closed but for the links into the scope the walk stands on, it is
upward-closed when the walk ends. -/
theorem traverseLoop_closed (G : Obj → Bool) (S : Obj → Obj) (hgs : ∀ o, G (S o) = true)
    (hpar : ∀ o, getParent (S o) = getParent o) :
    ∀ (fuel : Nat) (pos : Option Nat) (h h' : Heap),
      traverseLoop G S fuel pos h = some h' →
      (∀ p, pos = some p → ClosedBut G h p) → (pos = none → Closed G h) → Closed G h' := by
  intro fuel
  induction fuel with
  | zero => intro pos h h' e; simp [traverseLoop] at e
  | succ n ih =>
    intro pos h h' e hsome hnone
    cases pos with
    | none =>
      simp [traverseLoop] at e
      subst e
      exact hnone rfl
    | some p =>
      have hcb := hsome p rfl
      simp only [traverseLoop] at e
      cases hp : h[p]? with
      | none =>
        rw [hp] at e
        simp at e
        subst e
        intro i o j q hi hg hj hq
        rcases hcb i o j q hi hg hj hq with r | r
        · exact r
        · subst r
          rw [hp] at hq
          cases hq
      | some o =>
        rw [hp] at e
        simp only at e
        by_cases hg : G o = true
        · simp [hg] at e
          subst e
          intro i oi j q hi hgi hj hq
          rcases hcb i oi j q hi hgi hj hq with r | r
          · exact r
          · subst r
            rw [hp] at hq
            cases hq
            exact hg
        · simp [hg] at e
          have hlt : p < h.length := (List.getElem?_eq_some.1 hp).1
          -- the links of the heap after the flag is set on `p`
          have key : ∀ (i : Nat) (oi : Obj) (j : Nat) (q : Obj),
              (h.set p (S o))[i]? = some oi → G oi = true → getParent oi = some j →
              (h.set p (S o))[j]? = some q → (G q = true ∨ (i = p ∧ getParent o = some j)) := by
            intro i oi j q hi hgi hj hq
            by_cases hip : i = p
            · subst hip
              simp [List.getElem?_set, hlt] at hi
              subst hi
              rw [hpar] at hj
              exact Or.inr ⟨rfl, hj⟩
            · left
              simp [List.getElem?_set, Ne.symm hip] at hi
              by_cases hjp : j = p
              · subst hjp
                simp [List.getElem?_set, hlt] at hq
                subst hq
                exact hgs o
              · simp [List.getElem?_set, Ne.symm hjp] at hq
                rcases hcb i oi j q hi hgi hj hq with r | r
                · exact r
                · exact absurd r hjp
          refine ih _ _ _ e ?_ ?_
          · intro p' hp'
            rw [hpar] at hp'
            intro i oi j q hi hgi hj hq
            rcases key i oi j q hi hgi hj hq with r | ⟨_, r⟩
            · exact Or.inl r
            · right
              rw [hp'] at r
              cases r
              rfl
          · intro hnone'
            rw [hpar] at hnone'
            intro i oi j q hi hgi hj hq
            rcases key i oi j q hi hgi hj hq with r | ⟨_, r⟩
            · exact r
            · rw [hnone'] at r
              cases r

theorem traverse_closed (G : Obj → Bool) (S : Obj → Obj) (hgs : ∀ o, G (S o) = true)
    (hpar : ∀ o, getParent (S o) = getParent o) {d : Bool} {h h' : Heap} {p : Nat}
    (e : traverse G S d h p = some h') (hcb : ClosedBut G h p) : Closed G h' :=
  traverseLoop_closed G S hgs hpar _ _ _ _ e
    (fun _ hq => by cases hq; exact hcb) (fun hq => by cases hq)

/-- Upward closure of a flag carries over to a heap whose objects have the
same flag and the same parent. -/
theorem closed_of_PW {G : Obj → Bool} {h h' : Heap}
    (hpw : PW (fun a b => G b = G a ∧ getParent b = getParent a) h h')
    (hc : Closed G h) : Closed G h' := by
  intro i o' j q' hi hg hj hq
  obtain ⟨o, ho, r1, r2⟩ := hpw.inv hi
  obtain ⟨q, hq0, s1, _⟩ := hpw.inv hq
  rw [s1]
  exact hc i o j q ho (r1 ▸ hg) (r2 ▸ hj) hq0

theorem closedBut_of_PW {G : Obj → Bool} {h h' : Heap} {p : Nat}
    (hpw : PW (fun a b => G b = G a ∧ getParent b = getParent a) h h')
    (hc : ClosedBut G h p) : ClosedBut G h' p := by
  intro i o' j q' hi hg hj hq
  obtain ⟨o, ho, r1, r2⟩ := hpw.inv hi
  obtain ⟨q, hq0, s1, _⟩ := hpw.inv hq
  rw [s1]
  exact hc i o j q ho (r1 ▸ hg) (r2 ▸ hj) hq0

/-- In a heap where a flag is upward-closed, a scope that has the flag has it
on every scope of its parent chain. -/
theorem Closed.nthParent {G : Obj → Bool} {h : Heap} (hc : Closed G h) {P : Nat} {p : Obj}
    (hp : h[P]? = some p) (hg : G p = true) :
    ∀ (n a : Nat) (oa : Obj), nthParent h n P = some a → h[a]? = some oa → G oa = true := by
  intro n
  induction n with
  | zero =>
    intro a oa ha hoa
    simp [LibScopeView.nthParent] at ha
    subst ha
    rw [hp] at hoa
    cases hoa
    exact hg
  | succ k ih =>
    intro a oa ha hoa
    simp only [LibScopeView.nthParent] at ha
    cases hb : LibScopeView.nthParent h k P with
    | none => rw [hb] at ha; simp at ha
    | some b =>
      rw [hb] at ha
      simp only [Option.some_bind] at ha
      cases hob : h[b]? with
      | none => rw [hob] at ha; simp at ha
      | some ob =>
        rw [hob] at ha
        simp only [Option.some_bind] at ha
        exact hc b ob a oa hob (ih b ob hb hob) ha hoa

theorem SameButLinks.flags {a b : Obj} (h : SameButLinks a b) :
    getHasScopes a = getHasScopes b ∧ getHasSymbols a = getHasSymbols b ∧
    getHasTypes a = getHasTypes b ∧ getHasLines a = getHasLines b ∧
    getHasGlobals a = getHasGlobals b ∧ getHasLocals a = getHasLocals b ∧
    getIsGlobalReference a = getIsGlobalReference b ∧ getCanHaveLines a = getCanHaveLines b ∧
    a.Kind = b.Kind := by
  have h' : stripLinks a = stripLinks b := h
  have e1 := congrArg Obj.HasScopes h'
  have e2 := congrArg Obj.HasSymbols h'
  have e3 := congrArg Obj.HasTypes h'
  have e4 := congrArg Obj.HasLines h'
  have e5 := congrArg Obj.HasGlobals h'
  have e6 := congrArg Obj.HasLocals h'
  have e7 := congrArg Obj.IsGlobalReference h'
  have e8 := congrArg Obj.CanHaveLines h'
  have e9 := congrArg Obj.Kind h'
  exact ⟨e1, e2, e3, e4, e5, e6, e7, e8, e9⟩

theorem SameButAgg.rest {a b : Obj} (h : SameButAgg a b) :
    getParent a = getParent b ∧ getIsGlobalReference a = getIsGlobalReference b ∧
    getCanHaveLines a = getCanHaveLines b ∧ a.Kind = b.Kind := by
  have h' : stripAgg a = stripAgg b := h
  have e1 := congrArg Obj.Parent h'
  have e2 := congrArg Obj.IsGlobalReference h'
  have e3 := congrArg Obj.CanHaveLines h'
  have e4 := congrArg Obj.Kind h'
  exact ⟨e1, e2, e3, e4⟩

theorem closedB_sound {G : Obj → Bool} {h : Heap} (hb : closedB G h = true) : Closed G h := by
  intro i o j q hi hg hj hq
  have hmem : o ∈ h := by
    obtain ⟨hlt, hget⟩ := List.getElem?_eq_some.1 hi
    exact hget ▸ List.getElem_mem _
  have := List.all_eq_true.1 hb o hmem
  simp [hg, hj, hq] at this
  exact this

theorem overload_scope : Overload pushScope getHasScopes setHasScopes :=
  ⟨fun _ => rfl, fun _ => rfl, fun _ => rfl, fun _ => rfl, fun _ => rfl, fun _ => rfl,
    fun _ _ h => h.flags.1, fun _ _ => rfl, fun _ _ => rfl⟩

theorem overload_symbol : Overload pushSymbol getHasSymbols setHasSymbols :=
  ⟨fun _ => rfl, fun _ => rfl, fun _ => rfl, fun _ => rfl, fun _ => rfl, fun _ => rfl,
    fun _ _ h => h.flags.2.1, fun _ _ => rfl, fun _ _ => rfl⟩

theorem overload_type : Overload pushType getHasTypes setHasTypes :=
  ⟨fun _ => rfl, fun _ => rfl, fun _ => rfl, fun _ => rfl, fun _ => rfl, fun _ => rfl,
    fun _ _ h => h.flags.2.2.1, fun _ _ => rfl, fun _ _ => rfl⟩

theorem globalFlag_set (g : Bool) (o : Obj) : globalFlag g (globalSet g o) = true := by
  cases g <;> rfl

theorem globalSet_parent (g : Bool) (o : Obj) : getParent (globalSet g o) = getParent o := by
  cases g <;> rfl

theorem globalSet_agg (g : Bool) (o : Obj) : SameButAgg o (globalSet g o) := by
  cases g <;> rfl

theorem globalFlag_ofLinks (g : Bool) (a b : Obj) (h : SameButLinks a b) :
    globalFlag g a = globalFlag g b := by
  cases g
  · exact h.flags.2.2.2.2.2.1
  · exact h.flags.2.2.2.2.1

theorem sameButLinks_setParent (o : Obj) (q : Nat) : SameButLinks o (setParent o q) := rfl

/-- The first walk of a structural `addObject`, as one walk for the flag
`globalFlag` of the child. -/
theorem globalTraverse_eq (g : Bool) (h : Heap) (p : Nat) :
    (if g = true then traverse getHasGlobals setHasGlobals false h p
      else traverse getHasLocals setHasLocals false h p)
      = traverse (globalFlag g) (globalSet g) false h p := by
  cases g <;> rfl

/-- After push and setParent a flag that was upward-closed is upward-closed
but for the links into the parent. -/
theorem attached_closedBut {push : Obj → Nat → Obj} {G : Obj → Bool}
    (hG : ∀ a b, SameButLinks a b → G a = G b) (hpush : ∀ o n, SameButLinks o (push o n))
    (hpushPar : ∀ o n, getParent (push o n) = getParent o)
    {h : Heap} {This Child : Nat} {p c : Obj}
    (hp : h[This]? = some p) (hc : (h.set This (push p Child))[Child]? = some c)
    (hcl : Closed G h) : ClosedBut G (attached push h This Child p c) This := by
  have pw1 : PW (fun a b => G b = G a) h (attached push h This Child p c) :=
    @attached_PW (fun a b => G b = G a) push (fun _ => rfl) (fun _ _ _ h1 h2 => h2.trans h1)
      (fun o n => (hG _ _ (hpush o n)).symm)
      (fun o q => (hG _ _ (sameButLinks_setParent o q)).symm) _ _ _ _ _ hp hc
  intro i oi j q hi hgi hj hq
  by_cases hiC : i = Child
  · right
    subst hiC
    rw [attached_child hc] at hi
    cases hi
    have : some This = some j := hj
    cases this
    rfl
  · left
    obtain ⟨q0, hq0, rq⟩ := pw1.inv hq
    rw [rq]
    by_cases hiP : i = This
    · subst hiP
      rw [attached_this hp (Ne.symm hiC)] at hi
      cases hi
      rw [← hG _ _ (hpush p Child)] at hgi
      rw [hpushPar] at hj
      exact hcl i p j q0 hp hgi hj hq0
    · rw [attached_other hiP hiC] at hi
      exact hcl i oi j q0 hi hgi hj hq0

/-- The flags a structural `addObject` leaves on the parent, and the upward
closure it keeps. -/
theorem addChild_flags {push : Obj → Nat → Obj} {GetK : Obj → Bool} {SetK : Obj → Obj}
    (ok : Overload push GetK SetK)
    (v : View) (This Child : Nat) (p c0 : Obj)
    (hp : v.Objs[This]? = some p) (hc0 : v.Objs[Child]? = some c0) :
    ∃ w pw, addChild push GetK SetK v This Child = some w ∧ w.Objs[This]? = some pw ∧
      GetK pw = true ∧ globalFlag (getIsGlobalReference c0) pw = true ∧
      (Closed GetK v.Objs → Closed GetK w.Objs) ∧
      (Closed (globalFlag (getIsGlobalReference c0)) v.Objs →
        Closed (globalFlag (getIsGlobalReference c0)) w.Objs) := by
  obtain ⟨c, h3, h4, hc, e3, e4, e⟩ := addChild_run push GetK SetK ok.sets v This Child p c0 hp hc0
  have hceq := attached_looked_up hp hc0 hc
  have hgl : getIsGlobalReference c = getIsGlobalReference c0 := by
    by_cases ePC : Child = This
    · rw [hceq, if_pos ePC]
      subst ePC
      rw [hp] at hc0
      cases hc0
      exact (ok.pushLinks p Child).flags.2.2.2.2.2.2.1.symm
    · rw [hceq, if_neg ePC]
  rw [globalTraverse_eq, hgl] at e3
  -- the parent in the heap after push and setParent
  obtain ⟨p2, hp2⟩ : ∃ p2, (attached push v.Objs This Child p c)[This]? = some p2 := by
    by_cases ePC : Child = This
    · have := @attached_child push v.Objs This Child p c hc
      rw [ePC] at this ⊢
      exact ⟨_, this⟩
    · exact ⟨_, attached_this hp ePC⟩
  -- flags on the parent
  obtain ⟨p3, hp3, g3⟩ := traverse_sets_start _ _ (globalFlag_set _) e3 hp2
  have pwG : PW (fun a b => globalFlag (getIsGlobalReference c0) b
        = globalFlag (getIsGlobalReference c0) a ∧ getParent b = getParent a) h3 h4 :=
    traverse_PW GetK SetK (fun _ => ⟨rfl, rfl⟩)
      (fun _ _ _ h1 h2 => ⟨h2.1.trans h1.1, h2.2.trans h1.2⟩)
      (fun o => ⟨by cases (getIsGlobalReference c0)
                    · exact ok.keepLocals o
                    · exact ok.keepGlobals o,
                 (ok.agg o).rest.1.symm⟩) e4
  obtain ⟨p4, hp4, g4⟩ := traverse_sets_start _ _ ok.sets e4 hp3
  obtain ⟨p4', hp4', r4⟩ := pwG.2 _ _ hp3
  rw [hp4] at hp4'
  cases hp4'
  refine ⟨_, p4, e, hp4, g4, r4.1.trans g3, ?_, ?_⟩
  · intro hcl
    have hcb := attached_closedBut ok.ofLinks ok.pushLinks ok.pushParent hp hc hcl
    have pwK : PW (fun a b => GetK b = GetK a ∧ getParent b = getParent a)
        (attached push v.Objs This Child p c) h3 :=
      traverse_PW _ _ (fun _ => ⟨rfl, rfl⟩)
        (fun _ _ _ h1 h2 => ⟨h2.1.trans h1.1, h2.2.trans h1.2⟩)
        (fun o => ⟨by cases (getIsGlobalReference c0)
                      · exact ok.onLocals o
                      · exact ok.onGlobals o,
                   globalSet_parent _ o⟩) e3
    exact traverse_closed GetK SetK ok.sets
      (fun o => (ok.agg o).rest.1.symm) e4 (closedBut_of_PW pwK hcb)
  · intro hcl
    have hcb := attached_closedBut (globalFlag_ofLinks _) ok.pushLinks ok.pushParent hp hc hcl
    exact closed_of_PW pwG (traverse_closed _ _ (globalFlag_set _) (globalSet_parent _) e3 hcb)

/-- C4 (as the code has it): for every scope `P` and every Scope, Symbol or
Type child `C`, after `P.addObject(C)` the kind flag of `C` and the global
flag (has-globals if `C` is a global reference, has-locals otherwise) are set
on `P`; and each of the two is set on every scope of the parent chain of `P`
provided it was upward-closed in the tree before the call. -/
theorem addObject_flags_reach_ancestors (v : View) (P C : Nat) (p c : Obj)
    (hp : v.Objs[P]? = some p) (hc : v.Objs[C]? = some c) (hk : c.Kind ≠ ObjKind.line) :
    ∃ out pw, addObject v P C = some out ∧ out.thrown = none ∧
      out.view.Objs[P]? = some pw ∧
      kindFlag c.Kind pw = true ∧ globalFlag (getIsGlobalReference c) pw = true ∧
      (Closed (kindFlag c.Kind) v.Objs →
        ∀ (n a : Nat) (oa : Obj), nthParent out.view.Objs n P = some a →
          out.view.Objs[a]? = some oa → kindFlag c.Kind oa = true) ∧
      (Closed (globalFlag (getIsGlobalReference c)) v.Objs →
        ∀ (n a : Nat) (oa : Obj), nthParent out.view.Objs n P = some a →
          out.view.Objs[a]? = some oa → globalFlag (getIsGlobalReference c) oa = true) := by
  cases hkind : c.Kind with
  | line => exact absurd hkind hk
  | scope =>
    obtain ⟨w, pw, e, hpw, gk, gg, ck, cg⟩ := addChild_flags overload_scope v P C p c hp hc
    refine ⟨{ view := w }, pw, ?_, rfl, hpw, gk, gg, ?_, ?_⟩
    · simp [addObject, hc, hkind, addObject_Scope_eq, e]
    · exact fun hcl => (ck hcl).nthParent hpw gk
    · exact fun hcl => (cg hcl).nthParent hpw gg
  | symbol =>
    obtain ⟨w, pw, e, hpw, gk, gg, ck, cg⟩ := addChild_flags overload_symbol v P C p c hp hc
    refine ⟨{ view := w }, pw, ?_, rfl, hpw, gk, gg, ?_, ?_⟩
    · simp [addObject, hc, hkind, addObject_Symbol_eq, e]
    · exact fun hcl => (ck hcl).nthParent hpw gk
    · exact fun hcl => (cg hcl).nthParent hpw gg
  | type =>
    obtain ⟨w, pw, e, hpw, gk, gg, ck, cg⟩ := addChild_flags overload_type v P C p c hp hc
    refine ⟨{ view := w }, pw, ?_, rfl, hpw, gk, gg, ?_, ?_⟩
    · simp [addObject, hc, hkind, addObject_Type_eq, e]
    · exact fun hcl => (ck hcl).nthParent hpw gk
    · exact fun hcl => (cg hcl).nthParent hpw gg

theorem addObject_flags_reach_ancestors_witness :
    exTopDown.Objs[1]? = some exInnerEmpty ∧
    exTopDown.Objs[2]? = some exS0 ∧ exS0.Kind ≠ ObjKind.line ∧
    Closed (kindFlag exS0.Kind) exTopDown.Objs ∧
    Closed (globalFlag (getIsGlobalReference exS0)) exTopDown.Objs ∧
    ∃ out pw, addObject exTopDown 1 2 = some out ∧ out.thrown = none ∧
      out.view.Objs[1]? = some pw ∧
      kindFlag exS0.Kind pw = true ∧ globalFlag (getIsGlobalReference exS0) pw = true ∧
      (Closed (kindFlag exS0.Kind) exTopDown.Objs →
        ∀ (n a : Nat) (oa : Obj), nthParent out.view.Objs n 1 = some a →
          out.view.Objs[a]? = some oa → kindFlag exS0.Kind oa = true) ∧
      (Closed (globalFlag (getIsGlobalReference exS0)) exTopDown.Objs →
        ∀ (n a : Nat) (oa : Obj), nthParent out.view.Objs n 1 = some a →
          out.view.Objs[a]? = some oa → globalFlag (getIsGlobalReference exS0) oa = true) :=
  ⟨rfl, rfl, by decide, closedB_sound (by decide), closedB_sound (by decide),
    addObject_flags_reach_ancestors exTopDown 1 2 _ exS0 rfl rfl (by decide)⟩

/-- C4, as stated, fails on a tree built from the bottom: `inner` received its
first symbol while detached, so it has has-symbols and its later parent
`outer` does not; `inner.addObject(b)` then stops at `inner`, and the ancestor
`outer` of `inner` is left without has-symbols. -/
theorem addObject_flag_stops_below_ancestor :
    (addObject exFresh 1 2).bind (fun o => addObject o.view 0 1)
      = some { view := exBottomUp } ∧
    (addObject exBottomUp 1 3).map
        (fun out => (out.thrown, nthParent out.view.Objs 1 1,
          (out.view.Objs[0]?).map (kindFlag ObjKind.symbol)))
      = some (none, some 0, some false) := by
  constructor <;> decide

/-! ### `addObject(Line *)` -/

/-- The run of `addObject(Line *)` on a line-capable scope, step by step. -/
theorem addObject_Line_spec (v : View) (This Ln : Nat) (p l0 : Obj)
    (hp : v.Objs[This]? = some p) (hl0 : v.Objs[Ln]? = some l0)
    (hcap : getCanHaveLines p = true) :
    ∃ c h3, c = (if Ln = This then pushLine p Ln else l0) ∧
      (v.Objs.set This (pushLine p Ln))[Ln]? = some c ∧
      addObject_Line v This Ln
        = some { view := { Objs := h3, TheReader := incrementFound v.TheReader l0 } } ∧
      traverse getHasLines setHasLines false (attached pushLine v.Objs This Ln p c) This
        = some h3 := by
  have hlt : Ln < (v.Objs.set This (pushLine p Ln)).length := by
    rw [List.length_set]; exact (List.getElem?_eq_some.1 hl0).1
  obtain ⟨c, hc⟩ : ∃ c, (v.Objs.set This (pushLine p Ln))[Ln]? = some c :=
    ⟨_, List.getElem?_eq_getElem hlt⟩
  obtain ⟨h3, e3⟩ := traverse_terminates getHasLines setHasLines (fun _ => rfl) false
    (attached pushLine v.Objs This Ln p c) This
  refine ⟨c, h3, attached_looked_up hp hl0 hc, hc, ?_, e3⟩
  unfold attached at e3
  simp only [addObject_Line, hp, hl0, hcap, hc, Option.bind_eq_bind, Option.some_bind, if_true,
    e3]
  rfl

/-- The parent and the child in a heap that differs from the heap after push
and setParent in aggregate flags only. -/
theorem attached_links {push : Obj → Nat → Obj} {h h4 : Heap} {This Child : Nat} {p c c0 : Obj}
    (hp : h[This]? = some p) (hc0 : h[Child]? = some c0)
    (hc : (h.set This (push p Child))[Child]? = some c)
    (hpw : PW SameButAgg (attached push h This Child p c) h4) :
    ∃ p' c', h4[This]? = some p' ∧ h4[Child]? = some c' ∧ getParent c' = some This ∧
      p'.Children = (push p Child).Children ∧ p'.TheScopes = (push p Child).TheScopes ∧
      p'.TheSymbols = (push p Child).TheSymbols ∧ p'.TheTypes = (push p Child).TheTypes ∧
      p'.TheLines = (push p Child).TheLines := by
  have hceq := attached_looked_up hp hc0 hc
  have hchild := @attached_child push h This Child p c hc
  obtain ⟨c', hc', rc⟩ := hpw.2 _ _ hchild
  have hthis : (attached push h This Child p c)[This]?
      = some (if Child = This then setParent (push p Child) This else push p Child) := by
    by_cases e : Child = This
    · rw [if_pos e]
      have hc2 : c = push p Child := by rw [hceq, if_pos e]
      rw [← hc2]
      have := hchild
      rw [e] at this ⊢
      exact this
    · rw [if_neg e]
      exact attached_this hp e
  obtain ⟨p', hp', rp⟩ := hpw.2 _ _ hthis
  obtain ⟨_, l1, l2, l3, l4, l5⟩ := rp.links
  obtain ⟨q1, q2, q3, q4, q5⟩ := pushed_links push p This Child
  exact ⟨p', c', hp', hc', rc.links.1.symm, l1.symm.trans q1, l2.symm.trans q2,
    l3.symm.trans q3, l4.symm.trans q4, l5.symm.trans q5⟩

theorem addObject_of_line {v : View} {This Ln : Nat} {l : Obj}
    (hl : v.Objs[Ln]? = some l) (hk : l.Kind = ObjKind.line) :
    addObject v This Ln = addObject_Line v This Ln := by
  simp [addObject, hl, hk]

/-- C2: for every scope `P` that is not line-capable and every Line `L`,
`P.addObject(L)` throws the logic error and leaves the whole state as it was
(so the Lines and Children of `P`, the parent of `L` and every flag of every
scope are as before); for a line-capable `P` the call returns without
throwing. -/
theorem addObject_line_guard (v : View) (P L : Nat) (p l : Obj)
    (hp : v.Objs[P]? = some p) (hl : v.Objs[L]? = some l) (hk : l.Kind = ObjKind.line) :
    (getCanHaveLines p = false →
      addObject v P L = some { view := v, thrown := some lineError }) ∧
    (getCanHaveLines p = true →
      ∃ out, addObject v P L = some out ∧ out.thrown = none) := by
  rw [addObject_of_line hl hk]
  constructor
  · intro hcap
    simp [addObject_Line, hp, hl, hcap]
  · intro hcap
    obtain ⟨c, h3, _, _, e, _⟩ := addObject_Line_spec v P L p l hp hl hcap
    exact ⟨_, e, rfl⟩

/-- C3: for every line-capable scope `P` and every Line `L`, after
`P.addObject(L)` the line is the last element of the Lines collection of `P`
with the earlier lines as before, its parent is `P`, the Children sequence
and the scopes, symbols and types collections of `P` are as before, and the
Children sequence of every object of the tree is as before: no Line enters a
Children sequence. -/
theorem addObject_line_appends (v : View) (P L : Nat) (p l : Obj)
    (hp : v.Objs[P]? = some p) (hl : v.Objs[L]? = some l) (hk : l.Kind = ObjKind.line)
    (hcap : getCanHaveLines p = true) :
    ∃ out p' l', addObject v P L = some out ∧ out.thrown = none ∧
      out.view.Objs[P]? = some p' ∧ out.view.Objs[L]? = some l' ∧
      p'.TheLines = p.TheLines ++ [L] ∧ getParent l' = some P ∧
      p'.Children = p.Children ∧ p'.TheScopes = p.TheScopes ∧
      p'.TheSymbols = p.TheSymbols ∧ p'.TheTypes = p.TheTypes ∧
      out.view.Objs.length = v.Objs.length ∧
      ∀ (i : Nat) (o : Obj), v.Objs[i]? = some o →
        ∃ o', out.view.Objs[i]? = some o' ∧ o'.Children = o.Children := by
  rw [addObject_of_line hl hk]
  obtain ⟨c, h3, _, hc, e, e3⟩ := addObject_Line_spec v P L p l hp hl hcap
  have hagg : PW SameButAgg (attached pushLine v.Objs P L p c) h3 :=
    traverse_PW getHasLines setHasLines sameButAgg_refl sameButAgg_trans (fun _ => rfl) e3
  obtain ⟨p', l', hp', hl', hpar, l1, l2, l3, l4, l5⟩ := attached_links hp hl hc hagg
  have hr : ∀ o, SameChildren o o := fun _ => rfl
  have ht : ∀ a b c, SameChildren a b → SameChildren b c → SameChildren a c :=
    fun _ _ _ h1 h2 => Eq.trans h2 h1
  have hch : PW SameChildren v.Objs h3 :=
    PW.trans ht
      (@attached_PW SameChildren pushLine hr ht (fun _ _ => rfl) (fun _ _ => rfl) _ _ _ _ _
        hp hc)
      (traverse_PW getHasLines setHasLines hr ht (fun _ => rfl) e3)
  exact ⟨_, p', l', e, rfl, hp', hl', l5, hpar, l1, l2, l3, l4, hch.1, hch.2⟩

theorem addObject_line_guard_witness :
    exNsLineView.Objs[0]? = some exOuter ∧ exNsLineView.Objs[1]? = some exLine ∧
    exLine.Kind = ObjKind.line ∧ getCanHaveLines exOuter = false ∧
    addObject exNsLineView 0 1 = some { view := exNsLineView, thrown := some lineError } ∧
    exLineView.Objs[0]? = some exCU ∧ exLineView.Objs[1]? = some exLine ∧
    getCanHaveLines exCU = true ∧
    ∃ out, addObject exLineView 0 1 = some out ∧ out.thrown = none :=
  ⟨rfl, rfl, rfl, rfl,
    (addObject_line_guard exNsLineView 0 1 exOuter exLine rfl rfl rfl).1 rfl,
    rfl, rfl, rfl,
    (addObject_line_guard exLineView 0 1 exCU exLine rfl rfl rfl).2 rfl⟩

theorem addObject_line_appends_witness :
    exLineView.Objs[0]? = some exCU ∧ exLineView.Objs[1]? = some exLine ∧
    exLine.Kind = ObjKind.line ∧ getCanHaveLines exCU = true ∧
    ∃ out p' l', addObject exLineView 0 1 = some out ∧ out.thrown = none ∧
      out.view.Objs[0]? = some p' ∧ out.view.Objs[1]? = some l' ∧
      p'.TheLines = exCU.TheLines ++ [1] ∧ getParent l' = some 0 ∧
      p'.Children = exCU.Children ∧ p'.TheScopes = exCU.TheScopes ∧
      p'.TheSymbols = exCU.TheSymbols ∧ p'.TheTypes = exCU.TheTypes ∧
      out.view.Objs.length = exLineView.Objs.length ∧
      ∀ (i : Nat) (o : Obj), exLineView.Objs[i]? = some o →
        ∃ o', out.view.Objs[i]? = some o' ∧ o'.Children = o.Children :=
  ⟨rfl, rfl, rfl, rfl, addObject_line_appends exLineView 0 1 exCU exLine rfl rfl rfl rfl⟩

/-! ### Frame of `addObject`, all four overloads -/

/-- Between the heap before a line is added to a line-capable scope and the
heap after, a relation holds that `pushLine`, `setParent` and `setHasLines`
respect. -/
theorem addObject_Line_PW {R : Obj → Obj → Prop} (hr : ∀ o, R o o)
    (ht : ∀ a b c, R a b → R b c → R a c) (hpush : ∀ o n, R o (pushLine o n))
    (hpar : ∀ o q, R o (setParent o q)) (hset : ∀ o, R o (setHasLines o))
    (v : View) (This Ln : Nat) (p l0 : Obj)
    (hp : v.Objs[This]? = some p) (hl0 : v.Objs[Ln]? = some l0)
    (hcap : getCanHaveLines p = true) :
    ∃ h3, addObject_Line v This Ln
        = some { view := { Objs := h3, TheReader := incrementFound v.TheReader l0 } } ∧
      PW R v.Objs h3 := by
  obtain ⟨c, h3, _, hc, e, e3⟩ := addObject_Line_spec v This Ln p l0 hp hl0 hcap
  exact ⟨h3, e, PW.trans ht (@attached_PW R pushLine hr ht hpush hpar _ _ _ _ _ hp hc)
    (traverse_PW getHasLines setHasLines hr ht hset e3)⟩

theorem addChild_PW {R : Obj → Obj → Prop} (hR : Respected R)
    (push : Obj → Nat → Obj) (GetK : Obj → Bool) (SetK : Obj → Obj)
    (hK : ∀ o, GetK (SetK o) = true) (hpush : ∀ o n, R o (push o n)) (hset : ∀ o, R o (SetK o))
    (v : View) (This Child : Nat) (p c0 : Obj)
    (hp : v.Objs[This]? = some p) (hc0 : v.Objs[Child]? = some c0) :
    ∃ w, addChild push GetK SetK v This Child = some w ∧ PW R v.Objs w.Objs := by
  obtain ⟨c, h4, _, hc, e, hall⟩ := addChild_spec push GetK SetK hK v This Child p c0 hp hc0
  exact ⟨_, e, PW.trans hR.trans
    (@attached_PW R push hR.refl hR.trans hpush hR.parent _ _ _ _ _ hp hc)
    (hall R hR.refl hR.trans hR.globals hR.locals hset)⟩

/-- Every `addObject` call on objects of the heap returns, and a relation that
all elementary steps respect holds between each object before and after. -/
theorem addObject_PW {R : Obj → Obj → Prop} (hR : Respected R)
    (v : View) (P C : Nat) (p c : Obj)
    (hp : v.Objs[P]? = some p) (hc : v.Objs[C]? = some c) :
    ∃ out, addObject v P C = some out ∧ PW R v.Objs out.view.Objs := by
  cases hkind : c.Kind with
  | line =>
    rw [addObject_of_line hc hkind]
    by_cases hcap : getCanHaveLines p = true
    · obtain ⟨h3, e, hpw⟩ := addObject_Line_PW hR.refl hR.trans hR.pLine hR.parent hR.lines
        v P C p c hp hc hcap
      exact ⟨_, e, hpw⟩
    · refine ⟨{ view := v, thrown := some lineError }, ?_, PW.refl hR.refl _⟩
      simp [addObject_Line, hp, hc, hcap]
  | scope =>
    obtain ⟨w, e, hpw⟩ := addChild_PW hR pushScope getHasScopes setHasScopes (fun _ => rfl)
      hR.pScope hR.scopes v P C p c hp hc
    exact ⟨{ view := w }, by simp [addObject, hc, hkind, addObject_Scope_eq, e], hpw⟩
  | symbol =>
    obtain ⟨w, e, hpw⟩ := addChild_PW hR pushSymbol getHasSymbols setHasSymbols (fun _ => rfl)
      hR.pSymbol hR.symbols v P C p c hp hc
    exact ⟨{ view := w }, by simp [addObject, hc, hkind, addObject_Symbol_eq, e], hpw⟩
  | type =>
    obtain ⟨w, e, hpw⟩ := addChild_PW hR pushType getHasTypes setHasTypes (fun _ => rfl)
      hR.pType hR.types v P C p c hp hc
    exact ⟨{ view := w }, by simp [addObject, hc, hkind, addObject_Type_eq, e], hpw⟩

theorem respected_flagsLE : Respected FlagsLE where
  refl := fun _ => ⟨id, id, id, id, id, id⟩
  trans := fun _ _ _ h1 h2 =>
    ⟨fun x => h2.1 (h1.1 x), fun x => h2.2.1 (h1.2.1 x), fun x => h2.2.2.1 (h1.2.2.1 x),
      fun x => h2.2.2.2.1 (h1.2.2.2.1 x), fun x => h2.2.2.2.2.1 (h1.2.2.2.2.1 x),
      fun x => h2.2.2.2.2.2 (h1.2.2.2.2.2 x)⟩
  globals := fun _ => ⟨id, id, id, id, fun _ => rfl, id⟩
  locals := fun _ => ⟨id, id, id, id, id, fun _ => rfl⟩
  lines := fun _ => ⟨id, id, id, fun _ => rfl, id, id⟩
  scopes := fun _ => ⟨fun _ => rfl, id, id, id, id, id⟩
  symbols := fun _ => ⟨id, fun _ => rfl, id, id, id, id⟩
  types := fun _ => ⟨id, id, fun _ => rfl, id, id, id⟩
  pScope := fun _ _ => ⟨id, id, id, id, id, id⟩
  pSymbol := fun _ _ => ⟨id, id, id, id, id, id⟩
  pType := fun _ _ => ⟨id, id, id, id, id, id⟩
  pLine := fun _ _ => ⟨id, id, id, id, id, id⟩
  parent := fun _ _ => ⟨id, id, id, id, id, id⟩

theorem respected_sameClass : Respected SameClass where
  refl := fun _ => ⟨rfl, rfl, rfl⟩
  trans := fun _ _ _ h1 h2 =>
    ⟨h2.1.trans h1.1, h2.2.1.trans h1.2.1, h2.2.2.trans h1.2.2⟩
  globals := fun _ => ⟨rfl, rfl, rfl⟩
  locals := fun _ => ⟨rfl, rfl, rfl⟩
  lines := fun _ => ⟨rfl, rfl, rfl⟩
  scopes := fun _ => ⟨rfl, rfl, rfl⟩
  symbols := fun _ => ⟨rfl, rfl, rfl⟩
  types := fun _ => ⟨rfl, rfl, rfl⟩
  pScope := fun _ _ => ⟨rfl, rfl, rfl⟩
  pSymbol := fun _ _ => ⟨rfl, rfl, rfl⟩
  pType := fun _ _ => ⟨rfl, rfl, rfl⟩
  pLine := fun _ _ => ⟨rfl, rfl, rfl⟩
  parent := fun _ _ => ⟨rfl, rfl, rfl⟩

/-- C5 (as the code has it): the overload for lines propagates has-lines and
nothing else.  For every line-capable scope `P` and every Line `L`,
`P.addObject(L)` returns without throwing, sets has-lines on `P`, and leaves
has-globals and has-locals of every object of the tree as they were, whether
`L` is a global reference or not. -/
theorem addObject_line_keeps_global_local (v : View) (P L : Nat) (p l : Obj)
    (hp : v.Objs[P]? = some p) (hl : v.Objs[L]? = some l) (hk : l.Kind = ObjKind.line)
    (hcap : getCanHaveLines p = true) :
    ∃ out pw, addObject v P L = some out ∧ out.thrown = none ∧
      out.view.Objs[P]? = some pw ∧ getHasLines pw = true ∧
      ∀ (i : Nat) (o : Obj), v.Objs[i]? = some o →
        ∃ o', out.view.Objs[i]? = some o' ∧
          getHasGlobals o' = getHasGlobals o ∧ getHasLocals o' = getHasLocals o := by
  rw [addObject_of_line hl hk]
  obtain ⟨c, h3, _, hc, e, e3⟩ := addObject_Line_spec v P L p l hp hl hcap
  have hr : ∀ o, SameGlobalLocal o o := fun _ => ⟨rfl, rfl⟩
  have ht : ∀ a b c, SameGlobalLocal a b → SameGlobalLocal b c → SameGlobalLocal a c :=
    fun _ _ _ h1 h2 => ⟨h2.1.trans h1.1, h2.2.trans h1.2⟩
  have hpw : PW SameGlobalLocal v.Objs h3 :=
    PW.trans ht
      (@attached_PW SameGlobalLocal pushLine hr ht (fun _ _ => ⟨rfl, rfl⟩)
        (fun _ _ => ⟨rfl, rfl⟩) _ _ _ _ _ hp hc)
      (traverse_PW getHasLines setHasLines hr ht (fun _ => ⟨rfl, rfl⟩) e3)
  obtain ⟨p2, hp2, _⟩ := (@attached_PW SameGlobalLocal pushLine hr ht (fun _ _ => ⟨rfl, rfl⟩)
        (fun _ _ => ⟨rfl, rfl⟩) _ _ _ _ _ hp hc).2 _ _ hp
  obtain ⟨pw, hpw3, g⟩ := traverse_sets_start getHasLines setHasLines (fun _ => rfl) e3 hp2
  exact ⟨_, pw, e, rfl, hpw3, g, hpw.2⟩

theorem addObject_line_keeps_global_local_witness :
    exLineView.Objs[0]? = some exCU ∧ exLineView.Objs[1]? = some exLine ∧
    exLine.Kind = ObjKind.line ∧ getCanHaveLines exCU = true ∧
    ∃ out pw, addObject exLineView 0 1 = some out ∧ out.thrown = none ∧
      out.view.Objs[0]? = some pw ∧ getHasLines pw = true ∧
      ∀ (i : Nat) (o : Obj), exLineView.Objs[i]? = some o →
        ∃ o', out.view.Objs[i]? = some o' ∧
          getHasGlobals o' = getHasGlobals o ∧ getHasLocals o' = getHasLocals o :=
  ⟨rfl, rfl, rfl, rfl,
    addObject_line_keeps_global_local exLineView 0 1 exCU exLine rfl rfl rfl rfl⟩

/-- C5, as stated, fails: after a line that is not a global reference is added
to a compile unit, the compile unit has has-lines but not has-locals; and
after a line that is a global reference is added, it has no has-globals. -/
theorem addObject_line_sets_no_global_local :
    getCanHaveLines exCU = true ∧ getIsGlobalReference exLine = false ∧
    getIsGlobalReference exGlobalLine = true ∧
    (addObject exLineView 0 1).map
        (fun out => (out.thrown,
          (out.view.Objs[0]?).map (fun o => (getHasLines o, getHasLocals o))))
      = some (none, some (true, false)) ∧
    (addObject exGlobalLineView 0 1).map
        (fun out => (out.thrown,
          (out.view.Objs[0]?).map (fun o => (getHasLines o, getHasGlobals o))))
      = some (none, some (true, false)) := by
  refine ⟨rfl, rfl, rfl, ?_, ?_⟩ <;> decide

/-- C6: the aggregate flags are monotonic under `addObject`.  Every call, of
any of the four overloads, throwing or not, returns, keeps every object of
the tree in place, and each of has-scopes, has-symbols, has-types, has-lines,
has-globals and has-locals that was set on an object before the call is set
on it after the call. -/
theorem addObject_flags_monotone (v : View) (P C : Nat) (p c : Obj)
    (hp : v.Objs[P]? = some p) (hc : v.Objs[C]? = some c) :
    ∃ out, addObject v P C = some out ∧ out.view.Objs.length = v.Objs.length ∧
      ∀ (i : Nat) (o : Obj), v.Objs[i]? = some o →
        ∃ o', out.view.Objs[i]? = some o' ∧ FlagsLE o o' := by
  obtain ⟨out, e, hpw⟩ := addObject_PW respected_flagsLE v P C p c hp hc
  exact ⟨out, e, hpw.1, hpw.2⟩

theorem addObject_flags_monotone_witness :
    exBottomUp.Objs[1]? = some exInnerBuilt ∧
    exBottomUp.Objs[3]? = some exS1 ∧
    ∃ out, addObject exBottomUp 1 3 = some out ∧
      out.view.Objs.length = exBottomUp.Objs.length ∧
      ∀ (i : Nat) (o : Obj), exBottomUp.Objs[i]? = some o →
        ∃ o', out.view.Objs[i]? = some o' ∧ FlagsLE o o' :=
  ⟨rfl, rfl, addObject_flags_monotone exBottomUp 1 3 _ _ rfl rfl⟩

/-! ### A second identical call -/

theorem sameButLinks_refl (o : Obj) : SameButLinks o o := rfl

theorem sameButLinks_trans (a b c : Obj) (h1 : SameButLinks a b) (h2 : SameButLinks b c) :
    SameButLinks a c := Eq.trans h1 h2

theorem SameButLinks.aggFlags {a b : Obj} (h : SameButLinks a b) :
    LibScopeView.aggFlags b = LibScopeView.aggFlags a := by
  obtain ⟨e1, e2, e3, e4, e5, e6, _⟩ := h.flags
  simp [LibScopeView.aggFlags, e1, e2, e3, e4, e5, e6]

/-- The object `addObject` reads the global-reference bit from has the bit of
the child as it was before the call. -/
theorem looked_up_global {push : Obj → Nat → Obj} (hpush : ∀ o n, SameButLinks o (push o n))
    {h : Heap} {This Child : Nat} {p c c0 : Obj}
    (hp : h[This]? = some p) (hc0 : h[Child]? = some c0)
    (hc : (h.set This (push p Child))[Child]? = some c) :
    getIsGlobalReference c = getIsGlobalReference c0 := by
  have hceq := attached_looked_up hp hc0 hc
  by_cases ePC : Child = This
  · rw [hceq, if_pos ePC]
    subst ePC
    rw [hp] at hc0
    cases hc0
    exact (hpush p Child).flags.2.2.2.2.2.2.1.symm
  · rw [hceq, if_neg ePC]

/-- A second identical structural `addObject` finds both flags on the parent,
so both walks stop at once: the second call only pushes and sets the parent
again. -/
theorem addChild_twice {push : Obj → Nat → Obj} {GetK : Obj → Bool} {SetK : Obj → Obj}
    (ok : Overload push GetK SetK) (hR : ∀ o n, SameClass o (push o n))
    (hS : ∀ o, SameClass o (SetK o))
    (v : View) (This Child : Nat) (p c0 : Obj)
    (hp : v.Objs[This]? = some p) (hc0 : v.Objs[Child]? = some c0) :
    ∃ w1 w2, addChild push GetK SetK v This Child = some w1 ∧
      addChild push GetK SetK w1 This Child = some w2 ∧
      PW SameClass v.Objs w1.Objs ∧ PW SameButLinks w1.Objs w2.Objs := by
  obtain ⟨w1, pw, e1, hpw1, gk, gg, _, _⟩ := addChild_flags ok v This Child p c0 hp hc0
  obtain ⟨w1', e1', hcls⟩ := addChild_PW respected_sameClass push GetK SetK ok.sets hR hS
    v This Child p c0 hp hc0
  rw [e1] at e1'
  cases e1'
  obtain ⟨c1, hc1, rc1⟩ := hcls.2 _ _ hc0
  obtain ⟨c2, h3, h4, hc2, e3, e4, e2⟩ :=
    addChild_run push GetK SetK ok.sets w1 This Child pw c1 hpw1 hc1
  have hgl2 := looked_up_global ok.pushLinks hpw1 hc1 hc2
  rw [globalTraverse_eq, hgl2, rc1.2.2] at e3
  have pwL : PW SameButLinks w1.Objs (attached push w1.Objs This Child pw c2) :=
    @attached_PW SameButLinks push sameButLinks_refl sameButLinks_trans ok.pushLinks
      sameButLinks_setParent _ _ _ _ _ hpw1 hc2
  obtain ⟨p2, hp2, r2⟩ := pwL.2 _ _ hpw1
  have gk2 : GetK p2 = true := by rw [← ok.ofLinks _ _ r2]; exact gk
  have gg2 : globalFlag (getIsGlobalReference c0) p2 = true := by
    rw [← globalFlag_ofLinks _ _ _ r2]; exact gg
  rw [traverse_noop _ _ _ hp2 gg2] at e3
  cases e3
  rw [traverse_noop _ _ _ hp2 gk2] at e4
  cases e4
  exact ⟨w1, _, e1, e2, hcls, pwL⟩

/-- A second identical `addObject(Line *)` on a line-capable scope finds
has-lines on the scope. -/
theorem addObject_Line_twice (v : View) (This Ln : Nat) (p l0 : Obj)
    (hp : v.Objs[This]? = some p) (hl0 : v.Objs[Ln]? = some l0)
    (hcap : getCanHaveLines p = true) :
    ∃ w1 w2, addObject_Line v This Ln = some { view := w1 } ∧
      addObject_Line w1 This Ln = some { view := w2 } ∧
      PW SameClass v.Objs w1.Objs ∧ PW SameButLinks w1.Objs w2.Objs := by
  obtain ⟨c, h3, _, hc, e, e3⟩ := addObject_Line_spec v This Ln p l0 hp hl0 hcap
  have hcls : PW SameClass v.Objs h3 :=
    PW.trans respected_sameClass.trans
      (@attached_PW SameClass pushLine respected_sameClass.refl respected_sameClass.trans
        respected_sameClass.pLine respected_sameClass.parent _ _ _ _ _ hp hc)
      (traverse_PW getHasLines setHasLines respected_sameClass.refl respected_sameClass.trans
        respected_sameClass.lines e3)
  obtain ⟨pa, hpa, _⟩ := (@attached_PW SameClass pushLine respected_sameClass.refl
    respected_sameClass.trans respected_sameClass.pLine respected_sameClass.parent
    _ _ _ _ _ hp hc).2 _ _ hp
  obtain ⟨pw, hpw, gl⟩ := traverse_sets_start getHasLines setHasLines (fun _ => rfl) e3 hpa
  obtain ⟨pw', hpw', rpw⟩ := hcls.2 _ _ hp
  rw [hpw] at hpw'
  cases hpw'
  obtain ⟨l1, hl1, _⟩ := hcls.2 _ _ hl0
  have hcap1 : getCanHaveLines pw = true := by rw [rpw.2.1]; exact hcap
  obtain ⟨c2, h3', _, hc2, e', e3'⟩ :=
    addObject_Line_spec { Objs := h3, TheReader := incrementFound v.TheReader l0 }
      This Ln pw l1 hpw hl1 hcap1
  have pwL : PW SameButLinks h3 (attached pushLine h3 This Ln pw c2) :=
    @attached_PW SameButLinks pushLine sameButLinks_refl sameButLinks_trans (fun _ _ => rfl)
      sameButLinks_setParent _ _ _ _ _ hpw hc2
  obtain ⟨p2, hp2, r2⟩ := pwL.2 _ _ hpw
  have gl2 : getHasLines p2 = true := by rw [← r2.flags.2.2.2.1]; exact gl
  rw [traverse_noop _ _ _ hp2 gl2] at e3'
  cases e3'
  exact ⟨_, _, e, e', hcls, pwL⟩

/-- C7: flag propagation is idempotent.  For every scope `P` and child `C`
both calls of `P.addObject(C)` made one after the other return, and the
second leaves the six aggregate flags of every object of the tree exactly as
they were after the first. -/
theorem addObject_twice_flags (v : View) (P C : Nat) (p c : Obj)
    (hp : v.Objs[P]? = some p) (hc : v.Objs[C]? = some c) :
    ∃ out1 out2, addObject v P C = some out1 ∧ addObject out1.view P C = some out2 ∧
      out2.view.Objs.length = out1.view.Objs.length ∧
      ∀ (i : Nat) (o1 : Obj), out1.view.Objs[i]? = some o1 →
        ∃ o2, out2.view.Objs[i]? = some o2 ∧ aggFlags o2 = aggFlags o1 := by
  have fin : ∀ {h1 h2 : Heap}, PW SameButLinks h1 h2 →
      h2.length = h1.length ∧ ∀ (i : Nat) (o1 : Obj), h1[i]? = some o1 →
        ∃ o2, h2[i]? = some o2 ∧ aggFlags o2 = aggFlags o1 := by
    intro h1 h2 hpw
    refine ⟨hpw.1, fun i o1 ho1 => ?_⟩
    obtain ⟨o2, ho2, r⟩ := hpw.2 i o1 ho1
    exact ⟨o2, ho2, r.aggFlags⟩
  cases hkind : c.Kind with
  | line =>
    by_cases hcap : getCanHaveLines p = true
    · obtain ⟨w1, w2, e1, e2, hcls, hpw⟩ := addObject_Line_twice v P C p c hp hc hcap
      obtain ⟨c1, hc1, rc1⟩ := hcls.2 _ _ hc
      refine ⟨{ view := w1 }, { view := w2 }, ?_, ?_, fin hpw⟩
      · rw [addObject_of_line hc hkind]; exact e1
      · rw [addObject_of_line hc1 (rc1.1.trans hkind)]; exact e2
    · have e : addObject v P C = some { view := v, thrown := some lineError } := by
        rw [addObject_of_line hc hkind]
        simp [addObject_Line, hp, hc, hcap]
      exact ⟨_, _, e, e, rfl, fun i o1 ho1 => ⟨o1, ho1, rfl⟩⟩
  | scope =>
    obtain ⟨w1, w2, e1, e2, hcls, hpw⟩ := addChild_twice overload_scope
      (fun _ _ => ⟨rfl, rfl, rfl⟩) (fun _ => ⟨rfl, rfl, rfl⟩) v P C p c hp hc
    obtain ⟨c1, hc1, rc1⟩ := hcls.2 _ _ hc
    refine ⟨{ view := w1 }, { view := w2 }, ?_, ?_, fin hpw⟩
    · simp [addObject, hc, hkind, addObject_Scope_eq, e1]
    · simp [addObject, hc1, rc1.1.trans hkind, addObject_Scope_eq, e2]
  | symbol =>
    obtain ⟨w1, w2, e1, e2, hcls, hpw⟩ := addChild_twice overload_symbol
      (fun _ _ => ⟨rfl, rfl, rfl⟩) (fun _ => ⟨rfl, rfl, rfl⟩) v P C p c hp hc
    obtain ⟨c1, hc1, rc1⟩ := hcls.2 _ _ hc
    refine ⟨{ view := w1 }, { view := w2 }, ?_, ?_, fin hpw⟩
    · simp [addObject, hc, hkind, addObject_Symbol_eq, e1]
    · simp [addObject, hc1, rc1.1.trans hkind, addObject_Symbol_eq, e2]
  | type =>
    obtain ⟨w1, w2, e1, e2, hcls, hpw⟩ := addChild_twice overload_type
      (fun _ _ => ⟨rfl, rfl, rfl⟩) (fun _ => ⟨rfl, rfl, rfl⟩) v P C p c hp hc
    obtain ⟨c1, hc1, rc1⟩ := hcls.2 _ _ hc
    refine ⟨{ view := w1 }, { view := w2 }, ?_, ?_, fin hpw⟩
    · simp [addObject, hc, hkind, addObject_Type_eq, e1]
    · simp [addObject, hc1, rc1.1.trans hkind, addObject_Type_eq, e2]

theorem addObject_twice_flags_witness :
    exTopDown.Objs[1]? = some exInnerEmpty ∧ exTopDown.Objs[2]? = some exS0 ∧
    ∃ out1 out2, addObject exTopDown 1 2 = some out1 ∧
      addObject out1.view 1 2 = some out2 ∧
      out2.view.Objs.length = out1.view.Objs.length ∧
      ∀ (i : Nat) (o1 : Obj), out1.view.Objs[i]? = some o1 →
        ∃ o2, out2.view.Objs[i]? = some o2 ∧ aggFlags o2 = aggFlags o1 :=
  ⟨rfl, rfl, addObject_twice_flags exTopDown 1 2 _ _ rfl rfl⟩

/-! ### `Object::resolveQualifiedName` -/

theorem joinNames_snoc (l : List Obj) (o : Obj) :
    joinNames (l ++ [o]) = joinNames l ++ (if getName o = "" then "" else getName o ++ "::") := by
  induction l with
  | nil => simp [joinNames, String.append_empty, String.empty_append]
  | cons a t ih =>
    show (if getName a = "" then "" else getName a ++ "::") ++ joinNames (t ++ [o])
      = ((if getName a = "" then "" else getName a ++ "::") ++ joinNames t) ++ _
    rw [ih, String.append_assoc]

theorem length_ne_zero_iff (s : String) : (s.length != 0) = true ↔ s ≠ "" := by
  constructor
  · intro h e
    subst e
    simp at h
  · intro h
    simp only [bne_iff_ne, ne_eq]
    intro e
    apply h
    apply String.ext
    show s.data = []
    exact List.length_eq_zero.1 e

/-- One turn of the loop body on the accumulator, in the form of the
specification: the piece of the object in front of what was there. -/
theorem insert_name (o : Obj) (acc : String) :
    (if (getName o).length != 0 then getName o ++ ("::" ++ acc) else acc)
      = (if getName o = "" then "" else getName o ++ "::") ++ acc := by
  by_cases e : getName o = ""
  · have : ¬ ((getName o).length != 0) = true := fun h => (length_ne_zero_iff _).1 h e
    rw [if_neg this, if_pos e, String.empty_append]
  · rw [if_pos ((length_ne_zero_iff _).2 e), if_neg e, String.append_assoc]

/-- When the explicit parent is not a function, the loop of
`resolveQualifiedName` run from any point of a parent chain, with fuel for the
whole chain, ends with the names of the visited part of the chain in front of
the accumulator. -/
theorem qualifiedNameLoop_chain (h : Heap) (EP : Option Nat)
    (hF : explicitParentIsFunction h EP = false) :
    ∀ (chain : List Obj) (pos : Option Nat) (acc : String) (fuel : Nat),
      ChainFrom h pos chain → chain.length < fuel →
      qualifiedNameLoop h EP fuel pos acc
        = some (joinNames (visitedAncestors chain).reverse ++ acc) := by
  intro chain
  induction chain with
  | nil =>
    intro pos acc fuel hch hfuel
    cases pos with
    | some p => exact absurd hch (by simp [ChainFrom])
    | none =>
      cases fuel with
      | zero => omega
      | succ f => simp [qualifiedNameLoop, visitedAncestors, joinNames, String.empty_append]
  | cons o rest ih =>
    intro pos acc fuel hch hfuel
    cases pos with
    | none => exact absurd hch (by simp [ChainFrom])
    | some p =>
      obtain ⟨hp, hrest⟩ : h[p]? = some o ∧ ChainFrom h (getParent o) rest := hch
      cases fuel with
      | zero => omega
      | succ f =>
        have hf : rest.length < f := by simpa using hfuel
        simp only [qualifiedNameLoop, hp, hF]
        by_cases hs : stopsWalk o = true
        · have hcond : (!getIsCompileUnit o && !false && !(getIsScope o && getIsRoot o)) = false := by
            simp only [stopsWalk] at hs
            revert hs
            cases getIsCompileUnit o <;> cases (getIsScope o && getIsRoot o) <;> simp
          simp only [hcond]
          simp [visitedAncestors, List.takeWhile, hs, joinNames, String.empty_append]
        · have hs' : stopsWalk o = false := by simpa using hs
          have hcond : (!getIsCompileUnit o && !false && !(getIsScope o && getIsRoot o)) = true := by
            simp only [stopsWalk] at hs'
            revert hs'
            cases getIsCompileUnit o <;> cases (getIsScope o && getIsRoot o) <;> simp
          simp only [hcond, if_true]
          rw [ih _ _ _ hrest hf, insert_name]
          have hv : visitedAncestors (o :: rest) = o :: visitedAncestors rest := by
            simp [visitedAncestors, List.takeWhile, hs']
          rw [hv, List.reverse_cons, joinNames_snoc, String.append_assoc]

theorem loop_condition (o : Obj) (f : Bool) :
    (!getIsCompileUnit o && !f && !(getIsScope o && getIsRoot o)) = (!stopsWalk o && !f) := by
  simp only [stopsWalk]
  cases getIsCompileUnit o <;> cases f <;> cases (getIsScope o && getIsRoot o) <;> rfl

/-- The store at the end of `resolveQualifiedName`, given the string the loop
computed. -/
theorem resolveQualifiedName_eq (fuel : Nat) (v : View) (E : Nat) (EP : Option Nat)
    (e : Obj) (q : String) (he : v.Objs[E]? = some e)
    (hq : qualifiedNameLoop v.Objs EP fuel EP "" = some q) :
    resolveQualifiedName fuel v E EP
      = some (if q = "" then v
          else { v with Objs := v.Objs.set E (setHasQualifiedName (setQualifiedName e q)) }) := by
  by_cases hempty : q = ""
  · subst hempty
    have : ("" : String).isEmpty = true := rfl
    simp [resolveQualifiedName, he, hq, this]
  · have : q.isEmpty = false := by
      cases hb : q.isEmpty with
      | false => rfl
      | true => exact absurd ((String.isEmpty_iff q).1 hb) hempty
    simp [resolveQualifiedName, he, hq, this, hempty]

/-- A walk over ancestors that are all unnamed leaves the accumulator as it
was. -/
theorem qualifiedNameLoop_unnamed (h : Heap) (EP : Option Nat) :
    ∀ (chain : List Obj) (pos : Option Nat) (acc : String) (fuel : Nat) (q : String),
      ChainFrom h pos chain → (∀ o ∈ visitedAncestors chain, getName o = "") →
      qualifiedNameLoop h EP fuel pos acc = some q → q = acc := by
  intro chain
  induction chain with
  | nil =>
    intro pos acc fuel q hch _ hq
    cases pos with
    | some p => exact absurd hch (by simp [ChainFrom])
    | none =>
      cases fuel with
      | zero => simp [qualifiedNameLoop] at hq
      | succ f =>
        simp [qualifiedNameLoop] at hq
        exact hq.symm
  | cons o rest ih =>
    intro pos acc fuel q hch hnames hq
    cases pos with
    | none => exact absurd hch (by simp [ChainFrom])
    | some p =>
      obtain ⟨hp, hrest⟩ : h[p]? = some o ∧ ChainFrom h (getParent o) rest := hch
      cases fuel with
      | zero => simp [qualifiedNameLoop] at hq
      | succ f =>
        simp only [qualifiedNameLoop, hp, loop_condition] at hq
        by_cases hc : (!stopsWalk o && !explicitParentIsFunction h EP) = true
        · rw [if_pos hc] at hq
          have hs : stopsWalk o = false := by
            revert hc
            cases stopsWalk o <;> simp
          have hv : visitedAncestors (o :: rest) = o :: visitedAncestors rest := by
            simp [visitedAncestors, List.takeWhile, hs]
          rw [hv] at hnames
          have hname : getName o = "" := hnames o (List.mem_cons_self _ _)
          rw [insert_name, if_pos hname, String.empty_append] at hq
          exact ih _ _ _ _ hrest (fun o' ho' => hnames o' (List.mem_cons_of_mem _ ho')) hq
        · rw [if_neg hc] at hq
          cases hq
          rfl

/-- C8: for every entity `E` and explicit parent `P` whose parent chain, `P`
included, holds no function scope, `resolveQualifiedName(E, P)` computes the
qualified name of the specification: the names of `P`, `parent(P)`, ... up to
but excluding the first compile unit or tree root, root-most first, each
non-empty name followed by `::` and empty names skipped; and it returns,
with that string as the qualified name of `E` when the string is not empty. -/
theorem resolveQualifiedName_computes (fuel : Nat) (v : View) (E P : Nat) (e : Obj)
    (chain : List Obj) (he : v.Objs[E]? = some e)
    (hchain : ChainFrom v.Objs (some P) chain)
    (hnf : ∀ o ∈ chain, getIsFunction o = false) (hfuel : chain.length < fuel) :
    qualifiedNameLoop v.Objs (some P) fuel (some P) "" = some (specQualifiedName chain) ∧
    ∃ v', resolveQualifiedName fuel v E (some P) = some v' ∧
      (specQualifiedName chain ≠ "" →
        ∃ e', v'.Objs[E]? = some e' ∧ getQualifiedName e' = specQualifiedName chain ∧
          getHasQualifiedName e' = true) := by
  have hF : explicitParentIsFunction v.Objs (some P) = false := by
    cases chain with
    | nil => exact absurd hchain (by simp [ChainFrom])
    | cons o rest =>
      obtain ⟨hp, _⟩ : v.Objs[P]? = some o ∧ ChainFrom v.Objs (getParent o) rest := hchain
      simp only [explicitParentIsFunction, hp]
      exact hnf o (List.mem_cons_self _ _)
  have hloop : qualifiedNameLoop v.Objs (some P) fuel (some P) ""
      = some (specQualifiedName chain) := by
    rw [qualifiedNameLoop_chain v.Objs (some P) hF chain (some P) "" fuel hchain hfuel,
      String.append_empty]
    rfl
  refine ⟨hloop, _, resolveQualifiedName_eq fuel v E (some P) e _ he hloop, ?_⟩
  intro hne
  have hlt : E < v.Objs.length := (List.getElem?_eq_some.1 he).1
  rw [if_neg hne]
  exact ⟨setHasQualifiedName (setQualifiedName e (specQualifiedName chain)),
    by simp [List.getElem?_set, hlt], rfl, rfl⟩

theorem resolveQualifiedName_computes_witness :
    exNested.Objs[5]? = some { Kind := ObjKind.symbol, Name := "m", Parent := some 4 } ∧
    ChainFrom exNested.Objs (some 4) exNestedChain ∧
    (∀ o ∈ exNestedChain, getIsFunction o = false) ∧ exNestedChain.length < 6 ∧
    specQualifiedName exNestedChain = "A::B::" ∧
    qualifiedNameLoop exNested.Objs (some 4) 6 (some 4) ""
      = some (specQualifiedName exNestedChain) ∧
    ∃ v', resolveQualifiedName 6 exNested 5 (some 4) = some v' ∧
      (specQualifiedName exNestedChain ≠ "" →
        ∃ e', v'.Objs[5]? = some e' ∧ getQualifiedName e' = specQualifiedName exNestedChain ∧
          getHasQualifiedName e' = true) :=
  ⟨rfl, ⟨rfl, rfl, rfl, rfl, rfl, trivial⟩, by decide, by decide, by decide,
    resolveQualifiedName_computes 6 exNested 5 4 _ exNestedChain rfl
      ⟨rfl, rfl, rfl, rfl, rfl, trivial⟩ (by decide) (by decide)⟩

/-- C9: the code does not stop at a function above the explicit parent.  In
the tree `cu > f > L > m`, with `f` a function and `L` a class declared in
it, `resolveQualifiedName` on `m` with explicit parent `L` stores `f::L::`,
the name of the function included; only when the explicit parent is the
function itself (the symbol `x` of `f`) does the walk stop at once, and then
nothing is stored. -/
theorem resolveQualifiedName_includes_function :
    (resolveQualifiedName 5 exLocalClass 3 (some 2)).map
        (fun w => (w.Objs[3]?).map (fun o => (getHasQualifiedName o, getQualifiedName o)))
      = some (some (true, "f::L::")) ∧
    resolveQualifiedName 5 exLocalClass 4 (some 1) = some exLocalClass := by
  constructor <;> decide

/-- C10: `resolveQualifiedName` stores the computed string and sets
has-qualified-name exactly when the string is not empty.  With `q` the string
the loop computed: if `q` is not empty the call returns the state in which the
entity has qualified name `q` and has-qualified-name set, every other object
as before; if `q` is empty the call returns the state unchanged.  And `q` is
empty when the explicit parent is null, is a compile unit or the root, or
when every visited ancestor is unnamed. -/
theorem resolveQualifiedName_stores (fuel : Nat) (v : View) (E : Nat) (EP : Option Nat)
    (e : Obj) (q : String) (he : v.Objs[E]? = some e)
    (hq : qualifiedNameLoop v.Objs EP fuel EP "" = some q) :
    (q ≠ "" → ∃ v' e', resolveQualifiedName fuel v E EP = some v' ∧
      v'.Objs = v.Objs.set E (setHasQualifiedName (setQualifiedName e q)) ∧
      v'.TheReader = v.TheReader ∧
      v'.Objs[E]? = some e' ∧ getQualifiedName e' = q ∧ getHasQualifiedName e' = true ∧
      ∀ i, i ≠ E → v'.Objs[i]? = v.Objs[i]?) ∧
    (q = "" → resolveQualifiedName fuel v E EP = some v) ∧
    (EP = none → q = "") ∧
    (∀ (P : Nat) (o : Obj), EP = some P → v.Objs[P]? = some o → stopsWalk o = true → q = "") ∧
    (∀ chain : List Obj, ChainFrom v.Objs EP chain →
      (∀ o ∈ visitedAncestors chain, getName o = "") → q = "") := by
  have hres := resolveQualifiedName_eq fuel v E EP e q he hq
  have hlt : E < v.Objs.length := (List.getElem?_eq_some.1 he).1
  refine ⟨?_, ?_, ?_, ?_, ?_⟩
  · intro hne
    rw [if_neg hne] at hres
    refine ⟨_, setHasQualifiedName (setQualifiedName e q), hres, rfl, rfl, ?_, rfl, rfl, ?_⟩
    · simp [List.getElem?_set, hlt]
    · intro i hi
      simp [List.getElem?_set, Ne.symm hi]
  · intro hempty
    rw [if_pos hempty] at hres
    exact hres
  · intro hnone
    subst hnone
    cases fuel with
    | zero => simp [qualifiedNameLoop] at hq
    | succ f =>
      simp [qualifiedNameLoop] at hq
      exact hq.symm
  · intro P o hP ho hs
    subst hP
    cases fuel with
    | zero => simp [qualifiedNameLoop] at hq
    | succ f =>
      simp only [qualifiedNameLoop, ho, loop_condition, hs] at hq
      simp at hq
      exact hq.symm
  · intro chain hch hnames
    exact qualifiedNameLoop_unnamed v.Objs EP chain EP "" fuel q hch hnames hq

theorem resolveQualifiedName_stores_witness :
    exNested.Objs[5]? = some { Kind := ObjKind.symbol, Name := "m", Parent := some 4 } ∧
    qualifiedNameLoop exNested.Objs (some 4) 6 (some 4) "" = some "A::B::" ∧
    ∃ v' e', resolveQualifiedName 6 exNested 5 (some 4) = some v' ∧
      v'.Objs[5]? = some e' ∧ getQualifiedName e' = "A::B::" ∧
      getHasQualifiedName e' = true := by
  refine ⟨rfl, by decide, ?_⟩
  obtain ⟨v', e', h1, _, _, h2, h3, h4, _⟩ :=
    (resolveQualifiedName_stores 6 exNested 5 (some 4) _ "A::B::" rfl (by decide)).1
      (by decide)
  exact ⟨v', e', h1, h2, h3, h4⟩

/-! ### `Scope::getKindAsString` -/

theorem getKindAsString_eq_specKind (o : Obj) : Scope.getKindAsString o = specKind o := by
  simp only [Scope.getKindAsString, specKind, specKindTable, List.find?]
  cases getIsArrayType o <;> simp
  cases getIsBlock o <;> simp
  cases getIsCompileUnit o <;> simp
  cases getIsEnumerationType o <;> simp
  cases getIsInlinedSubroutine o <;> simp
  cases getIsNamespace o <;> simp
  cases getIsTemplatePack o <;> simp
  cases getIsRoot o <;> simp
  cases getIsTemplateAlias o <;> simp
  cases getIsClassType o <;> simp
  cases getIsFunction o <;> simp
  cases getIsStructType o <;> simp
  cases getIsUnionType o <;> simp

theorem find?_first {α : Type} (p : α → Bool) :
    ∀ (l : List α) (i : Nat) (e : α), l[i]? = some e → p e = true →
      (∀ (j : Nat) (e' : α), j < i → l[j]? = some e' → p e' = false) →
      l.find? p = some e := by
  intro l
  induction l with
  | nil => intro i e h; simp at h
  | cons a t ih =>
    intro i e h hp hbefore
    cases i with
    | zero =>
      simp at h
      subst h
      simp [List.find?, hp]
    | succ k =>
      have ha : p a = false := hbefore 0 a (Nat.succ_pos k) (by simp)
      simp only [List.find?, ha]
      simp at h
      exact ih k e h hp (fun j e' hj he' => hbefore (j + 1) e' (Nat.succ_lt_succ hj) (by simpa using he'))

theorem specKindTable_labels : ∀ e ∈ specKindTable, e.2 ≠ "Undefined" := by
  intro e he
  simp only [specKindTable, List.mem_cons, List.mem_singleton, List.not_mem_nil, or_false] at he
  rcases he with h | h | h | h | h | h | h | h | h | h | h | h | h <;> subst h <;> decide

/-- C20: `Scope::getKindAsString` returns the label of the first recognised
sub-kind flag the scope has, in the order array, block, compile unit,
enumeration, inlined subroutine, namespace, template pack, root, template
alias, class, function, struct, union, with the labels of `specKindTable`; so
with exactly one flag it returns the label of that flag; and it returns
`Undefined` if and only if the scope has none of the thirteen flags. -/
theorem getKindAsString_first_flag (o : Obj) :
    Scope.getKindAsString o = specKind o ∧
    (Scope.getKindAsString o = "Undefined" ↔ ∀ e ∈ specKindTable, e.1 o = false) ∧
    (∀ (i : Nat) (e : (Obj → Bool) × String), specKindTable[i]? = some e → e.1 o = true →
      (∀ (j : Nat) (e' : (Obj → Bool) × String), j < i → specKindTable[j]? = some e' →
        e'.1 o = false) →
      Scope.getKindAsString o = e.2) := by
  refine ⟨getKindAsString_eq_specKind o, ?_, ?_⟩
  · rw [getKindAsString_eq_specKind, specKind]
    cases hf : specKindTable.find? (fun e => e.1 o) with
    | none =>
      simp only [true_iff]
      intro e he
      have := List.find?_eq_none.1 hf e he
      simpa using this
    | some e =>
      simp only
      constructor
      · intro h
        exact absurd h (specKindTable_labels e (List.mem_of_find?_eq_some hf))
      · intro h
        have h1 := h e (List.mem_of_find?_eq_some hf)
        have h2 := List.find?_some hf
        simp only at h2
        rw [h1] at h2
        cases h2
  · intro i e hi he hbefore
    rw [getKindAsString_eq_specKind, specKind,
      find?_first (fun e => e.1 o) specKindTable i e hi he hbefore]

/-! ### `Scope::resolvePrinting` -/

theorem isEmpty_eq_false_iff {α : Type} (l : List α) : (!l.isEmpty) = true ↔ l ≠ [] := by
  cases l <;> simp

/-- The first step of `Scope::resolvePrinting`: the visibility test. -/
theorem printing_visibility :
    ∀ (g l hg hl gr : Bool),
      ((if g == l then true
        else if (g && !(hg || gr)) || (l && !(hl || !gr)) then false
        else true) = true) ↔
      (g = l ∨ ((g = true → hg = true ∨ gr = true) ∧ (l = true → hl = true ∨ gr = false))) := by
  decide

/-- The second step: functions that are generated artifacts. -/
theorem printing_generated :
    ∀ (d fn s un ul : Bool),
      ((if d && fn then (if !s && (un && ul) then false else d) else d) = true) ↔
      (d = true ∧ ¬ (fn = true ∧ s = false ∧ un = true ∧ ul = true)) := by
  decide

/-- The third step: the pattern filters. -/
theorem printing_pattern :
    ∀ (d f1 f2 hpat : Bool),
      ((if d then (if !f1 || !f2 then hpat else d) else d) = true) ↔
      (d = true ∧ (((!f1) = true ∨ (!f2) = true) → hpat = true)) := by
  decide

/-- C19: `Scope::resolvePrinting(Settings)` returns true if and only if the
three conditions hold: (1) `ShowOnlyGlobals` equals `ShowOnlyLocals`, or else
`ShowOnlyGlobals` implies has-globals or is-global-reference and
`ShowOnlyLocals` implies has-locals or not is-global-reference; (2) it is not
the case that the scope is a function, `ShowGenerated` is off and the scope is
both unnamed and unlined; (3) if a children filter pattern is configured, the
scope has has-pattern. -/
theorem resolvePrinting_iff (Settings : PrintSettings) (o : Obj) :
    Scope.resolvePrinting Settings o = true ↔
      VisibilityOk Settings o ∧ GeneratedOk Settings o ∧ PatternOk Settings o := by
  have hf := isEmpty_eq_false_iff Settings.WithChildrenFilters
  have ha := isEmpty_eq_false_iff Settings.WithChildrenFilterAnys
  unfold VisibilityOk GeneratedOk PatternOk Scope.resolvePrinting isNotPrintable
  rw [← hf, ← ha]
  dsimp only
  rw [printing_pattern, printing_generated, printing_visibility, and_assoc]

/-! ### `Scope::getQualifiedName` -/

theorem append_ne_empty {s : String} (t : String) (h : s ≠ "") : s ++ t ≠ "" := by
  intro e
  apply h
  apply String.ext
  have := congrArg String.data e
  rw [String.data_append] at this
  exact (List.append_eq_nil.1 this).1

theorem isEmpty_false_of_ne {s : String} (h : s ≠ "") : s.isEmpty = false := by
  cases hb : s.isEmpty with
  | false => rfl
  | true => exact absurd ((String.isEmpty_iff s).1 hb) h

/-- One call of `Scope::getQualifiedName` on a scope that is neither root nor
compile unit and whose parent call returned `q`. -/
theorem getQualifiedName_step (h : Heap) (fuel This P : Nat) (o po : Obj) (acc q : String)
    (ho : h[This]? = some o) (hk : (getIsRoot o || getIsCompileUnit o) = false)
    (hpar : getParent o = some P) (hpo : h[P]? = some po)
    (hq : Scope.getQualifiedName h fuel P acc = some q) :
    Scope.getQualifiedName h (fuel + 1) This acc
      = some ((if !q.isEmpty then q ++ "::" else q) ++ getName o) := by
  simp [Scope.getQualifiedName, ho, hk, hpar, hpo, hq]

/-- C11: for nested scopes `A > B > C`, none of them a compile unit or the
root, and `A` directly under a compile unit or the root,
`Scope::getQualifiedName` applied to `C` with an empty accumulator returns the
names from the outermost to `C` joined by `::`, that is `A::B::C`.  Of the
three non-empty names only that of `A` is used, and functions need not be
excluded: this walk stops at compile units and the root only. -/
theorem getQualifiedName_nested (h : Heap) (fuel T A B C : Nat) (t a b c : Obj)
    (hT : h[T]? = some t) (hA : h[A]? = some a) (hB : h[B]? = some b) (hC : h[C]? = some c)
    (htop : (getIsRoot t || getIsCompileUnit t) = true)
    (hka : (getIsRoot a || getIsCompileUnit a) = false)
    (hkb : (getIsRoot b || getIsCompileUnit b) = false)
    (hkc : (getIsRoot c || getIsCompileUnit c) = false)
    (hpa : getParent a = some T) (hpb : getParent b = some A) (hpc : getParent c = some B)
    (hna : getName a ≠ "") (hfuel : 4 ≤ fuel) :
    Scope.getQualifiedName h fuel C ""
      = some (getName a ++ "::" ++ getName b ++ "::" ++ getName c) := by
  obtain ⟨f, rfl⟩ : ∃ f, fuel = f + 4 := ⟨fuel - 4, by omega⟩
  have e0 : Scope.getQualifiedName h (f + 1) T "" = some "" := by
    simp [Scope.getQualifiedName, hT, htop]
  have hemp : ("" : String).isEmpty = true := rfl
  have e1 : Scope.getQualifiedName h (f + 2) A "" = some (getName a) := by
    rw [getQualifiedName_step h (f + 1) A T a t "" "" hA hka hpa hT e0]
    simp only [hemp, Bool.not_true, Bool.false_eq_true, if_false, String.empty_append]
  have e2 : Scope.getQualifiedName h (f + 3) B "" = some (getName a ++ "::" ++ getName b) := by
    rw [getQualifiedName_step h (f + 2) B A b a "" _ hB hkb hpb hA e1]
    simp only [isEmpty_false_of_ne hna, Bool.not_false, if_true]
  rw [getQualifiedName_step h (f + 3) C B c b "" _ hC hkc hpc hB e2]
  simp only [isEmpty_false_of_ne (append_ne_empty _ (append_ne_empty _ hna)), Bool.not_false,
    if_true]

theorem getQualifiedName_nested_witness :
    Scope.getQualifiedName exABC 4 4 "" = some "A::B::C" :=
  getQualifiedName_nested exABC 4 1 2 3 4 _ _ _ _ rfl rfl rfl rfl rfl rfl rfl rfl rfl rfl rfl
    (by decide) (by decide)

/-! ### `Scope::resolveName` -/

theorem set_same {h : Heap} {i : Nat} {o : Obj} (ho : h[i]? = some o) : h.set i o = h := by
  apply List.ext_getElem?
  intro j
  by_cases e : i = j
  · subst e
    have hlt : i < h.length := (List.getElem?_eq_some.1 ho).1
    simp [List.getElem?_set, hlt, ho]
  · simp [List.getElem?_set, e]

theorem refWalk_succ (h : Heap) :
    ∀ (n X : Nat), refWalk h (n + 1) X = (refWalk h n X).bind (refStep h) := by
  intro n
  induction n with
  | zero =>
    intro X
    show (refStep h X).bind (fun a => refWalk h 0 a) = refStep h X
    cases refStep h X <;> rfl
  | succ k ih =>
    intro X
    show (refStep h X).bind (refWalk h (k + 1)) = _
    cases hs : refStep h X with
    | none => simp [refWalk, hs]
    | some Y =>
      simp only [Option.some_bind]
      rw [ih Y]
      simp [refWalk, hs]

/-- What a step of the reference walk says about the scope it leaves. -/
theorem refStep_some {h : Heap} {X Y : Nat} (hs : refStep h X = some Y) :
    ∃ x, h[X]? = some x ∧ getHasReference x = true ∧ isUnnamed x = true ∧
      getReference x = some Y := by
  unfold refStep at hs
  cases hx : h[X]? with
  | none => rw [hx] at hs; cases hs
  | some x =>
    rw [hx] at hs
    simp only at hs
    by_cases hc : (getHasReference x && isUnnamed x) = true
    · rw [if_pos hc] at hs
      simp at hc
      exact ⟨x, rfl, hc.1, hc.2, hs⟩
    · rw [if_neg hc] at hs
      cases hs

/-- The call of `Scope::resolveName` on a scope that has a reference and is
unnamed, unfolded once. -/
theorem resolveName_step (u : String → String) (fuel : Nat) (h : Heap) (X Y : Nat) (x : Obj)
    (hx : h[X]? = some x) (hr : getHasReference x = true) (hu : isUnnamed x = true)
    (hy : getReference x = some Y) :
    Scope.resolveName u (fuel + 1) h X
      = match Scope.resolveName u fuel h Y with
        | Except.error e => Except.error e
        | Except.ok (h1, name) =>
          match h1[X]? with
          | none => Except.error Stop.nullDereference
          | some o1 => Except.ok (h1.set X (setName u o1 name), getName (setName u o1 name)) := by
  simp only [Scope.resolveName, hx, hr, hu, hy, if_true]

/-- The call on a scope that has no reference or is named returns the name
and the heap as it was. -/
theorem resolveName_stop (u : String → String) (fuel : Nat) (h : Heap) (X : Nat) (x : Obj)
    (hx : h[X]? = some x) (hc : (getHasReference x && isUnnamed x) = false) :
    Scope.resolveName u (fuel + 1) h X = Except.ok (h, getName x) := by
  simp only [Scope.resolveName, hx]
  cases hr : getHasReference x <;> cases hu : isUnnamed x <;> simp_all

/-- On a cycle of unnamed scopes that all have references the call does not
return, whatever the fuel. -/
theorem resolveName_cycle (u : String → String) (h : Heap) (n : Nat) :
    ∀ (fuel X : Nat) (r : Heap × String), refWalk h (n + 1) X = some X →
      Scope.resolveName u fuel h X ≠ Except.ok r := by
  intro fuel
  induction fuel with
  | zero => intro X r _ e; simp [Scope.resolveName] at e
  | succ f ih =>
    intro X r hw e
    have hw' := hw
    simp only [refWalk] at hw'
    cases hs : refStep h X with
    | none => rw [hs] at hw'; cases hw'
    | some Y =>
      obtain ⟨x, hx, hr, hu, hy⟩ := refStep_some hs
      have hcyc : refWalk h (n + 1) Y = some Y := by
        have h1 : refWalk h (n + 1 + 1) X = some Y := by
          rw [refWalk_succ, hw]
          exact hs
        simpa [refWalk, hs] using h1
      rw [resolveName_step u f h X Y x hx hr hu hy] at e
      cases hres : Scope.resolveName u f h Y with
      | error err => rw [hres] at e; cases e
      | ok r' => exact ih Y r' hcyc hres

/-- A call that returns leaves every scope untouched from which the reference
walk leads to the scope of the call. -/
theorem resolveName_frame (u : String → String) :
    ∀ (fuel : Nat) (h : Heap) (X : Nat) (h1 : Heap) (m : String),
      Scope.resolveName u fuel h X = Except.ok (h1, m) →
      ∀ (S k : Nat), refWalk h (k + 1) S = some X → h1[S]? = h[S]? := by
  intro fuel
  induction fuel with
  | zero => intro h X h1 m e; simp [Scope.resolveName] at e
  | succ f ih =>
    intro h X h1 m e S k hw
    cases hx : h[X]? with
    | none => simp [Scope.resolveName, hx] at e
    | some x =>
      by_cases hc : (getHasReference x && isUnnamed x) = true
      · have hc' := hc
        simp at hc'
        cases hy : getReference x with
        | none => simp [Scope.resolveName, hx, hc'.1, hc'.2, hy] at e
        | some Y =>
          have e0 := e
          rw [resolveName_step u f h X Y x hx hc'.1 hc'.2 hy] at e
          cases hres : Scope.resolveName u f h Y with
          | error err => rw [hres] at e; cases e
          | ok r' =>
            obtain ⟨h', m'⟩ := r'
            rw [hres] at e
            simp only at e
            cases ho1 : h'[X]? with
            | none => rw [ho1] at e; cases e
            | some o1 =>
              rw [ho1] at e
              simp only [Except.ok.injEq, Prod.mk.injEq] at e
              obtain ⟨e1, _⟩ := e
              have hstep : refStep h X = some Y := by
                simp [refStep, hx, hc, hy]
              have hw2 : refWalk h (k + 1 + 1) S = some Y := by
                rw [refWalk_succ, hw]
                exact hstep
              have hS := ih h Y h' m' hres S (k + 1) hw2
              by_cases hSX : S = X
              · subst hSX
                exact absurd e0 (resolveName_cycle u h k (f + 1) S (h1, m) hw)
              · rw [← e1, ← hS]
                simp [List.getElem?_set, Ne.symm hSX]
      · have hc0 : (getHasReference x && isUnnamed x) = false := by simpa using hc
        rw [resolveName_stop u f h X x hx hc0] at e
        simp only [Except.ok.injEq, Prod.mk.injEq] at e
        rw [← e.1]

theorem setName_getName (u : String → String) (o : Obj) (n : String)
    (hp : o.IsPathScope = false) :
    setName u o n = { o with Name := n } ∧ getName (setName u o n) = n := by
  simp [setName, hp, getName]

theorem setName_flags (u : String → String) (o : Obj) (n : String) :
    getHasReference (setName u o n) = getHasReference o ∧
    getReference (setName u o n) = getReference o := by
  unfold setName
  by_cases hp : o.IsPathScope = true
  · rw [if_pos hp]; exact ⟨rfl, rfl⟩
  · rw [if_neg hp]; exact ⟨rfl, rfl⟩

/-- Storing the empty name on an unnamed object changes nothing. -/
theorem setName_unnamed (u : String → String) (o : Obj) (n : String)
    (hu : isUnnamed o = true) (hn : isUnnamed (setName u o n) = true) :
    setName u o n = o := by
  have h1 : o.Name = "" := by simpa [isUnnamed, getName] using hu
  unfold setName at hn ⊢
  by_cases hp : o.IsPathScope = true
  · rw [if_pos hp] at hn ⊢
    have h2 : u n = "" := by simpa [isUnnamed, getName] using hn
    rw [h2, ← h1]
  · rw [if_neg hp] at hn ⊢
    have h2 : n = "" := by simpa [isUnnamed, getName] using hn
    rw [h2, ← h1]

/-- C12: `Scope::resolveName` on a scope `S` that has a reference `R` and is
unnamed, when the call on `R` returns the name `n`, sets the name of `S` by
`setName(n)`, leaves everything else as the call on `R` left it, and returns
the name of `S` so set, which is `n` itself for every scope but a compile
unit or root object (whose `setName` stores the unified path of `n`); on a
scope that has no reference, or that is named, it returns the current name of
the scope and the heap as it was. -/
theorem resolveName_borrows (u : String → String) (fuel : Nat) (h : Heap) (S : Nat) (s : Obj)
    (hs : h[S]? = some s) :
    (∀ (R : Nat) (h1 : Heap) (n : String),
      getHasReference s = true → isUnnamed s = true → getReference s = some R →
      Scope.resolveName u fuel h R = Except.ok (h1, n) →
        Scope.resolveName u (fuel + 1) h S
          = Except.ok (h1.set S (setName u s n), getName (setName u s n)) ∧
        (s.IsPathScope = false →
          setName u s n = { s with Name := n } ∧ getName (setName u s n) = n)) ∧
    ((getHasReference s = false ∨ isUnnamed s = false) →
      Scope.resolveName u (fuel + 1) h S = Except.ok (h, getName s)) := by
  constructor
  · intro R h1 n hr hu hy hres
    have hw : refWalk h (0 + 1) S = some R := by
      simp [refWalk, refStep, hs, hr, hu, hy]
    have hS : h1[S]? = some s := by
      rw [resolveName_frame u fuel h R h1 n hres S 0 hw, hs]
    refine ⟨?_, setName_getName u s n⟩
    rw [resolveName_step u fuel h S R s hs hr hu hy, hres]
    simp only [hS]
  · intro hc
    apply resolveName_stop u fuel h S s hs
    rcases hc with hc | hc <;> simp [hc]

theorem resolveName_borrows_witness :
    exRefs[2]? = some exInlined ∧
    Scope.resolveName id 2 exRefs 1 = Except.ok (exRefsDef, "f") ∧
    Scope.resolveName id 3 exRefs 2
      = Except.ok (exRefsDef.set 2 (setName id exInlined "f"), getName (setName id exInlined "f")) ∧
    getName (setName id exInlined "f") = "f" ∧
    Scope.resolveName id 1 exRefs 0 = Except.ok (exRefs, "f") := by
  have hw := resolveName_borrows id 2 exRefs 2 exInlined rfl
  have h0 := resolveName_borrows id 0 exRefs 0 _ rfl
  have hdef : Scope.resolveName id 2 exRefs 1 = Except.ok (exRefsDef, "f") := rfl
  obtain ⟨e1, e2⟩ := hw.1 1 exRefsDef "f" rfl rfl rfl hdef
  exact ⟨rfl, hdef, e1, (e2 rfl).2, h0.2 (Or.inl rfl)⟩

/-- C13: name resolution is cached.  If `Scope::resolveName` on a scope has
returned a name, leaving the heap `h1`, then the same call made again on `h1`
returns the same name and leaves `h1` as it is: no entity changes state. -/
theorem resolveName_again (u : String → String) :
    ∀ (fuel : Nat) (h : Heap) (X : Nat) (h1 : Heap) (m : String),
      Scope.resolveName u fuel h X = Except.ok (h1, m) →
      Scope.resolveName u fuel h1 X = Except.ok (h1, m) := by
  intro fuel
  induction fuel with
  | zero => intro h X h1 m e; simp [Scope.resolveName] at e
  | succ f ih =>
    intro h X h1 m e
    cases hx : h[X]? with
    | none => simp [Scope.resolveName, hx] at e
    | some x =>
      by_cases hc : (getHasReference x && isUnnamed x) = true
      · have hc' := hc
        simp at hc'
        cases hy : getReference x with
        | none => simp [Scope.resolveName, hx, hc'.1, hc'.2, hy] at e
        | some Y =>
          rw [resolveName_step u f h X Y x hx hc'.1 hc'.2 hy] at e
          cases hres : Scope.resolveName u f h Y with
          | error err => rw [hres] at e; cases e
          | ok r' =>
            obtain ⟨h', m'⟩ := r'
            have hw : refWalk h (0 + 1) X = some Y := by
              simp [refWalk, refStep, hx, hc, hy]
            have hX : h'[X]? = some x := by
              rw [resolveName_frame u f h Y h' m' hres X 0 hw, hx]
            rw [hres] at e
            simp only [hX, Except.ok.injEq, Prod.mk.injEq] at e
            obtain ⟨e1, e2⟩ := e
            have hlt : X < h'.length := (List.getElem?_eq_some.1 hX).1
            have hX1 : h1[X]? = some (setName u x m') := by
              rw [← e1]
              simp [List.getElem?_set, hlt]
            by_cases hn : isUnnamed (setName u x m') = true
            · have hsame := setName_unnamed u x m' hc'.2 hn
              have hh : h1 = h' := by rw [← e1, hsame]; exact set_same hX
              rw [hh, resolveName_step u f h' X Y x hX hc'.1 hc'.2 hy, ih h Y h' m' hres]
              simp only [hX, hsame, set_same hX]
              rw [← e2, hsame]
            · have hn0 : isUnnamed (setName u x m') = false := by simpa using hn
              rw [resolveName_stop u f h1 X _ hX1 (by simp [hn0]), e2]
      · have hc0 : (getHasReference x && isUnnamed x) = false := by simpa using hc
        rw [resolveName_stop u f h X x hx hc0] at e
        simp only [Except.ok.injEq, Prod.mk.injEq] at e
        rw [← e.1, ← e.2]
        exact resolveName_stop u f h X x hx hc0

theorem resolveName_again_witness :
    Scope.resolveName id 3 exRefs 2
      = Except.ok (exRefsDef.set 2 (setName id exInlined "f"), "f") ∧
    Scope.resolveName id 3 (exRefsDef.set 2 (setName id exInlined "f")) 2
      = Except.ok (exRefsDef.set 2 (setName id exInlined "f"), "f") :=
  ⟨rfl, resolveName_again id 3 exRefs 2 _ "f" rfl⟩

/-! ### `Object::setFullName` -/

theorem switchOnTag_of_recognised (Settings : PrintSettings) (b t : Bool)
    (pt : Option String) :
    ∀ tag ∈ recognisedTags, (switchOnTag Settings tag b t pt).isSome = true := by
  intro tag hm
  simp only [recognisedTags, List.mem_cons, List.mem_singleton, List.not_mem_nil,
    or_false] at hm
  rcases hm with h | h | h | h | h | h | h | h | h | h | h | h | h | h | h | h | h | h | h |
    h | h | h | h | h | h | h | h | h | h | h | h | h | h | h <;> subst h <;> rfl

theorem switchOnTag_none_iff (Settings : PrintSettings) (tag : Nat) (b t : Bool)
    (pt : Option String) :
    switchOnTag Settings tag b t pt = none ↔ tag ∉ recognisedTags := by
  constructor
  · intro hnone hm
    have := switchOnTag_of_recognised Settings b t pt tag hm
    rw [hnone] at this
    cases this
  · intro hn
    have s1 : ∀ x ∈ tagsWithBaseTypename, x ∈ recognisedTags := by decide
    have s2 : ∀ x ∈ tagsWithoutParentTypeName, x ∈ recognisedTags := by decide
    have s3 : ∀ x ∈ tagsWithoutBaseText, x ∈ recognisedTags := by decide
    have e : ∀ c, c ∈ recognisedTags → ¬ tag = c := fun c hc h => hn (h ▸ hc)
    unfold switchOnTag
    rw [if_neg (fun hm => hn (s1 _ hm)), if_neg (fun hm => hn (s2 _ hm)),
      if_neg (e _ (by decide)), if_neg (e _ (by decide)), if_neg (e _ (by decide)),
      if_neg (e _ (by decide)), if_neg (e _ (by decide)), if_neg (e _ (by decide)),
      if_neg (e _ (by decide)), if_neg (fun hm => hn (s3 _ hm)), if_neg (e _ (by decide))]

/-- `Object::setFullName` past a recognised tag: the name stored is the
concatenation with its double spaces removed. -/
theorem setFullName_eq (u : String → String) (Settings : PrintSettings) (h : Heap)
    (This : Nat) (BaseType BaseScope SpecScope : Option Nat) (BaseText : Option String)
    (o : Obj) (pt : Option String) (l : FullNameLocals)
    (ho : h[This]? = some o) (hpt : parentTypename h BaseType BaseScope = some pt)
    (hsw : switchOnTag Settings (getDieTag o) BaseType.isSome (getType o).isSome pt = some l) :
    Object.setFullName u Settings h This BaseType BaseScope SpecScope BaseText
      = some (h.set This (setName u o (removeDoubleSpaces (assembleFullName l SpecScope.isSome
          (match BaseText with
           | some base => some base
           | none => if l.GetBaseTypename then some (getName o) else none)))), true) := by
  simp only [Object.setFullName, ho, hpt, hsw, Option.bind_eq_bind, Option.some_bind]
  rfl

/-- C18: for an entity whose tag is in none of the recognised categories
`Object::setFullName` returns false and leaves the heap, the name of the
entity included, as it was; for every tag of a recognised category it returns
true. -/
theorem setFullName_recognised (u : String → String) (Settings : PrintSettings) (h : Heap)
    (This : Nat) (BaseType BaseScope SpecScope : Option Nat) (BaseText : Option String)
    (o : Obj) (pt : Option String)
    (ho : h[This]? = some o) (hpt : parentTypename h BaseType BaseScope = some pt) :
    (getDieTag o ∉ recognisedTags →
      Object.setFullName u Settings h This BaseType BaseScope SpecScope BaseText
        = some (h, false)) ∧
    (getDieTag o ∈ recognisedTags →
      ∃ h', Object.setFullName u Settings h This BaseType BaseScope SpecScope BaseText
        = some (h', true)) := by
  constructor
  · intro hn
    have := (switchOnTag_none_iff Settings (getDieTag o) BaseType.isSome (getType o).isSome
      pt).2 hn
    simp [Object.setFullName, ho, hpt, this]
  · intro hm
    cases hsw : switchOnTag Settings (getDieTag o) BaseType.isSome (getType o).isSome pt with
    | none => exact absurd hm ((switchOnTag_none_iff _ _ _ _ _).1 hsw)
    | some l =>
      exact ⟨_, setFullName_eq u Settings h This BaseType BaseScope SpecScope BaseText o pt l
        ho hpt hsw⟩

theorem setFullName_recognised_witness :
    exTypes[3]? = some exMember ∧ exTypes[1]? = some exConst ∧
    parentTypename exTypes (some 0) none = some (some "int") ∧
    getDieTag exMember ∉ recognisedTags ∧ getDieTag exConst ∈ recognisedTags ∧
    Object.setFullName id {} exTypes 3 (some 0) none none none = some (exTypes, false) ∧
    ∃ h', Object.setFullName id {} exTypes 1 (some 0) none none none = some (h', true) :=
  ⟨rfl, rfl, rfl, by decide, by decide,
    (setFullName_recognised id {} exTypes 3 (some 0) none none none exMember _ rfl rfl).1
      (by decide),
    (setFullName_recognised id {} exTypes 1 (some 0) none none none exConst _ rfl rfl).2
      (by decide)⟩

theorem switchOnTag_pointer (Settings : PrintSettings) (b t : Bool) (pt : Option String) :
    switchOnTag Settings DW_TAG_pointer_type b t pt
      = some { ParentTypename :=
                 if !b && !t && Settings.ShowVoid then some "void" else pt,
               PostText := some "*" } := rfl

/-- C15: for a pointer-type entity with no base type, no base scope, no type
of its own, no specification scope and no base text, `Object::setFullName`
returns true and sets the name by `setName` to `void *` when `ShowVoid` is
on and to `*` when it is off; that is the name the entity then has (for every
object but a compile unit or root object). -/
theorem setFullName_void_pointer (u : String → String) (Settings : PrintSettings) (h : Heap)
    (This : Nat) (o : Obj) (ho : h[This]? = some o)
    (htag : getDieTag o = DW_TAG_pointer_type) (hty : getType o = none) :
    Object.setFullName u Settings h This none none none none
      = some (h.set This (setName u o (if Settings.ShowVoid then "void *" else "*")), true) ∧
    (o.IsPathScope = false →
      getName (setName u o (if Settings.ShowVoid then "void *" else "*"))
        = (if Settings.ShowVoid then "void *" else "*")) := by
  refine ⟨?_, fun hp => (setName_getName u o _ hp).2⟩
  have hsw := switchOnTag_pointer Settings (none : Option Nat).isSome (getType o).isSome none
  rw [← htag] at hsw
  rw [setFullName_eq u Settings h This none none none none o none _ ho rfl hsw, hty]
  cases Settings.ShowVoid <;> rfl

theorem setFullName_void_pointer_witness :
    exTypes[4]? = some exVoidPointer ∧ getDieTag exVoidPointer = DW_TAG_pointer_type ∧
    getType exVoidPointer = none ∧
    Object.setFullName id { ShowVoid := true } exTypes 4 none none none none
      = some (exTypes.set 4 { exVoidPointer with Name := "void *" }, true) ∧
    Object.setFullName id { ShowVoid := false } exTypes 4 none none none none
      = some (exTypes.set 4 { exVoidPointer with Name := "*" }, true) :=
  ⟨rfl, rfl, rfl,
    (setFullName_void_pointer id { ShowVoid := true } exTypes 4 exVoidPointer rfl rfl rfl).1,
    (setFullName_void_pointer id { ShowVoid := false } exTypes 4 exVoidPointer rfl rfl rfl).1⟩

theorem collapseSpaces_of_no_double :
    ∀ l : List Char, hasDoubleSpace l = false → collapseSpaces l = l
  | [], _ => rfl
  | [_], _ => rfl
  | c :: d :: rest, h => by
    simp only [hasDoubleSpace, Bool.or_eq_false_iff] at h
    have ih := collapseSpaces_of_no_double (d :: rest) h.2
    have hcd : ¬ (c = ' ' ∧ d = ' ') := by
      intro hc
      have := h.1
      simp [hc.1, hc.2] at this
    simp only [collapseSpaces]
    rw [if_neg hcd, ih]

theorem hasDoubleSpace_append :
    ∀ (a b : List Char), hasDoubleSpace a = false → hasDoubleSpace b = false →
      (a.getLast? ≠ some ' ' ∨ b.head? ≠ some ' ') → hasDoubleSpace (a ++ b) = false
  | [], b, _, hb, _ => hb
  | [c], b, _, hb, hj => by
    cases b with
    | nil => rfl
    | cons d r =>
      show ((c == ' ' && d == ' ') || hasDoubleSpace (d :: r)) = false
      rw [hb, Bool.or_false]
      cases hc : (c == ' ' && d == ' ') with
      | false => rfl
      | true =>
        simp at hc
        rcases hj with hj | hj
        · exact absurd (by simp [hc.1]) hj
        · exact absurd (by simp [hc.2]) hj
  | c :: d :: r, b, ha, hb, hj => by
    simp only [hasDoubleSpace, Bool.or_eq_false_iff] at ha
    have ih := hasDoubleSpace_append (d :: r) b ha.2 hb
      (by rw [List.getLast?_cons_cons] at hj; exact hj)
    show ((c == ' ' && d == ' ') || hasDoubleSpace ((d :: r) ++ b)) = false
    rw [ih, ha.1]
    rfl

theorem removeDoubleSpaces_of_no_double (s : String) (h : hasDoubleSpace s.data = false) :
    removeDoubleSpaces s = s := by
  apply String.ext
  show collapseSpaces s.data = s.data
  exact collapseSpaces_of_no_double _ h

/-- A keyword, a space and a name that has no double space and no space in
front: nothing to remove. -/
theorem removeDoubleSpaces_leading (kw T : String)
    (hkw : hasDoubleSpace (kw ++ " ").data = false)
    (hT : hasDoubleSpace T.data = false) (hfront : T.data.head? ≠ some ' ') :
    removeDoubleSpaces ("" ++ kw ++ " " ++ T) = kw ++ " " ++ T := by
  rw [String.empty_append]
  apply removeDoubleSpaces_of_no_double
  rw [String.data_append]
  exact hasDoubleSpace_append _ _ hkw hT (Or.inr hfront)

/-- A name that has no double space and no space at its end, a space and a
symbol: nothing to remove. -/
theorem removeDoubleSpaces_trailing (T sym : String)
    (hsym : hasDoubleSpace (" " ++ sym).data = false)
    (hT : hasDoubleSpace T.data = false) (hback : T.data.getLast? ≠ some ' ') :
    removeDoubleSpaces ("" ++ T ++ " " ++ sym) = T ++ " " ++ sym := by
  rw [String.empty_append, String.append_assoc]
  apply removeDoubleSpaces_of_no_double
  rw [String.data_append]
  exact hasDoubleSpace_append _ _ hT hsym (Or.inl hback)

theorem parentTypename_baseType {h : Heap} {bt : Nat} {t : Obj} (BaseScope : Option Nat)
    (hbt : h[bt]? = some t) :
    parentTypename h (some bt) BaseScope = some (some (getName t)) := by
  simp [parentTypename, hbt]

theorem switchOnTag_leading (Settings : PrintSettings) (b t : Bool) (pt : Option String) :
    ∀ q ∈ leadingQualifiers,
      switchOnTag Settings q.1 b t pt = some { ParentTypename := pt, PreText := some q.2 } := by
  intro q hq
  simp only [leadingQualifiers, List.mem_cons, List.mem_singleton, List.not_mem_nil,
    or_false] at hq
  rcases hq with h | h | h <;> subst h <;> rfl

theorem switchOnTag_trailing (Settings : PrintSettings) (t : Bool) (pt : Option String) :
    ∀ q ∈ trailingQualifiers,
      switchOnTag Settings q.1 true t pt = some { ParentTypename := pt, PostText := some q.2 } := by
  intro q hq
  simp only [trailingQualifiers, List.mem_cons, List.mem_singleton, List.not_mem_nil,
    or_false] at hq
  rcases hq with h | h | h | h <;> subst h <;> rfl

/-- C14 (as the code has it): for an entity whose tag is a qualifier category,
with a base type named `T` where `T` has no two adjacent spaces, no
specification scope and no base text, `Object::setFullName` returns true and
sets the name by `setName` to `const T`, `volatile T`, `restrict T` when `T`
does not begin with a space, and to `T *` (pointer and pointer-to-member),
`T &` (reference), `T &&` (rvalue reference) when `T` does not end with a
space; the name so set is the name the entity then has (for every object but
a compile unit or root object). -/
theorem setFullName_qualifier (u : String → String) (Settings : PrintSettings) (h : Heap)
    (This bt : Nat) (BaseScope : Option Nat) (o t : Obj)
    (ho : h[This]? = some o) (hbt : h[bt]? = some t)
    (hT : hasDoubleSpace (getName t).data = false) :
    (∀ q ∈ leadingQualifiers, getDieTag o = q.1 → (getName t).data.head? ≠ some ' ' →
      Object.setFullName u Settings h This (some bt) BaseScope none none
        = some (h.set This (setName u o (q.2 ++ " " ++ getName t)), true)) ∧
    (∀ q ∈ trailingQualifiers, getDieTag o = q.1 → (getName t).data.getLast? ≠ some ' ' →
      Object.setFullName u Settings h This (some bt) BaseScope none none
        = some (h.set This (setName u o (getName t ++ " " ++ q.2)), true)) ∧
    (o.IsPathScope = false → ∀ n : String, getName (setName u o n) = n) := by
  have hpt := parentTypename_baseType BaseScope hbt
  refine ⟨?_, ?_, fun hp n => (setName_getName u o n hp).2⟩
  · intro q hq htag hfront
    have hsw := switchOnTag_leading Settings (some bt).isSome (getType o).isSome
      (some (getName t)) q hq
    rw [← htag] at hsw
    rw [setFullName_eq u Settings h This (some bt) BaseScope none none o _ _ ho hpt hsw]
    have hkw : hasDoubleSpace (q.2 ++ " ").data = false := by
      simp only [leadingQualifiers, List.mem_cons, List.mem_singleton, List.not_mem_nil,
        or_false] at hq
      rcases hq with e | e | e <;> subst e <;> rfl
    have := removeDoubleSpaces_leading q.2 (getName t) hkw hT hfront
    show some (h.set This (setName u o (removeDoubleSpaces ("" ++ q.2 ++ " " ++ getName t))),
      true) = _
    rw [this]
  · intro q hq htag hback
    have hsw := switchOnTag_trailing Settings (getType o).isSome (some (getName t)) q hq
    rw [← htag] at hsw
    rw [setFullName_eq u Settings h This (some bt) BaseScope none none o _ _ ho hpt hsw]
    have hsym : hasDoubleSpace (" " ++ q.2).data = false := by
      simp only [trailingQualifiers, List.mem_cons, List.mem_singleton, List.not_mem_nil,
        or_false] at hq
      rcases hq with e | e | e | e <;> subst e <;> rfl
    have := removeDoubleSpaces_trailing (getName t) q.2 hsym hT hback
    show some (h.set This (setName u o (removeDoubleSpaces ("" ++ getName t ++ " " ++ q.2))),
      true) = _
    rw [this]

theorem setFullName_qualifier_witness :
    exTypes[1]? = some exConst ∧ exTypes[0]? = some exInt ∧
    hasDoubleSpace (getName exInt).data = false ∧
    (getName exInt).data.head? ≠ some ' ' ∧
    Object.setFullName id {} exTypes 1 (some 0) none none none = some (exTypesConst, true) ∧
    Object.setFullName id {} exTypesConst 2 (some 1) none none none
      = some (exTypesConst.set 2 { exPointer with Name := "const int *" }, true) :=
  ⟨rfl, rfl, rfl, by decide,
    (setFullName_qualifier id {} exTypes 1 0 none exConst exInt rfl rfl rfl).1
      (DW_TAG_const_type, "const") (by decide) rfl (by decide),
    (setFullName_qualifier id {} exTypesConst 2 1 none exPointer _ rfl rfl rfl).2.1
      (DW_TAG_pointer_type, "*") (by decide) rfl (by decide)⟩

/-- C14, as stated, fails for a base type whose name ends with a space: the
`const` over an unnamed structure is named `const` followed by a space, a
name that is not empty and has no two adjacent spaces; the pointer to it is
named `const *`, with one space, and not that name followed by a space and
`*`. -/
theorem setFullName_pointer_to_trailing_space :
    Object.setFullName id {} exTypes 8 (some 7) none none none
      = some (exTypesAnonymous, true) ∧
    (exTypesAnonymous[8]?).map getName = some "const " ∧
    hasDoubleSpace "const ".data = false ∧
    (Object.setFullName id {} exTypesAnonymous 9 (some 8) none none none).map
        (fun r => (r.2, (r.1[9]?).map getName))
      = some (true, some "const *") ∧
    "const " ++ " *" ≠ "const *" := by
  refine ⟨?_, ?_, ?_, ?_, ?_⟩ <;> decide

/-- C16: the loop that removes double spaces leaves one in a run of three.  A
pointer to the type named `a   b` (three spaces) gets the name `a  b *`, which
holds two adjacent spaces. -/
theorem setFullName_keeps_double_space :
    (Object.setFullName id {} exTypes 6 (some 5) none none none).map
        (fun r => (r.2, (r.1[6]?).map (fun o => (getName o, hasDoubleSpace (getName o).data))))
      = some (true, some ("a  b *", true)) := by
  decide

/-- C17: with a specification scope the keyword `const` is dropped and the
space that follows it is not.  The `const` over `int`, with a specification
scope supplied (the class `S`), gets the name of `int` with a space in front;
the pointer to `int`, with the same specification scope, gets the name
`int`. -/
theorem setFullName_spec_scope_leading_space :
    (Object.setFullName id {} exTypes 1 (some 0) none (some 10) none).map
        (fun r => (r.2, (r.1[1]?).map getName))
      = some (true, some " int") ∧
    (Object.setFullName id {} exTypes 2 (some 0) none (some 10) none).map
        (fun r => (r.2, (r.1[2]?).map getName))
      = some (true, some "int") := by
  constructor <;> decide

/-! ### `Line::getKindAsString` -/

/-- The seven flags of a line, in the order of `enum LineAttributes`. -/
theorem lineFlags_eq (a b : LineAttributes)
    (h1 : a.IsLineRecord = b.IsLineRecord) (h2 : a.HasDiscriminator = b.HasDiscriminator)
    (h3 : a.IsLineEndSequence = b.IsLineEndSequence) (h4 : a.IsNewBasicBlock = b.IsNewBasicBlock)
    (h5 : a.IsNewStatement = b.IsNewStatement) (h6 : a.IsEpilogueBegin = b.IsEpilogueBegin)
    (h7 : a.IsPrologueEnd = b.IsPrologueEnd) : a = b := by
  cases a; cases b; simp_all

/-- No writing member of `Line` clears a flag: a flag that is set stays set. -/
theorem lineOp_keeps_flags (op : LineOp) (o : Obj) :
    (getIsLineRecord o = true → getIsLineRecord (op.run o) = true) ∧
    (getHasDiscriminator o = true → getHasDiscriminator (op.run o) = true) ∧
    (getIsLineEndSequence o = true → getIsLineEndSequence (op.run o) = true) ∧
    (getIsNewBasicBlock o = true → getIsNewBasicBlock (op.run o) = true) ∧
    (getIsNewStatement o = true → getIsNewStatement (op.run o) = true) ∧
    (getIsEpilogueBegin o = true → getIsEpilogueBegin (op.run o) = true) ∧
    (getIsPrologueEnd o = true → getIsPrologueEnd (op.run o) = true) := by
  cases op <;> refine ⟨?_, ?_, ?_, ?_, ?_, ?_, ?_⟩ <;> intro h <;> first | exact h | rfl

/-- The is-line-record flag after a sequence of calls that started with it set. -/
theorem runLineOps_keeps_line_record (ops : List LineOp) (o : Obj)
    (h : getIsLineRecord o = true) : getIsLineRecord (runLineOps ops o) = true := by
  induction ops generalizing o with
  | nil => exact h
  | cons op ops ih => exact ih (op.run o) ((lineOp_keeps_flags op o).1 h)

/-- Only `setIsLineRecord` sets the is-line-record flag. -/
theorem lineOp_line_record (op : LineOp) (o : Obj) (hop : op ≠ LineOp.setIsLineRecord) :
    getIsLineRecord (op.run o) = getIsLineRecord o := by
  cases op <;> first | rfl | exact absurd rfl hop

/-- The is-line-record flag after a sequence of calls without `setIsLineRecord`. -/
theorem runLineOps_line_record (ops : List LineOp) (o : Obj)
    (hops : LineOp.setIsLineRecord ∉ ops) :
    getIsLineRecord (runLineOps ops o) = getIsLineRecord o := by
  induction ops generalizing o with
  | nil => rfl
  | cons op ops ih =>
    have h1 : op ≠ LineOp.setIsLineRecord := fun e => hops (by simp [e])
    have h2 : LineOp.setIsLineRecord ∉ ops := fun e => hops (by simp [e])
    show getIsLineRecord (runLineOps ops (op.run o)) = _
    rw [ih (op.run o) h2, lineOp_line_record op o h1]

/-- The kind label of a line by its is-line-record flag. -/
theorem lineKind_of_flag (o : Obj) :
    Line.getKindAsString o = if getIsLineRecord o then "CodeLine" else "Undefined" := by
  unfold Line.getKindAsString
  cases getIsLineRecord o <;> rfl

/-- C21: `Line::getKindAsString` returns "CodeLine" exactly when the
is-line-record flag of the line is set and "Undefined" exactly when it is
clear.  A freshly constructed line has its seven flags clear and
discriminator 0, and its kind is "Undefined" after any sequence of calls of
the writing members of `Line` that does not contain `setIsLineRecord`; from a
call of `setIsLineRecord` on, the kind is "CodeLine" after any further
sequence of calls.  No writing member of `Line` clears a flag. -/
theorem lineKind_iff_line_record :
    (∀ o : Obj, (Line.getKindAsString o = "CodeLine" ↔ getIsLineRecord o = true) ∧
      (Line.getKindAsString o = "Undefined" ↔ getIsLineRecord o = false)) ∧
    (∀ Lvl : Nat, (Line.new Lvl).LineAttributesFlags =
        { IsLineRecord := false, HasDiscriminator := false, IsLineEndSequence := false,
          IsNewBasicBlock := false, IsNewStatement := false, IsEpilogueBegin := false,
          IsPrologueEnd := false } ∧
      getDiscriminator (Line.new Lvl) = 0 ∧
      Line.getKindAsString (Line.new Lvl) = "Undefined") ∧
    (∀ (Lvl : Nat) (ops : List LineOp), LineOp.setIsLineRecord ∉ ops →
      Line.getKindAsString (runLineOps ops (Line.new Lvl)) = "Undefined") ∧
    (∀ (o : Obj) (ops : List LineOp),
      Line.getKindAsString (runLineOps ops (setIsLineRecord o)) = "CodeLine") ∧
    (∀ (op : LineOp) (o : Obj),
      (getIsLineRecord o = true → getIsLineRecord (op.run o) = true) ∧
      (getHasDiscriminator o = true → getHasDiscriminator (op.run o) = true) ∧
      (getIsLineEndSequence o = true → getIsLineEndSequence (op.run o) = true) ∧
      (getIsNewBasicBlock o = true → getIsNewBasicBlock (op.run o) = true) ∧
      (getIsNewStatement o = true → getIsNewStatement (op.run o) = true) ∧
      (getIsEpilogueBegin o = true → getIsEpilogueBegin (op.run o) = true) ∧
      (getIsPrologueEnd o = true → getIsPrologueEnd (op.run o) = true)) := by
  refine ⟨fun o => ?_, fun Lvl => ⟨rfl, rfl, rfl⟩, fun Lvl ops hops => ?_, fun o ops => ?_,
    lineOp_keeps_flags⟩
  · rw [lineKind_of_flag]
    cases getIsLineRecord o <;> decide
  · rw [lineKind_of_flag, runLineOps_line_record ops _ hops]
    rfl
  · rw [lineKind_of_flag, runLineOps_keeps_line_record ops (setIsLineRecord o) rfl]
    rfl

/-- C21 on a line: "Undefined" when fresh and after `setAddress` and
`setDiscriminator`, "CodeLine" after `setIsLineRecord` and whatever follows. -/
theorem lineKind_iff_line_record_witness :
    Line.getKindAsString (Line.new 2) = "Undefined" ∧
    Line.getKindAsString
      (runLineOps [LineOp.setAddress 64, LineOp.setDiscriminator 3] (Line.new 2)) = "Undefined" ∧
    Line.getKindAsString
      (runLineOps [LineOp.setIsNewStatement, LineOp.setDiscriminator 1]
        (setIsLineRecord (Line.new 2))) = "CodeLine" :=
  ⟨(lineKind_iff_line_record.2.1 2).2.2,
   lineKind_iff_line_record.2.2.1 2 _ (by decide),
   lineKind_iff_line_record.2.2.2.1 (Line.new 2) _⟩

/-! ### `Line::getAsYAML` -/

/-- The two spellings `Line::getAsYAML` streams after a key. -/
theorem yamlBool_eq (b : Bool) : (if b then ": true" else ": false") = ": " ++ yamlBool b := by
  cases b <;> rfl

/-- The attribute text `Line::getAsYAML` builds, flag by flag. -/
theorem lineAttrs_eq (b1 b2 b3 b4 b5 b6 : Bool) :
    ("" ++ "\n  " ++ "NewStatement" ++ (if b1 then ": true" else ": false")
      ++ "\n  " ++ "PrologueEnd" ++ (if b2 then ": true" else ": false")
      ++ "\n  " ++ "EndSequence" ++ (if b3 then ": true" else ": false")
      ++ "\n  " ++ "BasicBlock" ++ (if b4 then ": true" else ": false")
      ++ "\n  " ++ "Discriminator" ++ (if b5 then ": true" else ": false")
      ++ "\n  " ++ "EpilogueBegin" ++ (if b6 then ": true" else ": false") : String) =
    String.join (List.zipWith yamlEntry lineAttributeKeys [b1, b2, b3, b4, b5, b6]) := by
  simp only [yamlBool_eq, String.join, lineAttributeKeys, List.zipWith, List.foldl, yamlEntry,
    String.append_assoc]

/-- The attribute text of a line is never empty. -/
theorem lineAttrs_ne_empty (b1 b2 b3 b4 b5 b6 : Bool) :
    (String.join (List.zipWith yamlEntry lineAttributeKeys [b1, b2, b3, b4, b5, b6])).isEmpty
      = false := by
  apply isEmpty_false_of_ne
  simp only [String.join, lineAttributeKeys, List.zipWith, List.foldl, yamlEntry,
    String.append_assoc, String.empty_append]
  exact append_ne_empty _ (by decide)

/-- The result of `Line::getAsYAML` from the common block. -/
theorem lineYAML_eq (lib : Library) (h : Heap) (o : Obj) :
    Line.getAsYAML lib h o =
      (getCommonYAML lib h o).map
        (fun Common => Common ++ "\nattributes:" ++ specLineAttributes o) := by
  have e := lineAttrs_eq (getIsNewStatement o) (getIsPrologueEnd o) (getIsLineEndSequence o)
    (getIsNewBasicBlock o) (getHasDiscriminator o) (getIsEpilogueBegin o)
  have e2 := lineAttrs_ne_empty (getIsNewStatement o) (getIsPrologueEnd o)
    (getIsLineEndSequence o) (getIsNewBasicBlock o) (getHasDiscriminator o) (getIsEpilogueBegin o)
  unfold Line.getAsYAML specLineAttributes lineAttributeFlags
  simp only [e, e2]
  cases getCommonYAML lib h o <;> rfl

/-- The common block of an object without a type and without a tag is defined. -/
theorem getCommonYAML_untyped (lib : Library) (h : Heap) (o : Obj)
    (ht : getType o = none) (hg : getDieTag o = 0) : (getCommonYAML lib h o).isSome = true := by
  unfold getCommonYAML commonType commonDwarf
  rw [ht, hg]
  cases getIsScope o && getIsFunction o <;> rfl

/-- C22: for every line, `Line::getAsYAML` is the common block followed by
"\nattributes:" and the six attribute entries in the order NewStatement,
PrologueEnd, EndSequence, BasicBlock, Discriminator, EpilogueBegin, each entry
being "\n  ", the key, ": " and the flag spelled `true` or `false`; it gives
a result whenever the common block does, which is so for every line without
a type and without a tag (as after construction). -/
theorem lineYAML_attributes (lib : Library) (h : Heap) (o : Obj) :
    Line.getAsYAML lib h o =
      (getCommonYAML lib h o).map
        (fun Common => Common ++ "\nattributes:" ++ specLineAttributes o) ∧
    specLineAttributes o =
      "\n  NewStatement: " ++ yamlBool (getIsNewStatement o) ++
      "\n  PrologueEnd: " ++ yamlBool (getIsPrologueEnd o) ++
      "\n  EndSequence: " ++ yamlBool (getIsLineEndSequence o) ++
      "\n  BasicBlock: " ++ yamlBool (getIsNewBasicBlock o) ++
      "\n  Discriminator: " ++ yamlBool (getHasDiscriminator o) ++
      "\n  EpilogueBegin: " ++ yamlBool (getIsEpilogueBegin o) ∧
    (∀ b : Bool, (b = true → yamlBool b = "true") ∧ (b = false → yamlBool b = "false")) ∧
    (getType o = none → getDieTag o = 0 → (Line.getAsYAML lib h o).isSome = true) := by
  refine ⟨lineYAML_eq lib h o, ?_, by decide, fun ht hg => ?_⟩
  · simp only [specLineAttributes, lineAttributeFlags, String.join, lineAttributeKeys,
      List.zipWith, List.foldl, yamlEntry, String.append_assoc, String.empty_append]
    rfl
  · rw [lineYAML_eq]
    have := getCommonYAML_untyped lib h o ht hg
    cases hc : getCommonYAML lib h o with
    | none => rw [hc] at this; cases this
    | some c => rfl

set_option maxRecDepth 20000 in
/-- C22 on the line `exCodeLine`, which begins a statement and has a
discriminator. -/
theorem lineYAML_attributes_witness :
    Line.getAsYAML exLibrary [] exCodeLine =
      some ("object: \"CodeLine\"\nname: null\ntype: null\nsource:\n  line: null\n  file: null\n"
        ++ "dwarf:\n  offset: 0x0\n  tag: null"
        ++ "\nattributes:"
        ++ "\n  NewStatement: true\n  PrologueEnd: false\n  EndSequence: false"
        ++ "\n  BasicBlock: false\n  Discriminator: true\n  EpilogueBegin: false") := by
  rw [(lineYAML_attributes exLibrary [] exCodeLine).1]
  decide

/-! ### `Object::getCommonYAML` -/

/-- The common block from its type part and its dwarf part. -/
theorem getCommonYAML_of_parts (lib : Library) (h : Heap) (o : Obj) (entry Dwarf : String)
    (ht : commonType h o = some ("type: " ++ entry ++ "\n"))
    (hd : commonDwarf lib o = some Dwarf) :
    getCommonYAML lib h o = some (commonBlockWith lib o entry Dwarf) := by
  unfold getCommonYAML commonBlockWith
  rw [ht, hd]
  rfl

/-- The type part of an entity whose type is rendered. -/
theorem commonType_rendered (h : Heap) (o ty : Obj) (t : Nat)
    (ht : getType o = some t) (hty : h[t]? = some ty) (hr : hasRenderedType o = true) :
    commonType h o = some ("type: " ++
      quoted ((if getHasQualifiedName ty then getQualifiedName ty else "") ++ getName ty)
      ++ "\n") := by
  unfold hasRenderedType at hr
  unfold commonType
  rw [if_pos hr, ht]
  simp only [Option.bind, hty, quoted]
  congr 1
  have e : ("\"\n" : String) = "\"" ++ "\n" := rfl
  rw [e]
  cases getHasQualifiedName ty <;>
    simp only [String.append_assoc, String.empty_append, if_true, if_false, Bool.false_eq_true]

/-- The type part of an entity whose type is not rendered. -/
theorem commonType_not_rendered (h : Heap) (o : Obj) (hr : hasRenderedType o = false) :
    commonType h o =
      some ("type: " ++ (if isFunctionScope o then quoted "void" else "null") ++ "\n") := by
  unfold hasRenderedType at hr
  unfold commonType isFunctionScope
  rw [hr]
  cases getIsScope o && getIsFunction o <;> rfl

/-- An entity without a type has no rendered type. -/
theorem hasRenderedType_of_none (o : Obj) (ht : getType o = none) : hasRenderedType o = false := by
  unfold hasRenderedType
  rw [ht]
  rfl

/-- C23: in the common YAML block the type entry is the quoted type name (the
cached qualified name of the referenced type, when it has one, followed by
its name) when the entity has a type and is not a template parameter type;
"void" in quotes when it has no such type and is a function scope; `null` in
every other case.  In particular a function without a type renders
`type: "void"` and an entity without a type that is no function scope
renders `type: null`.  The block is defined when the type pointer points to
an object and the tag is 0 or has a name. -/
theorem commonYAML_type_entry (lib : Library) (h : Heap) (o : Obj) (Dwarf : String)
    (hd : commonDwarf lib o = some Dwarf) :
    (∀ (t : Nat) (ty : Obj), getType o = some t → h[t]? = some ty → hasRenderedType o = true →
      getCommonYAML lib h o = some (commonBlockWith lib o
        (quoted ((if getHasQualifiedName ty then getQualifiedName ty else "") ++ getName ty))
        Dwarf) ∧
      (QualifiedNameCached ty →
        getCommonYAML lib h o =
          some (commonBlockWith lib o (quoted (specTypeName ty)) Dwarf))) ∧
    (hasRenderedType o = false → isFunctionScope o = true →
      getCommonYAML lib h o = some (commonBlockWith lib o (quoted "void") Dwarf)) ∧
    (hasRenderedType o = false → isFunctionScope o = false →
      getCommonYAML lib h o = some (commonBlockWith lib o "null" Dwarf)) ∧
    (getType o = none → isFunctionScope o = true →
      getCommonYAML lib h o = some (commonBlockWith lib o (quoted "void") Dwarf)) ∧
    (getType o = none → isFunctionScope o = false →
      getCommonYAML lib h o = some (commonBlockWith lib o "null" Dwarf)) := by
  have hvoid : hasRenderedType o = false → isFunctionScope o = true →
      getCommonYAML lib h o = some (commonBlockWith lib o (quoted "void") Dwarf) := by
    intro hr hf
    apply getCommonYAML_of_parts lib h o _ _ _ hd
    rw [commonType_not_rendered h o hr, hf]
    rfl
  have hnull : hasRenderedType o = false → isFunctionScope o = false →
      getCommonYAML lib h o = some (commonBlockWith lib o "null" Dwarf) := by
    intro hr hf
    apply getCommonYAML_of_parts lib h o _ _ _ hd
    rw [commonType_not_rendered h o hr, hf]
    rfl
  refine ⟨fun t ty ht hty hr => ?_, hvoid, hnull,
    fun ht => hvoid (hasRenderedType_of_none o ht),
    fun ht => hnull (hasRenderedType_of_none o ht)⟩
  have e := getCommonYAML_of_parts lib h o _ _ (commonType_rendered h o ty t ht hty hr) hd
  refine ⟨e, fun hc => ?_⟩
  rw [e]
  unfold specTypeName
  cases hq : getHasQualifiedName ty with
  | true => rfl
  | false => rw [hc hq]; rfl

set_option maxRecDepth 20000 in
/-- C23 on the heap `exYAML`: the function `f` without a return type renders
`type: "void"`, the variable `v` of type `int` renders the quoted qualified
type name, the variable `w` without a type renders `type: null`. -/
theorem commonYAML_type_entry_witness :
    getCommonYAML exLibrary exYAML exYAMLFunction =
      some ("object: \"Function\"\nname: \"f\"\ntype: \"void\"\nsource:\n  line: 7\n"
        ++ "  file: null\ndwarf:\n  offset: 0x0\n  tag: \"DW_TAG_subprogram\"") ∧
    getCommonYAML exLibrary exYAML exYAMLVariable =
      some ("object: \"Variable\"\nname: \"v\"\ntype: \"std::int\"\nsource:\n  line: null\n"
        ++ "  file: null\ndwarf:\n  offset: 0x0\n  tag: \"DW_TAG_variable\"") ∧
    getCommonYAML exLibrary exYAML exYAMLUntyped =
      some ("object: \"Variable\"\nname: \"w\"\ntype: null\nsource:\n  line: null\n"
        ++ "  file: null\ndwarf:\n  offset: 0x0\n  tag: \"DW_TAG_variable\"") :=
  ⟨((commonYAML_type_entry exLibrary exYAML exYAMLFunction _ rfl).2.2.2.1 rfl rfl).trans
      (by decide),
   (((commonYAML_type_entry exLibrary exYAML exYAMLVariable _ rfl).1 0 _ rfl rfl rfl).2
      (fun hq => absurd hq (by decide))).trans (by decide),
   ((commonYAML_type_entry exLibrary exYAML exYAMLUntyped _ rfl).2.2.2.2 rfl rfl).trans
      (by decide)⟩

/-! ### `OffsetAsString` -/

/-- The character of a digit below 16 is the lowercase hexadecimal digit of
that value. -/
theorem digitChar_lowerHex : ∀ d, d < 16 →
    Nat.digitChar d ∈ lowerHexDigits ∧ lowerHexDigits.indexOf (Nat.digitChar d) = d := by
  decide

/-- The value of a digit sequence from any starting value. -/
theorem hexValue_foldl (ds : List Char) (a : Nat) :
    ds.foldl (fun acc c => 16 * acc + lowerHexDigits.indexOf c) a
      = 16 ^ ds.length * a + hexValue ds := by
  induction ds generalizing a with
  | nil => simp [hexValue]
  | cons c cs ih =>
    simp only [hexValue, List.foldl, List.length_cons]
    rw [ih, ih (16 * 0 + _)]
    ring

/-- The value of a digit sequence followed by more digits. -/
theorem hexValue_append (xs ys : List Char) :
    hexValue (xs ++ ys) = 16 ^ ys.length * hexValue xs + hexValue ys := by
  unfold hexValue
  rw [List.foldl_append]
  exact hexValue_foldl ys _

/-- Leading zeros do not change the value. -/
theorem hexValue_zeros (k : Nat) : hexValue (List.replicate k '0') = 0 := by
  induction k with
  | zero => rfl
  | succ k ih =>
    rw [List.replicate_succ', hexValue_append, ih]
    decide

/-- The digits `Nat.toDigitsCore` writes in base 16, with fuel above the number:
lowercase hexadecimal digits that denote the number, before what was there. -/
theorem toDigitsCore_hex (fuel n : Nat) (ds : List Char) (hf : n < fuel) :
    ∃ pre, Nat.toDigitsCore 16 fuel n ds = pre ++ ds ∧
      (∀ c ∈ pre, c ∈ lowerHexDigits) ∧ hexValue pre = n := by
  induction fuel generalizing n ds with
  | zero => exact absurd hf (Nat.not_lt_zero n)
  | succ fuel ih =>
    have hd := digitChar_lowerHex (n % 16) (Nat.mod_lt n (by decide))
    have hone : hexValue [Nat.digitChar (n % 16)] = n % 16 := by
      simp [hexValue, hd.2]
    unfold Nat.toDigitsCore
    by_cases h0 : n / 16 = 0
    · simp only [h0, if_true]
      refine ⟨[Nat.digitChar (n % 16)], rfl, ?_, ?_⟩
      · intro c hc
        rw [List.mem_singleton] at hc
        rw [hc]
        exact hd.1
      · rw [hone]
        have := Nat.div_add_mod n 16
        omega
    · simp only [h0, if_false]
      have hlt : n / 16 < fuel := by
        have := Nat.div_add_mod n 16
        omega
      obtain ⟨pre, e, hall, hv⟩ := ih (n / 16) (Nat.digitChar (n % 16) :: ds) hlt
      refine ⟨pre ++ [Nat.digitChar (n % 16)], ?_, ?_, ?_⟩
      · rw [e]
        simp
      · intro c hc
        rcases List.mem_append.1 hc with hc | hc
        · exact hall c hc
        · rw [List.mem_singleton] at hc
          rw [hc]
          exact hd.1
      · rw [hexValue_append, hv, hone]
        have := Nat.div_add_mod n 16
        simp only [List.length_singleton, pow_one]
        omega

/-- The conversion `%08x` of a number below `2 ^ 32`: eight lowercase hexadecimal
digits that denote the number. -/
theorem formatHex08_digits (n : Nat) (hn : n < 2 ^ 32) :
    (formatHex08 n).data.length = 8 ∧ (∀ c ∈ (formatHex08 n).data, c ∈ lowerHexDigits) ∧
      hexValue (formatHex08 n).data = n := by
  obtain ⟨pre, e, hall, hv⟩ := toDigitsCore_hex (n + 1) n [] (Nat.lt_succ_self n)
  rw [List.append_nil] at e
  have hlen : (Nat.toDigitsCore 16 (n + 1) n []).length ≤ 8 :=
    Nat.toDigitsCore_length 16 (by decide) (n + 1) n 8 (by
      have : (16 : Nat) ^ 8 = 2 ^ 32 := by norm_num
      omega) (by decide)
  have hd : (formatHex08 n).data = List.replicate (8 - pre.length) '0' ++ pre := by
    unfold formatHex08 Nat.toDigits
    rw [e]
  rw [e] at hlen
  rw [hd]
  refine ⟨?_, ?_, ?_⟩
  · rw [List.length_append, List.length_replicate]
    omega
  · intro c hc
    rcases List.mem_append.1 hc with hc | hc
    · rw [(List.mem_replicate.1 hc).2]
      decide
    · exact hall c hc
  · rw [hexValue_append, hexValue_zeros, hv]
    omega

/-- The text of `OffsetAsString` for an offset below `2 ^ 32`. -/
theorem OffsetAsString_eq (Offset : Nat) (hn : Offset < 2 ^ 32) :
    OffsetAsString Offset = some ("[0x" ++ formatHex08 Offset ++ "]") := by
  have hl := (formatHex08_digits Offset hn).1
  have hlen : ("[0x" ++ formatHex08 Offset ++ "]").data.length = 12 := by
    rw [String.data_append, String.data_append, List.length_append, List.length_append, hl]
    rfl
  unfold OffsetAsString snprintf
  have hlen2 : ("[0x" ++ formatHex08 Offset ++ "]").length = 12 := hlen
  simp only [hlen2]
  rw [if_pos (by decide)]
  congr 1
  apply String.ext
  show List.take 15 ("[0x" ++ formatHex08 Offset ++ "]").data = _
  rw [List.take_of_length_le (by omega)]

/-- C29: with DWARF offsets shown, `getDieOffsetAsString` of an entity whose
offset is below `2 ^ 32` is "[0x", eight lowercase hexadecimal digits that
denote the offset, and "]", 12 characters in all; with offsets not shown it
is the empty string. -/
theorem getDieOffsetAsString_format (Settings : PrintSettings) (o : Obj) :
    (Settings.ShowDWARFOffset = true → getDieOffset o < 2 ^ 32 →
      ∃ ds : List Char,
        getDieOffsetAsString Settings o = some ⟨['[', '0', 'x'] ++ ds ++ [']']⟩ ∧
        ds.length = 8 ∧ (∀ c ∈ ds, c ∈ lowerHexDigits) ∧ hexValue ds = getDieOffset o ∧
        (String.mk (['[', '0', 'x'] ++ ds ++ [']'])).length = 12) ∧
    (Settings.ShowDWARFOffset = false → getDieOffsetAsString Settings o = some "") := by
  constructor
  · intro hs hn
    obtain ⟨hl, hall, hv⟩ := formatHex08_digits (getDieOffset o) hn
    refine ⟨(formatHex08 (getDieOffset o)).data, ?_, hl, hall, hv, ?_⟩
    · unfold getDieOffsetAsString
      rw [if_pos hs, OffsetAsString_eq _ hn]
      congr 1
    · show (['[', '0', 'x'] ++ (formatHex08 (getDieOffset o)).data ++ [']']).length = 12
      rw [List.length_append, List.length_append, hl]
      rfl
  · intro hs
    unfold getDieOffsetAsString
    rw [hs]
    rfl

/-- C29 on the symbol at offset 0x2a: "[0x0000002a]" with offsets shown, the
empty string without. -/
theorem getDieOffsetAsString_format_witness :
    getDieOffsetAsString { ShowDWARFOffset := true } exAtOffset = some "[0x0000002a]" ∧
    (∃ ds : List Char,
      getDieOffsetAsString { ShowDWARFOffset := true } exAtOffset
        = some ⟨['[', '0', 'x'] ++ ds ++ [']']⟩ ∧
      ds.length = 8 ∧ (∀ c ∈ ds, c ∈ lowerHexDigits) ∧ hexValue ds = 42 ∧
      (String.mk (['[', '0', 'x'] ++ ds ++ [']'])).length = 12) ∧
    getDieOffsetAsString {} exAtOffset = some "" :=
  ⟨by decide,
   (getDieOffsetAsString_format { ShowDWARFOffset := true } exAtOffset).1 rfl (by decide),
   (getDieOffsetAsString_format {} exAtOffset).2 rfl⟩

/-! ### `Line::getAsText` and the process-wide state -/

/-- One call of `Object::getAttributeInfoAsText` in terms of the constant indent
of the state. -/
theorem getAttributeInfoAsText_eq (AttributeText : String) (Settings : PrintSettings)
    (st : Statics) (o : Obj) :
    getAttributeInfoAsText AttributeText Settings st o =
      (effectiveIndent st ++ getIndentString Settings o ++ "- " ++ AttributeText,
        { st with ConstantIndent := some (effectiveIndent st) }) := by
  unfold getAttributeInfoAsText effectiveIndent
  cases st.ConstantIndent <;> rfl

/-- A call of `Object::getAttributeInfoAsText` fixes the constant indent. -/
theorem getAttributeInfoAsText_indent (AttributeText : String) (Settings : PrintSettings)
    (st : Statics) (o : Obj) :
    effectiveIndent (getAttributeInfoAsText AttributeText Settings st o).2 = effectiveIndent st ∧
    (getAttributeInfoAsText AttributeText Settings st o).2.ConstantIndent
      = some (effectiveIndent st) := by
  rw [getAttributeInfoAsText_eq]
  exact ⟨rfl, rfl⟩

/-- One block of `Line::getAsText` keeps the constant indent. -/
theorem appendAttribute_indent (Settings : PrintSettings) (o : Obj) (r : String × Statics)
    (flag : Bool) (Kind : String) :
    effectiveIndent (appendAttribute Settings o r flag Kind).2 = effectiveIndent r.2 := by
  unfold appendAttribute
  cases flag
  · rfl
  · exact (getAttributeInfoAsText_indent Kind Settings r.2 o).1

/-- One block of `Line::getAsText` from two states with the same constant indent. -/
theorem appendAttribute_text (Settings : PrintSettings) (o : Obj) (r1 r2 : String × Statics)
    (flag : Bool) (Kind : String) (ht : r1.1 = r2.1)
    (hi : effectiveIndent r1.2 = effectiveIndent r2.2) :
    (appendAttribute Settings o r1 flag Kind).1 = (appendAttribute Settings o r2 flag Kind).1 ∧
    effectiveIndent (appendAttribute Settings o r1 flag Kind).2
      = effectiveIndent (appendAttribute Settings o r2 flag Kind).2 := by
  refine ⟨?_, by rw [appendAttribute_indent, appendAttribute_indent, hi]⟩
  unfold appendAttribute
  cases flag
  · exact ht
  · simp only [if_true, getAttributeInfoAsText_eq, ht, hi]

/-- The text of `Line::getAsText` depends on the process-wide state through the
constant indent only. -/
theorem lineText_of_indent (Settings : PrintSettings) (o : Obj) (st1 st2 : Statics)
    (hi : effectiveIndent st1 = effectiveIndent st2) :
    (Line.getAsText Settings st1 o).1 = (Line.getAsText Settings st2 o).1 := by
  unfold Line.getAsText
  cases Settings.ShowCodelineAttributes
  · rfl
  · simp only [if_true]
    have s1 := appendAttribute_text Settings o ("\x7b" ++ Line.getKindAsString o ++ "\x7d", st1)
      ("\x7b" ++ Line.getKindAsString o ++ "\x7d", st2) (getIsNewStatement o) "NewStatement" rfl hi
    have s2 := appendAttribute_text Settings o _ _ (getIsPrologueEnd o) "PrologueEnd" s1.1 s1.2
    have s3 := appendAttribute_text Settings o _ _ (getIsLineEndSequence o) "EndSequence"
      s2.1 s2.2
    have s4 := appendAttribute_text Settings o _ _ (getIsNewBasicBlock o) "BasicBlock" s3.1 s3.2
    have s5 := appendAttribute_text Settings o _ _ (getHasDiscriminator o) "Discriminator"
      s4.1 s4.2
    exact (appendAttribute_text Settings o _ _ (getIsEpilogueBegin o) "EpilogueBegin"
      s5.1 s5.2).1

/-- The text of a line without a rendered attribute: the header, and the state
is not touched. -/
theorem lineText_header (Settings : PrintSettings) (o : Obj) (st : Statics)
    (hno : Settings.ShowCodelineAttributes = false ∨ noLineAttribute o = true) :
    Line.getAsText Settings st o = ("\x7b" ++ Line.getKindAsString o ++ "\x7d", st) := by
  unfold Line.getAsText
  rcases hno with hs | hf
  · rw [hs]
    rfl
  · unfold noLineAttribute at hf
    simp only [Bool.and_eq_true, Bool.not_eq_true'] at hf
    obtain ⟨⟨⟨⟨⟨h1, h2⟩, h3⟩, h4⟩, h5⟩, h6⟩ := hf
    rw [h1, h2, h3, h4, h5, h6]
    cases Settings.ShowCodelineAttributes <;> rfl

/-- `Line::getAsText` keeps the constant indent of the process-wide state. -/
theorem lineText_keeps_indent (Settings : PrintSettings) (o : Obj) (st : Statics) :
    effectiveIndent (Line.getAsText Settings st o).2 = effectiveIndent st := by
  unfold Line.getAsText
  cases Settings.ShowCodelineAttributes
  · rfl
  · simp only [if_true, appendAttribute_indent]

set_option maxRecDepth 20000 in
/-- C30, counterexample: under the same settings (offsets and code line
attributes shown) the line `exCodeLine` renders with attribute lines
indented by 15 spaces at the start of the process, and by 27 spaces in the
state the first dump of an entity leaves (`IndentationSize` 12). -/
theorem lineText_depends_on_first_dump :
    getAttributesAsText exLibrary exTextSettings {} exYAML exYAMLVariable
      = some ("[0x00000000]", exAfterDump) ∧
    (Line.getAsText exTextSettings {} exCodeLine).1
      = "\x7bCodeLine\x7d\n               - NewStatement\n               - Discriminator" ∧
    (Line.getAsText exTextSettings exAfterDump exCodeLine).1
      = "\x7bCodeLine\x7d\n                           - NewStatement"
        ++ "\n                           - Discriminator" ∧
    (Line.getAsText exTextSettings {} exCodeLine).1
      ≠ (Line.getAsText exTextSettings exAfterDump exCodeLine).1 := by
  decide

/-! ### `Scope::print` -/

/-- The executable test of `Ranked` is sound. -/
theorem rankedB_sound {links : Obj → List Nat} {h : Heap} {rank : Nat → Nat}
    (hb : rankedB links h rank = true) : Ranked links h rank := by
  intro i o hi c hc
  have hlt : i < h.length := (List.getElem?_eq_some.1 hi).1
  have := List.all_eq_true.1 hb i (List.mem_range.2 hlt)
  simp only [hi] at this
  have := List.all_eq_true.1 this c hc
  simpa using this

/-- A print loop without `Match` keeps every entry. -/
theorem keptBy_all (h : Heap) (xs : List Nat) (hv : ∀ X ∈ xs, X < h.length) :
    keptBy h false xs = xs := by
  unfold keptBy
  apply List.filter_eq_self.2
  intro X hX
  have hlt := hv X hX
  rw [List.getElem?_eq_getElem hlt]
  rfl

/-- The entries a print loop keeps are entries of the collection, in its order. -/
theorem keptBy_sublist (h : Heap) (Match : Bool) (xs : List Nat) :
    (keptBy h Match xs).Sublist xs := List.filter_sublist xs

/-- One print loop: the outputs of the entries it keeps, in the order of the
collection. -/
theorem printLoop_eq (h : Heap) (Match : Bool) (printOne : Nat → Except PrintStop (List Event)) :
    ∀ (xs : List Nat) (outs : List (List Event)), (∀ X ∈ xs, X < h.length) →
      List.Forall₂ (fun X out => printOne X = Except.ok out) (keptBy h Match xs) outs →
      printLoop h Match printOne xs = Except.ok outs.flatten := by
  intro xs
  induction xs with
  | nil =>
    intro outs _ hf
    cases hf
    rfl
  | cons X rest ih =>
    intro outs hv hf
    have hlt : X < h.length := hv X (List.mem_cons_self _ _)
    have hrest : ∀ Y ∈ rest, Y < h.length := fun Y hY => hv Y (List.mem_cons_of_mem _ hY)
    have hX : h[X]? = some h[X] := List.getElem?_eq_getElem hlt
    unfold printLoop
    simp only [hX]
    by_cases hskip : (Match && !getHasPattern h[X]) = true
    · rw [if_pos hskip]
      have hk : keptBy h Match (X :: rest) = keptBy h Match rest := by
        unfold keptBy
        rw [List.filter_cons]
        simp only [hX, hskip, Bool.not_true]
        rfl
      rw [hk] at hf
      exact ih outs hrest hf
    · rw [if_neg hskip]
      have hk : keptBy h Match (X :: rest) = X :: keptBy h Match rest := by
        unfold keptBy
        rw [List.filter_cons]
        simp only [hX]
        rw [if_pos (by rw [Bool.eq_false_iff.2 hskip]; rfl)]
      rw [hk] at hf
      cases hf with
      | cons h1 h2 =>
        rw [h1, ih _ hrest h2]
        rfl

/-- The print loop over lines: one dump for each line it keeps. -/
theorem printLoop_lines (h : Heap) (Match : Bool) (xs : List Nat)
    (hv : ∀ X ∈ xs, X < h.length) :
    printLoop h Match Object.print xs = Except.ok ((keptBy h Match xs).map Event.dump) := by
  have hf : List.Forall₂ (fun X out => Object.print X = Except.ok out) (keptBy h Match xs)
      ((keptBy h Match xs).map (fun X => [Event.dump X])) := by
    generalize keptBy h Match xs = ys
    induction ys with
    | nil => exact List.Forall₂.nil
    | cons y ys ih => exact List.Forall₂.cons rfl ih
  rw [printLoop_eq h Match Object.print xs _ hv hf]
  congr 1
  generalize keptBy h Match xs = ys
  induction ys with
  | nil => rfl
  | cons y ys ih => simp [List.flatten, ih]

/-- A print loop returns when `print` returns on every entry. -/
theorem printLoop_returns (h : Heap) (Match : Bool)
    (printOne : Nat → Except PrintStop (List Event)) (xs : List Nat)
    (hv : ∀ X ∈ xs, X < h.length) (hp : ∀ X ∈ xs, ∃ out, printOne X = Except.ok out) :
    ∃ outs, printLoop h Match printOne xs = Except.ok outs := by
  induction xs with
  | nil => exact ⟨[], rfl⟩
  | cons X rest ih =>
    have hlt : X < h.length := hv X (List.mem_cons_self _ _)
    obtain ⟨outs, hr⟩ := ih (fun Y hY => hv Y (List.mem_cons_of_mem _ hY))
      (fun Y hY => hp Y (List.mem_cons_of_mem _ hY))
    obtain ⟨out, ho⟩ := hp X (List.mem_cons_self _ _)
    unfold printLoop
    simp only [List.getElem?_eq_getElem hlt, ho, hr]
    split
    · exact ⟨outs, rfl⟩
    · exact ⟨out ++ outs, rfl⟩

/-- One call of `Scope::print` that prints: the scope, the loop over the children,
the loop over the lines. -/
theorem print_step (ctx : PrintContext) (h : Heap) (fuel This : Nat) (o : Obj)
    (SplitCU Match IsNull : Bool) (Settings : PrintSettings) (Kids Lines : List Event)
    (ho : h[This]? = some o)
    (hel : Scope.resolvePrinting Settings o = true)
    (hq : Settings.QuietMode = false ∨ Settings.SplitOutput = true)
    (hopen : (SplitCU && getIsCompileUnit o) = true → ctx.canOpen (sinkPath ctx o) = true)
    (hk : printLoop h Match (printOf ctx fuel h SplitCU Match IsNull Settings) o.Children
      = Except.ok Kids)
    (hl : printLoop h Match Object.print o.TheLines = Except.ok Lines) :
    Scope.print ctx (fuel + 1) h This SplitCU Match IsNull Settings =
      Except.ok (sinkOpening ctx SplitCU o ++ [Event.dump This] ++ Kids ++ Lines
        ++ sinkClosing SplitCU o) := by
  have hk' : printLoop h Match (fun Obj =>
      match h[Obj]? with
      | none => Except.error PrintStop.nullDereference
      | some c =>
        if getIsScope c then Scope.print ctx fuel h Obj SplitCU Match IsNull Settings
        else Object.print Obj) o.Children = Except.ok Kids := hk
  have hdo : (Scope.resolvePrinting Settings o &&
      (!Settings.QuietMode || Settings.SplitOutput)) = true := by
    rw [hel]
    rcases hq with hq | hq <;> simp [hq]
  have hno : (SplitCU && getIsCompileUnit o && !ctx.canOpen (sinkPath ctx o)) = false := by
    cases hc : (SplitCU && getIsCompileUnit o)
    · rfl
    · rw [hopen hc]
      rfl
  unfold sinkPath at hno
  unfold Scope.print
  simp only [ho, hno, hdo, hk', hl, if_true, Bool.false_eq_true, if_false]
  rfl

/-- On a heap where children and lines span a finite tree below every scope, and
every sink opens, `Scope::print` returns with fuel above the rank of the
scope. -/
theorem print_returns (ctx : PrintContext) (h : Heap) (rank : Nat → Nat)
    (SplitCU Match IsNull : Bool) (Settings : PrintSettings)
    (hr : Ranked printLinks h rank) (hopen : SplitCU = false ∨ ∀ p, ctx.canOpen p = true) :
    ∀ (fuel This : Nat), This < h.length → rank This < fuel →
      ∃ out, Scope.print ctx fuel h This SplitCU Match IsNull Settings = Except.ok out := by
  intro fuel
  induction fuel with
  | zero =>
    intro This _ hf
    exact absurd hf (Nat.not_lt_zero _)
  | succ fuel ih =>
    intro This hlt hf
    have ho : h[This]? = some h[This] := List.getElem?_eq_getElem hlt
    have hno : (SplitCU && getIsCompileUnit h[This] && !ctx.canOpen (sinkPath ctx h[This]))
        = false := by
      rcases hopen with hs | hc
      · rw [hs]
        rfl
      · rw [hc]
        simp
    by_cases hdo : (Scope.resolvePrinting Settings h[This] &&
        (!Settings.QuietMode || Settings.SplitOutput)) = true
    · have hv : ∀ X ∈ printLinks h[This], X < h.length := fun X hX => (hr This _ ho X hX).1
      have hvc : ∀ X ∈ h[This].Children, X < h.length :=
        fun X hX => hv X (List.mem_append_left _ hX)
      have hvl : ∀ X ∈ h[This].TheLines, X < h.length :=
        fun X hX => hv X (List.mem_append_right _ hX)
      obtain ⟨Kids, hk⟩ := printLoop_returns h Match
        (printOf ctx fuel h SplitCU Match IsNull Settings) h[This].Children hvc (by
          intro X hX
          have hX2 := hr This _ ho X (List.mem_append_left _ hX)
          unfold printOf
          rw [List.getElem?_eq_getElem hX2.1]
          by_cases hs : getIsScope h[X] = true
          · simp only [hs, if_true]
            exact ih X hX2.1 (by omega)
          · simp only [hs, Bool.false_eq_true, if_false]
            exact ⟨_, rfl⟩)
      simp only [Bool.and_eq_true, Bool.or_eq_true, Bool.not_eq_true'] at hdo
      exact ⟨_, print_step ctx h fuel This h[This] SplitCU Match IsNull Settings Kids _ ho hdo.1
        hdo.2 (by
          intro hc
          rw [hc] at hno
          simpa using hno) hk (printLoop_lines h Match _ hvl)⟩
    · unfold sinkPath at hno
      unfold Scope.print
      simp only [ho, hno, hdo, Bool.false_eq_true, if_false]
      exact ⟨_, rfl⟩

/-- C24, counterexample: with `Match` set, the pass over `exPrint` dumps the
compile unit, the function `f`, the line of `f` and the variable `v`; the
parameter `p`, an entry of the Children of `f`, and the line 5, an entry of
the Lines of the compile unit, have no has-pattern and are not rendered.
Without `Match` every entry is. -/
theorem print_skips_unmatched :
    Scope.print exContext 3 exPrint 0 false true false {} =
      Except.ok [Event.dump 0, Event.dump 1, Event.dump 4, Event.dump 2] ∧
    Scope.print exContext 3 exPrint 0 false false false {} =
      Except.ok [Event.dump 0, Event.dump 1, Event.dump 3, Event.dump 4, Event.dump 2,
        Event.dump 5] ∧
    (exPrint[1]?.map (fun f => f.Children)) = some [3] ∧
    (exPrint[0]?.map (fun cu => cu.TheLines)) = some [5] ∧
    Scope.resolvePrinting {} exPrintCU = true :=
  ⟨rfl, rfl, rfl, rfl, rfl⟩

/-- C24, amended: when `Scope::print` runs on a scope that is eligible, and not in
quiet mode unless the output is split, the pass is, in this order: the dump
of the scope itself; for each entry of its Children that the pattern filter
keeps, in the order of Children, the pass of that entry's own `print`; one
dump for each line of its Lines that the filter keeps, in stored order
(around them the sink is opened and closed for a compile unit when the output
is split).  The filter keeps every entry when `Match` is off and a
subsequence when it is on.  The pass returns, with fuel above the rank of
the scope, whenever children and lines span a finite tree and every sink
opens. -/
theorem print_order (ctx : PrintContext) (h : Heap) (fuel This : Nat) (o : Obj)
    (SplitCU Match IsNull : Bool) (Settings : PrintSettings) (outs : List (List Event))
    (ho : h[This]? = some o)
    (hel : Scope.resolvePrinting Settings o = true)
    (hq : Settings.QuietMode = false ∨ Settings.SplitOutput = true)
    (hopen : (SplitCU && getIsCompileUnit o) = true → ctx.canOpen (sinkPath ctx o) = true)
    (hv : ∀ X ∈ printLinks o, X < h.length)
    (hkids : List.Forall₂
      (fun c out => printOf ctx fuel h SplitCU Match IsNull Settings c = Except.ok out)
      (keptBy h Match o.Children) outs) :
    Scope.print ctx (fuel + 1) h This SplitCU Match IsNull Settings =
      Except.ok (sinkOpening ctx SplitCU o ++ [Event.dump This] ++ outs.flatten
        ++ (keptBy h Match o.TheLines).map Event.dump ++ sinkClosing SplitCU o) ∧
    (Match = false →
      keptBy h Match o.Children = o.Children ∧ keptBy h Match o.TheLines = o.TheLines) ∧
    ((keptBy h Match o.Children).Sublist o.Children ∧
      (keptBy h Match o.TheLines).Sublist o.TheLines) ∧
    (∀ rank : Nat → Nat, Ranked printLinks h rank →
      (SplitCU = false ∨ ∀ p, ctx.canOpen p = true) →
      ∀ fuel2, rank This < fuel2 →
        ∃ out, Scope.print ctx fuel2 h This SplitCU Match IsNull Settings = Except.ok out) := by
  have hvc : ∀ X ∈ o.Children, X < h.length := fun X hX => hv X (List.mem_append_left _ hX)
  have hvl : ∀ X ∈ o.TheLines, X < h.length := fun X hX => hv X (List.mem_append_right _ hX)
  refine ⟨?_, fun hm => ?_, ⟨keptBy_sublist _ _ _, keptBy_sublist _ _ _⟩,
    fun rank hr hop fuel2 hf => ?_⟩
  · exact print_step ctx h fuel This o SplitCU Match IsNull Settings _ _ ho hel hq hopen
      (printLoop_eq h Match _ o.Children outs hvc hkids) (printLoop_lines h Match _ hvl)
  · rw [hm]
    exact ⟨keptBy_all h _ hvc, keptBy_all h _ hvl⟩
  · exact print_returns ctx h rank SplitCU Match IsNull Settings hr hop fuel2 This
      (List.getElem?_eq_some.1 ho).1 hf

/-- C24, amended, on the compile unit of `exPrint` without `Match`: the compile
unit, then the function `f` with its parameter and its line, then the variable
`v`, then the line of the compile unit. -/
theorem print_order_witness :
    Scope.print exContext 3 exPrint 0 false false false {} =
      Except.ok ([] ++ [Event.dump 0]
        ++ [[Event.dump 1, Event.dump 3, Event.dump 4], [Event.dump 2]].flatten
        ++ [Event.dump 5] ++ []) :=
  (print_order exContext exPrint 2 0 exPrintCU false false false {}
    [[Event.dump 1, Event.dump 3, Event.dump 4], [Event.dump 2]] rfl rfl (Or.inl rfl)
    (fun hc => absurd hc (by decide)) (by decide)
    (List.Forall₂.cons rfl (List.Forall₂.cons rfl List.Forall₂.nil))).1

/-! ### Comparators and `std::sort` -/

/-- A strict weak ordering is asymmetric. -/
theorem compare_asymm {comp : SortFunction} (hc : Compare comp) (a b : Nat)
    (hab : comp a b = true) : comp b a = false := by
  cases hba : comp b a with
  | false => rfl
  | true =>
    have := hc.transitive a b a hab hba
    rw [hc.irreflexive a] at this
    cases this

/-- In a strict weak ordering "not less" is transitive. -/
theorem compare_neg_trans {comp : SortFunction} (hc : Compare comp) (a b c : Nat)
    (hba : comp b a = false) (hcb : comp c b = false) : comp c a = false := by
  cases hca : comp c a with
  | false => rfl
  | true =>
    exfalso
    have hab : comp a b = false := by
      cases hab : comp a b with
      | false => rfl
      | true =>
        have := hc.transitive c a b hca hab
        rw [hcb] at this
        cases this
    have hbc : comp b c = false := by
      cases hbc : comp b c with
      | false => rfl
      | true =>
        have := hc.transitive b c a hbc hca
        rw [hba] at this
        cases this
    have e := hc.equivalence a b c (by simp [equivalent, hab, hba]) (by simp [equivalent, hbc, hcb])
    simp [equivalent, hca] at e

/-- In a strict weak ordering, of two elements one is not less than the other. -/
theorem compare_total {comp : SortFunction} (hc : Compare comp) (a b : Nat) :
    comp b a = false ∨ comp a b = false := by
  cases hba : comp b a with
  | false => exact Or.inl rfl
  | true => exact Or.inr (compare_asymm hc b a hba)

/-- For a strict total order, elements that are not less than each other are equal. -/
theorem strictTotal_antisymm {comp : SortFunction} (hc : StrictTotal comp) (a b : Nat)
    (hba : comp b a = false) (hab : comp a b = false) : a = b := by
  by_contra hne
  rcases hc.total a b hne with h | h
  · rw [hab] at h
    cases h
  · rw [hba] at h
    cases h

/-- For a strict total order, equivalent elements are equal. -/
theorem strictTotal_equivalent {comp : SortFunction} (hc : StrictTotal comp) (a b : Nat) :
    equivalent comp a b = true ↔ a = b := by
  constructor
  · intro h
    simp only [equivalent, Bool.and_eq_true, Bool.not_eq_true'] at h
    exact strictTotal_antisymm hc a b h.2 h.1
  · intro h
    subst h
    simp [equivalent, hc.compare.irreflexive a]

/-- Insertion sort leaves a sequence in comparator order. -/
theorem insertionSort_inOrder {comp : SortFunction} (hc : Compare comp) (xs : List Nat) :
    InOrder comp (xs.insertionSort (fun a b => comp b a = false)) := by
  haveI : IsTotal Nat (fun a b => comp b a = false) := ⟨fun a b => compare_total hc a b⟩
  haveI : IsTrans Nat (fun a b => comp b a = false) :=
    ⟨fun a b c hab hbc => compare_neg_trans hc a b c hab hbc⟩
  exact List.sorted_insertionSort (fun a b => comp b a = false) xs

/-- The sort `stableSort` meets the standard. -/
theorem stableSort_sortsRange : SortsRange stableSort :=
  ⟨fun comp xs _ => List.perm_insertionSort (fun a b => comp b a = false) xs,
   fun _ xs hc => insertionSort_inOrder hc xs⟩

/-- A comparator that compares a key of its two elements is a strict weak ordering. -/
theorem compare_of_key (key : Nat → Nat) : Compare (fun a b => decide (key a < key b)) := by
  refine ⟨fun a => by simp, fun a b c hab hbc => ?_, fun a b c hab hbc => ?_⟩
  · simp only [decide_eq_true_eq] at *
    omega
  · simp only [equivalent, Bool.and_eq_true, Bool.not_eq_true', decide_eq_false_iff_not] at *
    omega

/-- The comparator "by line" is a strict weak ordering. -/
theorem byLine_compare (h : Heap) : Compare (byLine h) :=
  compare_of_key (fun a => ((h[a]?).map getLineNumber).getD 0)

/-- The comparator "by position" is a strict total order. -/
theorem byPosition_strictTotal : StrictTotal byPosition :=
  ⟨compare_of_key (fun a => a), fun a b hne => by
    simp only [byPosition, decide_eq_true_eq]
    omega⟩

theorem sameButOrder_refl (o : Obj) : SameButOrder o o :=
  ⟨rfl, List.Perm.refl _, List.Perm.refl _, List.Perm.refl _, List.Perm.refl _⟩

theorem sameButOrder_trans (a b c : Obj) (hab : SameButOrder a b) (hbc : SameButOrder b c) :
    SameButOrder a c :=
  ⟨hbc.1.trans hab.1, hbc.2.1.trans hab.2.1, hbc.2.2.1.trans hab.2.2.1,
    hbc.2.2.2.1.trans hab.2.2.2.1, hbc.2.2.2.2.trans hab.2.2.2.2⟩

theorem sortStep_refl (comp : SortFunction) (o : Obj) : SortStep comp o o :=
  ⟨sameButOrder_refl o, Or.inl rfl⟩

theorem sortStep_trans (comp : SortFunction) (a b c : Obj) (hab : SortStep comp a b)
    (hbc : SortStep comp b c) : SortStep comp a c := by
  refine ⟨sameButOrder_trans a b c hab.1 hbc.1, ?_⟩
  rcases hbc.2 with e | s
  · rw [e]
    exact hab.2
  · exact Or.inr s

/-- The four calls of `std::sort` reorder the collections of the scope and leave
them in comparator order. -/
theorem sortCollections_step {sort : StdSort} (hs : SortsRange sort) {comp : SortFunction}
    (hc : Compare comp) (o : Obj) : SortStep comp o (sortCollections sort comp o) :=
  ⟨⟨rfl, hs.permutes comp _ hc, hs.permutes comp _ hc, hs.permutes comp _ hc,
      hs.permutes comp _ hc⟩,
    Or.inr ⟨hs.orders comp _ hc, hs.orders comp _ hc, hs.orders comp _ hc, hs.orders comp _ hc⟩⟩

/-- One call of `Scope::sortScopes(SortFunction)` with fuel left. -/
theorem sortScopes_unfold (sort : StdSort) (comp : SortFunction) (fuel : Nat) (h : Heap)
    (This : Nat) (o : Obj) (ho : h[This]? = some o) :
    sortScopes_SortFunction sort comp (fuel + 1) h This =
      sortEach (fun h1 Scp => sortScopes_SortFunction sort comp fuel h1 Scp)
        (h.set This (sortCollections sort comp o)) (sort comp o.TheScopes) := by
  rw [sortScopes_SortFunction]
  simp only [ho]
  rfl

/-- Being nested under a scope does not depend on the order of the collections. -/
theorem nested_of_PW {h h' : Heap} (hpw : PW SameButOrder h h') {S i : Nat}
    (hn : Nested h S i) : Nested h' S i := by
  induction hn with
  | self S => exact Nested.self S
  | step S c i o ho hc _ ih =>
    obtain ⟨o', ho', r⟩ := hpw.2 S o ho
    exact Nested.step S c i o' ho' ((r.2.2.2.1.mem_iff).2 hc) ih

/-- An object in comparator order stays so through a run. -/
theorem sortedBy_of_PW {comp : SortFunction} {h h' : Heap} (hpw : PW (SortStep comp) h h')
    {i : Nat} {o o' : Obj} (ho : h[i]? = some o) (hs : SortedBy comp o)
    (ho' : h'[i]? = some o') : SortedBy comp o' := by
  obtain ⟨o2, ho2, r⟩ := hpw.2 i o ho
  rw [ho'] at ho2
  cases ho2
  rcases r.2 with e | s
  · rw [e]
    exact hs
  · exact s

/-- The loop over the nested scopes, given what one call does. -/
theorem sortEach_run {comp : SortFunction} {sortOne : Heap → Nat → Option Heap}
    (hone : ∀ h c h', sortOne h c = some h' →
      PW (SortStep comp) h h' ∧
        ∀ i o', Nested h c i → h'[i]? = some o' → SortedBy comp o') :
    ∀ (xs : List Nat) (h h' : Heap), sortEach sortOne h xs = some h' →
      PW (SortStep comp) h h' ∧
        ∀ c ∈ xs, ∀ i o', Nested h c i → h'[i]? = some o' → SortedBy comp o' := by
  intro xs
  induction xs with
  | nil =>
    intro h h' hr
    simp only [sortEach, Option.some.injEq] at hr
    subst hr
    exact ⟨PW.refl (sortStep_refl comp) h, fun c hc => absurd hc (List.not_mem_nil c)⟩
  | cons X rest ih =>
    intro h h' hr
    rw [sortEach] at hr
    cases h1 : sortOne h X with
    | none => simp [h1] at hr
    | some h2 =>
      simp only [h1] at hr
      obtain ⟨pw1, s1⟩ := hone h X h2 h1
      obtain ⟨pw2, s2⟩ := ih h2 h' hr
      refine ⟨PW.trans (sortStep_trans comp) pw1 pw2, fun c hc i o' hn ho' => ?_⟩
      rcases List.mem_cons.1 hc with e | hm
      · subst e
        obtain ⟨o2, ho2, _⟩ := (pw2.inv ho')
        exact sortedBy_of_PW pw2 ho2 (s1 i o2 hn ho2) ho'
      · exact s2 c hm i o' (nested_of_PW (pw1.mono (fun _ _ r => r.1)) hn) ho'

/-- A run of `Scope::sortScopes(SortFunction)` that returns reorders collections
only, and leaves the scope and every scope nested under it in comparator
order. -/
theorem sortScopes_run {sort : StdSort} (hs : SortsRange sort) {comp : SortFunction}
    (hc : Compare comp) :
    ∀ (fuel : Nat) (h : Heap) (S : Nat) (h' : Heap),
      sortScopes_SortFunction sort comp fuel h S = some h' →
      PW (SortStep comp) h h' ∧
        ∀ i o', Nested h S i → h'[i]? = some o' → SortedBy comp o' := by
  intro fuel
  induction fuel with
  | zero =>
    intro h S h' hr
    simp [sortScopes_SortFunction] at hr
  | succ fuel ih =>
    intro h S h' hr
    cases ho : h[S]? with
    | none => simp [sortScopes_SortFunction, ho] at hr
    | some o =>
      rw [sortScopes_unfold sort comp fuel h S o ho] at hr
      have pw1 : PW (SortStep comp) h (h.set S (sortCollections sort comp o)) :=
        PW.set (sortStep_refl comp) ho (sortCollections_step hs hc o)
      obtain ⟨pw2, s2⟩ := sortEach_run (fun h1 c h2 h12 => ih h1 c h2 h12) _ _ _ hr
      refine ⟨PW.trans (sortStep_trans comp) pw1 pw2, fun i o' hn ho' => ?_⟩
      have hlt : S < h.length := (List.getElem?_eq_some.1 ho).1
      have hS1 : (h.set S (sortCollections sort comp o))[S]? = some (sortCollections sort comp o) := by
        simp [List.getElem?_set, hlt]
      cases hn with
      | self =>
        exact sortedBy_of_PW pw2 hS1
          ⟨hs.orders comp _ hc, hs.orders comp _ hc, hs.orders comp _ hc, hs.orders comp _ hc⟩
          ho'
      | step _ c _ o2 ho2 hcm hrest =>
        rw [ho] at ho2
        cases ho2
        have hmem : c ∈ sort comp o.TheScopes := ((hs.permutes comp _ hc).mem_iff).2 hcm
        exact s2 c hmem i o' (nested_of_PW (pw1.mono (fun _ _ r => r.1)) hrest) ho'

/-- A tree of nested scopes stays one when collections are reordered. -/
theorem ranked_of_PW {h h' : Heap} {rank : Nat → Nat} (hpw : PW SameButOrder h h')
    (hr : Ranked sortLinks h rank) : Ranked sortLinks h' rank := by
  intro i o' ho' c hc
  obtain ⟨o, ho, r⟩ := hpw.inv ho'
  have := hr i o ho c ((r.2.2.2.1.mem_iff).1 hc)
  rw [hpw.1]
  exact this

/-- The loop over the nested scopes returns when each call does. -/
theorem sortEach_returns {comp : SortFunction} {sortOne : Heap → Nat → Option Heap}
    (rank : Nat → Nat) (fuel : Nat)
    (hone : ∀ h c, Ranked sortLinks h rank → c < h.length → rank c < fuel →
      ∃ h', sortOne h c = some h')
    (hpw : ∀ h c h', sortOne h c = some h' → PW (SortStep comp) h h') :
    ∀ (xs : List Nat) (h : Heap), Ranked sortLinks h rank →
      (∀ c ∈ xs, c < h.length ∧ rank c < fuel) → ∃ h', sortEach sortOne h xs = some h' := by
  intro xs
  induction xs with
  | nil => exact fun h _ _ => ⟨h, rfl⟩
  | cons X rest ih =>
    intro h hr hv
    obtain ⟨h2, e2⟩ := hone h X hr (hv X (List.mem_cons_self _ _)).1
      (hv X (List.mem_cons_self _ _)).2
    have pw := (hpw h X h2 e2).mono (fun _ _ r => r.1)
    obtain ⟨h3, e3⟩ := ih h2 (ranked_of_PW pw hr) (fun c hc => by
      have := hv c (List.mem_cons_of_mem _ hc)
      rw [pw.1]
      exact this)
    exact ⟨h3, by rw [sortEach, e2]; exact e3⟩

/-- On a tree of nested scopes `Scope::sortScopes(SortFunction)` returns, with
fuel above the rank of the scope. -/
theorem sortScopes_returns {sort : StdSort} (hs : SortsRange sort) {comp : SortFunction}
    (hc : Compare comp) (rank : Nat → Nat) :
    ∀ (fuel : Nat) (h : Heap) (S : Nat), Ranked sortLinks h rank → S < h.length →
      rank S < fuel → ∃ h', sortScopes_SortFunction sort comp fuel h S = some h' := by
  intro fuel
  induction fuel with
  | zero => exact fun h S _ _ hf => absurd hf (Nat.not_lt_zero _)
  | succ fuel ih =>
    intro h S hr hlt hf
    have ho : h[S]? = some h[S] := List.getElem?_eq_getElem hlt
    rw [sortScopes_unfold sort comp fuel h S _ ho]
    have pw1 : PW SameButOrder h (h.set S (sortCollections sort comp h[S])) :=
      (PW.set (sortStep_refl comp) ho (sortCollections_step hs hc h[S])).mono (fun _ _ r => r.1)
    apply sortEach_returns rank fuel (fun h1 c hr1 hc1 hf1 => ih h1 c hr1 hc1 hf1)
      (fun h1 c h2 e => (sortScopes_run hs hc fuel h1 c h2 e).1) _ _ (ranked_of_PW pw1 hr)
    intro c hcm
    have := hr S _ ho c (((hs.permutes comp _ hc).mem_iff).1 hcm)
    rw [pw1.1]
    exact ⟨this.1, by omega⟩

/-- C25: for every scope S and every sort key that resolves to a comparator that
is a strict total order, after `sortScopes` on S every object is what it was
up to the order within its types, symbols, nested-scopes and Children
collections (each a permutation of its previous contents; parent, lines and
everything else unchanged), and these four collections of S and of every
scope nested under S are in comparator order.  On a tree of nested scopes the
call returns, with fuel above the rank of S.  When the key resolves to no
comparator, nothing changes.  The library function `std::sort` is any function
with the guarantees of the C++ standard. -/
theorem sortScopes_permutes_in_order {SortingKey : Type} (sort : StdSort)
    (hs : SortsRange sort) (getSortFunction : SortingKey → Option SortFunction)
    (SortKey : SortingKey) (h : Heap) (S : Nat) :
    (∀ comp : SortFunction, getSortFunction SortKey = some comp → StrictTotal comp →
      (∀ (fuel : Nat) (h' : Heap),
          Scope.sortScopes sort getSortFunction fuel h S SortKey = some h' →
        PW SameButOrder h h' ∧
        (∀ (i : Nat) (o' : Obj), Nested h S i → h'[i]? = some o' → SortedBy comp o') ∧
        (∀ (i : Nat) (o o' : Obj), h[i]? = some o → h'[i]? = some o' →
          getParent o' = getParent o ∧ o'.TheLines = o.TheLines ∧ o'.Kind = o.Kind)) ∧
      (∀ rank : Nat → Nat, Ranked sortLinks h rank → S < h.length →
        ∀ fuel : Nat, rank S < fuel →
          ∃ h' : Heap, Scope.sortScopes sort getSortFunction fuel h S SortKey = some h')) ∧
    (getSortFunction SortKey = none →
      ∀ fuel : Nat, Scope.sortScopes sort getSortFunction fuel h S SortKey = some h) := by
  constructor
  · intro comp hk hc
    constructor
    · intro fuel h' hr
      unfold Scope.sortScopes at hr
      rw [hk] at hr
      obtain ⟨pw, hsorted⟩ := sortScopes_run hs hc.compare fuel h S h' hr
      have pw2 : PW SameButOrder h h' := pw.mono (fun _ _ r => r.1)
      refine ⟨pw2, hsorted, fun i o o' ho ho' => ?_⟩
      obtain ⟨o2, ho2, r⟩ := pw2.2 i o ho
      rw [ho'] at ho2
      cases ho2
      have e : stripOrder o' = stripOrder o := r.1
      have e1 : (stripOrder o').Parent = (stripOrder o).Parent := congrArg Obj.Parent e
      have e2 : (stripOrder o').TheLines = (stripOrder o).TheLines := congrArg Obj.TheLines e
      have e3 : (stripOrder o').Kind = (stripOrder o).Kind := congrArg Obj.Kind e
      exact ⟨e1, e2, e3⟩
    · intro rank hr hlt fuel hf
      unfold Scope.sortScopes
      rw [hk]
      exact sortScopes_returns hs hc.compare rank fuel h S hr hlt hf
  · intro hk fuel
    unfold Scope.sortScopes
    rw [hk]

/-- C25 on the namespace of `exSort`, sorted by position with `stableSort`: the
collections of the namespace and of its nested scope `b` are permuted into
the order of the positions, as in `exSorted`; an unknown key changes nothing. -/
theorem sortScopes_permutes_in_order_witness :
    Scope.sortScopes stableSort exGetSortFunction 2 exSort 0 1 = some exSorted ∧
    PW SameButOrder exSort exSorted ∧
    (∀ (i : Nat) (o' : Obj), Nested exSort 0 i → exSorted[i]? = some o' →
      SortedBy byPosition o') ∧
    Scope.sortScopes stableSort exGetSortFunction 2 exSort 0 0 = some exSort :=
  have e : Scope.sortScopes stableSort exGetSortFunction 2 exSort 0 1 = some exSorted := by
    decide
  have t := sortScopes_permutes_in_order stableSort stableSort_sortsRange exGetSortFunction 1
    exSort 0
  ⟨e, ((t.1 byPosition rfl byPosition_strictTotal).1 2 exSorted e).1,
    ((t.1 byPosition rfl byPosition_strictTotal).1 2 exSorted e).2.1,
    (sortScopes_permutes_in_order stableSort stableSort_sortsRange exGetSortFunction 0
      exSort 0).2 rfl 2⟩

/-- For a strict total order, reordering a sequence keeps, for every element, the
subsequence of the elements equivalent to it. -/
theorem filter_equivalent_of_perm {comp : SortFunction} (hc : StrictTotal comp)
    {xs ys : List Nat} (hp : ys.Perm xs) (a : Nat) :
    ys.filter (equivalent comp a) = xs.filter (equivalent comp a) := by
  have hall : ∀ (l : List Nat), ∀ b ∈ l.filter (equivalent comp a), b = a := by
    intro l b hb
    exact ((strictTotal_equivalent hc a b).1 (List.mem_filter.1 hb).2).symm
  have hlen : (ys.filter (equivalent comp a)).length = (xs.filter (equivalent comp a)).length :=
    (hp.filter _).length_eq
  rw [List.eq_replicate_iff.2 ⟨rfl, hall ys⟩, List.eq_replicate_iff.2 ⟨rfl, hall xs⟩, hlen]

/-! ### `Scope::sortCompileUnits` -/

/-- C28: `sortCompileUnits` on a scope writes the nested-scopes collection and the
Children sequence of that scope only: with a key that resolves to a
comparator the scope becomes itself with these two collections as `std::sort`
leaves them (each a permutation, in comparator order, for a comparator that
meets the requirement of `std::sort`), and with a key that resolves to none
nothing changes; every other object of the heap, every nested scope among
them, is unchanged, and so are the types, symbols and lines collections of
the scope itself. -/
theorem sortCompileUnits_frame {SortingKey : Type} (sort : StdSort)
    (getSortFunction : SortingKey → Option SortFunction) (SortKey : SortingKey) (h : Heap)
    (This : Nat) (o : Obj) (ho : h[This]? = some o) :
    (∀ comp : SortFunction, getSortFunction SortKey = some comp →
      Scope.sortCompileUnits sort getSortFunction h This SortKey =
        some (h.set This (withScopesAndChildren o (sort comp o.TheScopes) (sort comp o.Children))) ∧
      (SortsRange sort → Compare comp →
        (sort comp o.TheScopes).Perm o.TheScopes ∧ InOrder comp (sort comp o.TheScopes) ∧
        (sort comp o.Children).Perm o.Children ∧ InOrder comp (sort comp o.Children))) ∧
    (getSortFunction SortKey = none →
      Scope.sortCompileUnits sort getSortFunction h This SortKey = some h) ∧
    (∃ h' : Heap, Scope.sortCompileUnits sort getSortFunction h This SortKey = some h' ∧
      (∀ i : Nat, i ≠ This → h'[i]? = h[i]?) ∧
      (∃ o' : Obj, h'[This]? = some o' ∧ o'.TheTypes = o.TheTypes ∧
        o'.TheSymbols = o.TheSymbols ∧ o'.TheLines = o.TheLines ∧
        withScopesAndChildren o' o.TheScopes o.Children = o)) := by
  have hlt : This < h.length := (List.getElem?_eq_some.1 ho).1
  refine ⟨fun comp hk => ⟨?_, fun hs hc => ⟨hs.permutes comp _ hc, hs.orders comp _ hc,
    hs.permutes comp _ hc, hs.orders comp _ hc⟩⟩, fun hk => ?_, ?_⟩
  · unfold Scope.sortCompileUnits
    simp only [ho, hk]
    rfl
  · unfold Scope.sortCompileUnits
    simp only [ho, hk]
  · unfold Scope.sortCompileUnits
    simp only [ho]
    cases hk : getSortFunction SortKey with
    | none => exact ⟨h, rfl, fun _ _ => rfl, o, ho, rfl, rfl, rfl, rfl⟩
    | some comp =>
      refine ⟨_, rfl, fun i hi => ?_,
        withScopesAndChildren o (sort comp o.TheScopes) (sort comp o.Children), ?_,
        rfl, rfl, rfl, rfl⟩
      · simp [List.getElem?_set, Ne.symm hi]
      · simp only [List.getElem?_set, hlt, if_true]
        rfl

/-- C28 on the namespace of `exSort`, by position: its nested scopes and its
Children are put in order, its symbols [5, 4] and the symbols [7, 6] of the
nested scope `b` stay as they are. -/
theorem sortCompileUnits_frame_witness :
    Scope.sortCompileUnits stableSort exGetSortFunction exSort 0 1 = some exSortedTop ∧
    (exSortedTop[0]?.map (fun o => (o.TheScopes, o.Children, o.TheSymbols)))
      = some ([1, 3], [1, 2, 3, 4, 5], [5, 4]) ∧
    exSortedTop[1]? = exSort[1]? :=
  ⟨((sortCompileUnits_frame stableSort exGetSortFunction 1 exSort 0 exSortRoot rfl).1
      byPosition rfl).1.trans (by decide), by decide, by decide⟩

/-! ### `Object::getLineAsString` -/

/-- A number that is at least the `k`-th power of the base has more than `k`
digits. -/
theorem toDigitsCore_length_ge (b : Nat) (hb : 2 ≤ b) :
    ∀ (fuel n : Nat) (ds : List Char) (k : Nat), n < fuel → b ^ k ≤ n →
      ds.length + k + 1 ≤ (Nat.toDigitsCore b fuel n ds).length := by
  intro fuel
  induction fuel with
  | zero => exact fun n _ _ hf _ => absurd hf (Nat.not_lt_zero n)
  | succ fuel ih =>
    intro n ds k hf hk
    unfold Nat.toDigitsCore
    by_cases h0 : n / b = 0
    · simp only [h0, if_true]
      have hnb : n < b := by
        exact (Nat.div_eq_zero_iff (by omega)).1 h0
      have hk0 : k = 0 := by
        by_contra hne
        have : b ^ 1 ≤ b ^ k := Nat.pow_le_pow_right (by omega) (by omega)
        rw [pow_one] at this
        omega
      rw [hk0, List.length_cons]
    · simp only [h0, if_false]
      have hn0 : 0 < n := by
        rcases Nat.eq_zero_or_pos n with hz | hp
        · rw [hz, Nat.zero_div] at h0
          exact absurd rfl h0
        · exact hp
      have hlt : n / b < fuel := by
        have : n / b < n := Nat.div_lt_self hn0 (by omega)
        omega
      cases k with
      | zero =>
        have := ih (n / b) (Nat.digitChar (n % b) :: ds) 0 hlt (by
          rw [pow_zero]
          exact Nat.pos_of_ne_zero h0)
        rw [List.length_cons] at this
        omega
      | succ k =>
        have hdiv : b ^ k ≤ n / b := by
          rw [Nat.le_div_iff_mul_le (by omega)]
          rw [pow_succ] at hk
          exact hk
        have := ih (n / b) (Nat.digitChar (n % b) :: ds) k hlt hdiv
        rw [List.length_cons] at this
        omega

/-- The length of the text of the format "%5s %s" with the decimal digits of a
number and two spaces. -/
theorem lineText_length (n : Nat) :
    (format5s (to_string n) ++ " " ++ "  ").length
      = (5 - (Nat.toDigits 10 n).length) + (Nat.toDigits 10 n).length + 3 := by
  show (format5s (to_string n) ++ " " ++ "  ").data.length = _
  rw [String.data_append, String.data_append]
  simp only [format5s, to_string, String.length, List.length_append, List.length_replicate]
  rfl

/-- The decimal digits of a number below the `k`-th power of ten, `k` not zero,
are at most `k`. -/
theorem toDigits_length_le (n k : Nat) (hk : 0 < k) (hn : n < 10 ^ k) :
    (Nat.toDigits 10 n).length ≤ k :=
  Nat.toDigitsCore_length 10 (by decide) (n + 1) n k hn hk

/-- The decimal digits of a number that is at least the `k`-th power of ten are
more than `k`. -/
theorem toDigits_length_gt (n k : Nat) (hn : 10 ^ k ≤ n) : k < (Nat.toDigits 10 n).length := by
  have := toDigitsCore_length_ge 10 (by decide) (n + 1) n [] k (Nat.lt_succ_self n) hn
  simp only [List.length_nil] at this
  unfold Nat.toDigits
  omega

/-- The result of `getLineAsString` for a line number that is not zero, by the
length of the text. -/
theorem getLineAsString_eq (n : Nat) (hn : n ≠ 0) :
    getLineAsString n =
      if (format5s (to_string n) ++ " " ++ "  ").length < 16 then
        some (format5s (to_string n) ++ " " ++ "  ")
      else none := by
  unfold getLineAsString snprintf
  have h0 : (n != 0) = true := by simpa using hn
  simp only [h0, if_true]
  by_cases hl : (format5s (to_string n) ++ " " ++ "  ").length < 16
  · rw [if_pos hl, if_pos hl]
    congr 1
    apply String.ext
    show List.take 15 (format5s (to_string n) ++ " " ++ "  ").data = _
    rw [List.take_of_length_le]
    have : (format5s (to_string n) ++ " " ++ "  ").data.length < 16 := hl
    omega
  · rw [if_neg hl, if_neg hl]

/-- C39: for every line number `n` with `1 ≤ n < 10 ^ 12` the text of
`getLineAsString`, the decimal digits of `n` right-aligned in width 5 then
three spaces, is shorter than 16 characters, so the assertion holds and the
text is returned; for `n ≥ 10 ^ 12` the text has 16 characters or more and
the assertion fails; for `1 ≤ n ≤ 99999` the text has exactly 8 characters,
as has the no-line string returned for `n = 0`. -/
theorem getLineAsString_bound (n : Nat) :
    (1 ≤ n → n < 10 ^ 12 →
      getLineAsString n = some (format5s (Nat.repr n) ++ " " ++ "  ") ∧
      (format5s (Nat.repr n) ++ " " ++ "  ").length < 16) ∧
    (10 ^ 12 ≤ n →
      getLineAsString n = none ∧ 16 ≤ (format5s (Nat.repr n) ++ " " ++ "  ").length) ∧
    (1 ≤ n → n ≤ 99999 →
      getLineAsString n = some (format5s (Nat.repr n) ++ " " ++ "  ") ∧
      (format5s (Nat.repr n) ++ " " ++ "  ").length = 8) ∧
    getLineAsString 0 = some getNoLineString ∧ getNoLineString.length = 8 ∧
    (format5s (Nat.repr n)).data
      = List.replicate (5 - (Nat.repr n).length) ' ' ++ (Nat.repr n).data := by
  have hr : Nat.repr n = to_string n := rfl
  rw [hr]
  have hlen := lineText_length n
  refine ⟨fun h1 h2 => ?_, fun h1 => ?_, fun h1 h2 => ?_, rfl, rfl, rfl⟩
  · have hd := toDigits_length_le n 12 (by decide) h2
    have hl : (format5s (to_string n) ++ " " ++ "  ").length < 16 := by omega
    rw [getLineAsString_eq n (by omega), if_pos hl]
    exact ⟨rfl, hl⟩
  · have hd := toDigits_length_gt n 12 h1
    have hl : ¬ (format5s (to_string n) ++ " " ++ "  ").length < 16 := by omega
    have hn : n ≠ 0 := by
      have : 0 < 10 ^ 12 := by norm_num
      omega
    rw [getLineAsString_eq n hn, if_neg hl]
    exact ⟨rfl, by omega⟩
  · have hd := toDigits_length_le n 5 (by decide) (by
      have : (10 : Nat) ^ 5 = 100000 := by norm_num
      omega)
    have hl : (format5s (to_string n) ++ " " ++ "  ").length = 8 := by omega
    rw [getLineAsString_eq n (by omega), if_pos (by omega)]
    exact ⟨rfl, hl⟩

/-- C39 on the line numbers 42, 999999999999 and 1000000000000. -/
theorem getLineAsString_bound_witness :
    getLineAsString 42 = some "   42   " ∧
    getLineAsString 999999999999 = some "999999999999   " ∧
    getLineAsString 1000000000000 = none :=
  ⟨((getLineAsString_bound 42).2.2.1 (by decide) (by decide)).1.trans (by decide),
   ((getLineAsString_bound 999999999999).1 (by decide) (by decide)).1.trans (by decide),
   ((getLineAsString_bound 1000000000000).2.1 (by decide)).1⟩

/-! ### `Line::getAsText` -/

/-- A concatenation that starts from a text. -/
theorem foldl_append_from (xs : List String) (a : String) :
    xs.foldl (fun r s => r ++ s) a = a ++ xs.foldl (fun r s => r ++ s) "" := by
  induction xs generalizing a with
  | nil => simp
  | cons x xs ih =>
    simp only [List.foldl]
    rw [ih, ih ("" ++ x), String.empty_append, String.append_assoc]

/-- The concatenation of a list of texts, first text first. -/
theorem join_cons (x : String) (xs : List String) :
    String.join (x :: xs) = x ++ String.join xs := by
  unfold String.join
  simp only [List.foldl]
  rw [foldl_append_from, String.empty_append]

/-- Texts that are empty for the flags that are not set, concatenated. -/
theorem join_set_flags (f : String → String) :
    ∀ l : List (String × Bool),
      String.join (l.map (fun e => if e.2 then f e.1 else ""))
        = String.join ((l.filterMap (fun e => if e.2 then some e.1 else none)).map f) := by
  intro l
  induction l with
  | nil => rfl
  | cons e l ih =>
    rw [List.map_cons, join_cons, ih]
    cases he : e.2
    · simp [List.filterMap_cons, he]
    · simp [List.filterMap_cons, he, join_cons]

/-- One block of `Line::getAsText`: the sub-line of the label if the flag is
set. -/
theorem appendAttribute_eq (Settings : PrintSettings) (o : Obj) (r : String × Statics)
    (flag : Bool) (Kind : String) :
    (appendAttribute Settings o r flag Kind).1 =
      r.1 ++ (if flag then subLine (effectiveIndent r.2 ++ getIndentString Settings o) Kind
        else "") := by
  unfold appendAttribute subLine
  cases flag
  · simp
  · simp only [if_true, getAttributeInfoAsText_eq, String.append_assoc]

/-- The text of `Line::getAsText` with the attributes shown: the header and the
six blocks. -/
theorem lineText_blocks (Settings : PrintSettings) (st : Statics) (o : Obj)
    (hs : Settings.ShowCodelineAttributes = true) :
    (Line.getAsText Settings st o).1 =
      "\x7b" ++ Line.getKindAsString o ++ "\x7d" ++
        String.join ((List.zip lineAttributeKeys (lineAttributeFlags o)).map
          (fun e => if e.2 then subLine (effectiveIndent st ++ getIndentString Settings o) e.1
            else "")) := by
  unfold Line.getAsText
  simp only [hs, if_true, appendAttribute_eq, appendAttribute_indent]
  have jn : String.join ([] : List String) = "" := rfl
  simp only [lineAttributeKeys, lineAttributeFlags, List.zip_cons_cons, List.zip_nil_right,
    List.map_cons, List.map_nil, join_cons, jn, String.append_empty, String.append_assoc]

/-- The attribute labels hold no new-line character. -/
theorem lineAttributeKeys_one_line : ∀ l ∈ lineAttributeKeys, l.data.count '\n' = 0 := by
  decide

/-- The new-line characters of a concatenation of texts. -/
theorem count_join (c : Char) (xs : List String) :
    (String.join xs).data.count c = (xs.map (fun s => s.data.count c)).sum := by
  induction xs with
  | nil => rfl
  | cons x xs ih =>
    rw [join_cons, String.data_append, List.count_append, ih, List.map_cons, List.sum_cons]

/-- The labels of the set flags are attribute labels. -/
theorem setLineAttributes_keys (o : Obj) : ∀ l ∈ setLineAttributes o, l ∈ lineAttributeKeys := by
  intro l hl
  unfold setLineAttributes at hl
  obtain ⟨e, he, hsel⟩ := List.mem_filterMap.1 hl
  cases h2 : e.2 with
  | false => simp [h2] at hsel
  | true =>
    simp only [h2, if_true, Option.some.injEq] at hsel
    rw [← hsel]
    have : (e.1, e.2) ∈ List.zip lineAttributeKeys (lineAttributeFlags o) := he
    exact (List.of_mem_zip this).1

/-- A text of spaces holds no new-line character. -/
theorem spaces_one_line (n : Nat) : (spaces n).data.count '\n' = 0 := by
  unfold spaces
  simp [List.count_replicate]

/-- The indent of an object holds no new-line character. -/
theorem getIndentString_one_line (Settings : PrintSettings) (o : Obj) :
    (getIndentString Settings o).data.count '\n' = 0 := by
  unfold getIndentString
  split
  · rfl
  · split
    · exact spaces_one_line _
    · rfl

/-- The header of a line holds no new-line character. -/
theorem lineHeader_one_line (o : Obj) :
    ("\x7b" ++ Line.getKindAsString o ++ "\x7d").data.count '\n' = 0 := by
  rw [lineKind_of_flag]
  cases getIsLineRecord o <;> decide

/-- An attribute sub-line holds one new-line character, its first character. -/
theorem subLine_count (indent label : String) (hi : indent.data.count '\n' = 0)
    (hl : label.data.count '\n' = 0) : (subLine indent label).data.count '\n' = 1 := by
  unfold subLine
  rw [String.data_append, String.data_append, String.data_append, List.count_append,
    List.count_append, List.count_append, hi, hl]
  rfl

/-- C33: for every line, the text of `getAsText` is the header, "\x7b", the
kind and "\x7d", followed by one sub-line for each rendered label, in the
fixed order new-statement, prologue-end, end-sequence, new-basic-block,
has-discriminator, epilogue-begin; a sub-line is a new line, the indent, "- "
and the label; the rendered labels are those of the set flags when
`ShowCodelineAttributes` is on and none when it is off, where the text is
exactly the header; and the number of lines is 1 plus the number of rendered
labels (the constant indent, spaces when a call initialises it, holds no new
line). -/
theorem lineText_structure (Settings : PrintSettings) (st : Statics) (o : Obj) :
    (Line.getAsText Settings st o).1 =
      "\x7b" ++ Line.getKindAsString o ++ "\x7d" ++
        String.join ((renderedLabels Settings o).map
          (subLine (effectiveIndent st ++ getIndentString Settings o))) ∧
    (∀ indent label : String, subLine indent label = "\n" ++ indent ++ "- " ++ label) ∧
    (Settings.ShowCodelineAttributes = true → renderedLabels Settings o = setLineAttributes o) ∧
    (Settings.ShowCodelineAttributes = false →
      renderedLabels Settings o = [] ∧
      (Line.getAsText Settings st o).1 = "\x7b" ++ Line.getKindAsString o ++ "\x7d") ∧
    ((effectiveIndent st).data.count '\n' = 0 →
      lineCount (Line.getAsText Settings st o).1 = 1 + (renderedLabels Settings o).length) ∧
    (st.ConstantIndent = none → (effectiveIndent st).data.count '\n' = 0) := by
  have hmain : (Line.getAsText Settings st o).1 =
      "\x7b" ++ Line.getKindAsString o ++ "\x7d" ++
        String.join ((renderedLabels Settings o).map
          (subLine (effectiveIndent st ++ getIndentString Settings o))) := by
    cases hs : Settings.ShowCodelineAttributes
    · rw [lineText_header Settings o st (Or.inl hs)]
      simp only [renderedLabels, hs]
      exact (String.append_empty _).symm
    · rw [lineText_blocks Settings st o hs, join_set_flags]
      simp only [renderedLabels, hs, if_true, setLineAttributes]
  refine ⟨hmain, fun _ _ => rfl, fun hs => by simp only [renderedLabels, hs, if_true],
    fun hs => ⟨by simp [renderedLabels, hs], ?_⟩, fun hi => ?_, fun hn => ?_⟩
  · rw [lineText_header Settings o st (Or.inl hs)]
  · have hind : (effectiveIndent st ++ getIndentString Settings o).data.count '\n' = 0 := by
      rw [String.data_append, List.count_append, hi, getIndentString_one_line]
    have hlab : ∀ l ∈ renderedLabels Settings o, l.data.count '\n' = 0 := by
      intro l hl
      unfold renderedLabels at hl
      split at hl
      · exact lineAttributeKeys_one_line l (setLineAttributes_keys o l hl)
      · exact absurd hl (List.not_mem_nil l)
    unfold lineCount
    rw [hmain, String.data_append, List.count_append, lineHeader_one_line, count_join,
      List.map_map]
    have hsum : ∀ ls : List String, (∀ l ∈ ls, l.data.count '\n' = 0) →
        (ls.map ((fun s => s.data.count '\n') ∘
          subLine (effectiveIndent st ++ getIndentString Settings o))).sum = ls.length := by
      intro ls
      induction ls with
      | nil => intro _; rfl
      | cons l ls ih =>
        intro hall
        rw [List.map_cons, List.sum_cons, ih (fun x hx => hall x (List.mem_cons_of_mem _ hx)),
          List.length_cons]
        show (subLine _ l).data.count '\n' + _ = _
        rw [subLine_count _ _ hind (hall l (List.mem_cons_self _ _))]
        omega
    rw [hsum _ hlab]
    omega
  · unfold effectiveIndent
    rw [hn]
    simp only [String.data_append, List.count_append, spaces_one_line]
    rfl

set_option maxRecDepth 20000 in
/-- C33 on `exCodeLine`, which begins a statement and has a discriminator: with
the attributes shown, at the start of the process, the header and two
sub-lines, three lines; with the attributes not shown, the header. -/
theorem lineText_structure_witness :
    (Line.getAsText exTextSettings {} exCodeLine).1
      = "\x7bCodeLine\x7d\n               - NewStatement\n               - Discriminator" ∧
    renderedLabels exTextSettings exCodeLine = ["NewStatement", "Discriminator"] ∧
    lineCount (Line.getAsText exTextSettings {} exCodeLine).1 = 1 + 2 ∧
    (Line.getAsText {} {} exCodeLine).1 = "\x7bCodeLine\x7d" :=
  ⟨(lineText_structure exTextSettings {} exCodeLine).1.trans (by decide), by decide,
   (lineText_structure exTextSettings {} exCodeLine).2.2.2.2.1
     ((lineText_structure exTextSettings {} exCodeLine).2.2.2.2.2 rfl),
   ((lineText_structure {} {} exCodeLine).2.2.2.1 rfl).2⟩

/-! ### What a sort never touches -/

theorem sameButCollections_refl (o : Obj) : SameButCollections o o := rfl

theorem sameButCollections_trans (a b c : Obj) (hab : SameButCollections a b)
    (hbc : SameButCollections b c) : SameButCollections a c :=
  Eq.trans hbc hab

/-- The lines of two objects that differ in the four sorted collections only. -/
theorem sameButCollections_lines {a b : Obj} (hab : SameButCollections a b) :
    b.TheLines = a.TheLines ∧ getParent b = getParent a ∧ b.Kind = a.Kind := by
  have e : stripOrder b = stripOrder a := hab
  have e1 : (stripOrder b).TheLines = (stripOrder a).TheLines := congrArg Obj.TheLines e
  have e2 : (stripOrder b).Parent = (stripOrder a).Parent := congrArg Obj.Parent e
  have e3 : (stripOrder b).Kind = (stripOrder a).Kind := congrArg Obj.Kind e
  exact ⟨e1, e2, e3⟩

/-- The loop over the nested scopes, for a relation every call keeps. -/
theorem sortEach_PW {R : Obj → Obj → Prop} (hr : ∀ o, R o o)
    (ht : ∀ a b c, R a b → R b c → R a c) {sortOne : Heap → Nat → Option Heap}
    (hone : ∀ h c h', sortOne h c = some h' → PW R h h') :
    ∀ (xs : List Nat) (h h' : Heap), sortEach sortOne h xs = some h' → PW R h h' := by
  intro xs
  induction xs with
  | nil =>
    intro h h' hr'
    simp only [sortEach, Option.some.injEq] at hr'
    subst hr'
    exact PW.refl hr h
  | cons X rest ih =>
    intro h h' hr'
    rw [sortEach] at hr'
    cases h1 : sortOne h X with
    | none => simp [h1] at hr'
    | some h2 =>
      simp only [h1] at hr'
      exact PW.trans ht (hone h X h2 h1) (ih h2 h' hr')

/-- A run of `Scope::sortScopes(SortFunction)`, whatever `std::sort` does with a
vector, writes the four sorted collections only. -/
theorem sortScopes_frame (sort : StdSort) (comp : SortFunction) :
    ∀ (fuel : Nat) (h : Heap) (S : Nat) (h' : Heap),
      sortScopes_SortFunction sort comp fuel h S = some h' → PW SameButCollections h h' := by
  intro fuel
  induction fuel with
  | zero =>
    intro h S h' hr
    simp [sortScopes_SortFunction] at hr
  | succ fuel ih =>
    intro h S h' hr
    cases ho : h[S]? with
    | none => simp [sortScopes_SortFunction, ho] at hr
    | some o =>
      rw [sortScopes_unfold sort comp fuel h S o ho] at hr
      have pw1 : PW SameButCollections h (h.set S (sortCollections sort comp o)) :=
        PW.set sameButCollections_refl ho rfl
      exact PW.trans sameButCollections_trans pw1
        (sortEach_PW sameButCollections_refl sameButCollections_trans
          (fun h1 c h2 e => ih h1 c h2 e) _ _ _ hr)

/-- C34: sorting never reorders line records.  For every scope and every sort
key, a `sortScopes` or a `sortCompileUnits` that returns leaves the Lines
collection of every object of the tree, the scope and its nested scopes
among them, identical to what it was before, whatever `std::sort` does with
the vectors it is given; `sortCompileUnits` returns on every scope, and
`sortScopes` on every tree of nested scopes (for a `std::sort` and a
comparator that meet the standard). -/
theorem sort_keeps_lines {SortingKey : Type} (sort : StdSort)
    (getSortFunction : SortingKey → Option SortFunction) (SortKey : SortingKey) (h : Heap)
    (S : Nat) :
    (∀ (fuel : Nat) (h' : Heap),
      Scope.sortScopes sort getSortFunction fuel h S SortKey = some h' →
      h'.length = h.length ∧
      ∀ (i : Nat) (o : Obj), h[i]? = some o →
        ∃ o' : Obj, h'[i]? = some o' ∧ o'.TheLines = o.TheLines) ∧
    (∀ h' : Heap, Scope.sortCompileUnits sort getSortFunction h S SortKey = some h' →
      h'.length = h.length ∧
      ∀ (i : Nat) (o : Obj), h[i]? = some o →
        ∃ o' : Obj, h'[i]? = some o' ∧ o'.TheLines = o.TheLines) ∧
    (S < h.length →
      ∃ h' : Heap, Scope.sortCompileUnits sort getSortFunction h S SortKey = some h') ∧
    (SortsRange sort →
      (∀ comp : SortFunction, getSortFunction SortKey = some comp → Compare comp) →
      ∀ rank : Nat → Nat, Ranked sortLinks h rank → S < h.length →
        ∀ fuel : Nat, rank S < fuel →
          ∃ h' : Heap, Scope.sortScopes sort getSortFunction fuel h S SortKey = some h') := by
  have hlines : ∀ h' : Heap, PW SameButCollections h h' →
      h'.length = h.length ∧
      ∀ (i : Nat) (o : Obj), h[i]? = some o →
        ∃ o' : Obj, h'[i]? = some o' ∧ o'.TheLines = o.TheLines := by
    intro h' pw
    refine ⟨pw.1, fun i o ho => ?_⟩
    obtain ⟨o', ho', r⟩ := pw.2 i o ho
    exact ⟨o', ho', (sameButCollections_lines r).1⟩
  refine ⟨fun fuel h' hr => ?_, fun h' hr => ?_, fun hlt => ?_, fun hs hc rank hrk hlt fuel hf => ?_⟩
  · unfold Scope.sortScopes at hr
    cases hk : getSortFunction SortKey with
    | none =>
      simp only [hk, Option.some.injEq] at hr
      subst hr
      exact hlines h (PW.refl sameButCollections_refl h)
    | some comp =>
      simp only [hk] at hr
      exact hlines h' (sortScopes_frame sort comp fuel h S h' hr)
  · unfold Scope.sortCompileUnits at hr
    cases ho : h[S]? with
    | none => simp [ho] at hr
    | some o =>
      cases hk : getSortFunction SortKey with
      | none =>
        simp only [ho, hk, Option.some.injEq] at hr
        subst hr
        exact hlines h (PW.refl sameButCollections_refl h)
      | some comp =>
        simp only [ho, hk, Option.some.injEq] at hr
        subst hr
        exact hlines _ (PW.set sameButCollections_refl ho rfl)
  · unfold Scope.sortCompileUnits
    rw [List.getElem?_eq_getElem hlt]
    cases getSortFunction SortKey <;> exact ⟨_, rfl⟩
  · unfold Scope.sortScopes
    cases hk : getSortFunction SortKey with
    | none => exact ⟨h, rfl⟩
    | some comp => exact sortScopes_returns hs (hc comp hk) rank fuel h S hrk hlt hf

set_option maxRecDepth 20000 in
/-- C34 on the compile unit of `exPrint`, sorted by position: the compile unit
keeps its line 5 and the function `f` its line 4. -/
theorem sort_keeps_lines_witness :
    (Scope.sortScopes stableSort exGetSortFunction 3 exPrint 0 1).map
        (fun h' => h'.map (fun o => o.TheLines))
      = some [[5], [4], [], [], [], []] ∧
    (Scope.sortCompileUnits stableSort exGetSortFunction exPrint 0 1).map
        (fun h' => h'.map (fun o => o.TheLines))
      = some [[5], [4], [], [], [], []] ∧
    exPrint.map (fun o => o.TheLines) = [[5], [4], [], [], [], []] := by
  decide

/-! ### What `Scope::print` leaves out -/

/-- A call of `Scope::print` that does not print: the sink of a compile unit is
opened and closed when the output is split, and nothing else happens. -/
theorem print_silent (ctx : PrintContext) (h : Heap) (fuel This : Nat) (o : Obj)
    (SplitCU Match IsNull : Bool) (Settings : PrintSettings)
    (ho : h[This]? = some o) (hdo : doPrint Settings o = false) :
    Scope.print ctx (fuel + 1) h This SplitCU Match IsNull Settings =
      if SplitCU && getIsCompileUnit o && !ctx.canOpen (sinkPath ctx o) then
        Except.error (PrintStop.fatalError (sinkPath ctx o))
      else Except.ok (sinkOpening ctx SplitCU o ++ sinkClosing SplitCU o) := by
  unfold doPrint at hdo
  unfold Scope.print
  simp only [ho, hdo, Bool.false_eq_true, if_false]
  rfl

/-- With `Match` set a print loop keeps the entries that have has-pattern. -/
theorem keptBy_match (h : Heap) (xs : List Nat) :
    keptBy h true xs = xs.filter (hasPatternAt h) := by
  unfold keptBy
  apply List.filter_congr
  intro X _
  unfold hasPatternAt
  cases h[X]? with
  | none => rfl
  | some x => simp

/-- Opening and closing the sink dumps nothing. -/
theorem sink_no_dump (ctx : PrintContext) (SplitCU : Bool) (o : Obj) :
    ∀ e ∈ sinkOpening ctx SplitCU o ++ sinkClosing SplitCU o, Event.isDump e = false := by
  intro e he
  unfold sinkOpening sinkClosing at he
  cases hc : (SplitCU && getIsCompileUnit o) <;> simp [hc] at he
  rcases he with he | he <;> rw [he] <;> rfl

/-- C35: `Scope::print` on a scope that is not eligible (`resolvePrinting` is
false), or in quiet mode with the output not split, dumps nothing, neither
the scope nor any child or line record: it returns after opening and closing
the sink of a compile unit when the output is split, and every pass it
returns is free of dumps.  When it prints with `Match` set, the children and
the line records it passes to `print` are exactly those that have
has-pattern set, in their order; without `Match` they are all. -/
theorem print_nothing_or_matched (ctx : PrintContext) (h : Heap) (fuel This : Nat) (o : Obj)
    (SplitCU IsNull : Bool) (Settings : PrintSettings) (ho : h[This]? = some o) :
    ((Scope.resolvePrinting Settings o = false ∨
        (Settings.QuietMode = true ∧ Settings.SplitOutput = false)) →
      ∀ Match : Bool,
        (((SplitCU && getIsCompileUnit o) = true → ctx.canOpen (sinkPath ctx o) = true) →
          Scope.print ctx (fuel + 1) h This SplitCU Match IsNull Settings
            = Except.ok (sinkOpening ctx SplitCU o ++ sinkClosing SplitCU o)) ∧
        (∀ out : List Event,
          Scope.print ctx (fuel + 1) h This SplitCU Match IsNull Settings = Except.ok out →
          ∀ e ∈ out, Event.isDump e = false)) ∧
    (Scope.resolvePrinting Settings o = true →
      (Settings.QuietMode = false ∨ Settings.SplitOutput = true) →
      ((SplitCU && getIsCompileUnit o) = true → ctx.canOpen (sinkPath ctx o) = true) →
      (∀ X ∈ printLinks o, X < h.length) →
      ∀ outs : List (List Event),
        List.Forall₂
          (fun c out => printOf ctx fuel h SplitCU true IsNull Settings c = Except.ok out)
          (o.Children.filter (hasPatternAt h)) outs →
        Scope.print ctx (fuel + 1) h This SplitCU true IsNull Settings =
          Except.ok (sinkOpening ctx SplitCU o ++ [Event.dump This] ++ outs.flatten
            ++ (o.TheLines.filter (hasPatternAt h)).map Event.dump ++ sinkClosing SplitCU o)) ∧
    (∀ xs : List Nat, keptBy h true xs = xs.filter (hasPatternAt h)) ∧
    (∀ xs : List Nat, (∀ X ∈ xs, X < h.length) → keptBy h false xs = xs) := by
  refine ⟨fun hno Match => ?_, fun hel hq hopen hv outs hkids => ?_, keptBy_match h,
    keptBy_all h⟩
  · have hdo : doPrint Settings o = false := by
      unfold doPrint
      rcases hno with hr | ⟨hq, hs⟩
      · rw [hr]
        rfl
      · rw [hq, hs]
        simp
    have hp := print_silent ctx h fuel This o SplitCU Match IsNull Settings ho hdo
    refine ⟨fun hopen => ?_, fun out hout e he => ?_⟩
    · rw [hp]
      have hno : (SplitCU && getIsCompileUnit o && !ctx.canOpen (sinkPath ctx o)) = false := by
        cases hc : (SplitCU && getIsCompileUnit o)
        · rfl
        · rw [hopen hc]
          rfl
      rw [hno]
      rfl
    · rw [hp] at hout
      split at hout
      · cases hout
      · cases hout
        exact sink_no_dump ctx SplitCU o e he
  · have hvc : ∀ X ∈ o.Children, X < h.length := fun X hX => hv X (List.mem_append_left _ hX)
    have hvl : ∀ X ∈ o.TheLines, X < h.length := fun X hX => hv X (List.mem_append_right _ hX)
    rw [← keptBy_match] at hkids
    rw [← keptBy_match]
    exact print_step ctx h fuel This o SplitCU true IsNull Settings _ _ ho hel hq hopen
      (printLoop_eq h true _ o.Children outs hvc hkids) (printLoop_lines h true _ hvl)

/-- C35 on the compile unit of `exPrint`: in quiet mode nothing is dumped; with
`Match` set the function `f`, its line 4 and the variable `v`, which have
has-pattern, are dumped, and the parameter 3 and the line 5 are not. -/
theorem print_nothing_or_matched_witness :
    Scope.print exContext 3 exPrint 0 false true false exQuiet = Except.ok [] ∧
    Scope.print exContext 3 exPrint 0 false true false {} =
      Except.ok ([] ++ [Event.dump 0] ++ [[Event.dump 1, Event.dump 4], [Event.dump 2]].flatten
        ++ [] ++ []) ∧
    exPrintCU.TheLines.filter (hasPatternAt exPrint) = [] ∧
    exPrintCU.Children.filter (hasPatternAt exPrint) = [1, 2] :=
  ⟨((print_nothing_or_matched exContext exPrint 2 0 exPrintCU false false exQuiet rfl).1
      (Or.inr ⟨rfl, rfl⟩) true).1 (fun hc => absurd hc (by decide)),
   (print_nothing_or_matched exContext exPrint 2 0 exPrintCU false false {} rfl).2.1 rfl
     (Or.inl rfl) (fun hc => absurd hc (by decide)) (by decide)
     [[Event.dump 1, Event.dump 4], [Event.dump 2]]
     (List.Forall₂.cons rfl (List.Forall₂.cons rfl List.Forall₂.nil)),
   by decide, by decide⟩

/-! ### The upward walk sets the flag exactly below the first already-set scope -/

theorem nthParent_add (h : Heap) (j : Nat) :
    ∀ (m p : Nat), nthParent h (m + j) p = (nthParent h j p).bind (nthParent h m) := by
  intro m
  induction m with
  | zero =>
    intro p
    simp only [Nat.zero_add]
    cases nthParent h j p <;> rfl
  | succ m ih =>
    intro p
    have e : m + 1 + j = (m + j) + 1 := by omega
    rw [e]
    show (nthParent h (m + j) p).bind _ = _
    rw [ih p]
    cases nthParent h j p <;> rfl

theorem nthParent_one (h : Heap) (p : Nat) :
    nthParent h 1 p = (h[p]?).bind getParent := rfl

theorem nthParent_succ_front (h : Heap) (m p : Nat) :
    nthParent h (m + 1) p = ((h[p]?).bind getParent).bind (nthParent h m) := by
  rw [nthParent_add h 1 m p, nthParent_one]

/-- Replacing an object by one with the same parent keeps every parent chain. -/
theorem nthParent_set (h : Heap) (i : Nat) (o o' : Obj) (hi : h[i]? = some o)
    (hpar : getParent o' = getParent o) :
    ∀ (m p : Nat), nthParent (h.set i o') m p = nthParent h m p := by
  intro m
  induction m with
  | zero => intro p; rfl
  | succ m ih =>
    intro p
    show (nthParent (h.set i o') m p).bind _ = (nthParent h m p).bind _
    rw [ih p]
    cases nthParent h m p with
    | none => rfl
    | some a =>
      show ((h.set i o')[a]?).bind getParent = (h[a]?).bind getParent
      by_cases e : i = a
      · subst e
        have hlt : i < h.length := by
          rcases Nat.lt_or_ge i h.length with l | l
          · exact l
          · rw [List.getElem?_eq_none l] at hi; cases hi
        simp [List.getElem?_set, hlt, hi, hpar]
      · simp [List.getElem?_set, e]

/-- A walk that stops after `n` scopes does not come back to its start within
the first `n` steps. -/
theorem stopsAfter_start_fresh {G : Obj → Bool} {h : Heap} {This n : Nat}
    (hs : StopsAfter G h This n) :
    ∀ j, 0 < j → j ≤ n → nthParent h j This ≠ some This := by
  intro j hj hjn hback
  have hall : ∀ m, ∃ a o, nthParent h m This = some a ∧ h[a]? = some o ∧ G o = false := by
    intro m
    induction m using Nat.strong_induction_on with
    | _ m ih =>
      rcases Nat.lt_or_ge m n with l | l
      · exact hs.1 m l
      · have e : m = (m - j) + j := by omega
        obtain ⟨a, o, h1, h2, h3⟩ := ih (m - j) (by omega)
        refine ⟨a, o, ?_, h2, h3⟩
        rw [e, nthParent_add, hback]
        exact h1
  obtain ⟨a, o, h1, h2, h3⟩ := hall n
  have := hs.2 a o h1 h2
  rw [h3] at this
  cases this

theorem traverseLoop_exact (G : Obj → Bool) (S : Obj → Obj) (hgs : ∀ o, G (S o) = true)
    (hpar : ∀ o, getParent (S o) = getParent o) :
    ∀ (n fuel : Nat) (h : Heap) (This : Nat) (h' : Heap), StopsAfter G h This n →
      traverseLoop G S fuel (some This) h = some h' →
      (∀ k a o, k < n → nthParent h k This = some a → h[a]? = some o →
        h'[a]? = some (S o)) ∧
      (∀ i, (∀ k, k < n → nthParent h k This ≠ some i) → h'[i]? = h[i]?) ∧
      (n = 0 → h' = h) := by
  intro n
  induction n with
  | zero =>
    intro fuel h This h' hs hrun
    have e : h' = h := by
      cases fuel with
      | zero => simp [traverseLoop] at hrun
      | succ f =>
        simp only [traverseLoop] at hrun
        cases hp : h[This]? with
        | none => rw [hp] at hrun; simpa using hrun.symm
        | some o =>
          rw [hp] at hrun
          have hg := hs.2 This o rfl hp
          simp only [hg, if_true] at hrun
          simpa using hrun.symm
    subst e
    exact ⟨fun k a o hk => by omega, fun i _ => rfl, fun _ => rfl⟩
  | succ n ih =>
    intro fuel h This h' hs hrun
    obtain ⟨a0, o, ha0, ho, hg⟩ := hs.1 0 (by omega)
    have ea : a0 = This := by cases ha0; rfl
    subst ea
    have hlt : a0 < h.length := by
      rcases Nat.lt_or_ge a0 h.length with l | l
      · exact l
      · rw [List.getElem?_eq_none l] at ho; cases ho
    cases fuel with
    | zero => simp [traverseLoop] at hrun
    | succ f =>
      simp only [traverseLoop, ho, hg, hpar] at hrun
      have hrun1 : traverseLoop G S f (getParent o) (h.set a0 (S o)) = some h' := by
        simpa using hrun
      cases hP : getParent o with
      | none =>
        rw [hP] at hrun1
        have hn : n = 0 := by
          rcases Nat.eq_zero_or_pos n with z | pos
          · exact z
          · obtain ⟨a, o1, h1, _, _⟩ := hs.1 1 (by omega)
            rw [nthParent_one, ho] at h1
            simp [hP] at h1
        subst hn
        have e : h' = h.set a0 (S o) := by
          cases f with
          | zero => simp [traverseLoop] at hrun1
          | succ f => simpa [traverseLoop] using hrun1.symm
        subst e
        refine ⟨?_, ?_, fun z => by omega⟩
        · intro k a o1 hk h1 h2
          have k0 : k = 0 := by omega
          subst k0
          cases h1
          rw [ho] at h2
          cases h2
          simp [List.getElem?_set, hlt]
        · intro i hi
          have ne : a0 ≠ i := fun e => hi 0 (by omega) (by rw [e]; rfl)
          simp [List.getElem?_set, ne]
      | some P =>
        rw [hP] at hrun1
        have hfresh := stopsAfter_start_fresh hs
        have hshift : ∀ m, nthParent (h.set a0 (S o)) m P = nthParent h (m + 1) a0 := by
          intro m
          rw [nthParent_set h a0 o (S o) ho (hpar o), nthParent_succ_front, ho]
          simp [hP]
        have hs1 : StopsAfter G (h.set a0 (S o)) P n := by
          constructor
          · intro k hk
            obtain ⟨a, o1, h1, h2, h3⟩ := hs.1 (k + 1) (by omega)
            have ne : a0 ≠ a := by
              intro e
              exact hfresh (k + 1) (by omega) (by omega) (by rw [h1, e])
            exact ⟨a, o1, by rw [hshift, h1], by simp [List.getElem?_set, ne, h2], h3⟩
          · intro a o1 h1 h2
            rw [hshift] at h1
            by_cases e : a0 = a
            · subst e
              simp [List.getElem?_set, hlt] at h2
              rw [← h2]
              exact hgs o
            · simp [List.getElem?_set, e] at h2
              exact hs.2 a o1 h1 h2
        obtain ⟨v1, v2, _⟩ := ih f (h.set a0 (S o)) P h' hs1 hrun1
        have hstart : h'[a0]? = some (S o) := by
          rw [v2 a0 ?_]
          · simp [List.getElem?_set, hlt]
          · intro k hk
            rw [hshift]
            exact hfresh (k + 1) (by omega) (by omega)
        refine ⟨?_, ?_, fun z => by omega⟩
        · intro k a o1 hk h1 h2
          cases k with
          | zero =>
            cases h1
            rw [ho] at h2
            cases h2
            exact hstart
          | succ k =>
            have ne : a0 ≠ a := by
              intro e
              exact hfresh (k + 1) (by omega) (by omega) (by rw [h1, e])
            exact v1 k a o1 (by omega) (by rw [hshift, h1])
              (by simp [List.getElem?_set, ne, h2])
        · intro i hi
          have ne : a0 ≠ i := fun e => hi 0 (by omega) (by rw [e]; rfl)
          rw [v2 i ?_]
          · simp [List.getElem?_set, ne]
          · intro k hk
            rw [hshift]
            exact hi (k + 1) (by omega)

/-- Parent links that lead to a lower rank never lead back: a scope further up
a parent chain has a lower rank. -/
theorem nthParent_rank {h : Heap} {rank : Nat → Nat} (hr : Ranked parentLinks h rank) :
    ∀ (m a b : Nat), nthParent h (m + 1) a = some b → rank b < rank a := by
  intro m
  induction m with
  | zero =>
    intro a b hb
    rw [nthParent_one] at hb
    cases ha : h[a]? with
    | none => rw [ha] at hb; cases hb
    | some o =>
      rw [ha] at hb
      exact (hr a o ha b (by simpa [parentLinks] using hb)).2
  | succ m ih =>
    intro a b hb
    have hb1 : (nthParent h (m + 1) a).bind (fun c => (h[c]?).bind getParent) = some b := hb
    cases hc : nthParent h (m + 1) a with
    | none => rw [hc] at hb1; cases hb1
    | some c =>
      rw [hc] at hb1
      have hb2 : (h[c]?).bind getParent = some b := hb1
      have l1 := ih a c hc
      have l2 : rank b < rank c := by
        cases hco : h[c]? with
        | none => rw [hco] at hb2; cases hb2
        | some oc =>
          rw [hco] at hb2
          exact (hr c oc hco b (by simpa [parentLinks] using hb2)).2
      omega

theorem nthParent_distinct {h : Heap} {rank : Nat → Nat} (hr : Ranked parentLinks h rank)
    {This k m a : Nat} (hkm : k < m) (hk : nthParent h k This = some a) :
    nthParent h m This ≠ some a := by
  intro hm
  have e : m = (m - k - 1 + 1) + k := by omega
  rw [e, nthParent_add, hk] at hm
  have := nthParent_rank hr (m - k - 1) a a hm
  omega

/-- Setting one aggregate flag sets it, keeps the five others and keeps
everything that is not an aggregate flag. -/
theorem aggFlag_setter (F F' : AggFlag) (o : Obj) :
    F.getter (F.setter o) = true ∧ getParent (F.setter o) = getParent o ∧
    SameButAgg (F.setter o) o ∧ (F' ≠ F → F'.getter (F.setter o) = F'.getter o) := by
  refine ⟨?_, ?_, ?_, ?_⟩
  · cases F <;> rfl
  · cases F <;> rfl
  · cases F <;> rfl
  · intro ne
    cases F <;> cases F' <;> first | rfl | exact absurd rfl ne

/-- C31: the upward walk `traverse(GetFunc, SetFunc, false)` of any of the six
aggregate flags, started at a scope whose parent chain has `n` scopes without
the flag before the chain ends or reaches a scope that has it, returns; it sets
the flag on exactly these `n` scopes, which keep their five other flags and
everything else; every other object of the heap is unchanged, among them the
first already-set scope and, in a tree, every scope above it; and when the
start scope already has the flag the heap is unchanged. -/
theorem traverse_sets_exactly (F : AggFlag) (d : Bool) (h : Heap) (This n : Nat)
    (hs : StopsAfter F.getter h This n) :
    ∃ h', traverse F.getter F.setter d h This = some h' ∧ h'.length = h.length ∧
      (∀ k a o, k < n → nthParent h k This = some a → h[a]? = some o →
        h'[a]? = some (F.setter o) ∧ F.getter (F.setter o) = true ∧
        SameButAgg (F.setter o) o ∧
        ∀ F' : AggFlag, F' ≠ F → F'.getter (F.setter o) = F'.getter o) ∧
      (∀ i, (∀ k, k < n → nthParent h k This ≠ some i) → h'[i]? = h[i]?) ∧
      (∀ a, nthParent h n This = some a → h'[a]? = h[a]?) ∧
      (∀ rank, Ranked parentLinks h rank →
        ∀ m a, n ≤ m → nthParent h m This = some a → h'[a]? = h[a]?) ∧
      (∀ o, h[This]? = some o → F.getter o = true → h' = h) := by
  obtain ⟨h', hrun⟩ := traverse_terminates F.getter F.setter (fun o => (aggFlag_setter F F o).1)
    d h This
  obtain ⟨v1, v2, v3⟩ := traverseLoop_exact F.getter F.setter
    (fun o => (aggFlag_setter F F o).1) (fun o => (aggFlag_setter F F o).2.1)
    n _ h This h' hs hrun
  have hlen : h'.length = h.length := by
    have hw : PW (fun _ _ => True) h h' :=
      traverse_PW F.getter F.setter (fun _ => trivial) (fun _ _ _ _ _ => trivial)
        (fun _ => trivial) hrun
    exact hw.1
  refine ⟨h', hrun, hlen, ?_, v2, ?_, ?_, ?_⟩
  · intro k a o hk h1 h2
    exact ⟨v1 k a o hk h1 h2, (aggFlag_setter F F o).1, (aggFlag_setter F F o).2.2.1,
      fun F' ne => (aggFlag_setter F F' o).2.2.2 ne⟩
  · intro a ha
    cases hao : h[a]? with
    | none =>
      have l : h.length ≤ a := by
        rcases Nat.lt_or_ge a h.length with l | l
        · rw [List.getElem?_eq_getElem l] at hao; cases hao
        · exact l
      rw [List.getElem?_eq_none (by omega)]
    | some o =>
      rw [← hao]
      apply v2
      intro k hk hka
      obtain ⟨b, ob, h1, h2, h3⟩ := hs.1 k hk
      rw [hka] at h1
      cases h1
      rw [hao] at h2
      cases h2
      have := hs.2 a o ha hao
      rw [h3] at this
      cases this
  · intro rank hr m a hm ha
    apply v2
    intro k hk hka
    exact nthParent_distinct hr (by omega) hka ha
  · intro o ho hg
    apply v3
    rcases Nat.eq_zero_or_pos n with z | pos
    · exact z
    · obtain ⟨b, ob, h1, h2, h3⟩ := hs.1 0 pos
      cases h1
      rw [ho] at h2
      cases h2
      rw [hg] at h3
      cases h3

theorem traverse_sets_exactly_witness :
    StopsAfter AggFlag.hasSymbols.getter exChain 3 2 ∧
    ∃ h', traverse AggFlag.hasSymbols.getter AggFlag.hasSymbols.setter false exChain 3
        = some h' ∧ h'.length = exChain.length ∧
      (∀ k a o, k < 2 → nthParent exChain k 3 = some a → exChain[a]? = some o →
        h'[a]? = some (AggFlag.hasSymbols.setter o) ∧
        AggFlag.hasSymbols.getter (AggFlag.hasSymbols.setter o) = true ∧
        SameButAgg (AggFlag.hasSymbols.setter o) o ∧
        ∀ F' : AggFlag, F' ≠ AggFlag.hasSymbols →
          F'.getter (AggFlag.hasSymbols.setter o) = F'.getter o) ∧
      (∀ i, (∀ k, k < 2 → nthParent exChain k 3 ≠ some i) → h'[i]? = exChain[i]?) ∧
      (∀ a, nthParent exChain 2 3 = some a → h'[a]? = exChain[a]?) ∧
      (∀ rank, Ranked parentLinks exChain rank →
        ∀ m a, 2 ≤ m → nthParent exChain m 3 = some a → h'[a]? = exChain[a]?) ∧
      (∀ o, exChain[3]? = some o → AggFlag.hasSymbols.getter o = true → h' = exChain) :=
  have hs : StopsAfter AggFlag.hasSymbols.getter exChain 3 2 :=
    ⟨fun k hk => by
      have : k = 0 ∨ k = 1 := by omega
      rcases this with e | e
      · subst e; exact ⟨3, _, rfl, rfl, rfl⟩
      · subst e; exact ⟨2, _, rfl, rfl, rfl⟩,
     fun a o h1 h2 => by
      have e : a = 1 := by
        have : nthParent exChain 2 3 = some 1 := rfl
        rw [this] at h1
        cases h1
        rfl
      subst e
      cases h2
      rfl⟩
  ⟨hs, traverse_sets_exactly AggFlag.hasSymbols false exChain 3 2 hs⟩

theorem traverse_exChain :
    traverse getHasSymbols setHasSymbols false exChain 3 = some exChainWalked ∧
    rankedB parentLinks exChain (fun i => i) = true := by
  decide

/-! ### Termination of `Scope::resolveName` -/

theorem refWalk_add (h : Heap) (a : Nat) :
    ∀ (b X : Nat), refWalk h (a + b) X = (refWalk h b X).bind (refWalk h a) := by
  intro b
  induction b with
  | zero => intro X; rfl
  | succ b ih =>
    intro X
    show (refStep h X).bind (refWalk h (a + b)) = ((refStep h X).bind (refWalk h b)).bind _
    cases refStep h X with
    | none => rfl
    | some Z => exact ih Z

/-- A walk that has a scope after `n` steps has one after fewer steps. -/
theorem refWalk_prefix (h : Heap) (X : Nat) {n k : Nat} (hk : k ≤ n)
    (hn : refWalk h n X ≠ none) : refWalk h k X ≠ none := by
  intro e
  have e1 : n = (n - k) + k := by omega
  rw [e1, refWalk_add, e] at hn
  exact hn rfl

/-- A call that returns keeps the number of objects. -/
theorem resolveName_length (u : String → String) :
    ∀ (fuel : Nat) (h : Heap) (X : Nat) (h1 : Heap) (m : String),
      Scope.resolveName u fuel h X = Except.ok (h1, m) → h1.length = h.length := by
  intro fuel
  induction fuel with
  | zero => intro h X h1 m e; simp [Scope.resolveName] at e
  | succ f ih =>
    intro h X h1 m e
    cases hx : h[X]? with
    | none => simp [Scope.resolveName, hx] at e
    | some x =>
      by_cases hc : (getHasReference x && isUnnamed x) = true
      · have hc' := hc
        simp at hc'
        cases hy : getReference x with
        | none => simp [Scope.resolveName, hx, hc'.1, hc'.2, hy] at e
        | some Y =>
          rw [resolveName_step u f h X Y x hx hc'.1 hc'.2 hy] at e
          cases hres : Scope.resolveName u f h Y with
          | error err => rw [hres] at e; cases e
          | ok r' =>
            obtain ⟨h', m'⟩ := r'
            rw [hres] at e
            simp only at e
            cases ho1 : h'[X]? with
            | none => rw [ho1] at e; cases e
            | some o1 =>
              rw [ho1] at e
              simp only [Except.ok.injEq, Prod.mk.injEq] at e
              rw [← e.1, List.length_set]
              exact ih h Y h' m' hres
      · have hc0 : (getHasReference x && isUnnamed x) = false := by simpa using hc
        rw [resolveName_stop u f h X x hx hc0] at e
        simp only [Except.ok.injEq, Prod.mk.injEq] at e
        rw [← e.1]

/-- When the walk reaches a scope that is named or has no reference after `n`
steps, every call with more than `n` units of fuel returns, and returns the
same. -/
theorem resolveName_reaches (u : String → String) (h : Heap) :
    ∀ (n X Y : Nat) (y : Obj), refWalk h n X = some Y → h[Y]? = some y →
      endsRefWalk y = true →
      ∃ r, ∀ fuel, n < fuel → Scope.resolveName u fuel h X = Except.ok r := by
  intro n
  induction n with
  | zero =>
    intro X Y y hw hy hst
    cases hw
    refine ⟨(h, getName y), ?_⟩
    intro fuel hf
    obtain ⟨f, rfl⟩ : ∃ f, fuel = f + 1 := ⟨fuel - 1, by omega⟩
    have hc0 : (getHasReference y && isUnnamed y) = false := by
      unfold endsRefWalk at hst
      cases hb : (getHasReference y && isUnnamed y)
      · rfl
      · rw [hb] at hst; cases hst
    exact resolveName_stop u f h X y hy hc0
  | succ n ih =>
    intro X Y y hw hy hst
    have hw1 : (refStep h X).bind (refWalk h n) = some Y := hw
    cases hs : refStep h X with
    | none => rw [hs] at hw1; cases hw1
    | some Z =>
      rw [hs] at hw1
      obtain ⟨x, hx, hr, hu, hz⟩ := refStep_some hs
      obtain ⟨r, hrz⟩ := ih Z Y y hw1 hy hst
      obtain ⟨h1, name⟩ := r
      have hlen : h1.length = h.length :=
        resolveName_length u (n + 1) h Z h1 name (hrz (n + 1) (by omega))
      have hlt : X < h1.length := by
        rw [hlen]
        rcases Nat.lt_or_ge X h.length with l | l
        · exact l
        · rw [List.getElem?_eq_none l] at hx; cases hx
      refine ⟨(h1.set X (setName u (h1[X]) name), getName (setName u (h1[X]) name)), ?_⟩
      intro fuel hf
      obtain ⟨f, rfl⟩ : ∃ f, fuel = f + 1 := ⟨fuel - 1, by omega⟩
      rw [resolveName_step u f h X Z x hx hr hu hz, hrz f (by omega)]
      simp only [List.getElem?_eq_getElem hlt]

/-- When the walk never ends, no call returns, whatever the fuel: each call
uses up its fuel. -/
theorem resolveName_endless (u : String → String) (h : Heap) :
    ∀ (fuel X : Nat), (∀ n, refWalk h n X ≠ none) →
      Scope.resolveName u fuel h X = Except.error Stop.outOfFuel := by
  intro fuel
  induction fuel with
  | zero => intro X _; rfl
  | succ f ih =>
    intro X hw
    cases hs : refStep h X with
    | none =>
      have := hw 1
      simp [refWalk, hs] at this
    | some Z =>
      obtain ⟨x, hx, hr, hu, hz⟩ := refStep_some hs
      have hwz : ∀ n, refWalk h n Z ≠ none := by
        intro n
        have := hw (n + 1)
        simpa [refWalk, hs] using this
      rw [resolveName_step u f h X Z x hx hr hu hz, ih Z hwz]

/-- When the walk ends after `n` steps, a call with more than `n` units of
fuel does not use up its fuel. -/
theorem resolveName_ends (u : String → String) (h : Heap) :
    ∀ (n X Y : Nat), refWalk h n X = some Y → refStep h Y = none →
      ∀ fuel, n < fuel → Scope.resolveName u fuel h X ≠ Except.error Stop.outOfFuel := by
  intro n
  induction n with
  | zero =>
    intro X Y hw hs fuel hf
    cases hw
    obtain ⟨f, rfl⟩ : ∃ f, fuel = f + 1 := ⟨fuel - 1, by omega⟩
    cases hx : h[X]? with
    | none => simp [Scope.resolveName, hx]
    | some x =>
      by_cases hc : (getHasReference x && isUnnamed x) = true
      · have hc' := hc
        simp at hc'
        have hy : getReference x = none := by
          simpa [refStep, hx, hc] using hs
        simp [Scope.resolveName, hx, hc'.1, hc'.2, hy]
      · have hc0 : (getHasReference x && isUnnamed x) = false := by simpa using hc
        rw [resolveName_stop u f h X x hx hc0]
        intro e
        cases e
  | succ n ih =>
    intro X Y hw hs fuel hf
    obtain ⟨f, rfl⟩ : ∃ f, fuel = f + 1 := ⟨fuel - 1, by omega⟩
    have hw1 : (refStep h X).bind (refWalk h n) = some Y := hw
    cases hsx : refStep h X with
    | none => rw [hsx] at hw1; cases hw1
    | some Z =>
      rw [hsx] at hw1
      obtain ⟨x, hx, hr, hu, hz⟩ := refStep_some hsx
      have hne := ih Z Y hw1 hs f (by omega)
      rw [resolveName_step u f h X Z x hx hr hu hz]
      cases hres : Scope.resolveName u f h Z with
      | error err =>
        intro e
        apply hne
        rw [hres]
        simp only at e
        exact e
      | ok r' =>
        obtain ⟨h', m'⟩ := r'
        simp only
        cases h'[X]? with
        | none => intro e; cases e
        | some o1 => intro e; cases e

/-- A walk that enters a cycle never ends. -/
theorem entersCycle_endless {h : Heap} {X : Nat} (hc : EntersCycle h X) :
    ∀ n, refWalk h n X ≠ none := by
  obtain ⟨n0, m, Y, hY, hcyc⟩ := hc
  have hround : ∀ k, refWalk h (k * (m + 1)) Y = some Y := by
    intro k
    induction k with
    | zero => simp [refWalk]
    | succ k ih =>
      have e : (k + 1) * (m + 1) = k * (m + 1) + (m + 1) := by ring
      rw [e, refWalk_add, hcyc]
      exact ih
  intro n
  apply refWalk_prefix h X (Nat.le_add_left n (n * (m + 1) + n0 - n))
  have e : n * (m + 1) + n0 - n + n = n * (m + 1) + n0 := by
    have : n ≤ n * (m + 1) := Nat.le_mul_of_pos_right n (by omega)
    omega
  rw [e, refWalk_add, hY]
  show refWalk h (n * (m + 1)) Y ≠ none
  rw [hround]
  exact fun e => by cases e

/-- A walk that never ends enters a cycle: it stays among the objects of the
heap, of which there are finitely many. -/
theorem endless_entersCycle {h : Heap} {X : Nat} (hw : ∀ n, refWalk h n X ≠ none) :
    EntersCycle h X := by
  have hval : ∀ n, ∃ Y, refWalk h n X = some Y ∧ Y < h.length := by
    intro n
    cases hn : refWalk h n X with
    | none => exact absurd hn (hw n)
    | some Y =>
      refine ⟨Y, rfl, ?_⟩
      have h1 := hw (n + 1)
      rw [refWalk_succ, hn] at h1
      have h2 : refStep h Y ≠ none := h1
      cases hs : refStep h Y with
      | none => exact absurd hs h2
      | some Z =>
        obtain ⟨y, hy, _⟩ := refStep_some hs
        rcases Nat.lt_or_ge Y h.length with l | l
        · exact l
        · rw [List.getElem?_eq_none l] at hy; cases hy
  obtain ⟨i, hi, j, hj, hne, heq⟩ :=
    Finset.exists_ne_map_eq_of_card_lt_of_maps_to
      (s := Finset.range (h.length + 1)) (t := Finset.range h.length)
      (f := fun n => (refWalk h n X).getD 0)
      (by simp)
      (by
        intro n _
        obtain ⟨Y, hY, hlt⟩ := hval n
        simp [hY, hlt])
  have key : ∀ a b, a < b → (refWalk h a X).getD 0 = (refWalk h b X).getD 0 →
      EntersCycle h X := by
    intro a b hab e
    obtain ⟨Ya, hYa, _⟩ := hval a
    obtain ⟨Yb, hYb, _⟩ := hval b
    rw [hYa, hYb] at e
    have e' : Ya = Yb := e
    subst e'
    refine ⟨a, b - a - 1, Ya, hYa, ?_⟩
    have e1 : b = (b - a - 1 + 1) + a := by omega
    rw [e1, refWalk_add, hYa] at hYb
    exact hYb
  rcases Nat.lt_or_gt_of_ne hne with l | l
  · exact key i j l heq
  · exact key j i l heq.symm

/-- C32: `Scope::resolveName` returns, with any fuel above the number of steps,
on every scope whose reference walk (followed while the current scope is
unnamed and has a reference) reaches a scope that is named or has no
reference; it uses up every fuel, that is, it does not terminate, exactly when
the walk enters a cycle, and the scopes of such a walk are all unnamed scopes
with a reference; when the walk enters no cycle and meets no null or dangling
reference, the call returns. -/
theorem resolveName_terminates_iff (u : String → String) (h : Heap) (X : Nat) :
    (∀ n Y y, refWalk h n X = some Y → h[Y]? = some y → endsRefWalk y = true →
      ∃ r, ∀ fuel, n < fuel → Scope.resolveName u fuel h X = Except.ok r) ∧
    ((∀ fuel, Scope.resolveName u fuel h X = Except.error Stop.outOfFuel) ↔
      EntersCycle h X) ∧
    (EntersCycle h X → ∀ n, ∃ Z z, refWalk h n X = some Z ∧ h[Z]? = some z ∧
      getHasReference z = true ∧ isUnnamed z = true) ∧
    (¬ EntersCycle h X →
      (∀ n Y, refWalk h n X = some Y → ∃ y, h[Y]? = some y ∧
        (getHasReference y = true → getReference y ≠ none)) →
      ∃ r n, ∀ fuel, n < fuel → Scope.resolveName u fuel h X = Except.ok r) := by
  have hends : ∀ n, refWalk h n X ≠ none → refWalk h (n + 1) X = none →
      ∃ Y, refWalk h n X = some Y ∧ refStep h Y = none := by
    intro n h1 h2
    cases hn : refWalk h n X with
    | none => exact absurd hn h1
    | some Y =>
      refine ⟨Y, rfl, ?_⟩
      rw [refWalk_succ, hn] at h2
      exact h2
  have hfirst : (¬ ∀ n, refWalk h n X ≠ none) →
      ∃ n Y, refWalk h n X = some Y ∧ refStep h Y = none := by
    intro hne
    have hex : ∃ n, refWalk h n X = none := by
      by_contra hc
      exact hne (fun n e => hc ⟨n, e⟩)
    have hsp := Nat.find_spec hex
    have hpos : 0 < Nat.find hex := by
      rcases Nat.eq_zero_or_pos (Nat.find hex) with z | p
      · rw [z] at hsp; cases hsp
      · exact p
    obtain ⟨k, hk⟩ : ∃ k, Nat.find hex = k + 1 := ⟨Nat.find hex - 1, by omega⟩
    have h1 : refWalk h k X ≠ none := Nat.find_min hex (by omega)
    rw [hk] at hsp
    obtain ⟨Y, hY, hs⟩ := hends k h1 hsp
    exact ⟨k, Y, hY, hs⟩
  refine ⟨?_, ⟨?_, ?_⟩, ?_, ?_⟩
  · intro n Y y hw hy hst
    exact resolveName_reaches u h n X Y y hw hy hst
  · intro hall
    apply endless_entersCycle
    by_contra hne
    obtain ⟨n, Y, hY, hs⟩ := hfirst hne
    exact resolveName_ends u h n X Y hY hs (n + 1) (by omega) (hall (n + 1))
  · intro hc fuel
    exact resolveName_endless u h fuel X (entersCycle_endless hc)
  · intro hc n
    have h1 := entersCycle_endless hc (n + 1)
    cases hn : refWalk h n X with
    | none => exact absurd hn (entersCycle_endless hc n)
    | some Z =>
      rw [refWalk_succ, hn] at h1
      have h2 : refStep h Z ≠ none := h1
      cases hs : refStep h Z with
      | none => exact absurd hs h2
      | some W =>
        obtain ⟨z, hz, hr, hu, _⟩ := refStep_some hs
        exact ⟨Z, z, rfl, hz, hr, hu⟩
  · intro hnc hwf
    have hne : ¬ ∀ n, refWalk h n X ≠ none := fun hw => hnc (endless_entersCycle hw)
    obtain ⟨n, Y, hY, hs⟩ := hfirst hne
    obtain ⟨y, hy, hnn⟩ := hwf n Y hY
    have hst : endsRefWalk y = true := by
      by_contra hc
      have hc1 : (getHasReference y && isUnnamed y) = true := by
        unfold endsRefWalk at hc
        cases hb : (getHasReference y && isUnnamed y)
        · rw [hb] at hc; exact absurd rfl hc
        · rfl
      have hc2 := hc1
      simp at hc2
      have : getReference y = none := by simpa [refStep, hy, hc1] using hs
      exact hnn hc2.1 this
    obtain ⟨r, hr⟩ := resolveName_reaches u h n X Y y hY hy hst
    exact ⟨r, n, hr⟩

/-- On `exRefs` the call on the inlined instance returns with any fuel above
two; on `exRefLoop` the walk from the first scope enters the cycle of the two
others and the call uses up every fuel. -/
theorem resolveName_terminates_iff_witness :
    (∃ r, ∀ fuel, 2 < fuel → Scope.resolveName id fuel exRefs 2 = Except.ok r) ∧
    (∀ fuel, Scope.resolveName id fuel exRefLoop 0 = Except.error Stop.outOfFuel) ∧
    Scope.resolveName id 3 exRefs 2 = Except.ok
      ([{ Kind := ObjKind.scope, Name := "f", IsFunction := true },
        { Kind := ObjKind.scope, Name := "f", IsFunction := true, HasReference := true,
          Reference := some 0 },
        { Kind := ObjKind.scope, Name := "f", IsFunction := true,
          IsInlinedSubroutine := true, HasReference := true, Reference := some 1 }], "f") :=
  ⟨(resolveName_terminates_iff id exRefs 2).1 2 0 _ rfl rfl rfl,
   (resolveName_terminates_iff id exRefLoop 0).2.1.2 ⟨1, 1, 1, rfl, rfl⟩,
   rfl⟩

/-! ### A tree built from the top has upward-closed flags -/

theorem aggFlag_ofLinks (F : AggFlag) {a b : Obj} (h : SameButLinks a b) :
    F.getter a = F.getter b := by
  obtain ⟨e1, e2, e3, e4, e5, e6, _⟩ := h.flags
  cases F
  · exact e1
  · exact e2
  · exact e3
  · exact e4
  · exact e5
  · exact e6

theorem noAggregateFlags_iff (o : Obj) :
    noAggregateFlags o = true ↔ ∀ F : AggFlag, F.getter o = false := by
  constructor
  · intro h F
    simp only [noAggregateFlags, Bool.and_eq_true, Bool.not_eq_true'] at h
    obtain ⟨⟨⟨⟨⟨h1, h2⟩, h3⟩, h4⟩, h5⟩, h6⟩ := h
    cases F
    · exact h1
    · exact h2
    · exact h3
    · exact h4
    · exact h5
    · exact h6
  · intro h
    have h1 := h AggFlag.hasScopes
    have h2 := h AggFlag.hasSymbols
    have h3 := h AggFlag.hasTypes
    have h4 := h AggFlag.hasLines
    have h5 := h AggFlag.hasGlobals
    have h6 := h AggFlag.hasLocals
    simp only [AggFlag.getter] at h1 h2 h3 h4 h5 h6
    simp [noAggregateFlags, h1, h2, h3, h4, h5, h6]

/-- After push and setParent of a child that does not have the flag, a flag
that was upward-closed is upward-closed. -/
theorem attached_closed {push : Obj → Nat → Obj} {G : Obj → Bool}
    (hG : ∀ a b, SameButLinks a b → G a = G b) (hpush : ∀ o n, SameButLinks o (push o n))
    (hpushPar : ∀ o n, getParent (push o n) = getParent o)
    {h : Heap} {This Child : Nat} {p c : Obj}
    (hp : h[This]? = some p) (hc : (h.set This (push p Child))[Child]? = some c)
    (hgc : G c = false)
    (hcl : Closed G h) : Closed G (attached push h This Child p c) := by
  have hcb := attached_closedBut hG hpush hpushPar hp hc hcl
  intro i oi j q hi hgi hj hq
  by_cases hiC : i = Child
  · subst hiC
    rw [attached_child hc] at hi
    cases hi
    rw [← hG _ _ (sameButLinks_setParent c This), hgc] at hgi
    cases hgi
  · rcases hcb i oi j q hi hgi hj hq with g | e
    · exact g
    · -- the link into the parent comes from the child only
      have pw1 : PW (fun a b => G b = G a) h (attached push h This Child p c) :=
        @attached_PW (fun a b => G b = G a) push (fun _ => rfl) (fun _ _ _ h1 h2 => h2.trans h1)
          (fun o n => (hG _ _ (hpush o n)).symm)
          (fun o q => (hG _ _ (sameButLinks_setParent o q)).symm) _ _ _ _ _ hp hc
      obtain ⟨q0, hq0, rq⟩ := pw1.inv hq
      rw [rq]
      by_cases hiP : i = This
      · subst hiP
        rw [attached_this hp (Ne.symm hiC)] at hi
        cases hi
        rw [← hG _ _ (hpush p Child)] at hgi
        rw [hpushPar] at hj
        exact hcl i p j q0 hp hgi hj hq0
      · rw [attached_other hiP hiC] at hi
        exact hcl i oi j q0 hi hgi hj hq0

/-- The upward walk of one aggregate flag keeps every aggregate flag
upward-closed. -/
theorem traverse_keeps_closed (F F' : AggFlag) {d : Bool} {h h' : Heap} {p : Nat}
    (e : traverse F'.getter F'.setter d h p = some h') (hc : Closed F.getter h) :
    Closed F.getter h' := by
  by_cases hF : F = F'
  · subst hF
    exact traverse_closed F.getter F.setter (fun o => (aggFlag_setter F F o).1)
      (fun o => (aggFlag_setter F F o).2.1) e
      (fun i o j q hi hg hj hq => Or.inl (hc i o j q hi hg hj hq))
  · have pw : PW (fun a b => F.getter b = F.getter a ∧ getParent b = getParent a) h h' :=
      traverse_PW F'.getter F'.setter (fun _ => ⟨rfl, rfl⟩)
        (fun _ _ _ h1 h2 => ⟨h2.1.trans h1.1, h2.2.trans h1.2⟩)
        (fun o => ⟨(aggFlag_setter F' F o).2.2.2 hF, (aggFlag_setter F' F o).2.1⟩) e
    exact closed_of_PW pw hc

theorem addChild_keeps_closed {push : Obj → Nat → Obj} (K : AggFlag)
    (ok : Overload push K.getter K.setter)
    (v : View) (This Child : Nat) (p c0 : Obj)
    (hp : v.Objs[This]? = some p) (hc0 : v.Objs[Child]? = some c0)
    (hfree : ∀ F : AggFlag, F.getter c0 = false)
    (hcl : ∀ F : AggFlag, Closed F.getter v.Objs) :
    ∃ w, addChild push K.getter K.setter v This Child = some w ∧
      ∀ F : AggFlag, Closed F.getter w.Objs := by
  obtain ⟨c, h3, h4, hc, e3, e4, e⟩ :=
    addChild_run push K.getter K.setter ok.sets v This Child p c0 hp hc0
  refine ⟨_, e, ?_⟩
  intro F
  have hceq := attached_looked_up hp hc0 hc
  have hgc : F.getter c = false := by
    by_cases ePC : Child = This
    · rw [hceq, if_pos ePC]
      subst ePC
      rw [hp] at hc0
      cases hc0
      rw [← aggFlag_ofLinks F (ok.pushLinks p Child)]
      exact hfree F
    · rw [hceq, if_neg ePC]
      exact hfree F
  have h2 : Closed F.getter (attached push v.Objs This Child p c) :=
    attached_closed (fun a b => aggFlag_ofLinks F) ok.pushLinks ok.pushParent hp hc hgc (hcl F)
  have c3 : Closed F.getter h3 := by
    by_cases g : getIsGlobalReference c = true
    · rw [if_pos g] at e3
      exact traverse_keeps_closed F AggFlag.hasGlobals e3 h2
    · rw [if_neg g] at e3
      exact traverse_keeps_closed F AggFlag.hasLocals e3 h2
  exact traverse_keeps_closed F K e4 c3

/-- One call of `addObject` with a child that has no aggregate flag returns
and keeps every aggregate flag upward-closed. -/
theorem addObject_keeps_closed (v : View) (P C : Nat) (p c : Obj)
    (hp : v.Objs[P]? = some p) (hc : v.Objs[C]? = some c)
    (hfree : ∀ F : AggFlag, F.getter c = false)
    (hcl : ∀ F : AggFlag, Closed F.getter v.Objs) :
    ∃ out, addObject v P C = some out ∧ ∀ F : AggFlag, Closed F.getter out.view.Objs := by
  cases hkind : c.Kind with
  | line =>
    rw [addObject_of_line hc hkind]
    by_cases hcap : getCanHaveLines p = true
    · obtain ⟨c1, h3, hceq, hc1, e, e3⟩ := addObject_Line_spec v P C p c hp hc hcap
      refine ⟨_, e, ?_⟩
      intro F
      have hgc : F.getter c1 = false := by
        by_cases ePC : C = P
        · rw [hceq, if_pos ePC]
          subst ePC
          rw [hp] at hc
          cases hc
          have : SameButLinks p (pushLine p C) := rfl
          rw [← aggFlag_ofLinks F this]
          exact hfree F
        · rw [hceq, if_neg ePC]
          exact hfree F
      have hpl : ∀ o n, SameButLinks o (pushLine o n) := fun _ _ => rfl
      have hpp : ∀ o n, getParent (pushLine o n) = getParent o := fun _ _ => rfl
      have h2 : Closed F.getter (attached pushLine v.Objs P C p c1) :=
        attached_closed (fun a b => aggFlag_ofLinks F) hpl hpp hp hc1 hgc (hcl F)
      exact traverse_keeps_closed F AggFlag.hasLines e3 h2
    · refine ⟨{ view := v, thrown := some lineError }, ?_, hcl⟩
      simp [addObject_Line, hp, hc, hcap]
  | scope =>
    obtain ⟨w, e, hw⟩ := addChild_keeps_closed AggFlag.hasScopes overload_scope v P C p c
      hp hc hfree hcl
    refine ⟨{ view := w }, ?_, hw⟩
    have e' : addChild pushScope getHasScopes setHasScopes v P C = some w := e
    simp [addObject, hc, hkind, addObject_Scope_eq, e']
  | symbol =>
    obtain ⟨w, e, hw⟩ := addChild_keeps_closed AggFlag.hasSymbols overload_symbol v P C p c
      hp hc hfree hcl
    refine ⟨{ view := w }, ?_, hw⟩
    have e' : addChild pushSymbol getHasSymbols setHasSymbols v P C = some w := e
    simp [addObject, hc, hkind, addObject_Symbol_eq, e']
  | type =>
    obtain ⟨w, e, hw⟩ := addChild_keeps_closed AggFlag.hasTypes overload_type v P C p c
      hp hc hfree hcl
    refine ⟨{ view := w }, ?_, hw⟩
    have e' : addChild pushType getHasTypes setHasTypes v P C = some w := e
    simp [addObject, hc, hkind, addObject_Type_eq, e']

theorem addObjects_keep_closed :
    ∀ (calls : List (Nat × Nat)) (v : View), TopDown v calls →
      (∀ F : AggFlag, Closed F.getter v.Objs) →
      ∃ w, addObjects v calls = some w ∧ ∀ F : AggFlag, Closed F.getter w.Objs := by
  intro calls
  induction calls with
  | nil => intro v _ hcl; exact ⟨v, rfl, hcl⟩
  | cons call rest ih =>
    intro v htd hcl
    obtain ⟨⟨p, c, hp, hc, hfree⟩, hrest⟩ := htd
    obtain ⟨out, e, hout⟩ := addObject_keeps_closed v call.1 call.2 p c hp hc
      ((noAggregateFlags_iff c).1 hfree) hcl
    obtain ⟨w, ew, hw⟩ := ih out.view (hrest out e) hout
    refine ⟨w, ?_, hw⟩
    simp only [addObjects, e]
    exact ew

/-- C36: in every tree built from objects without aggregate flags by a
sequence of `addObject` calls in top-down order (each child is attached while
it has no aggregate flag set, as is the case while it has no children and no
lines), the calls all return and each of the six aggregate flags is
upward-closed in the result: a flag set on a scope is set on its parent, and
so on every ancestor of that scope. -/
theorem topDown_flags_closed (v : View) (calls : List (Nat × Nat))
    (hfresh : ∀ o ∈ v.Objs, noAggregateFlags o = true) (htd : TopDown v calls) :
    ∃ w, addObjects v calls = some w ∧
      ∀ (F : AggFlag), Closed F.getter w.Objs ∧
        ∀ (i : Nat) (o : Obj), w.Objs[i]? = some o → F.getter o = true →
          ∀ (n a : Nat) (oa : Obj), nthParent w.Objs n i = some a → w.Objs[a]? = some oa →
            F.getter oa = true := by
  have hcl : ∀ F : AggFlag, Closed F.getter v.Objs := by
    intro F i o j q hi hg _ _
    have hmem : o ∈ v.Objs := List.getElem?_mem hi
    have := (noAggregateFlags_iff o).1 (hfresh o hmem) F
    rw [this] at hg
    cases hg
  obtain ⟨w, e, hw⟩ := addObjects_keep_closed calls v htd hcl
  exact ⟨w, e, fun F => ⟨hw F, fun i o hi hg => (hw F).nthParent hi hg⟩⟩

set_option maxRecDepth 20000 in
theorem topDown_flags_closed_witness :
    (∀ o ∈ exFresh.Objs, noAggregateFlags o = true) ∧
    TopDown exFresh [(0, 1), (1, 2), (1, 3)] ∧
    ∃ w, addObjects exFresh [(0, 1), (1, 2), (1, 3)] = some w ∧
      ∀ (F : AggFlag), Closed F.getter w.Objs ∧
        ∀ (i : Nat) (o : Obj), w.Objs[i]? = some o → F.getter o = true →
          ∀ (n a : Nat) (oa : Obj), nthParent w.Objs n i = some a → w.Objs[a]? = some oa →
            F.getter oa = true :=
  have hfresh : ∀ o ∈ exFresh.Objs, noAggregateFlags o = true := by decide
  have htd : TopDown exFresh [(0, 1), (1, 2), (1, 3)] :=
    ⟨⟨_, _, rfl, rfl, rfl⟩, fun out1 e1 => by
      have r1 : addObject exFresh 0 1 = some { view := exTopDown } := by decide
      rw [r1] at e1
      cases e1
      refine ⟨⟨_, _, rfl, rfl, rfl⟩, fun out2 e2 => ?_⟩
      have k2 : ∃ o2, addObject exTopDown 1 2 = some o2 ∧ o2.view.Objs[1]?.isSome = true ∧
          (o2.view.Objs[3]?).map noAggregateFlags = some true := by decide
      obtain ⟨o2, r2, v1, v3⟩ := k2
      rw [r2] at e2
      cases e2
      cases h1 : out2.view.Objs[1]? with
      | none => rw [h1] at v1; cases v1
      | some p1 =>
        cases h3 : out2.view.Objs[3]? with
        | none => rw [h3] at v3; cases v3
        | some c3 =>
          rw [h3] at v3
          exact ⟨⟨p1, c3, h1, h3, by simpa using v3⟩, fun _ _ => trivial⟩⟩
  ⟨hfresh, htd, topDown_flags_closed exFresh [(0, 1), (1, 2), (1, 3)] hfresh htd⟩

set_option maxRecDepth 20000 in
/-- The three calls of the example set has-symbols on `inner` and on `outer`
above it. -/
theorem addObjects_exFresh :
    ∃ w, addObjects exFresh [(0, 1), (1, 2), (1, 3)] = some w ∧
      (w.Objs[1]?).map getHasSymbols = some true ∧
      (w.Objs[0]?).map getHasSymbols = some true := by
  decide

/-! ### Children is a permutation of the three structural collections -/

theorem childStep_refl (C : Nat) (added : Prop) (o : Obj) : ChildStep C added o o :=
  ⟨rfl, fun h => h, fun _ hx => Or.inl hx⟩

theorem childStep_trans (C : Nat) (added : Prop) (a b c : Obj)
    (hab : ChildStep C added a b) (hbc : ChildStep C added b c) : ChildStep C added a c := by
  refine ⟨hbc.1.trans hab.1, fun h => hbc.2.1 (hab.2.1 h), fun x hx => ?_⟩
  rcases hbc.2.2 x hx with h1 | h1
  · exact hab.2.2 x h1
  · exact Or.inr h1

theorem childStep_of_agg (C : Nat) (added : Prop) {a b : Obj} (h : SameButAgg a b) :
    ChildStep C added a b := by
  obtain ⟨_, e2, e3, e4, e5, _⟩ := h.links
  refine ⟨h.rest.2.2.2.symm, fun hp => ?_, fun x hx => Or.inl (by rw [e2]; exact hx)⟩
  unfold ChildrenPermuted at hp ⊢
  rw [← e2, ← e3, ← e4, ← e5]
  exact hp

theorem childStep_of_order (C : Nat) (added : Prop) {a b : Obj} (h : SameButOrder a b) :
    ChildStep C added a b := by
  obtain ⟨e, pt, ps, psc, pc⟩ := h
  have ek : (stripOrder b).Kind = (stripOrder a).Kind := congrArg Obj.Kind e
  refine ⟨ek, fun hp => ?_, fun x hx => Or.inl (pc.mem_iff.1 hx)⟩
  unfold ChildrenPermuted at hp ⊢
  exact pc.trans (hp.trans (((psc.append ps).append pt).symm))

/-- The two invariants carry over along a step of the heap. -/
theorem invariant_of_PW {C : Nat} {added : Prop} {h h' : Heap}
    (hpw : PW (ChildStep C added) h h')
    (hC : added → ∃ c0, h[C]? = some c0 ∧ c0.Kind ≠ ObjKind.line)
    (hperm : ∀ (i : Nat) (o : Obj), h[i]? = some o → ChildrenPermuted o) (hline : NoLineChild h) :
    (∀ (i : Nat) (o : Obj), h'[i]? = some o → ChildrenPermuted o) ∧ NoLineChild h' := by
  constructor
  · intro i o' hi
    obtain ⟨o, ho, r⟩ := hpw.inv hi
    exact r.2.1 (hperm i o ho)
  · intro i o' hi x hx
    obtain ⟨o, ho, r⟩ := hpw.inv hi
    rcases r.2.2 x hx with h1 | ⟨h1, h2⟩
    · obtain ⟨oc, hoc, hk⟩ := hline i o ho x h1
      obtain ⟨oc', hoc', r'⟩ := hpw.2 x oc hoc
      exact ⟨oc', hoc', by rw [r'.1]; exact hk⟩
    · obtain ⟨c0, hc0, hk⟩ := hC h2
      subst h1
      obtain ⟨oc', hoc', r'⟩ := hpw.2 x c0 hc0
      exact ⟨oc', hoc', by rw [r'.1]; exact hk⟩

/-- Push and setParent, as far as Children go. -/
theorem attached_childStep {push : Obj → Nat → Obj} {added : Prop}
    (hpush : ∀ o n, (push o n).Kind = o.Kind ∧
      (ChildrenPermuted o → ChildrenPermuted (push o n)) ∧
      ∀ x ∈ (push o n).Children, x ∈ o.Children ∨ (x = n ∧ added))
    {h : Heap} {This Child : Nat} {p c : Obj}
    (hp : h[This]? = some p) (hc : (h.set This (push p Child))[Child]? = some c) :
    PW (ChildStep Child added) h (attached push h This Child p c) :=
  PW.trans (childStep_trans Child added)
    (PW.set (childStep_refl Child added) hp (hpush p Child))
    (PW.set (childStep_refl Child added) hc
      ⟨rfl, fun hperm => hperm, fun _ hx => Or.inl hx⟩)

theorem pushScope_childStep (added : Prop) (ha : added) (o : Obj) (n : Nat) :
    (pushScope o n).Kind = o.Kind ∧
      (ChildrenPermuted o → ChildrenPermuted (pushScope o n)) ∧
      ∀ x ∈ (pushScope o n).Children, x ∈ o.Children ∨ (x = n ∧ added) := by
  refine ⟨rfl, fun hp => ?_, fun x hx => ?_⟩
  · unfold ChildrenPermuted at hp ⊢
    show (o.Children ++ [n]).Perm ((o.TheScopes ++ [n]) ++ o.TheSymbols ++ o.TheTypes)
    have h1 : (o.Children ++ [n]).Perm ((o.TheScopes ++ o.TheSymbols ++ o.TheTypes) ++ [n]) :=
      hp.append_right [n]
    refine h1.trans ?_
    have h2 : (o.TheSymbols ++ o.TheTypes ++ [n]).Perm ([n] ++ (o.TheSymbols ++ o.TheTypes)) :=
      List.perm_append_comm
    have h3 := h2.append_left o.TheScopes
    simpa [List.append_assoc] using h3
  · have hx' : x ∈ o.Children ++ [n] := hx
    rcases List.mem_append.1 hx' with h1 | h1
    · exact Or.inl h1
    · exact Or.inr ⟨by simpa using h1, ha⟩

theorem pushSymbol_childStep (added : Prop) (ha : added) (o : Obj) (n : Nat) :
    (pushSymbol o n).Kind = o.Kind ∧
      (ChildrenPermuted o → ChildrenPermuted (pushSymbol o n)) ∧
      ∀ x ∈ (pushSymbol o n).Children, x ∈ o.Children ∨ (x = n ∧ added) := by
  refine ⟨rfl, fun hp => ?_, fun x hx => ?_⟩
  · unfold ChildrenPermuted at hp ⊢
    show (o.Children ++ [n]).Perm (o.TheScopes ++ (o.TheSymbols ++ [n]) ++ o.TheTypes)
    have h1 : (o.Children ++ [n]).Perm ((o.TheScopes ++ o.TheSymbols ++ o.TheTypes) ++ [n]) :=
      hp.append_right [n]
    refine h1.trans ?_
    have h2 : (o.TheTypes ++ [n]).Perm ([n] ++ o.TheTypes) := List.perm_append_comm
    have h3 := (h2.append_left o.TheSymbols).append_left o.TheScopes
    simpa [List.append_assoc] using h3
  · have hx' : x ∈ o.Children ++ [n] := hx
    rcases List.mem_append.1 hx' with h1 | h1
    · exact Or.inl h1
    · exact Or.inr ⟨by simpa using h1, ha⟩

theorem pushType_childStep (added : Prop) (ha : added) (o : Obj) (n : Nat) :
    (pushType o n).Kind = o.Kind ∧
      (ChildrenPermuted o → ChildrenPermuted (pushType o n)) ∧
      ∀ x ∈ (pushType o n).Children, x ∈ o.Children ∨ (x = n ∧ added) := by
  refine ⟨rfl, fun hp => ?_, fun x hx => ?_⟩
  · unfold ChildrenPermuted at hp ⊢
    show (o.Children ++ [n]).Perm (o.TheScopes ++ o.TheSymbols ++ (o.TheTypes ++ [n]))
    have h1 : (o.Children ++ [n]).Perm ((o.TheScopes ++ o.TheSymbols ++ o.TheTypes) ++ [n]) :=
      hp.append_right [n]
    refine h1.trans ?_
    simp only [List.append_assoc]
    exact List.Perm.refl _
  · have hx' : x ∈ o.Children ++ [n] := hx
    rcases List.mem_append.1 hx' with h1 | h1
    · exact Or.inl h1
    · exact Or.inr ⟨by simpa using h1, ha⟩

theorem pushLine_childStep (added : Prop) (o : Obj) (n : Nat) :
    (pushLine o n).Kind = o.Kind ∧
      (ChildrenPermuted o → ChildrenPermuted (pushLine o n)) ∧
      ∀ x ∈ (pushLine o n).Children, x ∈ o.Children ∨ (x = n ∧ added) :=
  ⟨rfl, fun hp => hp, fun _ hx => Or.inl hx⟩

/-- A call of `addObject` that returns was made on two objects of the heap. -/
theorem addObject_defined {v : View} {P C : Nat} {out : Outcome}
    (e : addObject v P C = some out) :
    ∃ p c, v.Objs[P]? = some p ∧ v.Objs[C]? = some c := by
  cases hc : v.Objs[C]? with
  | none => simp [addObject, hc] at e
  | some c =>
    cases hp : v.Objs[P]? with
    | none =>
      cases hk : c.Kind <;>
        simp [addObject, hc, hk, addObject_Line, addObject_Scope, addObject_Symbol,
          addObject_Type, hp] at e
    | some p => exact ⟨p, c, rfl, rfl⟩

theorem addChild_childStep {push : Obj → Nat → Obj} {GetK : Obj → Bool} {SetK : Obj → Obj}
    (ok : Overload push GetK SetK)
    (hpush : ∀ o n, (push o n).Kind = o.Kind ∧
      (ChildrenPermuted o → ChildrenPermuted (push o n)) ∧
      ∀ x ∈ (push o n).Children, x ∈ o.Children ∨ (x = n ∧ True))
    (v : View) (This Child : Nat) (p c0 : Obj)
    (hp : v.Objs[This]? = some p) (hc0 : v.Objs[Child]? = some c0) :
    ∃ w, addChild push GetK SetK v This Child = some w ∧
      PW (ChildStep Child True) v.Objs w.Objs := by
  obtain ⟨c, h4, _, hc, e, hall⟩ := addChild_spec push GetK SetK ok.sets v This Child p c0 hp hc0
  have hpw := hall SameButAgg sameButAgg_refl sameButAgg_trans (fun _ => rfl) (fun _ => rfl)
    ok.agg
  exact ⟨_, e, PW.trans (childStep_trans Child True) (attached_childStep hpush hp hc)
    (hpw.mono (fun _ _ r => childStep_of_agg Child True r))⟩

/-- One call of `addObject` keeps the two invariants. -/
theorem addObject_invariant {v : View} {P C : Nat} {out : Outcome}
    (e : addObject v P C = some out)
    (hperm : ∀ (i : Nat) (o : Obj), v.Objs[i]? = some o → ChildrenPermuted o) (hline : NoLineChild v.Objs) :
    (∀ (i : Nat) (o : Obj), out.view.Objs[i]? = some o → ChildrenPermuted o) ∧ NoLineChild out.view.Objs := by
  obtain ⟨p, c, hp, hc⟩ := addObject_defined e
  cases hkind : c.Kind with
  | line =>
    rw [addObject_of_line hc hkind] at e
    by_cases hcap : getCanHaveLines p = true
    · obtain ⟨c1, h3, _, hc1, e1, e3⟩ := addObject_Line_spec v P C p c hp hc hcap
      rw [e1] at e
      cases e
      have pw : PW (ChildStep C False) v.Objs h3 :=
        PW.trans (childStep_trans C False)
          (attached_childStep (pushLine_childStep False) hp hc1)
          ((traverse_PW getHasLines setHasLines sameButAgg_refl sameButAgg_trans
            (fun _ => rfl) e3).mono (fun _ _ r => childStep_of_agg C False r))
      exact invariant_of_PW pw (fun f => f.elim) hperm hline
    · have e1 : addObject_Line v P C = some { view := v, thrown := some lineError } := by
        simp [addObject_Line, hp, hc, hcap]
      rw [e1] at e
      cases e
      exact ⟨hperm, hline⟩
  | scope =>
    obtain ⟨w, e1, pw⟩ := addChild_childStep overload_scope
      (pushScope_childStep True trivial) v P C p c hp hc
    have e2 : addObject v P C = some { view := w } := by
      simp [addObject, hc, hkind, addObject_Scope_eq, e1]
    rw [e2] at e
    cases e
    exact invariant_of_PW pw (fun _ => ⟨c, hc, by rw [hkind]; exact fun k => by cases k⟩)
      hperm hline
  | symbol =>
    obtain ⟨w, e1, pw⟩ := addChild_childStep overload_symbol
      (pushSymbol_childStep True trivial) v P C p c hp hc
    have e2 : addObject v P C = some { view := w } := by
      simp [addObject, hc, hkind, addObject_Symbol_eq, e1]
    rw [e2] at e
    cases e
    exact invariant_of_PW pw (fun _ => ⟨c, hc, by rw [hkind]; exact fun k => by cases k⟩)
      hperm hline
  | type =>
    obtain ⟨w, e1, pw⟩ := addChild_childStep overload_type
      (pushType_childStep True trivial) v P C p c hp hc
    have e2 : addObject v P C = some { view := w } := by
      simp [addObject, hc, hkind, addObject_Type_eq, e1]
    rw [e2] at e
    cases e
    exact invariant_of_PW pw (fun _ => ⟨c, hc, by rw [hkind]; exact fun k => by cases k⟩)
      hperm hline

/-- One operation keeps the two invariants. -/
theorem treeOp_invariant {SortingKey : Type} {sort : StdSort} (hs : SortsRange sort)
    {getSortFunction : SortingKey → Option SortFunction}
    (hcomp : ∀ key comp, getSortFunction key = some comp → Compare comp)
    (op : TreeOp SortingKey) {v w : View} (e : op.run sort getSortFunction v = some w)
    (hperm : ∀ (i : Nat) (o : Obj), v.Objs[i]? = some o → ChildrenPermuted o) (hline : NoLineChild v.Objs) :
    (∀ (i : Nat) (o : Obj), w.Objs[i]? = some o → ChildrenPermuted o) ∧ NoLineChild w.Objs := by
  cases op with
  | callAddObject P C =>
    simp only [TreeOp.run, Option.map_eq_some'] at e
    obtain ⟨out, e1, e2⟩ := e
    subst e2
    exact addObject_invariant e1 hperm hline
  | callSortScopes fuel This SortKey =>
    simp only [TreeOp.run, Option.map_eq_some'] at e
    obtain ⟨h', e1, e2⟩ := e
    subst e2
    show (∀ (i : Nat) (o : Obj), h'[i]? = some o → ChildrenPermuted o) ∧ NoLineChild h'
    unfold Scope.sortScopes at e1
    cases hk : getSortFunction SortKey with
    | none =>
      rw [hk] at e1
      cases e1
      exact ⟨hperm, hline⟩
    | some comp =>
      rw [hk] at e1
      have pw := (sortScopes_run hs (hcomp SortKey comp hk) fuel v.Objs This h' e1).1
      exact @invariant_of_PW 0 False _ _
        (pw.mono (fun _ _ r => childStep_of_order 0 False r.1)) (fun f => f.elim) hperm hline
  | callSortCompileUnits This SortKey =>
    simp only [TreeOp.run, Option.map_eq_some'] at e
    obtain ⟨h', e1, e2⟩ := e
    subst e2
    show (∀ (i : Nat) (o : Obj), h'[i]? = some o → ChildrenPermuted o) ∧ NoLineChild h'
    unfold Scope.sortCompileUnits at e1
    cases ho : v.Objs[This]? with
    | none => rw [ho] at e1; cases e1
    | some o =>
      rw [ho] at e1
      cases hk : getSortFunction SortKey with
      | none =>
        rw [hk] at e1
        cases e1
        exact ⟨hperm, hline⟩
      | some comp =>
        rw [hk] at e1
        simp only [Option.some.injEq] at e1
        subst e1
        have hc := hcomp SortKey comp hk
        have so : SameButOrder o
            { o with TheScopes := sort comp o.TheScopes, Children := sort comp o.Children } :=
          ⟨rfl, List.Perm.refl _, List.Perm.refl _, hs.permutes comp _ hc,
            hs.permutes comp _ hc⟩
        exact @invariant_of_PW 0 False _ _
          (PW.set (childStep_refl 0 False) ho (childStep_of_order 0 False so))
          (fun f => f.elim) hperm hline

theorem respected_true : Respected (fun _ _ => True) :=
  ⟨fun _ => trivial, fun _ _ _ _ _ => trivial, fun _ => trivial, fun _ => trivial,
    fun _ => trivial, fun _ => trivial, fun _ => trivial, fun _ => trivial,
    fun _ _ => trivial, fun _ _ => trivial, fun _ _ => trivial, fun _ _ => trivial,
    fun _ _ => trivial⟩

/-- An operation whose positions hold objects has a result (for a `sortScopes`
that sorts: when the nested scopes span a finite tree that the fuel covers). -/
theorem treeOp_returns {SortingKey : Type} {sort : StdSort} (hs : SortsRange sort)
    {getSortFunction : SortingKey → Option SortFunction}
    (hcomp : ∀ key comp, getSortFunction key = some comp → Compare comp)
    (op : TreeOp SortingKey) (v : View) (hd : op.Defined getSortFunction v) :
    ∃ w, op.run sort getSortFunction v = some w := by
  cases op with
  | callAddObject P C =>
    obtain ⟨hP, hC⟩ := hd
    obtain ⟨out, e, _⟩ := addObject_PW respected_true v P C _ _
      (List.getElem?_eq_getElem hP) (List.getElem?_eq_getElem hC)
    exact ⟨out.view, by simp [TreeOp.run, e]⟩
  | callSortScopes fuel This SortKey =>
    cases hk : getSortFunction SortKey with
    | none => exact ⟨v, by simp [TreeOp.run, Scope.sortScopes, hk]⟩
    | some comp =>
      rcases hd with hn | ⟨hlt, rank, hr, hf⟩
      · rw [hk] at hn; cases hn
      · obtain ⟨h', e⟩ := sortScopes_returns hs (hcomp SortKey comp hk) rank fuel v.Objs This
          hr hlt hf
        exact ⟨{ v with Objs := h' }, by simp [TreeOp.run, Scope.sortScopes, hk, e]⟩
  | callSortCompileUnits This SortKey =>
    have hlt : This < v.Objs.length := hd
    cases hk : getSortFunction SortKey with
    | none =>
      exact ⟨v, by simp [TreeOp.run, Scope.sortCompileUnits, hk, List.getElem?_eq_getElem hlt]⟩
    | some comp =>
      exact Option.isSome_iff_exists.1
        (by simp [TreeOp.run, Scope.sortCompileUnits, hk, List.getElem?_eq_getElem hlt])

theorem runOps_invariant {SortingKey : Type} {sort : StdSort} (hs : SortsRange sort)
    {getSortFunction : SortingKey → Option SortFunction}
    (hcomp : ∀ key comp, getSortFunction key = some comp → Compare comp) :
    ∀ (ops : List (TreeOp SortingKey)) (v w : View),
      runOps sort getSortFunction v ops = some w →
      (∀ (i : Nat) (o : Obj), v.Objs[i]? = some o → ChildrenPermuted o) → NoLineChild v.Objs →
      (∀ (i : Nat) (o : Obj), w.Objs[i]? = some o → ChildrenPermuted o) ∧ NoLineChild w.Objs := by
  intro ops
  induction ops with
  | nil =>
    intro v w e hperm hline
    simp only [runOps, Option.some.injEq] at e
    subst e
    exact ⟨hperm, hline⟩
  | cons op rest ih =>
    intro v w e hperm hline
    rw [runOps] at e
    cases h1 : op.run sort getSortFunction v with
    | none => rw [h1] at e; cases e
    | some v1 =>
      rw [h1] at e
      obtain ⟨p1, l1⟩ := treeOp_invariant hs hcomp op h1 hperm hline
      exact ih v1 w e p1 l1

theorem startEmpty_invariant {h : Heap} (hstart : startEmpty h = true) :
    (∀ (i : Nat) (o : Obj), h[i]? = some o → ChildrenPermuted o) ∧ NoLineChild h := by
  have hall : ∀ o ∈ h, o.Children = [] ∧ o.TheScopes = [] ∧ o.TheSymbols = [] ∧
      o.TheTypes = [] := by
    intro o ho
    have := List.all_eq_true.1 hstart o ho
    simpa [List.isEmpty_iff, and_assoc] using this
  constructor
  · intro i o hi
    obtain ⟨e1, e2, e3, e4⟩ := hall o (List.getElem?_mem hi)
    unfold ChildrenPermuted
    rw [e1, e2, e3, e4]
    exact List.Perm.refl _
  · intro i o hi c hc
    obtain ⟨e1, _⟩ := hall o (List.getElem?_mem hi)
    rw [e1] at hc
    cases hc

/-- C37: after any sequence of `addObject`, `sortScopes` and
`sortCompileUnits` operations on objects that start empty, with a `std::sort`
that meets the standard and sorting keys that resolve to strict weak
orderings, the Children sequence of every object is a permutation of the
concatenation of its nested-scopes, symbols and types collections (each
element occurs as often in the one as in the other) and every entry of it is
an object of the heap that is not a Line; and every further operation whose
positions hold objects has a result on the state reached. -/
theorem children_permute_structural {SortingKey : Type} (sort : StdSort)
    (hs : SortsRange sort) (getSortFunction : SortingKey → Option SortFunction)
    (hcomp : ∀ key comp, getSortFunction key = some comp → Compare comp)
    (v : View) (ops : List (TreeOp SortingKey)) (hstart : startEmpty v.Objs = true)
    (w : View) (hrun : runOps sort getSortFunction v ops = some w) :
    (∀ (i : Nat) (o : Obj), w.Objs[i]? = some o →
      o.Children.Perm (o.TheScopes ++ o.TheSymbols ++ o.TheTypes) ∧
      (∀ c : Nat, o.Children.count c = (o.TheScopes ++ o.TheSymbols ++ o.TheTypes).count c) ∧
      ∀ c ∈ o.Children, ∃ oc, w.Objs[c]? = some oc ∧ oc.Kind ≠ ObjKind.line) ∧
    (∀ op : TreeOp SortingKey, op.Defined getSortFunction w →
      ∃ w', op.run sort getSortFunction w = some w') := by
  obtain ⟨p0, l0⟩ := startEmpty_invariant hstart
  obtain ⟨p1, l1⟩ := runOps_invariant hs hcomp ops v w hrun p0 l0
  refine ⟨fun i o hi => ⟨p1 i o hi, fun c => (p1 i o hi).count_eq c, l1 i o hi⟩, ?_⟩
  intro op hd
  exact treeOp_returns hs hcomp op w hd

theorem exGetSortFunction_compare :
    ∀ key comp, exGetSortFunction key = some comp → Compare comp := by
  intro key comp e
  unfold exGetSortFunction at e
  by_cases h1 : key = 1
  · rw [if_pos h1] at e
    cases e
    exact byPosition_strictTotal.1
  · rw [if_neg h1] at e
    by_cases h2 : key = 2
    · rw [if_pos h2] at e
      cases e
      exact byLine_compare exSort
    · rw [if_neg h2] at e
      cases e

set_option maxRecDepth 20000 in
/-- The operations of the example have a result: `outer` holds `inner` and the
symbol `b` in the order of their positions, and the line in its lines only. -/
theorem runOps_exOps :
    (runOps stableSort exGetSortFunction exFreshLines exOps).map (fun w =>
      (w.Objs.map (fun o => (o.Children, o.TheScopes, o.TheSymbols, o.TheTypes, o.TheLines))).take 2)
      = some [([1, 3], [1], [3], [], [4]), ([2], [], [2], [], [])] := by
  rfl

set_option maxRecDepth 20000 in
theorem children_permute_structural_witness :
    startEmpty exFreshLines.Objs = true ∧
    ∃ w, runOps stableSort exGetSortFunction exFreshLines exOps = some w ∧
      (∀ (i : Nat) (o : Obj), w.Objs[i]? = some o →
        o.Children.Perm (o.TheScopes ++ o.TheSymbols ++ o.TheTypes) ∧
        (∀ c : Nat, o.Children.count c = (o.TheScopes ++ o.TheSymbols ++ o.TheTypes).count c) ∧
        ∀ c ∈ o.Children, ∃ oc, w.Objs[c]? = some oc ∧ oc.Kind ≠ ObjKind.line) ∧
      (∀ op : TreeOp Nat, op.Defined exGetSortFunction w →
        ∃ w', op.run stableSort exGetSortFunction w = some w') := by
  have hsome : (runOps stableSort exGetSortFunction exFreshLines exOps).isSome = true := by
    decide
  obtain ⟨w, hw⟩ := Option.isSome_iff_exists.1 hsome
  exact ⟨by decide, w, hw,
    children_permute_structural stableSort stableSort_sortsRange exGetSortFunction
      exGetSortFunction_compare exFreshLines exOps (by decide) w hw⟩

/-! ### The qualified name of the text and of the YAML rendering -/

theorem textJoin_snoc (acc : String) (l : List Obj) (o : Obj) :
    textJoin acc (l ++ [o]) = appendScopeName (textJoin acc l) o := by
  simp [textJoin, List.foldl_append]

theorem isEmpty_true_iff (s : String) : s.isEmpty = true ↔ s = "" := String.isEmpty_iff s

theorem appendScopeName_empty (o : Obj) : appendScopeName "" o = getName o := by
  have : ("" : String).isEmpty = true := rfl
  simp [appendScopeName, this, String.empty_append]

theorem appendScopeName_nonempty {q : String} (hq : q ≠ "") (o : Obj) :
    appendScopeName q o = q ++ "::" ++ getName o := by
  have : q.isEmpty = false := isEmpty_false_of_ne hq
  simp [appendScopeName, this]

/-- Over unnamed scopes the empty accumulator stays empty, and the names
joined are empty. -/
theorem textJoin_unnamed (u : List Obj) (hu : ∀ o ∈ u, getName o = "") :
    textJoin "" u = "" ∧ joinNames u = "" := by
  induction u with
  | nil => exact ⟨rfl, rfl⟩
  | cons a t ih =>
    have ha : getName a = "" := hu a (List.mem_cons_self _ _)
    obtain ⟨i1, i2⟩ := ih (fun o ho => hu o (List.mem_cons_of_mem _ ho))
    constructor
    · show textJoin (appendScopeName "" a) t = ""
      rw [appendScopeName_empty, ha]
      exact i1
    · show (if getName a = "" then "" else getName a ++ "::") ++ joinNames t = ""
      rw [if_pos ha, i2]
      rfl

/-- Over named scopes the two ways of joining names differ by the final
`::`. -/
theorem textJoin_named (n : List Obj) (hn : ∀ o ∈ n, getName o ≠ "") :
    (n = [] → textJoin "" n = "" ∧ joinNames n = "") ∧
    (n ≠ [] → textJoin "" n ≠ "" ∧ textJoin "" n ++ "::" = joinNames n) := by
  induction n using List.reverseRecOn with
  | nil => exact ⟨fun _ => ⟨rfl, rfl⟩, fun h => absurd rfl h⟩
  | append_singleton l o ih =>
    have ho : getName o ≠ "" := hn o (by simp)
    obtain ⟨i1, i2⟩ := ih (fun x hx => hn x (by simp [hx]))
    refine ⟨fun h => absurd h (by simp), fun _ => ?_⟩
    rw [textJoin_snoc, joinNames_snoc, if_neg ho]
    by_cases hl : l = []
    · obtain ⟨e1, e2⟩ := i1 hl
      rw [e1, e2, appendScopeName_empty, String.empty_append]
      exact ⟨ho, rfl⟩
    · obtain ⟨e1, e2⟩ := i2 hl
      rw [appendScopeName_nonempty e1, ← e2]
      refine ⟨?_, ?_⟩
      · intro h
        have := congrArg String.length h
        simp at this
        exact e1 (by
          apply String.ext
          exact List.length_eq_zero.1 (by simpa using this.1.1))
      · simp [String.append_assoc]

theorem textJoin_append (acc : String) (a b : List Obj) :
    textJoin acc (a ++ b) = textJoin (textJoin acc a) b := by
  simp [textJoin, List.foldl_append]

theorem joinNames_append (a b : List Obj) : joinNames (a ++ b) = joinNames a ++ joinNames b := by
  induction a with
  | nil => simp [joinNames, String.empty_append]
  | cons x t ih =>
    show (if getName x = "" then "" else getName x ++ "::") ++ joinNames (t ++ b) = _
    rw [ih]
    show _ = ((if getName x = "" then "" else getName x ++ "::") ++ joinNames t) ++ joinNames b
    rw [String.append_assoc]

/-- When no unnamed scope comes after a named one, appending the name of one
more scope the way `Scope::getQualifiedName` does gives the names joined the
way `resolveQualifiedName` does, followed by the name of the scope. -/
theorem textJoin_agrees (l : List Obj) (h : UnnamedOutermost l) (f : Obj) :
    appendScopeName (textJoin "" l) f = joinNames l ++ getName f := by
  obtain ⟨u, n, e, hu, hn⟩ := h
  subst e
  obtain ⟨u1, u2⟩ := textJoin_unnamed u hu
  rw [textJoin_append, u1, joinNames_append, u2, String.empty_append]
  obtain ⟨n1, n2⟩ := textJoin_named n hn
  by_cases hl : n = []
  · obtain ⟨e1, e2⟩ := n1 hl
    rw [e1, e2, appendScopeName_empty, String.empty_append]
  · obtain ⟨e1, e2⟩ := n2 hl
    rw [appendScopeName_nonempty e1, e2]

/-- The walk of `Scope::getQualifiedName` over a parent chain, with fuel for
the chain: the names of the scopes below the first root or compile unit,
outermost first, appended to the accumulator. -/
theorem getQualifiedName_chain (h : Heap) :
    ∀ (rest : List Obj) (X : Nat) (x : Obj) (acc : String) (fuel : Nat),
      ChainFrom h (some X) (x :: rest) → rest.length < fuel →
      Scope.getQualifiedName h fuel X acc
        = some (textJoin acc ((x :: rest).takeWhile (fun o => !stopsText o)).reverse) := by
  intro rest
  induction rest with
  | nil =>
    intro X x acc fuel hch hfuel
    obtain ⟨hx, hrest⟩ : h[X]? = some x ∧ ChainFrom h (getParent x) [] := hch
    have hp : getParent x = none := by
      cases hpx : getParent x with
      | none => rfl
      | some p => rw [hpx] at hrest; exact absurd hrest (by simp [ChainFrom])
    obtain ⟨k, rfl⟩ : ∃ k, fuel = k + 1 := ⟨fuel - 1, by omega⟩
    by_cases hs : stopsText x = true
    · have hs' : (getIsRoot x || getIsCompileUnit x) = true := hs
      simp [Scope.getQualifiedName, hx, hs', List.takeWhile, hs, textJoin]
    · have hs0 : stopsText x = false := by simpa using hs
      have hs' : (getIsRoot x || getIsCompileUnit x) = false := hs0
      simp [Scope.getQualifiedName, hx, hs', hp, List.takeWhile, hs0, textJoin,
        appendScopeName]
  | cons y rest ih =>
    intro X x acc fuel hch hfuel
    obtain ⟨hx, hrest⟩ : h[X]? = some x ∧ ChainFrom h (getParent x) (y :: rest) := hch
    obtain ⟨k, rfl⟩ : ∃ k, fuel = k + 1 := ⟨fuel - 1, by omega⟩
    by_cases hs : stopsText x = true
    · have hs' : (getIsRoot x || getIsCompileUnit x) = true := hs
      simp [Scope.getQualifiedName, hx, hs', List.takeWhile, hs, textJoin]
    · have hs0 : stopsText x = false := by simpa using hs
      have hs' : (getIsRoot x || getIsCompileUnit x) = false := hs0
      cases hpx : getParent x with
      | none => rw [hpx] at hrest; exact absurd hrest (by simp [ChainFrom])
      | some p =>
        rw [hpx] at hrest
        have hy : h[p]? = some y := hrest.1
        have hrec := ih p y acc k hrest (by simpa using hfuel)
        have htw : (x :: y :: rest).takeWhile (fun o => !stopsText o)
            = x :: (y :: rest).takeWhile (fun o => !stopsText o) := by
          rw [List.takeWhile_cons]
          simp [hs0]
        rw [htw, List.reverse_cons, textJoin_snoc]
        simp only [Scope.getQualifiedName, hx, hs', hpx, hy, hrec]
        simp [appendScopeName]

/-- The walk of `Scope::getQualifiedName` reads names, parents and the root
and compile-unit bits only. -/
theorem getQualifiedName_of_PW {h h' : Heap}
    (hpw : PW (fun a b => getName b = getName a ∧ getParent b = getParent a ∧
      getIsRoot b = getIsRoot a ∧ getIsCompileUnit b = getIsCompileUnit a) h h') :
    ∀ (fuel X : Nat) (acc : String),
      Scope.getQualifiedName h' fuel X acc = Scope.getQualifiedName h fuel X acc := by
  intro fuel
  induction fuel with
  | zero => intro X acc; rfl
  | succ k ih =>
    intro X acc
    have hnone : ∀ i : Nat, h[i]? = none → h'[i]? = none := by
      intro i hi
      have : h.length ≤ i := by
        rcases Nat.lt_or_ge i h.length with l | l
        · rw [List.getElem?_eq_getElem l] at hi; cases hi
        · exact l
      exact List.getElem?_eq_none (by rw [hpw.1]; exact this)
    cases hx : h[X]? with
    | none => simp [Scope.getQualifiedName, hx, hnone X hx]
    | some x =>
      obtain ⟨x', hx', r1, r2, r3, r4⟩ := hpw.2 X x hx
      simp only [Scope.getQualifiedName, hx, hx', r1, r2, r3, r4]
      cases hp : getParent x with
      | none => rfl
      | some p =>
        cases hy : h[p]? with
        | none => simp [hnone p hy, hy]
        | some y =>
          obtain ⟨y', hy', _⟩ := hpw.2 p y hy
          simp [hy', hy, ih p acc]

/-- For scopes the two walks stop at the same objects. -/
theorem visited_of_scopes (chain : List Obj) (hsc : ∀ o ∈ chain, getIsScope o = true) :
    chain.takeWhile (fun o => !stopsText o) = visitedAncestors chain := by
  induction chain with
  | nil => rfl
  | cons a t ih =>
    have ha : getIsScope a = true := hsc a (List.mem_cons_self _ _)
    have e : stopsText a = stopsWalk a := by
      simp only [stopsText, stopsWalk, ha, Bool.true_and]
      exact Bool.or_comm _ _
    simp only [visitedAncestors, List.takeWhile_cons, e]
    cases stopsWalk a
    · simp only [Bool.not_false, if_true]
      congr 1
      exact ih (fun o ho => hsc o (List.mem_cons_of_mem _ ho))
    · rfl

theorem getAsText_head_eq (h : Heap) (fuel This : Nat) (o : Obj) (s i : Bool) (T : String)
    (hT : Scope.getQualifiedName h fuel This "" = some T) :
    ScopeFunction.getAsText_head h fuel This o s i = some (textHead o s i T) := by
  cases s <;> cases i <;>
    simp [ScopeFunction.getAsText_head, hT, textHead, String.append_assoc, String.append_empty]

theorem commonName_scope (o : Obj) (hs : getIsScope o = true) :
    commonName o = "name: " ++
      (if !(yamlName o).isEmpty then quoted (yamlName o) ++ "\n" else "null\n") := by
  have hk : o.Kind = ObjKind.scope := by simpa [getIsScope] using hs
  have hsym : getIsSymbol o = false := by simp [getIsSymbol, hk]
  simp only [commonName, hsym, Bool.false_and, yamlName, quoted, String.empty_append]
  cases getHasQualifiedName o <;>
    simp [String.append_assoc, String.empty_append]

/-- C38 (as the code has it): for every function scope `F` with parent `P`
that has no cached qualified name yet, whose ancestors are scopes none of
which is a function, and among whose ancestors below the compile unit or root
no unnamed scope lies under a named one, after `resolveQualifiedName(P)` the
name `Scope::getQualifiedName` computes from an empty accumulator, which
`ScopeFunction::getAsText` puts between quotes, is the name
`Object::getCommonYAML` renders: the cached qualified name followed by the
name of `F`.  Both computations return. -/
theorem qualifiedNames_agree (fuel : Nat) (v : View) (F P : Nat) (f : Obj) (chain : List Obj)
    (hf : v.Objs[F]? = some f) (hpar : getParent f = some P)
    (hfun : isFunctionScope f = true) (hstop : stopsText f = false)
    (hfresh : getHasQualifiedName f = false)
    (hchain : ChainFrom v.Objs (some P) chain)
    (hsc : ∀ o ∈ chain, getIsScope o = true)
    (hnf : ∀ o ∈ chain, getIsFunction o = false)
    (hnames : UnnamedOutermost (visitedAncestors chain).reverse)
    (hfuel : chain.length < fuel) :
    ∃ v' f' T, resolveQualifiedName fuel v F (some P) = some v' ∧ v'.Objs[F]? = some f' ∧
      Scope.getQualifiedName v'.Objs fuel F "" = some T ∧
      T = yamlName f' ∧
      (∀ s i : Bool, ScopeFunction.getAsText_head v'.Objs fuel F f' s i
        = some (textHead f' s i (yamlName f'))) ∧
      commonName f' = "name: " ++
        (if !(yamlName f').isEmpty then quoted (yamlName f') ++ "\n" else "null\n") := by
  have hscope : getIsScope f = true := by
    simp only [isFunctionScope, Bool.and_eq_true] at hfun
    exact hfun.1
  have hF : explicitParentIsFunction v.Objs (some P) = false := by
    cases chain with
    | nil => exact absurd hchain (by simp [ChainFrom])
    | cons o rest =>
      obtain ⟨hp, _⟩ : v.Objs[P]? = some o ∧ ChainFrom v.Objs (getParent o) rest := hchain
      simp only [explicitParentIsFunction, hp]
      exact hnf o (List.mem_cons_self _ _)
  have hloop : qualifiedNameLoop v.Objs (some P) fuel (some P) ""
      = some (specQualifiedName chain) := by
    rw [qualifiedNameLoop_chain v.Objs (some P) hF chain (some P) "" fuel hchain hfuel,
      String.append_empty]
    rfl
  have hres := resolveQualifiedName_eq fuel v F (some P) f _ hf hloop
  have hlt : F < v.Objs.length := (List.getElem?_eq_some.1 hf).1
  -- the text name, in the heap before the call
  have hchF : ChainFrom v.Objs (some F) (f :: chain) := by
    refine ⟨hf, ?_⟩
    rw [hpar]
    exact hchain
  have htext := getQualifiedName_chain v.Objs chain F f "" fuel hchF hfuel
  have htw : (f :: chain).takeWhile (fun o => !stopsText o)
      = f :: visitedAncestors chain := by
    rw [List.takeWhile_cons]
    simp [hstop, visited_of_scopes chain hsc]
  rw [htw, List.reverse_cons, textJoin_snoc, textJoin_agrees _ hnames f] at htext
  have hq : joinNames (visitedAncestors chain).reverse = specQualifiedName chain := rfl
  rw [hq] at htext
  by_cases hempty : specQualifiedName chain = ""
  · rw [if_pos hempty] at hres
    have hy : yamlName f = specQualifiedName chain ++ getName f := by
      simp [yamlName, hfresh, hempty]
    refine ⟨v, f, _, hres, hf, htext, hy.symm, ?_, commonName_scope f hscope⟩
    intro s i
    rw [← hy] at htext
    exact getAsText_head_eq v.Objs fuel F f s i _ htext
  · rw [if_neg hempty] at hres
    have hf' : (v.Objs.set F (setHasQualifiedName (setQualifiedName f (specQualifiedName chain))))[F]?
        = some (setHasQualifiedName (setQualifiedName f (specQualifiedName chain))) := by
      simp [List.getElem?_set, hlt]
    have hy : yamlName (setHasQualifiedName (setQualifiedName f (specQualifiedName chain)))
        = specQualifiedName chain ++ getName f := rfl
    have pw : PW (fun a b => getName b = getName a ∧ getParent b = getParent a ∧
        getIsRoot b = getIsRoot a ∧ getIsCompileUnit b = getIsCompileUnit a) v.Objs
        (v.Objs.set F (setHasQualifiedName (setQualifiedName f (specQualifiedName chain)))) :=
      PW.set (fun _ => ⟨rfl, rfl, rfl, rfl⟩) hf ⟨rfl, rfl, rfl, rfl⟩
    have htext' : Scope.getQualifiedName
        (v.Objs.set F (setHasQualifiedName (setQualifiedName f (specQualifiedName chain))))
        fuel F "" = some (specQualifiedName chain ++ getName f) := by
      rw [getQualifiedName_of_PW pw]
      exact htext
    refine ⟨_, _, _, hres, hf', htext', hy.symm, ?_, commonName_scope _ hscope⟩
    intro s i
    rw [← hy] at htext'
    exact getAsText_head_eq _ fuel F _ s i _ htext'

set_option maxRecDepth 20000 in
theorem qualifiedNames_agree_witness :
    ∃ v' f' T, resolveQualifiedName 5 exNamedFunction 4 (some 3) = some v' ∧
      v'.Objs[4]? = some f' ∧
      Scope.getQualifiedName v'.Objs 5 4 "" = some T ∧
      T = yamlName f' ∧
      (∀ s i : Bool, ScopeFunction.getAsText_head v'.Objs 5 4 f' s i
        = some (textHead f' s i (yamlName f'))) ∧
      commonName f' = "name: " ++
        (if !(yamlName f').isEmpty then quoted (yamlName f') ++ "\n" else "null\n") :=
  qualifiedNames_agree 5 exNamedFunction 4 3
    { Kind := ObjKind.scope, Name := "f", IsFunction := true, Parent := some 3 }
    exNamedChain rfl rfl rfl rfl rfl ⟨rfl, rfl, rfl, rfl, trivial⟩ (by decide) (by decide)
    ⟨[{ Kind := ObjKind.scope, Name := "", IsNamespace := true, Parent := some 1 }],
     [{ Kind := ObjKind.scope, Name := "A", IsNamespace := true, Parent := some 2 }],
     by decide, by decide, by decide⟩ (by decide)

set_option maxRecDepth 20000 in
/-- The run of the two computations on `exNamedFunction`: both names are
`A::f`. -/
theorem qualifiedNames_exNamedFunction :
    (resolveQualifiedName 5 exNamedFunction 4 (some 3)).bind (fun w =>
      (w.Objs[4]?).bind (fun g =>
        (ScopeFunction.getAsText_head w.Objs 5 4 g false false).map (fun t =>
          (t, commonName g)))) = some ("\x7bFunction\x7d \"A::f\"", "name: \"A::f\"\n") := by
  decide

set_option maxRecDepth 20000 in
/-- C38, as stated, fails for a function in an unnamed namespace of a named
one: in the tree `cu > A > (unnamed) > f` no ancestor of `f` is a function and
its qualified name is resolved with `resolveQualifiedName` on its parent, yet
the text rendering has the name `A::::f`, with a separator for the unnamed
namespace, and the YAML rendering has `A::f`. -/
theorem qualifiedNames_differ_below_unnamed :
    (∀ o ∈ exAnonFunction.Objs, o.Name ≠ "f" → getIsFunction o = false) ∧
    (resolveQualifiedName 5 exAnonFunction 4 (some 3)).bind (fun w =>
      (w.Objs[4]?).bind (fun g =>
        (ScopeFunction.getAsText_head w.Objs 5 4 g false false).map (fun t =>
          (isFunctionScope g, getParent g, t, commonName g))))
      = some (true, some 3, "\x7bFunction\x7d \"A::::f\"", "name: \"A::f\"\n") := by
  decide

/-! ### `std::sort` on a range of at most 16 elements is a stable insertion sort -/

theorem orderedInsert_behind (comp : SortFunction) (x : Nat) :
    ∀ l : List Nat, (∀ y ∈ l, comp x y = true) →
      l.orderedInsert (fun a b => comp a b = false) x = l ++ [x] := by
  intro l
  induction l with
  | nil => intro _; rfl
  | cons y t ih =>
    intro h
    have hy : comp x y = true := h y (List.mem_cons_self _ _)
    have : ¬ (comp x y = false) := by rw [hy]; exact fun e => by cases e
    rw [List.orderedInsert, if_neg this, ih (fun z hz => h z (List.mem_cons_of_mem _ hz))]
    rfl

theorem getD_append_length (pre : List Nat) (x : Nat) (rest : List Nat) :
    (pre ++ x :: rest).getD pre.length 0 = x := by
  rw [List.getD_eq_getElem?_getD, List.getElem?_append_right (Nat.le_refl _)]
  simp

/-- The loop of `__unguarded_linear_insert` puts the value behind the elements
before the hole that it is not less than. -/
theorem unguarded_linear_insert_eq (comp : SortFunction) (val : Nat) :
    ∀ (pre : List Nat) (slot : Nat) (rest : List Nat),
      unguarded_linear_insert comp val pre.length (pre ++ slot :: rest)
        = (pre.reverse.orderedInsert (fun a b => comp a b = false) val).reverse ++ rest := by
  intro pre
  induction pre using List.reverseRecOn with
  | nil =>
    intro slot rest
    simp [unguarded_linear_insert]
  | append_singleton p y ih =>
    intro slot rest
    have hlen : (p ++ [y]).length = p.length + 1 := by simp
    have hget : (p ++ [y] ++ slot :: rest).getD p.length 0 = y := by
      rw [List.append_assoc]
      exact getD_append_length p y (slot :: rest)
    rw [hlen]
    show (if comp val ((p ++ [y] ++ slot :: rest).getD p.length 0) = true then _ else _) = _
    rw [hget, List.reverse_append, List.reverse_singleton, List.singleton_append,
      List.orderedInsert]
    by_cases hc : comp val y = true
    · have hn : ¬ (comp val y = false) := by rw [hc]; exact fun e => by cases e
      rw [if_pos hc, if_neg hn]
      have hset : (p ++ [y] ++ slot :: rest).set (p.length + 1) y = p ++ y :: (y :: rest) := by
        rw [List.append_assoc, List.set_append_right _ _ (by omega)]
        simp
      rw [hset, ih y (y :: rest)]
      simp
    · have hf : comp val y = false := by simpa using hc
      rw [if_neg hc, if_pos hf]
      have hset : (p ++ [y] ++ slot :: rest).set (p.length + 1) val = p ++ y :: val :: rest := by
        rw [List.append_assoc, List.set_append_right _ _ (by omega)]
        simp
      rw [hset]
      simp

/-- One turn of `__insertion_sort` on a vector whose first `i` elements are in
comparator order. -/
theorem insertion_step_eq {comp : SortFunction} (hc : Compare comp) (pre : List Nat) (x : Nat)
    (rest : List Nat) (hs : InOrder comp pre) :
    insertion_step comp 0 pre.length (pre ++ x :: rest)
      = (pre.reverse.orderedInsert (fun a b => comp a b = false) x).reverse ++ rest := by
  have hget : (pre ++ x :: rest).getD pre.length 0 = x := getD_append_length pre x rest
  unfold insertion_step
  rw [hget]
  by_cases hfront : comp x ((pre ++ x :: rest).getD 0 0) = true
  · rw [if_pos hfront]
    cases pre with
    | nil =>
      simp at hfront
      rw [hc.irreflexive x] at hfront
      cases hfront
    | cons h0 t =>
      have hx0 : comp x h0 = true := by simpa using hfront
      have hall : ∀ y ∈ (h0 :: t).reverse, comp x y = true := by
        intro y hy
        rcases List.mem_cons.1 (List.mem_reverse.1 hy) with e | hm
        · rw [e]; exact hx0
        · have h1 : comp y h0 = false := (List.pairwise_cons.1 hs).1 y hm
          cases hxy : comp x y with
          | true => rfl
          | false =>
            have := compare_neg_trans hc h0 y x h1 hxy
            rw [hx0] at this
            cases this
      rw [orderedInsert_behind comp x _ hall]
      simp
  · rw [if_neg hfront]
    exact unguarded_linear_insert_eq comp x pre x rest

theorem notLess_total {comp : SortFunction} (hc : Compare comp) :
    IsTotal Nat (fun a b => comp a b = false) :=
  ⟨fun a b => (compare_total hc b a)⟩

theorem notLess_trans {comp : SortFunction} (hc : Compare comp) :
    IsTrans Nat (fun a b => comp a b = false) :=
  ⟨fun a b c hab hbc => compare_neg_trans hc c b a hbc hab⟩

/-- A sequence is in comparator order when its reverse is sorted by "not
less". -/
theorem inOrder_iff_reverse (comp : SortFunction) (xs : List Nat) :
    InOrder comp xs ↔ xs.reverse.Sorted (fun a b => comp a b = false) := by
  unfold InOrder List.Sorted
  rw [List.pairwise_reverse]

/-- The loop of `__insertion_sort` from a vector whose first elements are in
comparator order. -/
theorem insertion_loop_eq {comp : SortFunction} (hc : Compare comp) :
    ∀ (rest pre : List Nat), InOrder comp pre →
      insertion_loop comp 0 rest.length pre.length (pre ++ rest)
        = (rest.foldl (fun acc x => acc.orderedInsert (fun a b => comp a b = false) x)
            pre.reverse).reverse := by
  intro rest
  induction rest with
  | nil => intro pre _; simp [insertion_loop]
  | cons x rest ih =>
    intro pre hs
    haveI := notLess_total hc
    haveI := notLess_trans hc
    have hs' : InOrder comp
        (pre.reverse.orderedInsert (fun a b => comp a b = false) x).reverse := by
      rw [inOrder_iff_reverse, List.reverse_reverse]
      exact ((inOrder_iff_reverse comp pre).1 hs).orderedInsert x _
    have hl : (pre.reverse.orderedInsert (fun a b => comp a b = false) x).reverse.length
        = pre.length + 1 := by
      simp [List.orderedInsert_length]
    show insertion_loop comp 0 rest.length (pre.length + 1)
      (insertion_step comp 0 pre.length (pre ++ x :: rest)) = _
    rw [insertion_step_eq hc pre x rest hs, ← hl, ih _ hs', List.reverse_reverse]
    rfl

theorem foldl_orderedInsert (s : Nat → Nat → Prop) [DecidableRel s] :
    ∀ (rest d : List Nat),
      rest.foldl (fun acc x => acc.orderedInsert s x) (d.insertionSort s)
        = (rest.reverse ++ d).insertionSort s := by
  intro rest
  induction rest with
  | nil => intro d; rfl
  | cons x r ih =>
    intro d
    show r.foldl _ ((d.insertionSort s).orderedInsert s x) = _
    have : (d.insertionSort s).orderedInsert s x = (x :: d).insertionSort s := rfl
    rw [this, ih (x :: d)]
    simp

/-- On a range of at most 16 elements `std::sort` is the insertion sort: it
leaves the stable arrangement in comparator order. -/
theorem std_sort_short {comp : SortFunction} (hc : Compare comp) (xs : List Nat)
    (hlen : xs.length ≤ S_threshold) : std_sort comp xs = insertionOrder comp xs := by
  cases xs with
  | nil => rfl
  | cons x0 rest =>
    have hl : (x0 :: rest).length = rest.length + 1 := rfl
    have hn : ¬ (rest.length + 1 - 0 > S_threshold) := by
      rw [hl] at hlen
      omega
    have hintro : ∀ d, introsort_loop comp (rest.length + 1) (x0 :: rest) 0 (rest.length + 1) d
        = x0 :: rest := by
      intro d
      simp only [introsort_loop, hn, if_false]
    have hstd : std_sort comp (x0 :: rest)
        = final_insertion_sort comp
            (introsort_loop comp (rest.length + 1) (x0 :: rest) 0 (rest.length + 1)
              (lg (rest.length + 1) (rest.length + 1 - 0) * 2)) 0 (rest.length + 1) := rfl
    rw [hstd, hintro]
    unfold final_insertion_sort
    rw [if_neg hn]
    unfold insertion_sort
    rw [if_neg (by omega)]
    have e1 : rest.length + 1 - (0 + 1) = rest.length := by omega
    rw [e1]
    have h1 := insertion_loop_eq hc rest [x0] (List.pairwise_singleton _ _)
    have e2 : ([x0] : List Nat).length = 0 + 1 := rfl
    rw [e2] at h1
    rw [show x0 :: rest = [x0] ++ rest from rfl, h1]
    have e3 : ([x0] : List Nat).reverse = ([x0] : List Nat).insertionSort
        (fun a b => comp a b = false) := rfl
    rw [e3, foldl_orderedInsert]
    unfold insertionOrder
    simp

/-- The stable arrangement is a permutation in comparator order. -/
theorem insertionOrder_sortsRange : SortsRange insertionOrder := by
  constructor
  · intro comp xs _
    exact (List.reverse_perm _).trans ((List.perm_insertionSort _ _).trans (List.reverse_perm xs))
  · intro comp xs hc
    haveI := notLess_total hc
    haveI := notLess_trans hc
    rw [inOrder_iff_reverse]
    unfold insertionOrder
    rw [List.reverse_reverse]
    exact List.sorted_insertionSort _ _

theorem equivalent_symm (comp : SortFunction) (a b : Nat) :
    equivalent comp a b = equivalent comp b a := by
  unfold equivalent
  exact Bool.and_comm _ _

/-- The stable arrangement keeps equivalent elements in their order. -/
theorem insertionOrder_stable {comp : SortFunction} (hc : Compare comp) (xs : List Nat)
    (a : Nat) :
    (insertionOrder comp xs).filter (equivalent comp a) = xs.filter (equivalent comp a) := by
  have key : (xs.reverse.insertionSort (fun a b => comp a b = false)).filter (equivalent comp a)
      = xs.reverse.filter (equivalent comp a) := by
    have hpw : (xs.reverse.filter (equivalent comp a)).Pairwise (fun a b => comp a b = false) := by
      apply List.pairwise_of_forall_mem_list
      intro x hx y hy
      have ex : equivalent comp a x = true := (List.mem_filter.1 hx).2
      have ey : equivalent comp a y = true := (List.mem_filter.1 hy).2
      have exa : equivalent comp x a = true := by rw [equivalent_symm]; exact ex
      have exy := hc.equivalence x a y exa ey
      simp only [equivalent, Bool.and_eq_true, Bool.not_eq_true'] at exy
      exact exy.1
    have hsub := List.sublist_insertionSort hpw (List.filter_sublist _)
    have hsub2 := hsub.filter (equivalent comp a)
    rw [List.filter_filter] at hsub2
    simp only [Bool.and_self] at hsub2
    have hlen : ((xs.reverse.insertionSort (fun a b => comp a b = false)).filter
        (equivalent comp a)).length = (xs.reverse.filter (equivalent comp a)).length :=
      ((List.perm_insertionSort _ _).filter _).length_eq
    exact (hsub2.eq_of_length hlen.symm).symm
  unfold insertionOrder
  rw [List.filter_reverse, key, ← List.filter_reverse, List.reverse_reverse]

/-- Whatever relation the four calls of `std::sort` on one scope respect, a run
of `Scope::sortScopes(SortFunction)` respects on every object. -/
theorem sortScopes_PW {R : Obj → Obj → Prop} (hr : ∀ o, R o o)
    (ht : ∀ a b c, R a b → R b c → R a c) {sort : StdSort} {comp : SortFunction}
    (hstep : ∀ o, R o (sortCollections sort comp o)) :
    ∀ (fuel : Nat) (h : Heap) (S : Nat) (h' : Heap),
      sortScopes_SortFunction sort comp fuel h S = some h' → PW R h h' := by
  intro fuel
  induction fuel with
  | zero =>
    intro h S h' e
    simp [sortScopes_SortFunction] at e
  | succ fuel ih =>
    intro h S h' e
    cases ho : h[S]? with
    | none => simp [sortScopes_SortFunction, ho] at e
    | some o =>
      rw [sortScopes_unfold sort comp fuel h S o ho] at e
      have pw1 : PW R h (h.set S (sortCollections sort comp o)) := PW.set hr ho (hstep o)
      exact PW.trans ht pw1
        (sortEach_PW hr ht (fun h1 c h2 e1 => ih h1 c h2 e1) _ _ _ e)

/-- Two loops over the nested scopes agree when their calls agree on the heaps
of a class that the calls do not leave. -/
theorem sortEach_congr {f1 f2 : Heap → Nat → Option Heap} (Q : Heap → Prop)
    (hag : ∀ h c, Q h → f1 h c = f2 h c) (hQ : ∀ h c h', Q h → f2 h c = some h' → Q h') :
    ∀ (xs : List Nat) (h : Heap), Q h → sortEach f1 h xs = sortEach f2 h xs := by
  intro xs
  induction xs with
  | nil => intro h _; rfl
  | cons X rest ih =>
    intro h hq
    rw [sortEach, sortEach, hag h X hq]
    cases e : f2 h X with
    | none => rfl
    | some h1 => exact ih h1 (hQ h X h1 hq e)

/-- Two sorts that agree on the ranges of a class that the second does not
leave give the same run on a tree whose collections are of that class. -/
theorem sortScopes_congr {s1 s2 : StdSort} {comp : SortFunction} (P : List Nat → Prop)
    (hag : ∀ xs, P xs → s1 comp xs = s2 comp xs) (hP : ∀ xs, P xs → P (s2 comp xs)) :
    ∀ (fuel : Nat) (h : Heap) (S : Nat),
      (∀ (i : Nat) (o : Obj), h[i]? = some o →
        P o.TheTypes ∧ P o.TheSymbols ∧ P o.TheScopes ∧ P o.Children) →
      sortScopes_SortFunction s1 comp fuel h S = sortScopes_SortFunction s2 comp fuel h S := by
  have hkeep : ∀ (fuel : Nat) (h : Heap) (S : Nat) (h' : Heap),
      (∀ (i : Nat) (o : Obj), h[i]? = some o →
        P o.TheTypes ∧ P o.TheSymbols ∧ P o.TheScopes ∧ P o.Children) →
      sortScopes_SortFunction s2 comp fuel h S = some h' →
      (∀ (i : Nat) (o : Obj), h'[i]? = some o →
        P o.TheTypes ∧ P o.TheSymbols ∧ P o.TheScopes ∧ P o.Children) := by
    intro fuel h S h' hq e i o' hi
    have pw := sortScopes_PW
      (R := fun a b => (P a.TheTypes ∧ P a.TheSymbols ∧ P a.TheScopes ∧ P a.Children) →
        (P b.TheTypes ∧ P b.TheSymbols ∧ P b.TheScopes ∧ P b.Children))
      (fun _ x => x) (fun _ _ _ f g x => g (f x))
      (fun o x => ⟨hP _ x.1, hP _ x.2.1, hP _ x.2.2.1, hP _ x.2.2.2⟩) fuel h S h' e
    obtain ⟨o, ho, r⟩ := pw.inv hi
    exact r (hq i o ho)
  intro fuel
  induction fuel with
  | zero => intro h S _; rfl
  | succ fuel ih =>
    intro h S hq
    cases ho : h[S]? with
    | none => simp [sortScopes_SortFunction, ho]
    | some o =>
      obtain ⟨p1, p2, p3, p4⟩ := hq S o ho
      have hcol : sortCollections s1 comp o = sortCollections s2 comp o := by
        unfold sortCollections
        rw [hag _ p1, hag _ p2, hag _ p3, hag _ p4]
      rw [sortScopes_unfold s1 comp fuel h S o ho, sortScopes_unfold s2 comp fuel h S o ho,
        hcol, hag _ p3]
      have hlt : S < h.length := (List.getElem?_eq_some.1 ho).1
      have hq1 : ∀ (i : Nat) (o1 : Obj), (h.set S (sortCollections s2 comp o))[i]? = some o1 →
          P o1.TheTypes ∧ P o1.TheSymbols ∧ P o1.TheScopes ∧ P o1.Children := by
        intro i o1 hi
        by_cases e : S = i
        · subst e
          simp [List.getElem?_set, hlt] at hi
          rw [← hi]
          exact ⟨hP _ p1, hP _ p2, hP _ p3, hP _ p4⟩
        · simp [List.getElem?_set, e] at hi
          exact hq i o1 hi
      exact sortEach_congr
        (fun h1 => ∀ (i : Nat) (o1 : Obj), h1[i]? = some o1 →
          P o1.TheTypes ∧ P o1.TheSymbols ∧ P o1.TheScopes ∧ P o1.Children)
        (fun h1 c q => ih h1 c q) (fun h1 c h2 q e => hkeep fuel h1 c h2 q e) _ _ hq1

/-- On a tree whose collections hold at most 16 elements each, sorting with the
`std::sort` of the library is sorting into the stable arrangement. -/
theorem sortScopes_short {comp : SortFunction} (hc : Compare comp) (fuel : Nat) (h : Heap)
    (S : Nat) (hshort : ∀ (i : Nat) (o : Obj), h[i]? = some o → ShortCollections o) :
    sortScopes_SortFunction std_sort comp fuel h S
      = sortScopes_SortFunction insertionOrder comp fuel h S :=
  sortScopes_congr (fun xs => xs.length ≤ S_threshold)
    (fun xs hx => std_sort_short hc xs hx)
    (fun xs hx => by
      have := (insertionOrder_sortsRange.permutes comp xs hc).length_eq
      show (insertionOrder comp xs).length ≤ S_threshold
      rw [this]
      exact hx)
    fuel h S hshort

theorem keepsEquivalent_refl (comp : SortFunction) (o : Obj) : KeepsEquivalent comp o o :=
  fun _ => ⟨rfl, rfl, rfl, rfl⟩

theorem keepsEquivalent_trans (comp : SortFunction) (a b c : Obj)
    (hab : KeepsEquivalent comp a b) (hbc : KeepsEquivalent comp b c) :
    KeepsEquivalent comp a c :=
  fun x => ⟨(hbc x).1.trans (hab x).1, (hbc x).2.1.trans (hab x).2.1,
    (hbc x).2.2.1.trans (hab x).2.2.1, (hbc x).2.2.2.trans (hab x).2.2.2⟩

/-- A sort that keeps equivalent elements in their order on every range does
so in every collection of the tree. -/
theorem sortScopes_keepsEquivalent {sort : StdSort} {comp : SortFunction}
    (hstable : ∀ (xs : List Nat) (a : Nat),
      (sort comp xs).filter (equivalent comp a) = xs.filter (equivalent comp a)) :
    ∀ (fuel : Nat) (h : Heap) (S : Nat) (h' : Heap),
      sortScopes_SortFunction sort comp fuel h S = some h' →
      PW (KeepsEquivalent comp) h h' :=
  sortScopes_PW (keepsEquivalent_refl comp) (keepsEquivalent_trans comp)
    (fun _ x => ⟨hstable _ x, hstable _ x, hstable _ x, hstable _ x⟩)

set_option maxRecDepth 100000 in
/-- C26, counterexample: the seventeen symbols of the namespace of `exTied`
are on the same line, so the comparator "by line" treats them all as
equivalent; before the sort the symbol 1 stands before the symbol 9, and
after `sortScopes` the symbol 9 stands first and 1 in the tenth place, both in
the symbols and in Children.  With more than 16 elements `std::sort`
partitions the range around a median, swapping equivalent elements. -/
theorem sortScopes_reorders_seventeen_tied :
    Compare (byLine exTied) ∧ exTiedSortFunction 2 = some (byLine exTied) ∧
    equivalent (byLine exTied) 1 9 = true ∧
    (exTied[0]?.map (fun o => o.TheSymbols))
      = some [1, 2, 3, 4, 5, 6, 7, 8, 9, 10, 11, 12, 13, 14, 15, 16, 17] ∧
    Scope.sortScopes std_sort exTiedSortFunction 2 exTied 0 2 = some exTiedOnce ∧
    (exTiedOnce[0]?.map (fun o => o.TheSymbols))
      = some [9, 17, 16, 15, 14, 13, 12, 11, 10, 1, 8, 7, 6, 5, 4, 3, 2] ∧
    (exTiedOnce[0]?.map (fun o => o.Children))
      = some [9, 17, 16, 15, 14, 13, 12, 11, 10, 1, 8, 7, 6, 5, 4, 3, 2] :=
  ⟨byLine_compare exTied, rfl, by decide, rfl, by decide, rfl, rfl⟩

/-- C26, amended: for every comparator that is a strict weak ordering and
every scope of a tree of nested scopes, `sortScopes` returns, and on a tree
whose collections hold at most 16 elements each it is stable: in every
collection of every object, for every element, the elements equivalent to it
stand in the order they had before the sort (for ranges of that length the
`std::sort` of the library is an insertion sort).  For a comparator that is a
strict total order the same holds on collections of any length, with any
`std::sort` that meets the standard.  On longer collections with equivalent
elements the order changes. -/
theorem sortScopes_stable_short (comp : SortFunction) (hc : Compare comp) (h : Heap) (S : Nat)
    (rank : Nat → Nat) (fuel : Nat) (hr : Ranked sortLinks h rank) (hlt : S < h.length)
    (hf : rank S < fuel) :
    ((∀ (i : Nat) (o : Obj), h[i]? = some o → ShortCollections o) →
      ∃ h' : Heap, sortScopes_SortFunction std_sort comp fuel h S = some h' ∧
        h'.length = h.length ∧
        ∀ (i : Nat) (o : Obj), h[i]? = some o →
          ∃ o' : Obj, h'[i]? = some o' ∧ SameButOrder o o' ∧ KeepsEquivalent comp o o') ∧
    (∀ sort : StdSort, SortsRange sort → StrictTotal comp →
      ∃ h' : Heap, sortScopes_SortFunction sort comp fuel h S = some h' ∧
        h'.length = h.length ∧
        ∀ (i : Nat) (o : Obj), h[i]? = some o →
          ∃ o' : Obj, h'[i]? = some o' ∧ SameButOrder o o' ∧ KeepsEquivalent comp o o') := by
  constructor
  · intro hshort
    rw [sortScopes_short hc fuel h S hshort]
    obtain ⟨h', e⟩ := sortScopes_returns insertionOrder_sortsRange hc rank fuel h S hr hlt hf
    have pw1 := (sortScopes_run insertionOrder_sortsRange hc fuel h S h' e).1
    have pw2 := sortScopes_keepsEquivalent (fun xs a => insertionOrder_stable hc xs a)
      fuel h S h' e
    refine ⟨h', e, pw1.1, fun i o ho => ?_⟩
    obtain ⟨o1, ho1, r1⟩ := pw1.2 i o ho
    obtain ⟨o2, ho2, r2⟩ := pw2.2 i o ho
    rw [ho1] at ho2
    cases ho2
    exact ⟨o1, ho1, r1.1, r2⟩
  · intro sort hs hst
    obtain ⟨h', e⟩ := sortScopes_returns hs hst.compare rank fuel h S hr hlt hf
    have pw1 := (sortScopes_run hs hst.compare fuel h S h' e).1
    refine ⟨h', e, pw1.1, fun i o ho => ?_⟩
    obtain ⟨o1, ho1, r1⟩ := pw1.2 i o ho
    exact ⟨o1, ho1, r1.1, fun a =>
      ⟨filter_equivalent_of_perm hst r1.1.2.1 a, filter_equivalent_of_perm hst r1.1.2.2.1 a,
        filter_equivalent_of_perm hst r1.1.2.2.2.1 a,
        filter_equivalent_of_perm hst r1.1.2.2.2.2 a⟩⟩

set_option maxRecDepth 100000 in
/-- The sort by line of `exSort`: the symbols 5 and 4, both on line 7, stay in
their order, and so do the elements on line 7 in Children. -/
theorem sortScopes_exSort_by_line :
    Scope.sortScopes std_sort exGetSortFunction 2 exSort 0 2 = some exSortByLine ∧
    equivalent (byLine exSort) 5 4 = true ∧
    (exSortByLine[0]?.map (fun o => (o.TheSymbols, o.Children)))
      = some ([5, 4], [2, 3, 5, 1, 4]) := by
  decide

set_option maxRecDepth 100000 in
/-- C26, amended, on `exSort` sorted by line, a comparator with ties: every
collection has at most five elements, the run returns, and the symbols
equivalent to 5 are 5 and 4, in this order before and after. -/
theorem sortScopes_stable_short_witness :
    Compare (byLine exSort) ∧ Ranked sortLinks exSort exSortRank ∧
    ∃ h' : Heap, sortScopes_SortFunction std_sort (byLine exSort) 2 exSort 0 = some h' ∧
      h'.length = exSort.length ∧
      ∀ (i : Nat) (o : Obj), exSort[i]? = some o →
        ∃ o' : Obj, h'[i]? = some o' ∧ SameButOrder o o' ∧
          KeepsEquivalent (byLine exSort) o o' :=
  have hshort : ∀ (i : Nat) (o : Obj), exSort[i]? = some o → ShortCollections o := by
    intro i o ho
    have hall : ∀ o ∈ exSort, o.TheTypes.length ≤ 16 ∧ o.TheSymbols.length ≤ 16 ∧
        o.TheScopes.length ≤ 16 ∧ o.Children.length ≤ 16 := by decide
    exact hall o (List.getElem?_mem ho)
  ⟨byLine_compare exSort, rankedB_sound (by decide),
    (sortScopes_stable_short (byLine exSort) (byLine_compare exSort) exSort 0 exSortRank 2
      (rankedB_sound (by decide)) (by decide) (by decide)).1 hshort⟩

set_option maxRecDepth 100000 in
/-- A second sort by line of `exSort` on the tree the first one left. -/
theorem sortScopes_exSort_twice :
    Scope.sortScopes std_sort exGetSortFunction 2 exSortByLine 0 2 = some exSortByLine := by
  decide

/-! ### `getAsText` of every class and the process-wide state -/

/-- `Scope::getAsText` from two states with the same constant indent. -/
theorem scopeText_of_indent (Settings : PrintSettings) (o : Obj) (st1 st2 : Statics)
    (hi : effectiveIndent st1 = effectiveIndent st2) :
    (Scope.getAsText Settings st1 o).1 = (Scope.getAsText Settings st2 o).1 := by
  unfold Scope.getAsText
  cases getIsBlock o
  · rfl
  · cases Settings.ShowBlockAttributes
    · rfl
    · cases getIsTryBlock o
      · cases getIsCatchBlock o
        · rfl
        · exact (appendAttribute_text Settings o (_, st1) (_, st2) true "catch" rfl hi).1
      · exact (appendAttribute_text Settings o (_, st1) (_, st2) true "try" rfl hi).1

/-- `Scope::getAsText` keeps the constant indent of the process-wide state. -/
theorem scopeText_keeps_indent (Settings : PrintSettings) (o : Obj) (st : Statics) :
    effectiveIndent (Scope.getAsText Settings st o).2 = effectiveIndent st := by
  unfold Scope.getAsText
  cases getIsBlock o
  · rfl
  · cases Settings.ShowBlockAttributes
    · rfl
    · cases getIsTryBlock o
      · cases getIsCatchBlock o
        · rfl
        · exact appendAttribute_indent Settings o (_, st) true "catch"
      · exact appendAttribute_indent Settings o (_, st) true "try"

/-- The text of a scope without a rendered attribute does not read the
process-wide state and leaves it untouched. -/
theorem scopeText_header (Settings : PrintSettings) (o : Obj) (st : Statics)
    (hno : rendersAttribute TextClass.scope Settings o = false) :
    Scope.getAsText Settings st o = ((Scope.getAsText Settings {} o).1, st) := by
  have hno' : (getIsBlock o && Settings.ShowBlockAttributes &&
      (getIsTryBlock o || getIsCatchBlock o)) = false := hno
  unfold Scope.getAsText
  revert hno'
  cases getIsBlock o <;> cases Settings.ShowBlockAttributes <;> cases getIsTryBlock o <;>
    cases getIsCatchBlock o <;> intro hno' <;> first | rfl | exact absurd hno' (by decide)

/-- The attribute lines of `ScopeFunction::getAsText` from two states with the
same constant indent. -/
theorem functionAttributes_text (lib : Library) (Settings : PrintSettings) (o : Obj)
    (Reference : Option Obj) (r1 r2 : String × Statics) (ht : r1.1 = r2.1)
    (hi : effectiveIndent r1.2 = effectiveIndent r2.2) :
    (ScopeFunction.getAsText_attributes lib Settings o Reference r1).1
      = (ScopeFunction.getAsText_attributes lib Settings o Reference r2).1 ∧
    effectiveIndent (ScopeFunction.getAsText_attributes lib Settings o Reference r1).2
      = effectiveIndent (ScopeFunction.getAsText_attributes lib Settings o Reference r2).2 := by
  have tail : ∀ s1 s2 : String × Statics, s1.1 = s2.1 →
      effectiveIndent s1.2 = effectiveIndent s2.2 →
      (appendAttribute Settings o (appendAttribute Settings o (appendAttribute Settings o s1
        (getIsTemplate o) "Template") (getIsInlined o) "Inlined")
        (getIsDeclaration o) "Is declaration").1
      = (appendAttribute Settings o (appendAttribute Settings o (appendAttribute Settings o s2
        (getIsTemplate o) "Template") (getIsInlined o) "Inlined")
        (getIsDeclaration o) "Is declaration").1 ∧
      effectiveIndent (appendAttribute Settings o (appendAttribute Settings o
        (appendAttribute Settings o s1
        (getIsTemplate o) "Template") (getIsInlined o) "Inlined")
        (getIsDeclaration o) "Is declaration").2
      = effectiveIndent (appendAttribute Settings o (appendAttribute Settings o
        (appendAttribute Settings o s2
        (getIsTemplate o) "Template") (getIsInlined o) "Inlined")
        (getIsDeclaration o) "Is declaration").2 := by
    intro s1 s2 e1 e2
    have a := appendAttribute_text Settings o s1 s2 (getIsTemplate o) "Template" e1 e2
    have b := appendAttribute_text Settings o _ _ (getIsInlined o) "Inlined" a.1 a.2
    exact appendAttribute_text Settings o _ _ (getIsDeclaration o) "Is declaration" b.1 b.2
  have nodecl := appendAttribute_text Settings o r1 r2 (!getIsDeclaration o) "No declaration"
    ht hi
  unfold ScopeFunction.getAsText_attributes
  rcases Reference with _ | ref
  · exact tail _ _ nodecl.1 nodecl.2
  · cases hf : getIsFunction ref
    · simp only [hf, Bool.false_eq_true, if_false]
      exact tail _ _ nodecl.1 nodecl.2
    · simp only [hf, if_true]
      have d := appendAttribute_text Settings o r1 r2 true "Declaration @ " ht hi
      exact tail (_, _) (_, _) (by simp only [d.1]) d.2

/-- The attribute lines of `ScopeFunction::getAsText` keep the constant indent
of the process-wide state. -/
theorem functionAttributes_indent (lib : Library) (Settings : PrintSettings) (o : Obj)
    (Reference : Option Obj) (r : String × Statics) :
    effectiveIndent (ScopeFunction.getAsText_attributes lib Settings o Reference r).2
      = effectiveIndent r.2 := by
  unfold ScopeFunction.getAsText_attributes
  rcases Reference with _ | ref
  · simp only [appendAttribute_indent]
  · cases hf : getIsFunction ref
    · simp only [hf, Bool.false_eq_true, if_false, appendAttribute_indent]
    · simp only [hf, if_true, appendAttribute_indent]
/-- The text of `getAsText`, for every class, from two states with the same
constant indent. -/
theorem getAsText_of_indent (cls : TextClass) (lib : Library) (Settings : PrintSettings)
    (h : Heap) (fuel : Nat) (This : Nat) (o : Obj) (st1 st2 : Statics)
    (hi : effectiveIndent st1 = effectiveIndent st2) :
    (getAsText cls lib Settings h fuel st1 This o).map Prod.fst
      = (getAsText cls lib Settings h fuel st2 This o).map Prod.fst := by
  cases cls
  case line => simp only [getAsText, Option.map_some', lineText_of_indent Settings o st1 st2 hi]
  case scope => simp only [getAsText, Option.map_some', scopeText_of_indent Settings o st1 st2 hi]
  case scopeAggregate =>
    simp only [getAsText, Option.map_some', ScopeAggregate.getAsText,
      (appendAttribute_text Settings o (_, st1) (_, st2) (getIsTemplate o) "Template" rfl hi).1]
  case scopeFunction =>
    simp only [getAsText, ScopeFunction.getAsText, bind, pure]
    cases ScopeFunction.getAsText_line Settings h fuel This o with
    | none => rfl
    | some Result =>
      cases follow h (getReference o) with
      | none => rfl
      | some Reference =>
        simp only [Option.some_bind, Option.map_some',
          (functionAttributes_text lib Settings o Reference (Result, st1) (Result, st2) rfl hi).1]
  all_goals (simp only [getAsText, Option.map_some', Option.map_map]; try rfl)

/-- Whether `getAsText` returns does not depend on the process-wide state. -/
theorem getAsText_returns_alike (cls : TextClass) (lib : Library) (Settings : PrintSettings)
    (h : Heap) (fuel : Nat) (This : Nat) (o : Obj) (st1 st2 : Statics) :
    (getAsText cls lib Settings h fuel st1 This o).isSome
      = (getAsText cls lib Settings h fuel st2 This o).isSome := by
  cases cls
  case scopeFunction =>
    simp only [getAsText, ScopeFunction.getAsText, bind, pure]
    cases ScopeFunction.getAsText_line Settings h fuel This o with
    | none => rfl
    | some Result =>
      cases follow h (getReference o) with
      | none => rfl
      | some Reference => rfl
  all_goals simp only [getAsText, Option.isSome_some, Option.isSome_map']

/-- A call of `getAsText` that returns keeps the constant indent of the
process-wide state. -/
theorem getAsText_keeps_indent (cls : TextClass) (lib : Library) (Settings : PrintSettings)
    (h : Heap) (fuel : Nat) (This : Nat) (o : Obj) (st : Statics) (r : String × Statics)
    (hr : getAsText cls lib Settings h fuel st This o = some r) :
    effectiveIndent r.2 = effectiveIndent st := by
  cases cls
  case line =>
    simp only [getAsText, Option.some.injEq] at hr
    rw [← hr]; exact lineText_keeps_indent Settings o st
  case scope =>
    simp only [getAsText, Option.some.injEq] at hr
    rw [← hr]; exact scopeText_keeps_indent Settings o st
  case scopeAggregate =>
    simp only [getAsText, Option.some.injEq] at hr
    rw [← hr]; exact appendAttribute_indent Settings o (_, st) (getIsTemplate o) "Template"
  case scopeFunction =>
    simp only [getAsText, ScopeFunction.getAsText, bind, pure] at hr
    cases hl : ScopeFunction.getAsText_line Settings h fuel This o with
    | none => rw [hl] at hr; cases hr
    | some Result =>
      cases hf : follow h (getReference o) with
      | none => rw [hl, hf] at hr; cases hr
      | some Reference =>
        rw [hl, hf] at hr
        simp only [Option.some_bind, Option.some.injEq] at hr
        rw [← hr]; exact functionAttributes_indent lib Settings o Reference (Result, st)
  all_goals
    simp only [getAsText, Option.map_eq_some', Option.some.injEq] at hr
    obtain ⟨t, _, rfl⟩ := hr
    rfl

/-- The text of an entity without a rendered attribute, for every class: the
call does not read the process-wide state and leaves it untouched. -/
theorem getAsText_header (cls : TextClass) (lib : Library) (Settings : PrintSettings)
    (h : Heap) (fuel : Nat) (This : Nat) (o : Obj)
    (hno : rendersAttribute cls Settings o = false) (st : Statics) (r : String × Statics)
    (hr : getAsText cls lib Settings h fuel st This o = some r) :
    r.2 = st ∧ ∀ st2 : Statics, getAsText cls lib Settings h fuel st2 This o = some (r.1, st2) := by
  cases cls
  case line =>
    have hl : Settings.ShowCodelineAttributes = false ∨ noLineAttribute o = true := by
      have hno' : (Settings.ShowCodelineAttributes && !noLineAttribute o) = false := hno
      revert hno'
      cases Settings.ShowCodelineAttributes <;> cases noLineAttribute o <;> simp
    simp only [getAsText, Option.some.injEq, lineText_header Settings o _ hl] at hr ⊢
    subst hr
    exact ⟨rfl, fun _ => rfl⟩
  case scope =>
    simp only [getAsText, Option.some.injEq] at hr ⊢
    rw [scopeText_header Settings o st hno] at hr
    subst hr
    exact ⟨rfl, fun st2 => scopeText_header Settings o st2 hno⟩
  case scopeAggregate =>
    have ht : getIsTemplate o = false := hno
    simp only [getAsText, Option.some.injEq, ScopeAggregate.getAsText, appendAttribute, ht,
      Bool.false_eq_true, if_false] at hr ⊢
    subst hr
    exact ⟨rfl, fun _ => rfl⟩
  case scopeFunction => exact absurd (show true = false from hno) (by decide)
  all_goals
    simp only [getAsText, Option.map_eq_some', Option.some.injEq] at hr ⊢
    first
      | (obtain ⟨t, ht, rfl⟩ := hr; exact ⟨rfl, fun st2 => ⟨t, ht, rfl⟩⟩)
      | (subst hr; exact ⟨rfl, fun _ => rfl⟩)
/-- The `getAsText` of the classes that follow no pointer returns. -/
theorem getAsText_total (cls : TextClass) (lib : Library) (Settings : PrintSettings)
    (h : Heap) (fuel : Nat) (This : Nat) (o : Obj) (ht : cls.isTotal = true) (st : Statics) :
    ∃ r, getAsText cls lib Settings h fuel st This o = some r := by
  cases cls <;> first | exact ⟨_, rfl⟩ | exact absurd (show false = true from ht) (by decide)

/-- The `getAsText` of every class returns for an object of the heap whose
parent chain ends within the fuel, whose offset and the offset of whose
type fit `%08x` in 15 characters, and whose type and reference pointers
point into the heap. -/
theorem getAsText_returns (cls : TextClass) (lib : Library) (Settings : PrintSettings)
    (h : Heap) (fuel : Nat) (This : Nat) (o : Obj) (rest : List Obj)
    (hch : ChainFrom h (some This) (o :: rest)) (hfuel : rest.length < fuel)
    (hoff : getDieOffset o < 2 ^ 32)
    (hty : ∀ t, getType o = some t → ∃ ty, h[t]? = some ty ∧ getDieOffset ty < 2 ^ 32)
    (href : ∀ x, getReference o = some x → x < h.length) (st : Statics) :
    ∃ r, getAsText cls lib Settings h fuel st This o = some r := by
  obtain ⟨Ty, hTy, hTyOff⟩ : ∃ Ty, follow h (getType o) = some Ty ∧
      ∀ ty, Ty = some ty → getDieOffset ty < 2 ^ 32 := by
    cases hg : getType o with
    | none => exact ⟨none, rfl, fun ty e => by cases e⟩
    | some t =>
      obtain ⟨ty, e1, e2⟩ := hty t hg
      refine ⟨some ty, by simp [follow, e1], fun ty' e => ?_⟩
      cases e
      exact e2
  obtain ⟨Rf, hRf⟩ : ∃ Rf, follow h (getReference o) = some Rf := by
    cases hg : getReference o with
    | none => exact ⟨none, rfl⟩
    | some x =>
      have hx := href x hg
      exact ⟨some h[x], by simp [follow, List.getElem?_eq_getElem hx]⟩
  obtain ⟨Off, hOff⟩ : ∃ s, getTypeDieOffsetAsString Settings h o = some s := by
    unfold getTypeDieOffsetAsString
    cases Settings.ShowDWARFOffset
    · exact ⟨_, rfl⟩
    · rw [hTy]
      cases Ty with
      | none => exact ⟨_, OffsetAsString_eq 0 (by norm_num)⟩
      | some ty => exact ⟨_, OffsetAsString_eq _ (hTyOff ty rfl)⟩
  obtain ⟨TQ, hTQ⟩ : ∃ s, getTypeQualifiedName h o = some s := by
    unfold getTypeQualifiedName
    rw [hTy]
    exact ⟨_, rfl⟩
  obtain ⟨TT, hTT⟩ : ∃ s, getTypeAsString Settings h o = some s := by
    unfold getTypeAsString getTypeName
    rw [hTy]
    cases getHasType o <;> exact ⟨_, rfl⟩
  have hQN := getQualifiedName_chain h rest This o "" fuel hch hfuel
  obtain ⟨DO, hDO⟩ : ∃ s, getDieOffsetAsString Settings o = some s := by
    unfold getDieOffsetAsString
    cases Settings.ShowDWARFOffset
    · exact ⟨_, rfl⟩
    · exact ⟨_, OffsetAsString_eq _ hoff⟩
  cases cls
  case scopeAlias =>
    exact Option.isSome_iff_exists.1 (by simp only [getAsText, ScopeAlias.getAsText, hOff, hTQ, hTT, bind, pure,
      Option.some_bind, Option.map_some',
      Option.isSome_some])
  case scopeArray =>
    exact Option.isSome_iff_exists.1 (by simp only [getAsText, ScopeArray.getAsText, hOff, bind, pure,
      Option.some_bind, Option.map_some',
      Option.isSome_some])
  case scopeEnumeration =>
    exact Option.isSome_iff_exists.1 (by simp only [getAsText, ScopeEnumeration.getAsText, hTy, bind, pure,
      Option.some_bind, Option.map_some',
      Option.isSome_some])
  case scopeNamespace =>
    exact Option.isSome_iff_exists.1 (by simp only [getAsText, ScopeNamespace.getAsText, hQN, bind, pure,
      Option.some_bind, Option.map_some',
      Option.isSome_some])
  case scopeFunction =>
    exact Option.isSome_iff_exists.1 (by simp only [getAsText, ScopeFunction.getAsText, ScopeFunction.getAsText_line,
      ScopeFunction.getAsText_head, hQN, hDO, hTQ, hTT, hRf, bind, pure,
      Option.some_bind, Option.map_some',
      Option.isSome_some])
  all_goals exact ⟨_, rfl⟩
theorem attributeLines_append (c : String) (Bs Cs : List String) :
    attributeLines c (Bs ++ Cs) = attributeLines c Bs ++ attributeLines c Cs := by
  induction Bs with
  | nil => simp [attributeLines]
  | cons B Bs ih => simp [attributeLines, ih, String.append_assoc]

theorem attributeLines_length (c : String) (Bs : List String) :
    (attributeLines c Bs).length = Bs.length * (1 + c.length) + (Bs.map String.length).sum := by
  induction Bs with
  | nil => simp [attributeLines]
  | cons B Bs ih =>
    have h1 : ("\n" : String).length = 1 := rfl
    simp only [attributeLines, String.length_append, ih, h1, List.length_cons, List.map_cons,
      List.sum_cons]
    ring

/-- Texts with at least one attribute line that are equal have the same
constant indent. -/
theorem attributeLines_indent (A c1 c2 : String) (Bs : List String) (hne : Bs ≠ [])
    (he : A ++ attributeLines c1 Bs = A ++ attributeLines c2 Bs) : c1 = c2 := by
  obtain ⟨B, Bs, rfl⟩ : ∃ B Bs', Bs = B :: Bs' := by
    cases Bs with
    | nil => exact absurd rfl hne
    | cons B Bs => exact ⟨B, Bs, rfl⟩
  have hd := congrArg String.data he
  rw [String.data_append, String.data_append] at hd
  have hd2 := List.append_cancel_left hd
  have hl : c1.length = c2.length := by
    have e := congrArg List.length hd2
    rw [← String.length, ← String.length, attributeLines_length, attributeLines_length] at e
    simp only [List.length_cons] at e
    have e2 : (Bs.length + 1) * (1 + c1.length) = (Bs.length + 1) * (1 + c2.length) := by omega
    have := Nat.eq_of_mul_eq_mul_left (Nat.succ_pos _) e2
    omega
  simp only [attributeLines, String.data_append] at hd2
  rw [List.append_assoc, List.append_assoc, List.append_assoc, List.append_assoc] at hd2
  have hd3 := List.append_cancel_left hd2
  have := (List.append_inj hd3 hl).1
  exact String.ext this

/-- One block `if (flag) Result << '\n' << getAttributeInfoAsText(Kind,
Settings)` adds one attribute line when the flag is set. -/
theorem appendAttribute_lines (Settings : PrintSettings) (o : Obj) (r : String × Statics)
    (flag : Bool) (Kind : String) (A : String) (Bs : List String)
    (hr : r.1 = A ++ attributeLines (effectiveIndent r.2) Bs) :
    (appendAttribute Settings o r flag Kind).1
      = A ++ attributeLines (effectiveIndent (appendAttribute Settings o r flag Kind).2)
        (Bs ++ if flag then [getIndentString Settings o ++ "- " ++ Kind] else []) := by
  rw [appendAttribute_indent]
  unfold appendAttribute
  cases flag
  · simpa using hr
  · simp only [if_true, getAttributeInfoAsText_eq, hr, attributeLines_append, attributeLines,
      String.append_assoc, String.append_empty]
/-- Text appended after the last attribute line belongs to that line. -/
theorem attributeLines_extend (A c B X : String) (Bs : List String) :
    A ++ attributeLines c (Bs ++ [B]) ++ X = A ++ attributeLines c (Bs ++ [B ++ X]) := by
  simp only [attributeLines_append, attributeLines, String.append_assoc, String.append_empty]

/-- The text of `Line::getAsText`: the header and one attribute line for every
flag that is set, when the settings show them. -/
theorem lineText_lines (Settings : PrintSettings) (o : Obj) :
    ∃ Bs : List String, (rendersAttribute TextClass.line Settings o = true → Bs ≠ []) ∧
      ∀ st : Statics, (Line.getAsText Settings st o).1
        = ("\x7b" ++ Line.getKindAsString o ++ "\x7d")
          ++ attributeLines (effectiveIndent st) Bs := by
  cases hs : Settings.ShowCodelineAttributes
  · refine ⟨[], fun hr => ?_, fun st => ?_⟩
    · have hr' : (Settings.ShowCodelineAttributes && !noLineAttribute o) = true := hr
      rw [hs] at hr'
      exact absurd hr' (by simp)
    · simp [Line.getAsText, hs, attributeLines]
  · refine ⟨(((((([] ++ if getIsNewStatement o then [getIndentString Settings o ++ "- "
        ++ "NewStatement"] else [])
      ++ if getIsPrologueEnd o then [getIndentString Settings o ++ "- " ++ "PrologueEnd"] else [])
      ++ if getIsLineEndSequence o then [getIndentString Settings o ++ "- " ++ "EndSequence"]
        else [])
      ++ if getIsNewBasicBlock o then [getIndentString Settings o ++ "- " ++ "BasicBlock"]
        else [])
      ++ if getHasDiscriminator o then [getIndentString Settings o ++ "- " ++ "Discriminator"]
        else [])
      ++ if getIsEpilogueBegin o then [getIndentString Settings o ++ "- " ++ "EpilogueBegin"]
        else []), fun hr => ?_, fun st => ?_⟩
    · have hr' : (Settings.ShowCodelineAttributes && !noLineAttribute o) = true := hr
      rw [hs] at hr'
      unfold noLineAttribute at hr'
      revert hr'
      cases getIsNewStatement o <;> cases getIsPrologueEnd o <;> cases getIsLineEndSequence o <;>
        cases getIsNewBasicBlock o <;> cases getHasDiscriminator o <;>
        cases getIsEpilogueBegin o <;> simp
    · unfold Line.getAsText
      simp only [hs, if_true]
      have s1 := appendAttribute_lines Settings o
        ("\x7b" ++ Line.getKindAsString o ++ "\x7d", st) (getIsNewStatement o) "NewStatement"
        ("\x7b" ++ Line.getKindAsString o ++ "\x7d") [] (by simp [attributeLines])
      have s2 := appendAttribute_lines Settings o _ (getIsPrologueEnd o) "PrologueEnd" _ _ s1
      have s3 := appendAttribute_lines Settings o _ (getIsLineEndSequence o) "EndSequence" _ _ s2
      have s4 := appendAttribute_lines Settings o _ (getIsNewBasicBlock o) "BasicBlock" _ _ s3
      have s5 := appendAttribute_lines Settings o _ (getHasDiscriminator o) "Discriminator" _ _ s4
      have s6 := appendAttribute_lines Settings o _ (getIsEpilogueBegin o) "EpilogueBegin" _ _ s5
      simp only [appendAttribute_indent] at s6
      exact s6

/-- The text of `Scope::getAsText`: nothing, or the header and at most one
attribute line. -/
theorem scopeText_lines (Settings : PrintSettings) (o : Obj) :
    ∃ (A : String) (Bs : List String),
      (rendersAttribute TextClass.scope Settings o = true → Bs ≠ []) ∧
      ∀ st : Statics, (Scope.getAsText Settings st o).1
        = A ++ attributeLines (effectiveIndent st) Bs := by
  by_cases hr : rendersAttribute TextClass.scope Settings o = true
  · have hr' : (getIsBlock o && Settings.ShowBlockAttributes &&
        (getIsTryBlock o || getIsCatchBlock o)) = true := hr
    simp only [Bool.and_eq_true, Bool.or_eq_true] at hr'
    obtain ⟨⟨hb, hs⟩, htc⟩ := hr'
    refine ⟨"\x7b" ++ Scope.getKindAsString o ++ "\x7d",
      [] ++ if true then [getIndentString Settings o ++ "- "
        ++ (if getIsTryBlock o then "try" else "catch")] else [], fun _ => by simp,
      fun st => ?_⟩
    unfold Scope.getAsText
    simp only [hb, hs, if_true]
    cases ht : getIsTryBlock o
    · have hc : getIsCatchBlock o = true := by
        rcases htc with h1 | h1
        · rw [ht] at h1; cases h1
        · exact h1
      simp only [hc, Bool.false_eq_true, if_false, if_true]
      have s := appendAttribute_lines Settings o
        ("" ++ "\x7b" ++ Scope.getKindAsString o ++ "\x7d", st) true "catch"
        ("\x7b" ++ Scope.getKindAsString o ++ "\x7d") [] (by simp [attributeLines])
      simp only [appendAttribute_indent] at s
      exact s
    · simp only [if_true]
      have s := appendAttribute_lines Settings o
        ("" ++ "\x7b" ++ Scope.getKindAsString o ++ "\x7d", st) true "try"
        ("\x7b" ++ Scope.getKindAsString o ++ "\x7d") [] (by simp [attributeLines])
      simp only [appendAttribute_indent] at s
      exact s
  · have hno : rendersAttribute TextClass.scope Settings o = false := by simpa using hr
    refine ⟨(Scope.getAsText Settings {} o).1, [], fun h1 => absurd h1 hr, fun st => ?_⟩
    rw [scopeText_header Settings o st hno]
    simp [attributeLines]

/-- The attribute lines of `ScopeFunction::getAsText`: at least one. -/
theorem functionAttributes_lines (lib : Library) (Settings : PrintSettings) (o : Obj)
    (Reference : Option Obj) (A : String) :
    ∃ Bs : List String, Bs ≠ [] ∧
      ∀ st : Statics, (ScopeFunction.getAsText_attributes lib Settings o Reference (A, st)).1
        = A ++ attributeLines (effectiveIndent st) Bs := by
  have tail : ∀ (Bs : List String) (s : String × Statics),
      s.1 = A ++ attributeLines (effectiveIndent s.2) Bs →
      (appendAttribute Settings o (appendAttribute Settings o (appendAttribute Settings o s
        (getIsTemplate o) "Template") (getIsInlined o) "Inlined")
        (getIsDeclaration o) "Is declaration").1
      = A ++ attributeLines (effectiveIndent s.2) (((Bs
        ++ if getIsTemplate o then [getIndentString Settings o ++ "- " ++ "Template"] else [])
        ++ if getIsInlined o then [getIndentString Settings o ++ "- " ++ "Inlined"] else [])
        ++ if getIsDeclaration o then [getIndentString Settings o ++ "- " ++ "Is declaration"]
          else []) := by
    intro Bs s hs
    have a := appendAttribute_lines Settings o s (getIsTemplate o) "Template" A Bs hs
    have b := appendAttribute_lines Settings o _ (getIsInlined o) "Inlined" _ _ a
    have c := appendAttribute_lines Settings o _ (getIsDeclaration o) "Is declaration" _ _ b
    simp only [appendAttribute_indent] at c
    exact c
  have nodecl : ∃ Bs : List String, Bs ≠ [] ∧ ∀ st : Statics,
      (appendAttribute Settings o (appendAttribute Settings o (appendAttribute Settings o
        (appendAttribute Settings o (A, st) (!getIsDeclaration o) "No declaration")
        (getIsTemplate o) "Template") (getIsInlined o) "Inlined")
        (getIsDeclaration o) "Is declaration").1
      = A ++ attributeLines (effectiveIndent st) Bs := by
    refine ⟨((([] ++ if !getIsDeclaration o then [getIndentString Settings o ++ "- "
        ++ "No declaration"] else [])
        ++ if getIsTemplate o then [getIndentString Settings o ++ "- " ++ "Template"] else [])
        ++ if getIsInlined o then [getIndentString Settings o ++ "- " ++ "Inlined"] else [])
        ++ if getIsDeclaration o then [getIndentString Settings o ++ "- " ++ "Is declaration"]
          else [], ?_, fun st => ?_⟩
    · cases getIsDeclaration o <;> cases getIsTemplate o <;> cases getIsInlined o <;> simp
    · have a := appendAttribute_lines Settings o (A, st) (!getIsDeclaration o) "No declaration"
        A [] (by simp [attributeLines])
      have t := tail _ _ a
      simp only [appendAttribute_indent] at t
      exact t
  unfold ScopeFunction.getAsText_attributes
  rcases Reference with _ | ref
  · exact nodecl
  · cases hf : getIsFunction ref
    · simp only [hf, Bool.false_eq_true, if_false]
      exact nodecl
    · simp only [hf, if_true]
      refine ⟨((([] ++ [(getIndentString Settings o ++ "- " ++ "Declaration @ ")
          ++ ((if !getInvalidFileName ref then getFileName lib ref true else "?") ++ ","
            ++ to_string (getLineNumber ref))])
        ++ if getIsTemplate o then [getIndentString Settings o ++ "- " ++ "Template"] else [])
        ++ if getIsInlined o then [getIndentString Settings o ++ "- " ++ "Inlined"] else [])
        ++ if getIsDeclaration o then [getIndentString Settings o ++ "- " ++ "Is declaration"]
          else [], by simp, fun st => ?_⟩
      · have a := appendAttribute_lines Settings o (A, st) true "Declaration @ "
          A [] (by simp [attributeLines])
        simp only [if_true] at a
        have t := tail ([] ++ [(getIndentString Settings o ++ "- " ++ "Declaration @ ")
          ++ ((if !getInvalidFileName ref then getFileName lib ref true else "?") ++ ","
            ++ to_string (getLineNumber ref))])
          ((if (!getInvalidFileName ref) = true then
              (appendAttribute Settings o (A, st) true "Declaration @ ").1
                ++ getFileName lib ref true
            else (appendAttribute Settings o (A, st) true "Declaration @ ").1 ++ "?") ++
            "," ++ to_string (getLineNumber ref),
            (appendAttribute Settings o (A, st) true "Declaration @ ").2)
          (by
            rw [← attributeLines_extend, ← a]
            cases getInvalidFileName ref <;> simp [String.append_assoc])
        simp only [appendAttribute_indent] at t
        exact t
/-- The text of `getAsText` of every class: a text that does not depend on the
process-wide state, followed by attribute lines that start with the constant
indent of the state, at least one when the entity renders an attribute. -/
theorem getAsText_lines (cls : TextClass) (lib : Library) (Settings : PrintSettings)
    (h : Heap) (fuel : Nat) (This : Nat) (o : Obj) :
    ∃ (A : String) (Bs : List String),
      (rendersAttribute cls Settings o = true → Bs ≠ []) ∧
      ∀ (st : Statics) (r : String × Statics),
        getAsText cls lib Settings h fuel st This o = some r →
          r.1 = A ++ attributeLines (effectiveIndent st) Bs := by
  have hfalse : rendersAttribute cls Settings o = false →
      ∃ (A : String) (Bs : List String),
        (rendersAttribute cls Settings o = true → Bs ≠ []) ∧
        ∀ (st : Statics) (r : String × Statics),
          getAsText cls lib Settings h fuel st This o = some r →
            r.1 = A ++ attributeLines (effectiveIndent st) Bs := by
    intro hno
    refine ⟨((getAsText cls lib Settings h fuel {} This o).map Prod.fst).getD "", [],
      fun h1 => (by rw [hno] at h1; cases h1), fun st r e => ?_⟩
    have e0 := (getAsText_header cls lib Settings h fuel This o hno st r e).2 {}
    rw [e0]
    simp [attributeLines]
  cases cls
  case line =>
    obtain ⟨Bs, hne, hs⟩ := lineText_lines Settings o
    refine ⟨"\x7b" ++ Line.getKindAsString o ++ "\x7d", Bs, hne, fun st r e => ?_⟩
    simp only [getAsText, Option.some.injEq] at e
    rw [← e]; exact hs st
  case scope =>
    obtain ⟨A, Bs, hne, hs⟩ := scopeText_lines Settings o
    refine ⟨A, Bs, hne, fun st r e => ?_⟩
    simp only [getAsText, Option.some.injEq] at e
    rw [← e]; exact hs st
  case scopeAggregate =>
    refine ⟨"\x7b" ++ Scope.getKindAsString o ++ "\x7d \"" ++ getName o ++ "\"",
      [] ++ if getIsTemplate o then [getIndentString Settings o ++ "- " ++ "Template"] else [],
      fun hr => ?_, fun st r e => ?_⟩
    · have ht : getIsTemplate o = true := hr
      simp [ht]
    · simp only [getAsText, Option.some.injEq, ScopeAggregate.getAsText] at e
      rw [← e]
      have s := appendAttribute_lines Settings o
        ("\x7b" ++ Scope.getKindAsString o ++ "\x7d \"" ++ getName o ++ "\"", st)
        (getIsTemplate o) "Template"
        ("\x7b" ++ Scope.getKindAsString o ++ "\x7d \"" ++ getName o ++ "\"") []
        (by simp [attributeLines])
      simp only [appendAttribute_indent] at s
      exact s
  case scopeFunction =>
    cases hl : ScopeFunction.getAsText_line Settings h fuel This o with
    | none =>
      refine ⟨"", [""], by simp, fun st r e => ?_⟩
      simp [getAsText, ScopeFunction.getAsText, hl] at e
    | some Result =>
      cases hf : follow h (getReference o) with
      | none =>
        refine ⟨"", [""], by simp, fun st r e => ?_⟩
        simp [getAsText, ScopeFunction.getAsText, hl, hf] at e
      | some Reference =>
        obtain ⟨Bs, hne, hs⟩ := functionAttributes_lines lib Settings o Reference Result
        refine ⟨Result, Bs, fun _ => hne, fun st r e => ?_⟩
        simp only [getAsText, ScopeFunction.getAsText, hl, hf, bind, pure, Option.some_bind,
          Option.some.injEq] at e
        rw [← e]; exact hs st
  all_goals exact hfalse rfl

/-- A text with a rendered attribute tells the constant indent of the
process-wide state it was rendered in. -/
theorem getAsText_reads_indent (cls : TextClass) (lib : Library) (Settings : PrintSettings)
    (h : Heap) (fuel : Nat) (This : Nat) (o : Obj)
    (hr : rendersAttribute cls Settings o = true) (st1 st2 : Statics) (r1 r2 : String × Statics)
    (h1 : getAsText cls lib Settings h fuel st1 This o = some r1)
    (h2 : getAsText cls lib Settings h fuel st2 This o = some r2) (he : r1.1 = r2.1) :
    effectiveIndent st1 = effectiveIndent st2 := by
  obtain ⟨A, Bs, hne, hs⟩ := getAsText_lines cls lib Settings h fuel This o
  have e1 := hs st1 r1 h1
  have e2 := hs st2 r2 h2
  exact attributeLines_indent A _ _ Bs (hne hr) (by rw [← e1, ← e2, he])

set_option maxRecDepth 20000 in
/-- The text of the function `exTemplateFunction` at the start of the process
and in the state the first dump of an entity leaves. -/
theorem functionText_depends_on_first_dump :
    (getAsText TextClass.scopeFunction exLibrary exTextSettings exTextFunction 2 {} 1
        exTemplateFunction).map Prod.fst
      = some ("\x7bFunction\x7d static \"f\" -> [0x00000000]\"\""
          ++ "\n               - No declaration\n               - Template") ∧
    (getAsText TextClass.scopeFunction exLibrary exTextSettings exTextFunction 2 exAfterDump 1
        exTemplateFunction).map Prod.fst
      = some ("\x7bFunction\x7d static \"f\" -> [0x00000000]\"\""
          ++ "\n                           - No declaration"
          ++ "\n                           - Template") := by
  decide

/-- C30, amended: for every class of the sources that has a `getAsText` (`Line`,
`Scope`, `ScopeAggregate`, `ScopeAlias`, `ScopeArray`, `ScopeCompileUnit`,
`ScopeEnumeration`, `ScopeFunction`, `ScopeNamespace`, `ScopeTemplatePack`,
`ScopeRoot`), every entity and all settings, `getAsText` is a function of the
entity, the settings and the constant indent of the process-wide state (the
initialised static `ConstantIndent`, or before its initialisation the indent
`IndentationSize` gives).  Whether the call returns does not depend on the
process-wide state; from two states with the same constant indent it returns
the same string; a call leaves the constant indent as it was.  An entity that
renders no attribute line (a line with `ShowCodelineAttributes` off or no flag
set, a scope that is not a try or catch block shown with its attributes, an
aggregate that is no template, and every alias, array, compile unit,
enumeration, namespace, template pack and root) gets the same string in every
process-wide state and the call leaves that state untouched.  An entity that
renders an attribute line (every function among them) gets the same string
from two states exactly when their constant indents are equal.  The call
returns for the classes that follow no pointer, and for every class when the
parent chain of the entity ends within the fuel, its offset and that of its
type are below 2^32 and its type and reference point into the heap. -/
theorem getAsText_process_state (cls : TextClass) (lib : Library) (Settings : PrintSettings)
    (h : Heap) (fuel : Nat) (This : Nat) (o : Obj) :
    (∀ st1 st2 : Statics,
      (getAsText cls lib Settings h fuel st1 This o).isSome
        = (getAsText cls lib Settings h fuel st2 This o).isSome) ∧
    (∀ st1 st2 : Statics, effectiveIndent st1 = effectiveIndent st2 →
      (getAsText cls lib Settings h fuel st1 This o).map Prod.fst
        = (getAsText cls lib Settings h fuel st2 This o).map Prod.fst) ∧
    (∀ (st : Statics) (r : String × Statics),
      getAsText cls lib Settings h fuel st This o = some r →
        effectiveIndent r.2 = effectiveIndent st) ∧
    (rendersAttribute cls Settings o = false →
      ∀ (st : Statics) (r : String × Statics),
        getAsText cls lib Settings h fuel st This o = some r →
          r.2 = st ∧
          ∀ st2 : Statics, getAsText cls lib Settings h fuel st2 This o = some (r.1, st2)) ∧
    (rendersAttribute cls Settings o = true →
      ∀ (st1 st2 : Statics) (r1 r2 : String × Statics),
        getAsText cls lib Settings h fuel st1 This o = some r1 →
        getAsText cls lib Settings h fuel st2 This o = some r2 →
          (r1.1 = r2.1 ↔ effectiveIndent st1 = effectiveIndent st2)) ∧
    (cls.isTotal = true →
      ∀ st : Statics, ∃ r, getAsText cls lib Settings h fuel st This o = some r) ∧
    (∀ rest : List Obj, ChainFrom h (some This) (o :: rest) → rest.length < fuel →
      getDieOffset o < 2 ^ 32 →
      (∀ t, getType o = some t → ∃ ty, h[t]? = some ty ∧ getDieOffset ty < 2 ^ 32) →
      (∀ x, getReference o = some x → x < h.length) →
      ∀ st : Statics, ∃ r, getAsText cls lib Settings h fuel st This o = some r) := by
  refine ⟨getAsText_returns_alike cls lib Settings h fuel This o,
    getAsText_of_indent cls lib Settings h fuel This o,
    getAsText_keeps_indent cls lib Settings h fuel This o,
    getAsText_header cls lib Settings h fuel This o,
    fun hr st1 st2 r1 r2 h1 h2 => ⟨getAsText_reads_indent cls lib Settings h fuel This o hr
      st1 st2 r1 r2 h1 h2, fun hi => ?_⟩,
    getAsText_total cls lib Settings h fuel This o,
    fun rest hch hfuel hoff hty href =>
      getAsText_returns cls lib Settings h fuel This o rest hch hfuel hoff hty href⟩
  have e := getAsText_of_indent cls lib Settings h fuel This o st1 st2 hi
  rw [h1, h2] at e
  exact Option.some.inj e

set_option maxRecDepth 20000 in
/-- C30, amended, on the function `exTemplateFunction` and on a fresh line: the
start state and a state whose constant indent was initialised at the start
and that has seen a dump since give the function the same text; the call
returns in the state the first dump leaves; a fresh line is rendered in that
state as in any other, and the state is left untouched. -/
theorem getAsText_process_state_witness :
    (getAsText TextClass.scopeFunction exLibrary exTextSettings exTextFunction 2 {} 1
        exTemplateFunction).map Prod.fst
      = (getAsText TextClass.scopeFunction exLibrary exTextSettings exTextFunction 2
          exEarlyIndent 1 exTemplateFunction).map Prod.fst ∧
    (∃ r, getAsText TextClass.scopeFunction exLibrary exTextSettings exTextFunction 2
      exAfterDump 1 exTemplateFunction = some r) ∧
    (∀ st2 : Statics, getAsText TextClass.line exLibrary exTextSettings [] 0 st2 0 (Line.new 1)
      = some ("\x7bUndefined\x7d", st2)) :=
  ⟨(getAsText_process_state TextClass.scopeFunction exLibrary exTextSettings exTextFunction 2 1
      exTemplateFunction).2.1 {} exEarlyIndent (by decide),
   (getAsText_process_state TextClass.scopeFunction exLibrary exTextSettings exTextFunction 2 1
      exTemplateFunction).2.2.2.2.2.2 [exTextFunction.get ⟨0, by decide⟩]
      (by simp [ChainFrom, exTextFunction, exTemplateFunction, getParent]) (by decide)
      (by decide) (fun t e => by cases e) (fun x e => by cases e) exAfterDump,
   ((getAsText_process_state TextClass.line exLibrary exTextSettings [] 0 0
      (Line.new 1)).2.2.2.1 (by decide) exAfterDump ("\x7bUndefined\x7d", exAfterDump)
      (by decide)).2⟩

end LibScopeView
